import Mathlib

/-!
# go-conf: tag parser, placeholder resolver, binder and configuration layers

A shallow embedding of `internal/conf/bind.go` (`ParseTag`, `BindParam.BindTag`,
`resolve`, `resolveString`, `BindValue`, `bindSlice`, `getSlice`, `bindMap`,
`bindStruct`), of `internal/conf/conf.go` (`Properties.Resolve`,
`Properties.Bind`, `Properties.Set`, `merge`, `Load`, `Bytes`), of
`internal/expr/expr.go` (`Validator.Field`) and of `internal/cfgr`
(`CommandArgs.copyTo`, `Environment.copyTo`, `PropertySources.copyTo`, `merge`,
`Configuration.Refresh`), followed by the properties proved of them.

Modelling conventions.

* A Go `string` is a list of Unicode code points (`Str`).  Every delimiter the
  code searches for (`$`, `{`, `}`, `>`, `:`, `=`) is ASCII, so the order of byte
  offsets and of code-point offsets agree; offsets are `Int` because the Go
  search functions answer `-1` for "not found".
* A Go `error` is a value of `Err`: the two package-level sentinels, a fresh
  error made by `errors.New` or by `fmt.Errorf` without `%w`, or an `fmt.Errorf`
  wrapper whose format has one `%w`.
* A call ends in `Res.ok`, in `Res.err` (the Go error result), in `Res.panic`
  (a run-time panic such as a slice bound out of range) or, for the recursive
  functions only, in `Res.timeout` when the fuel given to it is used up.  Fuel
  bounds the depth of the calls; a call that returned returns the same with
  more fuel (`resolveString_mono`, `binder_mono`).
* A function that writes through a pointer or a `reflect.Value` returns the
  content of its target after the call next to its result.
* What the code takes from outside `bind.go` is a parameter: the formatting of
  `%q` and of `util.FileLine()` (`Runtime`), the store behind `Properties`
  (`Storage`), and the registries, the standard-library parsers and the
  functions `IsValueType` and `IsPrimitiveValueType` (`Env`).
* The layers of a configuration write into a storage with states `σ` through
  the operations of `StoreOps σ`, which stand for the packages `store` and
  `flat`; the order in which a `range` loop visits a Go map is the field
  `range`.  What they take from the operating system, from `regexp`, `strings`
  and `path/filepath` and from the registry of readers is a `Host`.
* The packages `store` and `flat` are not among the sources.  Where a statement
  needs a concrete storage, `specOps` gives the Store and the Flattener as the
  specification describes them; each of its definitions says so.
-/

namespace GoConf

/-! ## Strings -/

/-- A Go string, as its sequence of code points. -/
abbrev Str := List Char

/-- The byte `$`. -/
def cDollar : Char := '$'
/-- The byte that opens a brace. -/
def cOpen : Char := '\x7b'
/-- The byte that closes a brace. -/
def cClose : Char := '\x7d'

/-- The literal that opens a placeholder, a dollar followed by an opening brace. -/
def sOpen : Str := [cDollar, cOpen]
/-- The literal that closes a placeholder. -/
def sClose : Str := [cClose]
/-- The literal `:=` between key and default. -/
def sAssign : Str := [':', '=']
/-- The literal `>>` in front of the splitter name. -/
def sSplit : Str := ['>', '>']

/-- Go `strings.HasPrefix`. -/
def HasPrefix (s pre : Str) : Bool := pre.isPrefixOf s

/-- Search loop of `strings.Index`: `s` is what is left to search and `i` its offset. -/
def IndexFrom (substr : Str) : Str → Nat → Int
  | [], i => if substr = [] then (i : Int) else -1
  | c :: cs, i => if HasPrefix (c :: cs) substr then (i : Int) else IndexFrom substr cs (i + 1)

/-- Go `strings.Index`: offset of the first instance of `substr` in `s`, or `-1`. -/
def Index (s substr : Str) : Int := IndexFrom substr s 0

/-- Search loop of `strings.LastIndex`. -/
def LastIndexFrom (substr : Str) : Str → Nat → Int
  | [], i => if substr = [] then (i : Int) else -1
  | c :: cs, i =>
    let r := LastIndexFrom substr cs (i + 1)
    if 0 ≤ r then r else if HasPrefix (c :: cs) substr then (i : Int) else -1

/-- Go `strings.LastIndex`: offset of the last instance of `substr` in `s`, or `-1`. -/
def LastIndex (s substr : Str) : Int := LastIndexFrom substr s 0

/-- Go slice expression `s[lo:hi]`; `none` is the run-time panic for bounds out of range. -/
def slice (s : Str) (lo hi : Int) : Option Str :=
  if 0 ≤ lo ∧ lo ≤ hi ∧ hi ≤ (s.length : Int) then some ((s.take hi.toNat).drop lo.toNat)
  else none

/-- Go `strings.SplitN(s, sep, n)` for a non-empty `sep` and `n ≥ 0`: at most `n`
pieces, the last one being the unsplit remainder. -/
def SplitN (sep : Str) : Nat → Str → List Str
  | 0, _ => []
  | 1, s => [s]
  | n + 2, s =>
    let m := Index s sep
    if m < 0 then [s]
    else s.take m.toNat :: SplitN sep (n + 1) (s.drop (m.toNat + sep.length))

/-- Go `unicode.IsSpace`: the Latin-1 spaces and the code points of category Z
and property Pattern_White_Space. -/
def isSpace (c : Char) : Bool :=
  let n := c.toNat
  n = 0x09 || n = 0x0A || n = 0x0B || n = 0x0C || n = 0x0D || n = 0x20 ||
  n = 0x85 || n = 0xA0 || n = 0x1680 || (0x2000 ≤ n && n ≤ 0x200A) ||
  n = 0x2028 || n = 0x2029 || n = 0x202F || n = 0x205F || n = 0x3000

/-- Go `strings.TrimSpace`: `s` without its leading and trailing white space. -/
def TrimSpace (s : Str) : Str :=
  ((s.dropWhile isSpace).reverse.dropWhile isSpace).reverse

/-! ## Errors and results -/

/-- A Go `error` value. -/
inductive Err where
  /-- The sentinel `ErrNotExist = errors.New("not exist")`. -/
  | ErrNotExist : Err
  /-- The sentinel `ErrInvalidSyntax = errors.New("invalid syntax")`. -/
  | ErrInvalidSyntax : Err
  /-- A fresh error with the given message (`errors.New`, `fmt.Errorf` without `%w`). -/
  | New (msg : Str) : Err
  /-- The error `fmt.Errorf(pre ++ "%w" ++ post, inner)`, the other verbs already formatted. -/
  | Wrap (pre : Str) (inner : Err) (post : Str) : Err
  deriving DecidableEq, Repr

/-- The method `Error()`: the message of an error. -/
def Err.Error : Err → Str
  | .ErrNotExist => "not exist".toList
  | .ErrInvalidSyntax => "invalid syntax".toList
  | .New msg => msg
  | .Wrap pre inner post => pre ++ inner.Error ++ post

/-- Identity of error values, as `==` decides it in `errors.Is`: a sentinel is
identical to itself only, a fresh error to no target. -/
def Err.same : Err → Err → Bool
  | .ErrNotExist, .ErrNotExist => true
  | .ErrInvalidSyntax, .ErrInvalidSyntax => true
  | _, _ => false

/-- Go `errors.Is(e, target)`: `target` is `e` or is reached by unwrapping `e`. -/
def Err.Is : Err → Err → Bool
  | .Wrap pre inner post, target =>
    Err.same (.Wrap pre inner post) target || Err.Is inner target
  | e, target => Err.same e target

/-- The outcome of a call. -/
inductive Res (α : Type) where
  /-- Normal return with a nil error. -/
  | ok (val : α) : Res α
  /-- Return with a non-nil error. -/
  | err (e : Err) : Res α
  /-- A run-time panic. -/
  | panic : Res α
  /-- The fuel of the model ran out before the call returned. -/
  | timeout : Res α
  deriving DecidableEq, Repr

/-! ## Tag parser -/

/-- The struct `ParsedTag`. -/
structure ParsedTag where
  /-- Short property key. -/
  Key : Str := []
  /-- Default value. -/
  Def : Str := []
  /-- Has default value. -/
  HasDef : Bool := false
  /-- Name of the splitter. -/
  Splitter : Str := []
  deriving DecidableEq, Repr

/-- The error every failure branch of `ParseTag` builds:
`fmt.Errorf("parse tag '%s' error: %w", tag, ErrInvalidSyntax)`. -/
def parseTagError (tag : Str) : Err :=
  .Wrap ("parse tag '".toList ++ tag ++ "' error: ".toList) .ErrInvalidSyntax []

/-- The function `ParseTag`. -/
def ParseTag (tag : Str) : Res ParsedTag :=
  let i := LastIndex tag sSplit
  if i = 0 then .err (parseTagError tag) else
  let j := LastIndex tag sClose
  if j ≤ 0 then .err (parseTagError tag) else
  let k := Index tag sOpen
  if k < 0 then .err (parseTagError tag) else
  match (if i > j then (slice tag (i + 2) tag.length).map TrimSpace else some []) with
  | none => .panic
  | some splitter =>
    match slice tag (k + 2) j with
    | none => .panic
    | some body =>
      match SplitN sAssign 2 body with
      | [] => .panic
      | [key] => .ok { Key := key, Splitter := splitter }
      | key :: d :: _ => .ok { Key := key, HasDef := true, Def := d, Splitter := splitter }

/-- The method `ParsedTag.String`. -/
def ParsedTag.String (tag : ParsedTag) : Str :=
  sOpen ++ tag.Key ++ (if tag.HasDef then sAssign ++ tag.Def else []) ++ sClose ++
    (if tag.Splitter ≠ [] then sSplit ++ tag.Splitter else [])

/-- The struct `BindParam`; `Validate` is the whole field tag, a string. -/
structure BindParam where
  /-- Full key. -/
  Key : Str := []
  /-- Full path. -/
  Path : Str := []
  /-- Parsed tag. -/
  Tag : ParsedTag := {}
  /-- Full field tag. -/
  Validate : Str := []
  deriving DecidableEq, Repr

/-- The method `(*BindParam).BindTag`: the receiver after the call and the
returned error (`Res.ok ()` for nil). -/
def BindParam.BindTag (param : BindParam) (tag validate : Str) : BindParam × Res Unit :=
  match ParseTag tag with
  | .err e => (param, .err e)
  | .panic => (param, .panic)
  | .timeout => (param, .timeout)
  | .ok parsedTag =>
    let parsedTag : ParsedTag :=
      if parsedTag.Key = "ROOT".toList then { parsedTag with Key := [] }
      else if parsedTag.Key = [] then { parsedTag with Key := "ANONYMOUS".toList }
      else parsedTag
    let param := { param with Tag := parsedTag }
    let param : BindParam :=
      if param.Key = [] then { param with Key := parsedTag.Key }
      else if parsedTag.Key ≠ [] then
        { param with Key := param.Key ++ ".".toList ++ parsedTag.Key }
      else param
    ({ param with Validate := validate }, .ok ())

/-! ## Store and run time -/

/-- Modelled from the spec: the read operations of `store.Storage` (package
`internal/conf/store` is not among the sources), `Get(key) → (value, found)`,
which finds a leaf only, `Has(key) → bool`, true for any node, leaf or not, and
`SubKeys(key) → list of immediate child names`. -/
structure Storage where
  /-- The value of the leaf at a key, `none` when the key holds no leaf. -/
  Get : Str → Option Str
  /-- Whether a node of any shape is at the key. -/
  Has : Str → Bool
  /-- The names of the immediate children of the node at the key, `SubKeys(key)`;
  an error for a leaf. -/
  SubKeys : Str → Res (List Str)

/-- The struct `Properties`. -/
structure Properties where
  /-- The store the properties own. -/
  storage : Storage

/-- What the Go standard library and run time contribute to error messages. -/
structure Runtime where
  /-- The formatting of the verb `%q`, `strconv.Quote`. -/
  Quote : Str → Str
  /-- The text `util.FileLine()` returns when called on the given line of
  `internal/conf/bind.go`. -/
  FileLine : Nat → Str

/-- The error `fmt.Errorf("%s: resolve property %q error, %w", util.FileLine(), key, err)`
built on the given line. -/
def resolvePropertyError (rt : Runtime) (line : Nat) (key : Str) (err : Err) : Err :=
  .Wrap (rt.FileLine line ++ ": resolve property ".toList ++ rt.Quote key ++ " error, ".toList)
    err []

/-- The error `fmt.Errorf("%s: resolve string %q error, %w", util.FileLine(), s, err)`
built on the given line. -/
def resolveStringError (rt : Runtime) (line : Nat) (s : Str) (err : Err) : Err :=
  .Wrap (rt.FileLine line ++ ": resolve string ".toList ++ rt.Quote s ++ " error, ".toList)
    err []

/-- The error `fmt.Errorf("property %q isn't simple value", key)`. -/
def notSimpleValueError (rt : Runtime) (key : Str) : Err :=
  .New ("property ".toList ++ rt.Quote key ++ " isn't simple value".toList)

/-- The error `fmt.Errorf("property %q %w", key, ErrNotExist)`. -/
def notExistError (rt : Runtime) (key : Str) : Err :=
  .Wrap ("property ".toList ++ rt.Quote key ++ " ".toList) .ErrNotExist []

/-! ## Resolver -/

/-- The variables `count`, `start` and `end` of `resolveString` after its loop. -/
structure Scan where
  /-- Nesting depth of the placeholders still open. -/
  count : Nat
  /-- Offset of the first top-level opener, or `-1`. -/
  start : Int
  /-- Offset of the brace that closes the first top-level placeholder, or `-1`. -/
  end_ : Int
  deriving DecidableEq, Repr

/-- The scanning loop of `resolveString`, entered at offset `i` with the text
from there on; the test `i < length-1 && s[i+1] == '{'` reads the head of what
follows the current character. -/
def scanLoop : Str → Nat → Nat → Int → Scan
  | [], _, count, start => ⟨count, start, -1⟩
  | c :: rest, i, count, start =>
    if c = cDollar then
      if rest.head? = some cOpen then
        scanLoop rest (i + 1) (count + 1) (if count = 0 then (i : Int) else start)
      else scanLoop rest (i + 1) count start
    else if c = cClose then
      if count > 0 then
        if count - 1 = 0 then ⟨count - 1, start, (i : Int)⟩
        else scanLoop rest (i + 1) (count - 1) start
      else scanLoop rest (i + 1) count start
    else scanLoop rest (i + 1) count start

/-- The loop of `resolveString` run from its initial state. -/
def scan (s : Str) : Scan := scanLoop s 0 0 (-1)

mutual

/-- The function `resolve`; every call uses one unit of fuel. -/
def resolve (rt : Runtime) (p : Properties) : Nat → BindParam → Res Str
  | 0, _ => .timeout
  | fuel + 1, param =>
    match p.storage.Get param.Key with
    | some val => resolveString rt p fuel val
    | none =>
      if p.storage.Has param.Key then
        .err (resolvePropertyError rt 418 param.Key (notSimpleValueError rt param.Key))
      else if param.Tag.HasDef then resolveString rt p fuel param.Tag.Def
      else .err (resolvePropertyError rt 424 param.Key (notExistError rt param.Key))

/-- The function `resolveString`; every call uses one unit of fuel. -/
def resolveString (rt : Runtime) (p : Properties) : Nat → Str → Res Str
  | 0, _ => .timeout
  | fuel + 1, s =>
    let sc := scan s
    if sc.start < 0 then .ok s
    else if sc.end_ < 0 ∨ sc.count > 0 then
      .err (resolveStringError rt 462 s .ErrInvalidSyntax)
    else
      match slice s sc.start (sc.end_ + 1) with
      | none => .panic
      | some region =>
        match BindParam.BindTag {} region [] with
        | (_, .panic) => .panic
        | (param, _) =>
          match resolve rt p fuel param with
          | .panic => .panic
          | .timeout => .timeout
          | .err e => .err (resolveStringError rt 470 s e)
          | .ok s1 =>
            match slice s (sc.end_ + 1) s.length with
            | none => .panic
            | some rest =>
              match resolveString rt p fuel rest with
              | .panic => .panic
              | .timeout => .timeout
              | .err e => .err (resolveStringError rt 475 s e)
              | .ok s2 =>
                match slice s 0 sc.start with
                | none => .panic
                | some pre => .ok (pre ++ s1 ++ s2)

end

/-- The method `Properties.Resolve`. -/
def Properties.Resolve (rt : Runtime) (p : Properties) (fuel : Nat) (s : Str) : Res Str :=
  resolveString rt p fuel s

/-! ## Types and values -/

/-- Go `reflect.Kind`. -/
inductive Kind where
  | Invalid | Bool | Int | Int8 | Int16 | Int32 | Int64
  | Uint | Uint8 | Uint16 | Uint32 | Uint64 | Uintptr
  | Float32 | Float64 | Complex64 | Complex128
  | Array | Chan | Func | Interface | Map | Pointer | Slice | String | Struct | UnsafePointer
  deriving DecidableEq, Repr

mutual

/-- A Go type as `reflect.Type` shows it to the binder.  `basic` is a type that
is not an array, slice, map, pointer or struct, of the given kind; the name is
empty for the predeclared type of that kind. -/
inductive GoType where
  | basic (kind : Kind) (name : Str) : GoType
  | array (len : Nat) (elem : GoType) : GoType
  | slice (elem : GoType) : GoType
  | map (key elem : GoType) : GoType
  | pointer (elem : GoType) : GoType
  | struct (name : Str) (fields : List StructField) : GoType

/-- Go `reflect.StructField`: name, whole tag, whether the field is embedded,
whether it is exported, and its type. -/
inductive StructField where
  | mk (Name : Str) (Tag : Str) (Anonymous : Bool) (Exported : Bool) (Typ : GoType) : StructField

end

/-- The name of a field. -/
def StructField.Name : StructField → Str
  | .mk name _ _ _ _ => name

/-- The whole tag of a field. -/
def StructField.Tag : StructField → Str
  | .mk _ tag _ _ _ => tag

/-- Whether a field is embedded. -/
def StructField.Anonymous : StructField → Bool
  | .mk _ _ anonymous _ _ => anonymous

/-- Whether a field is exported, which is what `CanInterface` reports for the
fields the binder visits. -/
def StructField.Exported : StructField → Bool
  | .mk _ _ _ exported _ => exported

/-- The type of a field. -/
def StructField.Typ : StructField → GoType
  | .mk _ _ _ _ typ => typ

/-- The method `Kind()` of a type. -/
def GoType.Kind : GoType → Kind
  | .basic kind _ => kind
  | .array _ _ => .Array
  | .slice _ => .Slice
  | .map _ _ => .Map
  | .pointer _ => .Pointer
  | .struct _ _ => .Struct

/-- Whether `SetMapIndex` takes a key made by `reflect.ValueOf` of a `string`
for a map with the given key type: the type `string` itself, which has no name
of its own here, or an interface type, taken to be one a string implements;
with any other key type, a named string type included, it panics. -/
def GoType.takesStringKey : GoType → Bool
  | .basic .String name => name = []
  | .basic .Interface _ => true
  | _ => false

/-- The method `Elem()` of a type; `none` is its panic on a type without elements. -/
def GoType.Elem : GoType → Option GoType
  | .array _ elem => some elem
  | .slice elem => some elem
  | .map _ elem => some elem
  | .pointer elem => some elem
  | _ => none

/-- A Go value.  Integers are kept as numbers in the range of their type,
floating-point numbers as their bit pattern; `slice none` and `map none` are the
nil slice and the nil map. -/
inductive Value where
  | bool (b : Bool) : Value
  | int (i : Int) : Value
  | uint (u : Nat) : Value
  | float (bits : Nat) : Value
  | complex (re im : Nat) : Value
  | string (s : Str) : Value
  | array (elems : List Value) : Value
  | slice (elems : Option (List Value)) : Value
  | map (entries : Option (List (Str × Value))) : Value
  | struct (fields : List Value) : Value
  | nil : Value
  deriving Repr

mutual

/-- The zero value of a type, `reflect.New(t).Elem()`. -/
def zeroValue : GoType → Value
  | .basic kind _ =>
    match kind with
    | .Bool => .bool false
    | .Int | .Int8 | .Int16 | .Int32 | .Int64 => .int 0
    | .Uint | .Uint8 | .Uint16 | .Uint32 | .Uint64 | .Uintptr => .uint 0
    | .Float32 | .Float64 => .float 0
    | .Complex64 | .Complex128 => .complex 0 0
    | .String => .string []
    | _ => .nil
  | .array len elem => .array (List.replicate len (zeroValue elem))
  | .slice _ => .slice none
  | .map _ _ => .map none
  | .pointer _ => .nil
  | .struct _ fields => .struct (zeroFields fields)

/-- The zero values of the fields of a struct type. -/
def zeroFields : List StructField → List Value
  | [] => []
  | .mk _ _ _ _ typ :: rest => zeroValue typ :: zeroFields rest

end

/-- The width in bits of an integer kind (`int` and `uint` on a 64-bit platform). -/
def Kind.bits : Kind → Nat
  | .Int8 | .Uint8 => 8
  | .Int16 | .Uint16 => 16
  | .Int32 | .Uint32 => 32
  | _ => 64

/-- What `SetUint` stores in a target of the given kind: the number reduced
modulo two to the width. -/
def wrapUint (kind : Kind) (u : Nat) : Nat := u % 2 ^ kind.bits

/-- What `SetInt` stores in a target of the given kind: the two's complement
number of that width with the same low bits. -/
def wrapInt (kind : Kind) (i : Int) : Int :=
  (i + 2 ^ (kind.bits - 1)) % 2 ^ kind.bits - 2 ^ (kind.bits - 1)

/-- The method `SetMapIndex` on the entries of a map: the entry of the key is
replaced, or added at the end. -/
def setMapIndex : List (Str × Value) → Str → Value → List (Str × Value)
  | [], key, val => [(key, val)]
  | (k, v) :: rest, key, val =>
    if k = key then (key, val) :: rest else (k, v) :: setMapIndex rest key val

/-! ## Binder -/

/-- The interface `ValidatorInterface`. -/
structure ValidatorInterface where
  /-- The method `Name`. -/
  Name : Str
  /-- The method `Field` on a tag and the bound value. -/
  Field : Str → Value → Res Unit

/-- The type `Filter`: called with the address of a field and its parameter, it
returns the field as it left it, and its two results. -/
abbrev Filter := Value → BindParam → Value × Res Bool

/-- What `BindValue` takes from outside `bind.go`: the run time, functions of the
Go standard library, the package-level registries, and the functions of
package `conf` that are not among the sources. -/
structure Env where
  /-- Formatting of `%q` and of call sites. -/
  rt : Runtime
  /-- Go `reflect.StructTag(tag).Lookup(key)`. -/
  Lookup : Str → Str → Option Str
  /-- Go `strconv.ParseUint(s, 0, 0)`. -/
  ParseUint : Str → Res Nat
  /-- Go `strconv.ParseInt(s, 0, 0)`. -/
  ParseInt : Str → Res Int
  /-- Go `strconv.ParseFloat(s, 64)`, the result as its bit pattern. -/
  ParseFloat : Str → Res Nat
  /-- Go `strconv.ParseBool(s)`. -/
  ParseBool : Str → Res Bool
  /-- The conversion `float32(x)` of `SetFloat` on a target of kind `Float32`. -/
  toFloat32 : Nat → Nat
  /-- Go `strings.ToLower`. -/
  ToLower : Str → Str
  /-- The method `Name()` of a type. -/
  TypeName : GoType → Str
  /-- The method `String()` of a type. -/
  TypeString : GoType → Str
  /-- The registry `converters`; `none` is the nil entry of an unregistered type. -/
  converters : GoType → Option (Str → Res Value)
  /-- The registry `splitters`: `none` for a name that is not registered,
  `some none` for a name registered with a nil function. -/
  splitters : Str → Option (Option (Str → Res (List Str)))
  /-- The variable `Validator`, `none` when it is nil. -/
  Validator : Option ValidatorInterface
  /-- The function `IsValueType` of package `conf`, which is not among the sources. -/
  IsValueType : GoType → Bool
  /-- The function `IsPrimitiveValueType` of package `conf`, which is not among
  the sources. -/
  IsPrimitiveValueType : GoType → Bool
  /-- The properties `New()` returns after `store(k, v)` was called on them for
  each pair of the list in turn, errors ignored. -/
  newProperties : List (Str × Str) → Properties

/-- The error `fmt.Errorf("%s: bind %s error, %w", util.FileLine(), path, err)`
built on the given line. -/
def bindError (rt : Runtime) (line : Nat) (path : Str) (err : Err) : Err :=
  .Wrap (rt.FileLine line ++ ": bind ".toList ++ path ++ " error, ".toList) err []

/-- The text `fmt.Sprintf("%s[%d]", s, i)`. -/
def indexed (s : Str) (i : Nat) : Str :=
  s ++ "[".toList ++ (Nat.repr i).toList ++ "]".toList

/-- Go `strings.Split(s, sep)` for a non-empty `sep`: all the pieces, of which
there are at most one more than characters. -/
def Split (s sep : Str) : List Str := SplitN sep (s.length + 1) s

/-- Go `strings.ReplaceAll(s, "_", ".")`. -/
def underscoresToDots (s : Str) : Str :=
  s.map (fun c => if c = '_' then '.' else c)

/-- The method `Properties.Has`. -/
def Properties.Has (p : Properties) (key : Str) : Bool := p.storage.Has key

/-- The method `Properties.Get` without options: the value of the leaf, or the
empty text. -/
def Properties.Get (p : Properties) (key : Str) : Str := (p.storage.Get key).getD []

/-- The pairs `getSlice` stores: the `i`-th element under `key[i]`. -/
def indexedPairs (key : Str) : List Str → Nat → List (Str × Str)
  | [], _ => []
  | s :: rest, i => (indexed key i, s) :: indexedPairs key rest (i + 1)

/-- The function `getSlice`: the properties to read the elements from, `none`
standing for the nil result that means an empty slice. -/
def getSlice (env : Env) (p : Properties) (et : GoType) (param : BindParam) :
    Res (Option Properties) :=
  if p.Has (param.Key ++ "[0]".toList) then .ok (some p)
  else
    let strVal : Res (Option Str) :=
      if p.Has param.Key then .ok (some (p.Get param.Key))
      else if ¬ param.Tag.HasDef then
        .err (.Wrap (env.rt.FileLine 267 ++ ": property ".toList ++ env.rt.Quote param.Key ++
          " ".toList) .ErrNotExist [])
      else if param.Tag.Def = [] then .ok none
      else if ¬ env.IsPrimitiveValueType et ∧ (env.converters et).isNone then
        .err (.New (env.rt.FileLine 273 ++ ": can't find converter for ".toList ++
          env.TypeString et))
      else .ok (some param.Tag.Def)
    match strVal with
    | .err e => .err e
    | .panic => .panic
    | .timeout => .timeout
    | .ok none => .ok none
    | .ok (some strVal) =>
      if strVal = [] then .ok none
      else
        let arrVal : Res (List Str) :=
          if param.Tag.Splitter = [] then .ok ((Split strVal ",".toList).map TrimSpace)
          else
            match env.splitters param.Tag.Splitter with
            | some (some fn) =>
              match fn strVal with
              | .err e =>
                .err (.Wrap (env.rt.FileLine 294 ++ ": split error: ".toList) e
                  (", value: ".toList ++ env.rt.Quote strVal))
              | r => r
            | _ =>
              .err (.New (env.rt.FileLine 297 ++ ": unknown splitter ".toList ++
                env.rt.Quote param.Tag.Splitter))
        match arrVal with
        | .err e => .err e
        | .panic => .panic
        | .timeout => .timeout
        | .ok arrVal => .ok (some (env.newProperties (indexedPairs param.Key arrVal 0)))

/-- The deferred function of `BindValue`: after a return without error, the
validator is asked when the field tag has a non-empty entry under its name. -/
def validate (env : Env) (param : BindParam) (out : Value × Res Unit) : Value × Res Unit :=
  match out with
  | (v, .ok ()) =>
    match env.Validator with
    | none => (v, .panic)
    | some validator =>
      match env.Lookup param.Validate validator.Name with
      | some tag => if tag.length > 0 then (v, validator.Field tag v) else (v, .ok ())
      | none => (v, .ok ())
  | other => other

/-- The last part of `BindValue`, for a target without converter: the resolved
text is parsed according to the kind of the target. -/
def bindScalar (env : Env) (v : Value) (t : GoType) (param : BindParam) (val : Str) :
    Value × Res Unit :=
  match t.Kind with
  | .Uint | .Uint8 | .Uint16 | .Uint32 | .Uint64 =>
    match env.ParseUint val with
    | .ok u => (.uint (wrapUint t.Kind u), .ok ())
    | .err e => (v, .err (bindError env.rt 187 param.Path e))
    | .panic => (v, .panic)
    | .timeout => (v, .timeout)
  | .Int | .Int8 | .Int16 | .Int32 | .Int64 =>
    match env.ParseInt val with
    | .ok i => (.int (wrapInt t.Kind i), .ok ())
    | .err e => (v, .err (bindError env.rt 194 param.Path e))
    | .panic => (v, .panic)
    | .timeout => (v, .timeout)
  | .Float32 | .Float64 =>
    match env.ParseFloat val with
    | .ok f => (.float (if t.Kind = .Float32 then env.toFloat32 f else f), .ok ())
    | .err e => (v, .err (bindError env.rt 201 param.Path e))
    | .panic => (v, .panic)
    | .timeout => (v, .timeout)
  | .Bool =>
    match env.ParseBool val with
    | .ok b => (.bool b, .ok ())
    | .err e => (v, .err (bindError env.rt 208 param.Path e))
    | .panic => (v, .panic)
    | .timeout => (v, .timeout)
  | .String => (.string val, .ok ())
  | _ =>
    (v, .err (bindError env.rt 216 param.Path
      (.New ("unsupported bind type ".toList ++ env.rt.Quote (env.TypeString t)))))

/-- The key of a struct field without `value` tag: the field name joined to the
key of the struct, in lower case, underscores turned into dots. -/
def fieldKey (env : Env) (key name : Str) : Str :=
  underscoresToDots (env.ToLower (if key = [] then name else key ++ ".".toList ++ name))

mutual

/-- The function `BindValue`: the target after the call and the returned error.
Every call of the functions of this group uses one unit of fuel. -/
def BindValue (env : Env) (p : Properties) (filter : Option Filter) :
    Nat → Value → GoType → BindParam → Value × Res Unit
  | 0, v, _, _ => (v, .timeout)
  | fuel + 1, v, t, param =>
    if ¬ env.IsValueType t then
      (v, .err (bindError env.rt 130 param.Path (.New "target should be value type".toList)))
    else
      validate env param <|
        match t.Kind with
        | .Map => bindMap env p filter fuel v t param
        | .Slice => bindSlice env p filter fuel v t param
        | .Array =>
          (v, .err (bindError env.rt 152 param.Path (.New "use slice instead of array".toList)))
        | _ =>
          if (env.converters t).isNone ∧ t.Kind = .Struct then
            match bindStruct env p filter fuel v t param with
            | (v, .err e) => (v, .err (bindError env.rt 159 param.Path e))
            | out => out
          else
            match resolve env.rt p fuel param with
            | .err e => (v, .err (bindError env.rt 166 param.Path e))
            | .panic => (v, .panic)
            | .timeout => (v, .timeout)
            | .ok val =>
              match env.converters t with
              | some fn =>
                match fn val with
                | .ok out => (out, .ok ())
                | .err e => (v, .err (bindError env.rt 174 param.Path e))
                | .panic => (v, .panic)
                | .timeout => (v, .timeout)
              | none => bindScalar env v t param val

/-- The function `bindSlice`. -/
def bindSlice (env : Env) (p : Properties) (filter : Option Filter) :
    Nat → Value → GoType → BindParam → Value × Res Unit
  | 0, v, _, _ => (v, .timeout)
  | fuel + 1, v, t, param =>
    match t.Elem with
    | none => (v, .panic)
    | some et =>
      match getSlice env p et param with
      | .err e => (v, .err (bindError env.rt 225 param.Path e))
      | .panic => (v, .panic)
      | .timeout => (v, .timeout)
      | .ok none => (.slice (some []), .ok ())
      | .ok (some p) =>
        match bindSliceLoop env p filter fuel et param 0 [] with
        | (elems, r) => (.slice (some elems), r)

/-- The loop of `bindSlice`, entered at index `i` with the elements appended so
far; it returns the slice the deferred function stores in the target. -/
def bindSliceLoop (env : Env) (p : Properties) (filter : Option Filter) :
    Nat → GoType → BindParam → Nat → List Value → List Value × Res Unit
  | 0, _, _, _, slice => (slice, .timeout)
  | fuel + 1, et, param, i, slice =>
    match BindValue env p filter fuel (zeroValue et) et
        { Key := indexed param.Key i, Path := indexed param.Path i } with
    | (e, .ok ()) => bindSliceLoop env p filter fuel et param (i + 1) (slice ++ [e])
    | (_, .err err) =>
      if err.Is .ErrNotExist then (slice, .ok ())
      else (slice, .err (bindError env.rt 246 param.Path err))
    | (_, .panic) => (slice, .panic)
    | (_, .timeout) => (slice, .timeout)

/-- The function `bindMap`. -/
def bindMap (env : Env) (p : Properties) (filter : Option Filter) :
    Nat → Value → GoType → BindParam → Value × Res Unit
  | 0, v, _, _ => (v, .timeout)
  | fuel + 1, v, t, param =>
    if param.Tag.HasDef ∧ param.Tag.Def ≠ [] then
      (v, .err (bindError env.rt 313 param.Path
        (.New "map can't have a non-empty default value".toList)))
    else
      match t with
      | .map kt et =>
        match p.storage.SubKeys param.Key with
        | .err e => (.map (some []), .err (bindError env.rt 322 param.Path e))
        | .panic => (v, .panic)
        | .timeout => (v, .timeout)
        | .ok keys =>
          match bindMapLoop env p filter fuel kt et param keys [] with
          | (entries, r) => (.map (some entries), r)
      | _ => (v, .panic)

/-- The loop of `bindMap` over the sub-keys still to bind, with the entries set
so far; it returns the map the deferred function stores in the target. -/
def bindMapLoop (env : Env) (p : Properties) (filter : Option Filter) :
    Nat → GoType → GoType → BindParam → List Str → List (Str × Value) →
      List (Str × Value) × Res Unit
  | 0, _, _, _, _, ret => (ret, .timeout)
  | _ + 1, _, _, _, [], ret => (ret, .ok ())
  | fuel + 1, kt, et, param, key :: keys, ret =>
    match BindValue env p filter fuel (zeroValue et) et
        { Key := if param.Key ≠ [] then param.Key ++ ".".toList ++ key else key
          Path := param.Path } with
    | (e, .ok ()) =>
      if kt.takesStringKey then
        bindMapLoop env p filter fuel kt et param keys (setMapIndex ret key e)
      else (ret, .panic)
    | (_, .err err) => (ret, .err (bindError env.rt 337 param.Path err))
    | (_, .panic) => (ret, .panic)
    | (_, .timeout) => (ret, .timeout)

/-- The function `bindStruct`. -/
def bindStruct (env : Env) (p : Properties) (filter : Option Filter) :
    Nat → Value → GoType → BindParam → Value × Res Unit
  | 0, v, _, _ => (v, .timeout)
  | fuel + 1, v, t, param =>
    if param.Tag.HasDef ∧ param.Tag.Def ≠ [] then
      (v, .err (bindError env.rt 349 param.Path
        (.New "struct can't have a non-empty default value".toList)))
    else
      match t, v with
      | .struct _ fields, .struct values =>
        match bindFields env p filter fuel fields values param with
        | (values, r) => (.struct values, r)
      | _, _ => (v, .panic)

/-- The loop of `bindStruct` over the fields still to visit and their values. -/
def bindFields (env : Env) (p : Properties) (filter : Option Filter) :
    Nat → List StructField → List Value → BindParam → List Value × Res Unit
  | 0, _, values, _ => (values, .timeout)
  | _ + 1, [], values, _ => (values, .ok ())
  | _ + 1, _ :: _, [], _ => ([], .panic)
  | fuel + 1, ft :: fields, fv :: values, param =>
    match bindField env p filter fuel ft fv param with
    | (fv, .ok ()) =>
      match bindFields env p filter fuel fields values param with
      | (values, r) => (fv :: values, r)
    | (fv, r) => (fv :: values, r)

/-- The body of the loop of `bindStruct` for one field: the field after it, and
`Res.ok ()` where the loop goes on to the next field. -/
def bindField (env : Env) (p : Properties) (filter : Option Filter) :
    Nat → StructField → Value → BindParam → Value × Res Unit
  | 0, _, fv, _ => (fv, .timeout)
  | fuel + 1, ft, fv, param =>
    if ¬ ft.Exported then (fv, .ok ())
    else
      let subParam : BindParam := { Key := param.Key, Path := param.Path ++ ".".toList ++ ft.Name }
      match env.Lookup ft.Tag "value".toList with
      | some tag =>
        match subParam.BindTag tag ft.Tag with
        | (_, .err e) => (fv, .err (bindError env.rt 367 param.Path e))
        | (_, .panic) => (fv, .panic)
        | (_, .timeout) => (fv, .timeout)
        | (subParam, .ok ()) =>
          let filtered : Value × Res Bool :=
            match filter with
            | some f => f fv subParam
            | none => (fv, .ok false)
          match filtered with
          | (fv, .err e) => (fv, .err e)
          | (fv, .panic) => (fv, .panic)
          | (fv, .timeout) => (fv, .timeout)
          | (fv, .ok true) => (fv, .ok ())
          | (fv, .ok false) =>
            match BindValue env p filter fuel fv ft.Typ subParam with
            | (fv, .err e) => (fv, .err (bindError env.rt 379 param.Path e))
            | out => out
      | none =>
        if ft.Anonymous then
          if ft.Typ.Kind ≠ .Struct then (fv, .ok ())
          else
            match bindStruct env p filter fuel fv ft.Typ subParam with
            | (fv, .err e) => (fv, .err (bindError env.rt 390 param.Path e))
            | out => out
        else if env.IsValueType ft.Typ then
          match BindValue env p filter fuel fv ft.Typ
              { subParam with Key := fieldKey env subParam.Key ft.Name } with
          | (fv, .err e) => (fv, .err (bindError env.rt 404 param.Path e))
          | out => out
        else (fv, .ok ())

end

/-- The argument of `Bind`: a parameter (`Param`) or a tag (`Tag`, `Key`). -/
inductive BindArg where
  | paramArg (param : BindParam) : BindArg
  | tagArg (tag : Str) : BindArg

/-- The function `Key`. -/
def Key (key : Str) : BindArg := .tagArg (sOpen ++ key ++ sClose)

/-- The function `Tag`. -/
def Tag (tag : Str) : BindArg := .tagArg tag

/-- The function `Param`. -/
def Param (param : BindParam) : BindArg := .paramArg param

/-- The method `getParam` of the two kinds of argument. -/
def BindArg.getParam : BindArg → Res BindParam
  | .paramArg param => .ok param
  | .tagArg tag =>
    match BindParam.BindTag {} tag [] with
    | (param, .ok ()) => .ok param
    | (_, .err e) => .err e
    | (_, .panic) => .panic
    | (_, .timeout) => .timeout

/-- What `Bind` is given as `i`: a `reflect.Value` of a type with its current
content, taken to be addressable as the calls of `Set` on it require, a
pointer to a variable of a type with its content (`none` for a nil pointer),
or anything else. -/
inductive Target where
  | reflectValue (t : GoType) (v : Value) : Target
  | pointer (t : GoType) (v : Option Value) : Target
  | other : Target

/-- The method `Properties.Bind`: the content of the target after the call and
the returned error. -/
def Properties.Bind (env : Env) (p : Properties) (fuel : Nat) (i : Target)
    (args : List BindArg) : Option Value × Res Unit :=
  match i with
  | .other => (none, .err (.New "should be a ptr".toList))
  | .pointer _ none => (none, .panic)
  | .reflectValue t v | .pointer t (some v) =>
    let arg := args.headD (.tagArg (sOpen ++ "ROOT".toList ++ sClose))
    let typeName := if env.TypeName t = [] then env.TypeString t else env.TypeName t
    match arg.getParam with
    | .err e => (some v, .err e)
    | .panic => (some v, .panic)
    | .timeout => (some v, .timeout)
    | .ok param =>
      match BindValue env p none fuel v t { param with Path := typeName } with
      | (v, r) => (some v, r)

/-! ## Definitions the statements use -/

/-- The tag `ParseTag` builds from the text between the opener and the last
closing brace, and from the splitter name. -/
def bodyTag (body splitter : Str) : ParsedTag :=
  if Index body sAssign < 0 then { Key := body, Splitter := splitter }
  else
    { Key := body.take (Index body sAssign).toNat
      HasDef := true
      Def := body.drop ((Index body sAssign).toNat + 2)
      Splitter := splitter }

/-- The part `:=D` of a tag text, empty when no default is given. -/
def defaultPart : Option Str → Str
  | none => []
  | some d => sAssign ++ d

/-- The part `>>S` of a tag text, empty when no splitter is given. -/
def splitterPart : Option Str → Str
  | none => []
  | some s => sSplit ++ s

/-- The tag text with key `K`, the part `:=D` when a default is given and the
part `>>S` when a splitter is given. -/
def tagText (K : Str) (D S : Option Str) : Str :=
  sOpen ++ K ++ defaultPart D ++ sClose ++ splitterPart S

/-- The key `BindTag` stores in the tag: empty for `ROOT`, `ANONYMOUS` for the
empty key, the parsed key otherwise. -/
def normalKey (K : Str) : Str :=
  if K = "ROOT".toList then [] else if K = [] then "ANONYMOUS".toList else K

/-- The key of the parameter after `BindTag`: the tag key when the current key
`P` is empty, `P` when the tag key is empty, both joined by a dot otherwise. -/
def joinKey (P tagKey : Str) : Str :=
  if P = [] then tagKey else if tagKey = [] then P else P ++ ".".toList ++ tagKey

/-- The number of openers `$\x7b` that begin at an offset below `k` in `s`. -/
def openersBefore : Str → Nat → Nat
  | [], _ => 0
  | _ :: _, 0 => 0
  | c :: rest, k + 1 =>
    (if c = cDollar ∧ rest.head? = some cOpen then 1 else 0) + openersBefore rest k

/-- The number of closing braces at an offset below `k` in `s`. -/
def closersBefore : Str → Nat → Nat
  | [], _ => 0
  | _ :: _, 0 => 0
  | c :: rest, k + 1 => (if c = cClose then 1 else 0) + closersBefore rest k

/-- The text `r` is one top-level placeholder: counting openers against closing
braces from its start, the nesting count is positive after every proper
non-empty part of `r` and is back to zero at its end. -/
def TopLevel (r : Str) : Prop :=
  (∀ k, k < r.length → 0 < k → closersBefore r k < openersBefore r k) ∧
    closersBefore r r.length = openersBefore r r.length

instance (r : Str) : Decidable (TopLevel r) := by
  unfold TopLevel
  infer_instance

/-- The text `r` opens a placeholder that is never closed: the nesting count is
positive after every non-empty part of `r`. -/
def Unclosed (r : Str) : Prop :=
  ∀ k, k ≤ r.length → 0 < k → closersBefore r k < openersBefore r k

instance (r : Str) : Decidable (Unclosed r) := by
  unfold Unclosed
  infer_instance

/-- The outcome of `resolveString` on `s` once its first top-level placeholder,
which follows `pre`, resolved with outcome `X` and the text after it with
outcome `Y`: the text `pre ++ X ++ Y` when both succeeded, otherwise the first
failure, an error being wrapped by `resolveString`. -/
def substitute (rt : Runtime) (s pre : Str) (X Y : Res Str) : Res Str :=
  match X with
  | .panic => .panic
  | .timeout => .timeout
  | .err e => .err (resolveStringError rt 470 s e)
  | .ok x =>
    match Y with
    | .panic => .panic
    | .timeout => .timeout
    | .err e => .err (resolveStringError rt 475 s e)
    | .ok y => .ok (pre ++ x ++ y)

/-- The parameter `resolveString` resolves for the placeholder with the given body. -/
def regionParam (body : Str) : BindParam :=
  { Key := normalKey (bodyTag body []).Key
    Tag := { bodyTag body [] with Key := normalKey (bodyTag body []).Key } }

/-- A run time for the examples: `%q` puts the text between double quotes, which
is what `strconv.Quote` does to printable ASCII without quote and backslash,
and a call site is named by the base name of the file and its line. -/
def exampleRuntime : Runtime where
  Quote := fun s => '"' :: s ++ ['"']
  FileLine := fun line => "bind.go:".toList ++ (Nat.repr line).toList

/-- A store for the examples, given by its leaves and by the keys of its other
nodes; it lists no children for a node. -/
def exampleStorage (leaves : List (Str × Str)) (nodes : List Str) : Storage where
  Get := fun key => leaves.lookup key
  Has := fun key => (leaves.lookup key).isSome || nodes.contains key
  SubKeys := fun key =>
    if (leaves.lookup key).isSome then
      .err (.New ("property '".toList ++ key ++ "' is value".toList))
    else .ok []

/-- The properties of the resolver tests: the leaf `spring.active.profile` with
value `online` and the map node `maps`. -/
def exampleProperties : Properties where
  storage := exampleStorage [("spring.active.profile".toList, "online".toList)] ["maps".toList]

/-- The text of a placeholder with key `K` and, when given, default `D`. -/
def placeholder (K : Str) (D : Option Str) : Str :=
  sOpen ++ (K ++ defaultPart D) ++ sClose

/-- A key that can stand in a placeholder as it is: not empty, not `ROOT`,
without `$`, without closing brace and without `:=`. -/
def PlainKey (K : Str) : Prop :=
  K ≠ [] ∧ K ≠ "ROOT".toList ∧ cDollar ∉ K ∧ cClose ∉ K ∧ ¬ sAssign <:+: K

instance (K : Str) : Decidable (PlainKey K) := by
  unfold PlainKey
  infer_instance

/-- Every `$` of the text is immediately followed by an opening brace. -/
def DollarsOpen (s : Str) : Prop :=
  ∀ a b, s = a ++ cDollar :: b → b.head? = some cOpen

/-- Executable form of `DollarsOpen`. -/
def dollarsOpen : Str → Bool
  | [] => true
  | c :: rest => (c != cDollar || rest.head? == some cOpen) && dollarsOpen rest

/-- The error wraps `ErrNotExist` and its message contains `property "K" not exist`,
the key in the `%q` formatting. -/
def WrapsNotExist (rt : Runtime) (K : Str) (e : Err) : Prop :=
  e.Is .ErrNotExist = true ∧
    ("property ".toList ++ rt.Quote K ++ " not exist".toList) <:+: e.Error

/-- The call of `Resolve` on the text fails because the key `K` is absent from the
store and has no default.  The text is `pre ++ P ++ suf` with `P` its first top-level
placeholder, and either the key of `P` is `K`, absent and without default, or
the key of `P` holds a leaf whose value fails because of `K`, or the key of `P`
is absent and its default fails because of `K`, or `P` resolves and `suf` fails
because of `K`. -/
inductive StringMissing (rt : Runtime) (p : Properties) : Str → Str → Prop where
  | absent (pre body suf : Str) (param : BindParam) :
      ¬ sOpen <:+: pre → TopLevel (sOpen ++ body ++ sClose) →
      (BindParam.BindTag {} (sOpen ++ body ++ sClose) []).1 = param →
      p.storage.Get param.Key = none → p.storage.Has param.Key = false →
      param.Tag.HasDef = false →
      StringMissing rt p (pre ++ (sOpen ++ body ++ sClose) ++ suf) param.Key
  | inValue (pre body suf : Str) (param : BindParam) (v K : Str) :
      ¬ sOpen <:+: pre → TopLevel (sOpen ++ body ++ sClose) →
      (BindParam.BindTag {} (sOpen ++ body ++ sClose) []).1 = param →
      p.storage.Get param.Key = some v → StringMissing rt p v K →
      StringMissing rt p (pre ++ (sOpen ++ body ++ sClose) ++ suf) K
  | inDefault (pre body suf : Str) (param : BindParam) (K : Str) :
      ¬ sOpen <:+: pre → TopLevel (sOpen ++ body ++ sClose) →
      (BindParam.BindTag {} (sOpen ++ body ++ sClose) []).1 = param →
      p.storage.Get param.Key = none → p.storage.Has param.Key = false →
      param.Tag.HasDef = true → StringMissing rt p param.Tag.Def K →
      StringMissing rt p (pre ++ (sOpen ++ body ++ sClose) ++ suf) K
  | later (pre body suf : Str) (param : BindParam) (K x : Str) (n : Nat) :
      ¬ sOpen <:+: pre → TopLevel (sOpen ++ body ++ sClose) →
      (BindParam.BindTag {} (sOpen ++ body ++ sClose) []).1 = param →
      resolve rt p n param = .ok x → StringMissing rt p suf K →
      StringMissing rt p (pre ++ (sOpen ++ body ++ sClose) ++ suf) K

/-- The function `resolve` fails on the parameter because the key `K` is absent
from the store and has no default: the key of the parameter is `K`, absent and
without default, or it holds a leaf whose value fails because of `K`, or it is
absent and its default fails because of `K`. -/
inductive ResolveMissing (rt : Runtime) (p : Properties) : BindParam → Str → Prop where
  | absent (param : BindParam) :
      p.storage.Get param.Key = none → p.storage.Has param.Key = false →
      param.Tag.HasDef = false → ResolveMissing rt p param param.Key
  | inValue (param : BindParam) (v K : Str) :
      p.storage.Get param.Key = some v → StringMissing rt p v K → ResolveMissing rt p param K
  | inDefault (param : BindParam) (K : Str) :
      p.storage.Get param.Key = none → p.storage.Has param.Key = false →
      param.Tag.HasDef = true → StringMissing rt p param.Tag.Def K → ResolveMissing rt p param K

/-- A call of one of the functions that bind a scalar or the fields of a struct. -/
inductive Call where
  | bindValue (v : Value) (t : GoType) (param : BindParam) : Call
  | bindStruct (v : Value) (t : GoType) (param : BindParam) : Call
  | bindFields (fields : List StructField) (values : List Value) (param : BindParam) : Call
  | bindField (ft : StructField) (fv : Value) (param : BindParam) : Call

/-- The call returns the error `e` when run with fuel `n`. -/
def Call.fails (env : Env) (p : Properties) (filter : Option Filter) (n : Nat) (e : Err) :
    Call → Prop
  | .bindValue v t param => (GoConf.BindValue env p filter n v t param).2 = .err e
  | .bindStruct v t param => (GoConf.bindStruct env p filter n v t param).2 = .err e
  | .bindFields fields values param =>
    (GoConf.bindFields env p filter n fields values param).2 = .err e
  | .bindField ft fv param => (GoConf.bindField env p filter n ft fv param).2 = .err e

/-- The call fails because the key `K` is absent from the store and has no
default: it binds a scalar, a target with a converter or of a kind that is not
map, slice, array or struct, whose parameter does not resolve because of `K`;
or it binds a struct one of whose fields fails because of `K`, the fields
before it being bound without error. -/
inductive BindMissing (env : Env) (p : Properties) (filter : Option Filter) :
    Call → Str → Prop where
  | scalar (v : Value) (t : GoType) (param : BindParam) (K : Str) :
      env.IsValueType t = true → t.Kind ≠ .Map → t.Kind ≠ .Slice → t.Kind ≠ .Array →
      ¬ ((env.converters t).isNone ∧ t.Kind = .Struct) →
      ResolveMissing env.rt p param K →
      BindMissing env p filter (.bindValue v t param) K
  | structValue (v : Value) (t : GoType) (param : BindParam) (K : Str) :
      env.IsValueType t = true → t.Kind = .Struct → (env.converters t).isNone →
      BindMissing env p filter (.bindStruct v t param) K →
      BindMissing env p filter (.bindValue v t param) K
  | struct (name : Str) (fields : List StructField) (values : List Value) (param : BindParam)
      (K : Str) :
      ¬ (param.Tag.HasDef ∧ param.Tag.Def ≠ []) →
      BindMissing env p filter (.bindFields fields values param) K →
      BindMissing env p filter (.bindStruct (.struct values) (.struct name fields) param) K
  | fieldsHere (ft : StructField) (fields : List StructField) (fv : Value)
      (values : List Value) (param : BindParam) (K : Str) :
      BindMissing env p filter (.bindField ft fv param) K →
      BindMissing env p filter (.bindFields (ft :: fields) (fv :: values) param) K
  | fieldsLater (ft : StructField) (fields : List StructField) (fv fv' : Value)
      (values : List Value) (param : BindParam) (K : Str) (n : Nat) :
      (∀ m, n ≤ m → bindField env p filter m ft fv param = (fv', .ok ())) →
      BindMissing env p filter (.bindFields fields values param) K →
      BindMissing env p filter (.bindFields (ft :: fields) (fv :: values) param) K
  | fieldTagged (ft : StructField) (fv fv' : Value) (param subParam : BindParam)
      (tag K : Str) :
      ft.Exported = true → env.Lookup ft.Tag "value".toList = some tag →
      BindParam.BindTag { Key := param.Key, Path := param.Path ++ ".".toList ++ ft.Name } tag
        ft.Tag = (subParam, .ok ()) →
      ((filter = none ∧ fv' = fv) ∨ ∃ f, filter = some f ∧ f fv subParam = (fv', .ok false)) →
      BindMissing env p filter (.bindValue fv' ft.Typ subParam) K →
      BindMissing env p filter (.bindField ft fv param) K
  | fieldEmbedded (ft : StructField) (fv : Value) (param : BindParam) (K : Str) :
      ft.Exported = true → env.Lookup ft.Tag "value".toList = none →
      ft.Anonymous = true → ft.Typ.Kind = .Struct →
      BindMissing env p filter
        (.bindStruct fv ft.Typ { Key := param.Key, Path := param.Path ++ ".".toList ++ ft.Name })
        K →
      BindMissing env p filter (.bindField ft fv param) K
  | fieldPlain (ft : StructField) (fv : Value) (param : BindParam) (K : Str) :
      ft.Exported = true → env.Lookup ft.Tag "value".toList = none →
      ft.Anonymous = false → env.IsValueType ft.Typ = true →
      BindMissing env p filter
        (.bindValue fv ft.Typ
          { Key := fieldKey env param.Key ft.Name
            Path := param.Path ++ ".".toList ++ ft.Name }) K →
      BindMissing env p filter (.bindField ft fv param) K

/-- The text `strconv` reports for a numeral it cannot read:
`strconv.<fn>: parsing <quoted s>: invalid syntax`, wrapping its own sentinel. -/
def syntaxError (rt : Runtime) (fn s : Str) : Err :=
  .Wrap ("strconv.".toList ++ fn ++ ": parsing ".toList ++ rt.Quote s ++ ": ".toList)
    (.New "invalid syntax".toList) []

/-- The value of a decimal numeral without sign, `none` for any other text. -/
def decimal : Str → Nat → Option Nat
  | [], acc => some acc
  | c :: rest, acc =>
    if '0' ≤ c ∧ c ≤ '9' then decimal rest (10 * acc + (c.toNat - '0'.toNat)) else none

/-- Go `strconv.ParseBool`. -/
def parseBool (rt : Runtime) (s : Str) : Res Bool :=
  if s ∈ ["1".toList, "t".toList, "T".toList, "TRUE".toList, "true".toList, "True".toList] then
    .ok true
  else if s ∈ ["0".toList, "f".toList, "F".toList, "FALSE".toList, "false".toList,
      "False".toList] then .ok false
  else .err (syntaxError rt "ParseBool".toList s)

/-- The entry of `key` in a struct tag made of `name:"value"` pairs separated by
blanks, the values without escape sequences: what `reflect.StructTag.Lookup`
finds in such a tag. -/
def lookupTag : Nat → Str → Str → Option Str
  | 0, _, _ => none
  | fuel + 1, tag, key =>
    let tag := tag.dropWhile (· = ' ')
    let name := tag.takeWhile (fun c => ' ' < c ∧ c ≠ ':' ∧ c ≠ '"' ∧ c ≠ '\x7f')
    match tag.drop name.length with
    | ':' :: '"' :: rest =>
      let value := rest.takeWhile (· ≠ '"')
      match rest.drop value.length with
      | '"' :: more =>
        if name = [] then none
        else if name = key then some value
        else lookupTag fuel more key
      | _ => none
    | _ => none

/-- The name of a kind, which is also the name of the predeclared type of that kind. -/
def kindName : Kind → Str
  | .Bool => "bool".toList
  | .Int => "int".toList
  | .Int8 => "int8".toList
  | .Int16 => "int16".toList
  | .Int32 => "int32".toList
  | .Int64 => "int64".toList
  | .Uint => "uint".toList
  | .Uint8 => "uint8".toList
  | .Uint16 => "uint16".toList
  | .Uint32 => "uint32".toList
  | .Uint64 => "uint64".toList
  | .Uintptr => "uintptr".toList
  | .Float32 => "float32".toList
  | .Float64 => "float64".toList
  | .Complex64 => "complex64".toList
  | .Complex128 => "complex128".toList
  | .String => "string".toList
  | .Interface => "interface \x7b\x7d".toList
  | .UnsafePointer => "unsafe.Pointer".toList
  | .Chan => "chan".toList
  | .Func => "func()".toList
  | _ => "invalid".toList

/-- A primitive value type: of an integer kind other than `uintptr`, of a
floating-point kind, a string or a boolean. -/
def primitiveKind : Kind → Bool
  | .Int | .Int8 | .Int16 | .Int32 | .Int64 => true
  | .Uint | .Uint8 | .Uint16 | .Uint32 | .Uint64 => true
  | .Float32 | .Float64 | .String | .Bool => true
  | _ => false

/-- An environment for the examples.  Numbers are read from decimal numerals
(an optional sign for `ParseInt`) and from nothing else, no text is read as a
floating-point number, letters are lowered in ASCII, a type is shown by its
name, no converter and no splitter is registered, the validator is named
`expr` and accepts every value, a value type is a primitive type or a struct,
or an array, slice or map of those, and new properties hold their pairs as
leaves. -/
def exampleEnv : Env where
  rt := exampleRuntime
  Lookup := fun tag key => lookupTag (tag.length + 1) tag key
  ParseUint := fun s =>
    match (if s = [] then none else decimal s 0) with
    | some n => .ok n
    | none => .err (syntaxError exampleRuntime "ParseUint".toList s)
  ParseInt := fun s =>
    match s with
    | '-' :: rest =>
      match (if rest = [] then none else decimal rest 0) with
      | some n => .ok (-(n : Int))
      | none => .err (syntaxError exampleRuntime "ParseInt".toList s)
    | _ =>
      match (if s = [] then none else decimal s 0) with
      | some n => .ok (n : Int)
      | none => .err (syntaxError exampleRuntime "ParseInt".toList s)
  ParseFloat := fun s => .err (syntaxError exampleRuntime "ParseFloat".toList s)
  ParseBool := parseBool exampleRuntime
  toFloat32 := fun bits => bits
  ToLower := fun s => s.map Char.toLower
  TypeName := fun t =>
    match t with
    | .basic kind name => if name = [] then kindName kind else name
    | .struct name _ => name
    | _ => []
  TypeString := fun t =>
    match t with
    | .basic kind name => if name = [] then kindName kind else name
    | .struct name _ => name
    | _ => kindName t.Kind
  converters := fun _ => none
  splitters := fun _ => none
  Validator := some { Name := "expr".toList, Field := fun _ _ => .ok () }
  IsValueType := fun t =>
    match t.Kind with
    | .Map | .Slice | .Array =>
      match t.Elem with
      | some elem => primitiveKind elem.Kind || elem.Kind == .Struct
      | none => false
    | kind => primitiveKind kind || kind == .Struct
  IsPrimitiveValueType := fun t => primitiveKind t.Kind
  newProperties := fun pairs => ⟨exampleStorage pairs []⟩

/-- The struct type `Config` of the examples, with the single field
`Port int` tagged `value:"$\x7bport\x7d"`. -/
def exampleConfig : GoType :=
  .struct "Config".toList
    [.mk "Port".toList "value:\"$\x7bport\x7d\"".toList false true (.basic .Int [])]

/-- The outcome of an inner call as the caller returns it: an error is wrapped by
`fmt.Errorf("%s: bind %s error, %w", util.FileLine(), path, err)` on the given
line, any other outcome is passed on. -/
def wrapErr (rt : Runtime) (line : Nat) (path : Str) (out : Value × Res Unit) : Value × Res Unit :=
  match out with
  | (v, .err e) => (v, .err (bindError rt line path e))
  | out => out

/-- What `BindValue` does with the text `val` that `resolve` returned: the
converter of the type is called on it when there is one, otherwise the text is
parsed according to the kind of the target. -/
def convert (env : Env) (v : Value) (t : GoType) (param : BindParam) (val : Str) :
    Value × Res Unit :=
  match env.converters t with
  | some fn =>
    match fn val with
    | .ok out => (out, .ok ())
    | .err e => (v, .err (bindError env.rt 174 param.Path e))
    | .panic => (v, .panic)
    | .timeout => (v, .timeout)
  | none => bindScalar env v t param val

/-- What `BindValue` does with the outcome of `resolve`: an error is wrapped on
line 166, a text is converted or parsed. -/
def bindResolved (env : Env) (v : Value) (t : GoType) (param : BindParam) (r : Res Str) :
    Value × Res Unit :=
  match r with
  | .err e => (v, .err (bindError env.rt 166 param.Path e))
  | .panic => (v, .panic)
  | .timeout => (v, .timeout)
  | .ok val => convert env v t param val

/-- The body of `BindValue` for a value type, before its deferred function runs. -/
def bindBody (env : Env) (p : Properties) (filter : Option Filter) (fuel : Nat) (v : Value)
    (t : GoType) (param : BindParam) : Value × Res Unit :=
  if t.Kind = .Map then bindMap env p filter fuel v t param
  else if t.Kind = .Slice then bindSlice env p filter fuel v t param
  else if t.Kind = .Array then
    (v, .err (bindError env.rt 152 param.Path (.New "use slice instead of array".toList)))
  else if (env.converters t).isNone ∧ t.Kind = .Struct then
    wrapErr env.rt 159 param.Path (bindStruct env p filter fuel v t param)
  else bindResolved env v t param (resolve env.rt p fuel param)

/-- A scalar target: a value type that is not a map, a slice or an array, and
not a struct without converter. -/
def ScalarTarget (env : Env) (t : GoType) : Prop :=
  env.IsValueType t = true ∧ t.Kind ≠ .Map ∧ t.Kind ≠ .Slice ∧ t.Kind ≠ .Array ∧
    ¬ ((env.converters t).isNone ∧ t.Kind = .Struct)

/-- The parameter of the examples for the key `maps` with the default `1`. -/
def mapsParam : BindParam :=
  { Key := "maps".toList, Tag := { Key := "maps".toList, Def := "1".toList, HasDef := true } }

/-- An environment for the examples in which a converter is registered for every
struct type and for every slice type: the converter of a struct type makes the
struct whose single field is the text and fails on the empty text, the
converter of a slice type makes the slice whose single element is the text
`converted`. -/
def converterEnv : Env :=
  { exampleEnv with
    converters := fun t =>
      match t with
      | .struct _ _ =>
        some (fun s => if s = [] then .err (.New "empty".toList) else .ok (.struct [.string s]))
      | .slice _ => some (fun _ => .ok (.slice (some [.string "converted".toList])))
      | _ => none }

/-- The properties with the single leaf `a`, of value `x`. -/
def letterProperties : Properties where
  storage := exampleStorage [("a".toList, "x".toList)] []

/-- The parameter `subParam` of the element at index `i` in the loop of `bindSlice`. -/
def elemParam (param : BindParam) (i : Nat) : BindParam :=
  { Key := indexed param.Key i, Path := indexed param.Path i }

/-- What the loop of `bindSlice` returns when the bind of an element did not
succeed: an error wrapping `ErrNotExist` ends the loop without error, any other
error is wrapped on line 246. -/
def loopExit (rt : Runtime) (path : Str) : Res Unit → Res Unit
  | .err e => if e.Is .ErrNotExist then .ok () else .err (bindError rt 246 path e)
  | r => r

/-- The properties whose only leaf is `a[0]`, holding a reference to the absent
key `x`. -/
def danglingProperties : Properties where
  storage := exampleStorage [("a[0]".toList, "$\x7bx\x7d".toList)] []

/-- The properties with the leaves `a[0]` and `a[1]`, of values `x` and `y`. -/
def listProperties : Properties where
  storage := exampleStorage [("a[0]".toList, "x".toList), ("a[1]".toList, "y".toList)] []

/-- The field tag `validate` has no directive for the validator, or an empty
one: the validator is set and `Lookup` finds nothing, or the empty text, under
its name. -/
def NoDirective (env : Env) (validate : Str) : Prop :=
  ∃ vd, env.Validator = some vd ∧
    (env.Lookup validate vd.Name = none ∨ env.Lookup validate vd.Name = some [])

/-- The pieces `getSlice` makes of a text when the tag names no splitter. -/
def commaPieces (v : Str) : List Str := (Split v ",".toList).map TrimSpace

/-- Go `strings.Join(elems, sep)`. -/
def Join : List Str → Str → Str
  | [], _ => []
  | [x], _ => x
  | x :: y :: rest, sep => x ++ sep ++ Join (y :: rest) sep

/-- The properties with the single leaf `a`, whose first piece refers to the
absent key `x`. -/
def referringProperties : Properties where
  storage := exampleStorage [("a".toList, "$\x7bx\x7d,b".toList)] []

/-- The properties with the single leaf `a`, of value `x, y`. -/
def commaProperties : Properties where
  storage := exampleStorage [("a".toList, "x, y".toList)] []

/-- The error `fmt.Errorf("%s: property %q %w", util.FileLine(), key, ErrNotExist)`
of `getSlice`, built on line 267. -/
def sliceNotExistError (rt : Runtime) (key : Str) : Err :=
  .Wrap (rt.FileLine 267 ++ ": property ".toList ++ rt.Quote key ++ " ".toList) .ErrNotExist []

/-- The parameter of the tag `$\x7bk:=\x7d`: the key `k` with the empty default. -/
def emptyDefaultParam : BindParam :=
  { Key := "k".toList, Tag := { Key := "k".toList, HasDef := true } }

/-- The error `target` is the error itself or is reached from it by unwrapping. -/
inductive Err.Wraps : Err → Err → Prop where
  | here (e : Err) : Err.Wraps e e
  | inner (pre post : Str) (inner e : Err) : Err.Wraps inner e → Err.Wraps (.Wrap pre inner post) e

/-- The error `fmt.Errorf("%s: unknown splitter %q", util.FileLine(), s)` of
`getSlice`, built on line 297. -/
def unknownSplitterError (rt : Runtime) (name : Str) : Err :=
  .New (rt.FileLine 297 ++ ": unknown splitter ".toList ++ rt.Quote name)

/-- The error `fmt.Errorf("%s: split error: %w, value: %q", util.FileLine(), err, strVal)`
of `getSlice`, built on line 294. -/
def splitError (rt : Runtime) (e : Err) (strVal : Str) : Err :=
  .Wrap (rt.FileLine 294 ++ ": split error: ".toList) e (", value: ".toList ++ rt.Quote strVal)

/-- The text `strVal` that `getSlice` goes on to split is `s`: the key has no
element `[0]`, and either the store has the key and `Get` returns `s`, or the
key is absent, the default is `s` and the element type is primitive or has a
converter. -/
def SplitSource (env : Env) (p : Properties) (et : GoType) (param : BindParam) (s : Str) : Prop :=
  p.Has (param.Key ++ "[0]".toList) = false ∧
    ((p.Has param.Key = true ∧ p.Get param.Key = s) ∨
      (p.Has param.Key = false ∧ param.Tag.HasDef = true ∧ param.Tag.Def = s ∧
        ¬ (¬ env.IsPrimitiveValueType et ∧ (env.converters et).isNone)))

/-- The parameter of the tag `$\x7bk:=a\x7d>>nosuch`. -/
def splitterParam : BindParam :=
  { Key := "k".toList
    Tag := { Key := "k".toList, Def := "a".toList, HasDef := true, Splitter := "nosuch".toList } }

/-- An environment for the examples with the splitter `fail`, which fails on
every text with the error `bad`. -/
def splitterEnv : Env :=
  { exampleEnv with
    splitters := fun name =>
      if name = "fail".toList then some (some (fun _ => .err (.New "bad".toList))) else none }

/-- The error `errors.New("map can't have a non-empty default value")`. -/
def mapDefaultError : Err := .New "map can't have a non-empty default value".toList

/-- The error `errors.New("struct can't have a non-empty default value")`. -/
def structDefaultError : Err := .New "struct can't have a non-empty default value".toList

/-- The parameter without its default: the same key, path, tag key, splitter
and field tag. -/
def BindParam.withoutDefault (param : BindParam) : BindParam :=
  { param with Tag := { param.Tag with HasDef := false, Def := [] } }

/-- The parameter of the tag `$\x7bmaps:=\x7d`: the key `maps` with the empty default. -/
def mapsEmptyParam : BindParam :=
  { Key := "maps".toList, Tag := { Key := "maps".toList, HasDef := true } }

/-- The properties with the single leaf `DB.host`, of value `x`. -/
def upperProperties : Properties where
  storage := exampleStorage [("DB.host".toList, "x".toList)] []

/-- The field `Host string`, exported, without tag. -/
def hostField : StructField := .mk "Host".toList [] false true (.basic .String [])

/-- The field `Profile string`, exported, without tag. -/
def profileField : StructField := .mk "Profile".toList [] false true (.basic .String [])

/-- The properties with the single leaf `port`, of value `8080`. -/
def portProperties : Properties where
  storage := exampleStorage [("port".toList, "8080".toList)] []

/-- The embedded field `Config` of the struct type `Config` of the examples,
exported, without tag. -/
def embeddedField : StructField := .mk "Config".toList [] true true exampleConfig

/-- The field `Port int` tagged `value:"$\x7bport\x7d" expr:"$>0"`. -/
def validatedField : StructField :=
  .mk "Port".toList "value:\"$\x7bport\x7d\" expr:\"$>0\"".toList false true (.basic .Int [])

/-- The parameter of the field `Port` of a struct bound at the empty key with
the path `T`. -/
def validatedParam : BindParam :=
  { Key := "port".toList, Path := "T.Port".toList, Tag := { Key := "port".toList }
    Validate := "value:\"$\x7bport\x7d\" expr:\"$>0\"".toList }

/-- An environment for the examples whose validator refuses every value with
the error `refused`. -/
def refusingEnv : Env :=
  { exampleEnv with
    Validator := some { Name := "expr".toList, Field := fun _ _ => .err (.New "refused".toList) } }

/-- What `expr.Eval` returned: a boolean, or a value of another type. -/
inductive EvalResult where
  | bool (b : Bool) : EvalResult
  | other : EvalResult
  deriving DecidableEq, Repr

/-- What `Validator.Field` takes from outside the repository: the function
`expr.Eval` of `github.com/expr-lang/expr` on an expression and the value bound
to `$`, and the formatting of a value by the verb `%v`. -/
structure ExprLib where
  /-- The function `expr.Eval(tag, map[string]interface{}{"$": i})`. -/
  Eval : Str → Value → Res EvalResult
  /-- The formatting of a value by `%v`. -/
  FormatV : Value → Str

/-- The method `(*Validator).Name` of package `expr`. -/
def Validator.Name : Str := "expr".toList

/-- The method `(*Validator).Field` of package `expr`. -/
def Validator.Field (rt : Runtime) (lib : ExprLib) (tag : Str) (i : Value) : Res Unit :=
  match lib.Eval tag i with
  | .err err => .err (.Wrap ("eval ".toList ++ rt.Quote tag ++ " returns error, ".toList) err [])
  | .panic => .panic
  | .timeout => .timeout
  | .ok r =>
    match r with
    | .other => .err (.New ("eval ".toList ++ rt.Quote tag ++ " doesn't return bool value".toList))
    | .bool ret =>
      if ¬ ret then
        .err (.New ("validate failed on ".toList ++ rt.Quote tag ++ " for value ".toList ++
          lib.FormatV i))
      else .ok ()

/-- A value given to `Properties.Set` or returned by a reader: nil, a scalar
with its spelling as a text, a list, or a map with texts as keys. -/
inductive Nested where
  | nil : Nested
  | scalar (text : Str) : Nested
  | list (elems : List Nested) : Nested
  | map (entries : List (Str × Nested)) : Nested

/-- What package `conf` takes from the packages `store` and `flat`, which are
not among the sources, and from the Go run time, on a state `σ` of a storage. -/
structure StoreOps (σ : Type) where
  /-- The storage `store.NewStorage()` returns. -/
  NewStorage : σ
  /-- The method `(*Storage).Copy`. -/
  Copy : σ → σ
  /-- The method `(*Storage).Set`: the storage after the call and the error. -/
  Set : σ → Str → Str → σ × Res Unit
  /-- The methods of a storage that read it. -/
  view : σ → Storage
  /-- The method `(*Storage).Keys`: the keys of the leaves, sorted. -/
  Keys : σ → List Str
  /-- The entries `flat.FlattenValue(key, val, m)` puts into the empty map `m`. -/
  FlattenValue : Str → Nested → List (Str × Str)
  /-- The entries of the map `flat.FlattenMap(m)` returns. -/
  FlattenMap : List (Str × Nested) → List (Str × Str)
  /-- The order in which a `range` loop visits the entries of a map: some
  arrangement of them. -/
  range : List (Str × Str) → List (Str × Str)

/-- The method `(*Properties).store`. -/
def Properties.store {σ : Type} (ops : StoreOps σ) (s : σ) (key val : Str) : σ × Res Unit :=
  ops.Set s key val

/-- The loop of the method `(*Properties).merge` over the entries of the map in
the order the loop visits them. -/
def Properties.mergeLoop {σ : Type} (ops : StoreOps σ) : σ → List (Str × Str) → σ × Res Unit
  | s, [] => (s, .ok ())
  | s, (key, val) :: rest =>
    match Properties.store ops s key val with
    | (s, .ok ()) => Properties.mergeLoop ops s rest
    | (s, r) => (s, r)

/-- The method `(*Properties).merge`. -/
def Properties.merge {σ : Type} (ops : StoreOps σ) (s : σ) (m : List (Str × Str)) :
    σ × Res Unit :=
  Properties.mergeLoop ops s (ops.range m)

/-- The method `(*Properties).Set`: the storage after the call and the error. -/
def Properties.Set {σ : Type} (ops : StoreOps σ) (s : σ) (key : Str) (val : Nested) :
    σ × Res Unit :=
  if key = [] then (s, .err (.New "key is empty".toList))
  else Properties.merge ops s (ops.FlattenValue key val)

/-- The struct `CommandArgs`. -/
structure CommandArgs where
  /-- The option flag. -/
  option : Str := "-D".toList
  /-- The arguments of the command line. -/
  cmdArgs : List Str := []

/-- The loop of `(*CommandArgs).copyTo`, entered at some index `i` with the
arguments from that index on: the first of them is `cmdArgs[i]`, the second
`cmdArgs[i+1]`, and `i >= n-1` holds when there is no second. -/
def CommandArgs.copyToLoop {σ : Type} (ops : StoreOps σ) (option : Str) :
    List Str → σ → σ × Res Unit
  | [], out => (out, .ok ())
  | s :: rest, out =>
    if s = option then
      match rest with
      | [] => (out, .err (.New "cmd option -D needs arg".toList))
      | next :: _ =>
        let ss := SplitN "=".toList 2 next
        let ss := if ss.length = 1 then ss ++ ["true".toList] else ss
        match ss with
        | k :: v :: _ =>
          match Properties.Set ops out k (.scalar v) with
          | (out, .ok ()) => CommandArgs.copyToLoop ops option rest out
          | (out, r) => (out, r)
        | _ => (out, .panic)
    else CommandArgs.copyToLoop ops option rest out

/-- The method `(*CommandArgs).copyTo`: the properties after the call and the error. -/
def CommandArgs.copyTo {σ : Type} (ops : StoreOps σ) (c : CommandArgs) (out : σ) :
    σ × Res Unit :=
  CommandArgs.copyToLoop ops c.option c.cmdArgs out

/-- The pair `k`, `v` an argument `k=v` stands for: the text before its first
`=` and the text after it, or the whole argument and `true` when it has no `=`. -/
def keyValue (arg : Str) : Str × Str :=
  if '=' ∈ arg then (arg.takeWhile (· ≠ '='), (arg.dropWhile (· ≠ '=')).drop 1)
  else (arg, "true".toList)

/-- The reference scan at index `i` of `argv`: when `argv[i]` is the option flag,
it fails if `i` is the last index and otherwise sets the pair of `argv[i+1]`;
any other element writes nothing. -/
def scanAt {σ : Type} (ops : StoreOps σ) (option : Str) (argv : List Str) (i : Nat) (out : σ) :
    σ × Res Unit :=
  if argv[i]? = some option then
    if i + 1 = argv.length then (out, .err (.New "cmd option -D needs arg".toList))
    else
      Properties.Set ops out (keyValue (argv.getD (i + 1) [])).1
        (.scalar (keyValue (argv.getD (i + 1) [])).2)
  else (out, .ok ())

/-- The reference scan over the given indices, in their order: the first step
that does not succeed ends it. -/
def scanIndices {σ : Type} (ops : StoreOps σ) (option : Str) (argv : List Str) :
    List Nat → σ → σ × Res Unit
  | [], out => (out, .ok ())
  | i :: rest, out =>
    match scanAt ops option argv i out with
    | (out, .ok ()) => scanIndices ops option argv rest out
    | (out, r) => (out, r)

/-- The reference scan of `argv`, left to right. -/
def referenceScan {σ : Type} (ops : StoreOps σ) (option : Str) (argv : List Str) (out : σ) :
    σ × Res Unit :=
  scanIndices ops option argv (List.range argv.length) out

/-- A storage for the examples that is the list of the pairs written to it, in
the order of the writes: every write succeeds, a scalar flattens to the single
entry of its key, and a map is visited in the order of its entries. -/
def recordOps : StoreOps (List (Str × Str)) where
  NewStorage := []
  Copy := fun s => s
  Set := fun s key val => (s ++ [(key, val)], .ok ())
  view := fun s => exampleStorage s []
  Keys := fun s => s.map Prod.fst
  FlattenValue := fun key val =>
    match val with
    | .scalar text => [(key, text)]
    | _ => []
  FlattenMap := fun _ => []
  range := fun m => m

/-- What the configuration layers take from the Go standard library, from the
operating system and from the registry of readers. -/
structure Host where
  /-- Go `strings.ToLower`. -/
  ToLower : Str → Str
  /-- Go `regexp.Compile`, a compiled expression being given by its method
  `MatchString`. -/
  Compile : Str → Res (Str → Bool)
  /-- The directory `os.Getwd()` returns. -/
  Getwd : Str
  /-- Go `filepath.IsAbs`. -/
  IsAbs : Str → Bool
  /-- Go `filepath.Join` of two elements. -/
  Join : Str → Str → Str
  /-- Go `filepath.Ext`. -/
  Ext : Str → Str
  /-- Go `os.ReadFile`. -/
  ReadFile : Str → Res Str
  /-- Go `os.IsNotExist`. -/
  IsNotExist : Err → Bool
  /-- The registry `readers`: the reader of a file extension, `none` when none
  is registered; a reader returns the entries of a map. -/
  readers : Str → Option (Str → Res (List (Str × Nested)))

/-- The struct `Environment`. -/
structure Environment where
  /-- The field `prefix`: variables whose name starts with it are always taken. -/
  pre : Str := "GS_".toList
  /-- The environment, a list of entries `KEY=VAL`. -/
  environ : List Str := []

/-- The constant `IncludeEnvPatterns`. -/
def IncludeEnvPatterns : Str := "INCLUDE_ENV_PATTERNS".toList

/-- The constant `ExcludeEnvPatterns`. -/
def ExcludeEnvPatterns : Str := "EXCLUDE_ENV_PATTERNS".toList

/-- The loop of `(*Environment).lookupEnv` over the entries, `key` ending in `=`. -/
def Environment.lookupEnvLoop (key : Str) : List Str → Option Str
  | [] => none
  | s :: rest =>
    if HasPrefix s key then some (TrimSpace (s.drop key.length))
    else Environment.lookupEnvLoop key rest

/-- The method `(*Environment).lookupEnv`: the value, `none` when not found. -/
def Environment.lookupEnv (c : Environment) (key : Str) : Option Str :=
  Environment.lookupEnvLoop (TrimSpace key ++ "=".toList) c.environ

/-- The closure `toRex` of `(*Environment).copyTo`: the compiled patterns, or
the first error of `regexp.Compile`. -/
def Environment.toRex (host : Host) : List Str → Res (List (Str → Bool))
  | [] => .ok []
  | v :: rest =>
    match host.Compile v with
    | .ok exp =>
      match Environment.toRex host rest with
      | .ok rex => .ok (exp :: rex)
      | r => r
    | .err e => .err e
    | .panic => .panic
    | .timeout => .timeout

/-- The closure `matches` of `(*Environment).copyTo`. -/
def Environment.matches : List (Str → Bool) → Str → Bool
  | [], _ => false
  | r :: rest, s => if r s then true else Environment.matches rest s

/-- The variable `includes` of `(*Environment).copyTo`. -/
def Environment.includes (c : Environment) : List Str :=
  match c.lookupEnv IncludeEnvPatterns with
  | some s => Split s ",".toList
  | none => [".*".toList]

/-- The variable `excludes` of `(*Environment).copyTo`. -/
def Environment.excludes (c : Environment) : List Str :=
  match c.lookupEnv ExcludeEnvPatterns with
  | some s => Split s ",".toList
  | none => []

/-- The last loop of `(*Environment).copyTo` over the entries of the environment. -/
def Environment.copyToLoop {σ : Type} (ops : StoreOps σ) (host : Host) (pre : Str)
    (includeRex excludeRex : List (Str → Bool)) : List Str → σ → σ × Res Unit
  | [], p => (p, .ok ())
  | env :: rest, p =>
    let ss := SplitN "=".toList 2 env
    match ss with
    | [] => (p, .panic)
    | k :: more =>
      let v := match more with
        | [] => []
        | v :: _ => v
      if HasPrefix k pre then
        match Properties.Set ops p (host.ToLower (underscoresToDots (k.drop pre.length))) (.scalar v) with
        | (p, .ok ()) => Environment.copyToLoop ops host pre includeRex excludeRex rest p
        | (p, r) => (p, r)
      else if Environment.matches includeRex k && !Environment.matches excludeRex k then
        match Properties.Set ops p (host.ToLower (underscoresToDots k)) (.scalar v) with
        | (p, .ok ()) => Environment.copyToLoop ops host pre includeRex excludeRex rest p
        | (p, r) => (p, r)
      else Environment.copyToLoop ops host pre includeRex excludeRex rest p

/-- The method `(*Environment).copyTo`: the properties after the call and the error. -/
def Environment.copyTo {σ : Type} (ops : StoreOps σ) (host : Host) (c : Environment) (p : σ) :
    σ × Res Unit :=
  match Environment.toRex host c.includes with
  | .ok includeRex =>
    match Environment.toRex host c.excludes with
    | .ok excludeRex => Environment.copyToLoop ops host c.pre includeRex excludeRex c.environ p
    | .err e => (p, .err e)
    | .panic => (p, .panic)
    | .timeout => (p, .timeout)
  | .err e => (p, .err e)
  | .panic => (p, .panic)
  | .timeout => (p, .timeout)

/-- The name `KEY` and the value `VAL` of an entry `KEY=VAL`: the text before
its first `=` and the text after it, or the whole entry and the empty text when
it has no `=`. -/
def entryPair (entry : Str) : Str × Str :=
  if '=' ∈ entry then (entry.takeWhile (· ≠ '='), (entry.dropWhile (· ≠ '=')).drop 1)
  else (entry, [])

/-- The selection rule: the name under which a variable `KEY` is imported,
`none` when it is not. -/
def importedAs (pre : Str) (includeRex excludeRex : List (Str → Bool)) (KEY : Str) : Option Str :=
  if pre.isPrefixOf KEY then some (KEY.drop pre.length)
  else if includeRex.any (fun r => r KEY) ∧ ¬ excludeRex.any (fun r => r KEY) then some KEY
  else none

/-- The key and the value written for an entry of the environment, `none` when
the entry is not imported. -/
def selectEntry (host : Host) (pre : Str) (includeRex excludeRex : List (Str → Bool))
    (entry : Str) : Option (Str × Str) :=
  (importedAs pre includeRex excludeRex (entryPair entry).1).map
    (fun name => (host.ToLower (underscoresToDots name), (entryPair entry).2))

/-- Writing the given keys with their values via `Set`, in the order of the
list: the first write that does not succeed ends it. -/
def writeAll {σ : Type} (ops : StoreOps σ) : List (Str × Str) → σ → σ × Res Unit
  | [], p => (p, .ok ())
  | (key, val) :: rest, p =>
    match Properties.Set ops p key (.scalar val) with
    | (p, .ok ()) => writeAll ops rest p
    | (p, r) => (p, r)

/-- An example of a host: the regular expressions it compiles are `.*` and
those of the form `^text.*`, it has the directory `/work`, absolute paths start
with `/`, the extension of a path starts at the last `.` of its last element,
and it has no files and no readers. -/
def exampleHost : Host where
  ToLower := fun s => s.map Char.toLower
  Compile := fun v =>
    if v = ".*".toList then .ok (fun _ => true)
    else if HasPrefix v "^".toList && HasPrefix v.reverse "*.".toList then
      .ok (fun s => HasPrefix s ((v.drop 1).take (v.length - 3)))
    else .err (.New ("error parsing regexp: ".toList ++ v))
  Getwd := "/work".toList
  IsAbs := fun s => HasPrefix s "/".toList
  Join := fun a b => a ++ "/".toList ++ b
  Ext := fun s =>
    if '.' ∈ s.reverse.takeWhile (· ≠ '/') then
      '.' :: (s.reverse.takeWhile (· ≠ '.')).reverse
    else []
  ReadFile := fun _ => .err (.New "no such file or directory".toList)
  IsNotExist := fun e => e.Error == "no such file or directory".toList
  readers := fun _ => none

/-- The environment of the configuration test. -/
def exampleEnvironment : Environment where
  pre := "SK_".toList
  environ := ["INCLUDE_ENV_PATTERNS=^ENVS_.*".toList, "EXCLUDE_ENV_PATTERNS=^ENVS_INT_SUB.*".toList,
    "SK_ENVS_INT=1".toList, "ENVS_MAP_A=1".toList, "ENVS_INT_SUB=1".toList]

/-- The error `fmt.Errorf("unsupported file type %q", ext)` of `(*Properties).Bytes`. -/
def unsupportedError (rt : Runtime) (ext : Str) : Err :=
  .New ("unsupported file type ".toList ++ rt.Quote ext)

/-- The method `(*Properties).Merge`. -/
def Properties.Merge {σ : Type} (ops : StoreOps σ) (s : σ) (m : List (Str × Nested)) :
    σ × Res Unit :=
  Properties.merge ops s (ops.FlattenMap m)

/-- The method `(*Properties).Bytes`: the storage after the call and the error. -/
def Properties.Bytes {σ : Type} (rt : Runtime) (ops : StoreOps σ) (host : Host) (s : σ)
    (b ext : Str) : σ × Res Unit :=
  match host.readers ext with
  | none => (s, .err (unsupportedError rt ext))
  | some r =>
    match r b with
    | .ok m => Properties.Merge ops s m
    | .err e => (s, .err e)
    | .panic => (s, .panic)
    | .timeout => (s, .timeout)

/-- The method `(*Properties).Load`: the storage after the call and the error. -/
def Properties.Load {σ : Type} (rt : Runtime) (ops : StoreOps σ) (host : Host) (s : σ)
    (file : Str) : σ × Res Unit :=
  match host.ReadFile file with
  | .ok b => Properties.Bytes rt ops host s b (host.Ext file)
  | .err e => (s, .err e)
  | .panic => (s, .panic)
  | .timeout => (s, .timeout)

/-- The function `Load` of package `conf`: the properties of a file. -/
def Load {σ : Type} (rt : Runtime) (ops : StoreOps σ) (host : Host) (file : Str) : Res σ :=
  match Properties.Load rt ops host ops.NewStorage file with
  | (p, .ok ()) => .ok p
  | (_, .err e) => .err e
  | (_, .panic) => .panic
  | (_, .timeout) => .timeout

/-- The struct `PropertySources`. -/
structure PropertySources where
  /-- The working directory, empty when not set. -/
  workDir : Str := []
  /-- The locations, one list for every call of `Add`. -/
  locations : List (List Str) := []

/-- The loop of `(*PropertySources).copyTo` over the keys of the properties `c`
of a file. -/
def PropertySources.copyKeys {σ : Type} (ops : StoreOps σ) (c : σ) : List Str → σ → σ × Res Unit
  | [], out => (out, .ok ())
  | key :: rest, out =>
    match Properties.Set ops out key (.scalar (Properties.Get ⟨ops.view c⟩ key)) with
    | (out, .ok ()) => PropertySources.copyKeys ops c rest out
    | (out, r) => (out, r)

/-- The inner loop of `(*PropertySources).copyTo`, over the locations of one
list; the calls of `Resolve` get the given fuel. -/
def PropertySources.copyToInner {σ : Type} (rt : Runtime) (ops : StoreOps σ) (host : Host)
    (fuel : Nat) (workDir : Str) : List Str → σ → σ × Res Unit
  | [], out => (out, .ok ())
  | s :: ss, out =>
    match Properties.Resolve rt ⟨ops.view out⟩ fuel s with
    | .ok filename =>
      let filename := if host.IsAbs filename then filename else host.Join workDir filename
      match Load rt ops host filename with
      | .ok c =>
        match PropertySources.copyKeys ops c (ops.Keys c) out with
        | (out, .ok ()) => PropertySources.copyToInner rt ops host fuel workDir ss out
        | (out, r) => (out, r)
      | .err e =>
        if host.IsNotExist e then PropertySources.copyToInner rt ops host fuel workDir ss out
        else (out, .err e)
      | .panic => (out, .panic)
      | .timeout => (out, .timeout)
    | .err e => (out, .err e)
    | .panic => (out, .panic)
    | .timeout => (out, .timeout)

/-- The outer loop of `(*PropertySources).copyTo`, over the lists of locations. -/
def PropertySources.copyToOuter {σ : Type} (rt : Runtime) (ops : StoreOps σ) (host : Host)
    (fuel : Nat) (workDir : Str) : List (List Str) → σ → σ × Res Unit
  | [], out => (out, .ok ())
  | ss :: rest, out =>
    match PropertySources.copyToInner rt ops host fuel workDir ss out with
    | (out, .ok ()) => PropertySources.copyToOuter rt ops host fuel workDir rest out
    | (out, r) => (out, r)

/-- The method `(*PropertySources).copyTo`: the properties after the call and
the error. -/
def PropertySources.copyTo {σ : Type} (rt : Runtime) (ops : StoreOps σ) (host : Host)
    (fuel : Nat) (p : PropertySources) (out : σ) : σ × Res Unit :=
  PropertySources.copyToOuter rt ops host fuel
    (if p.workDir = [] then host.Getwd else p.workDir) p.locations out

/-- The struct `Configuration`, over the states `σ` of a storage. -/
structure Configuration (σ : Type) where
  /-- The properties set by code. -/
  prop : σ
  /-- The locations of the local static files. -/
  file : PropertySources := {}
  /-- The environment variables. -/
  env : Environment := {}
  /-- The command line arguments. -/
  args : CommandArgs := {}
  /-- The locations of the dynamic sources. -/
  dync : PropertySources := {}

/-- The function `merge` of package `cfgr`, a source being given by its method
`copyTo`: the properties, or the error of the first source that fails. -/
def merge {σ : Type} (p : σ) : List (σ → σ × Res Unit) → Res σ
  | [] => .ok p
  | s :: sources =>
    match s p with
    | (p, .ok ()) => merge p sources
    | (_, .err e) => .err e
    | (_, .panic) => .panic
    | (_, .timeout) => .timeout

/-- The method `(*Configuration).Refresh`. -/
def Configuration.Refresh {σ : Type} (rt : Runtime) (ops : StoreOps σ) (host : Host) (fuel : Nat)
    (c : Configuration σ) : Res σ :=
  merge (ops.Copy c.prop)
    [c.file.copyTo rt ops host fuel, c.env.copyTo ops host, c.args.copyTo ops,
      c.dync.copyTo rt ops host fuel]

/-- The location `testdata/conf-$\x7bdev\x7d.yaml` of the configuration test. -/
def devLocation : Str :=
  "testdata/conf-".toList ++ (sOpen ++ "dev".toList ++ sClose) ++ ".yaml".toList

/-- The name of the file of a location that resolved to `filename`: the name
itself when absolute, joined to the working directory otherwise. -/
def locationFile (host : Host) (workDir filename : Str) : Str :=
  if host.IsAbs filename then filename else host.Join workDir filename

/-- An example of a host that differs from `exampleHost` in that every file
exists and is empty. -/
def fileHost : Host :=
  { exampleHost with ReadFile := fun _ => .ok [] }

/-- The location `testdata/conf.unknown_ext` of the configuration test. -/
def unknownLocation : Str := "testdata/conf.unknown_ext".toList

/-- Modelled from the spec: a segment of a key, the name of a map descent by `.`
or the index of a list descent by `[n]`. -/
inductive PathSeg where
  | key (name : Str) : PathSeg
  | index (i : Nat) : PathSeg
  deriving DecidableEq, Repr

/-- Modelled from the spec: whether the segment is bracketed. -/
def PathSeg.isIndex : PathSeg → Bool
  | .key _ => false
  | .index _ => true

/-- Modelled from the spec: the name of a dotted segment, the numeral of a
bracketed one. -/
def PathSeg.text : PathSeg → Str
  | .key name => name
  | .index i => (Nat.repr i).toList

/-- Modelled from the spec: a node of the store, a Leaf with its value, a Map
(`array` false) or a List (`array` true) with its children under their
segments, or an Empty with the literal that established it. -/
inductive Node where
  | leaf (value : Str) : Node
  | branch (array : Bool) (children : List (PathSeg × Node)) : Node
  | empty (literal : Str) : Node

/-- Modelled from the spec: the sentinel the flattener emits for an empty map. -/
def emptyMapLiteral : Str := "<empty-map>".toList

/-- Modelled from the spec: the sentinel the flattener emits for an empty list. -/
def emptyListLiteral : Str := "<empty-list>".toList

/-- Modelled from the spec: the text of the segments after the first one. -/
def joinTail : List PathSeg → Str
  | [] => []
  | .key name :: rest => '.' :: name ++ joinTail rest
  | .index i :: rest => indexed [] i ++ joinTail rest

/-- Modelled from the spec: the key of a path, names joined by `.` and indices
written `[n]`. -/
def JoinPath : List PathSeg → Str
  | .key name :: rest => name ++ joinTail rest
  | path => joinTail path

/-- Modelled from the spec: the state of the parse of a key, in a name with the
characters read so far, in a bracket with the digits read so far, or after a
closing bracket. -/
inductive SplitState where
  | name (cur : Str) : SplitState
  | index (digits : Str) : SplitState
  | closed : SplitState

/-- Modelled from the spec: the characters of a segment, `[A-Za-z0-9_-]`. -/
def isKeyChar (c : Char) : Bool := c.isAlphanum || c = '_' || c = '-'

/-- Modelled from the spec: the parse of the rest of a key; `none` for a text
outside the grammar of keys, a case for which the spec gives no outcome. -/
def splitPathLoop : List Char → SplitState → List PathSeg → Option (List PathSeg)
  | [], .name cur, acc => if cur = [] then none else some (acc ++ [.key cur])
  | [], .index _, _ => none
  | [], .closed, acc => some acc
  | c :: rest, .name cur, acc =>
    if c = '.' then
      if cur = [] then none else splitPathLoop rest (.name []) (acc ++ [.key cur])
    else if c = '[' then
      if cur = [] then none else splitPathLoop rest (.index []) (acc ++ [.key cur])
    else if isKeyChar c then splitPathLoop rest (.name (cur ++ [c])) acc
    else none
  | c :: rest, .index digits, acc =>
    if c = ']' then
      if digits = [] then none
      else
        match decimal digits 0 with
        | some i => splitPathLoop rest .closed (acc ++ [.index i])
        | none => none
    else splitPathLoop rest (.index (digits ++ [c])) acc
  | c :: rest, .closed, acc =>
    if c = '.' then splitPathLoop rest (.name []) acc
    else if c = '[' then splitPathLoop rest (.index []) acc
    else none

/-- Modelled from the spec: the segments of a key, a dotted path with optional
bracketed indices. -/
def SplitPath (key : Str) : Option (List PathSeg) := splitPathLoop key (.name []) []

/-- Modelled from the spec: the error of a write that needs the node at key `X`,
which is `shape`, to have another shape, `Y` being the key written. -/
def shapeError (X shape Y : Str) : Err :=
  .New ("property '".toList ++ X ++ "' is ".toList ++ shape ++ " but '".toList ++ Y ++
    "' wants other type".toList)

/-- Modelled from the spec: how the message of a shape error names a Map or a List. -/
def branchWord (array : Bool) : Str := if array then "an array".toList else "a map".toList

/-- Modelled from the spec: the children of a node with the child under a
segment replaced, or added after the others. -/
def putChild : List (PathSeg × Node) → PathSeg → Node → List (PathSeg × Node)
  | [], seg, n => [(seg, n)]
  | (s, m) :: rest, seg, n =>
    if s = seg then (seg, n) :: rest else (s, m) :: putChild rest seg n

/-- Modelled from the spec: the node a value installs where there is none, an
Empty for the literal of an empty map or list and a Leaf for any other value. -/
def newNode (val : Str) : Node :=
  if val = emptyMapLiteral ∨ val = emptyListLiteral then .empty val else .leaf val

/-- Modelled from the spec: the last step of `Set`, at the node of the whole
key, whose text is `X`: a Leaf is installed where there is no node, an Empty or
a Leaf, and a Map or a List is a shape error; the literal of an empty map or
list installs an Empty where there is no node or an Empty, leaves a Map,
respectively a List, as it is, and is a shape error on any other node. -/
def Node.install (X key val : Str) : Option Node → Res Node
  | none => .ok (newNode val)
  | some (.empty _) => .ok (newNode val)
  | some (.leaf _) =>
    if val = emptyMapLiteral ∨ val = emptyListLiteral then
      .err (shapeError X "a value".toList key)
    else .ok (.leaf val)
  | some (.branch array children) =>
    if val = (if array then emptyListLiteral else emptyMapLiteral) then
      .ok (.branch array children)
    else .err (shapeError X (branchWord array) key)

/-- Modelled from the spec: the walk of `Set` from the node at the path `here`
along the segments left: below a bracketed segment the node must be a List or
Empty, below a dotted one a Map or Empty, and the last step installs the value;
the result is the node after the write. -/
def Node.set (key val : Str) : List PathSeg → List PathSeg → Option Node → Res Node
  | here, [], cur => Node.install (JoinPath here) key val cur
  | here, seg :: more, cur =>
    match cur with
    | some (.leaf _) => .err (shapeError (JoinPath here) "a value".toList key)
    | some (.branch array children) =>
      if array = seg.isIndex then
        match Node.set key val (here ++ [seg]) more (children.lookup seg) with
        | .ok child => .ok (.branch array (putChild children seg child))
        | r => r
      else .err (shapeError (JoinPath here) (branchWord array) key)
    | _ =>
      match Node.set key val (here ++ [seg]) more none with
      | .ok child => .ok (.branch seg.isIndex [(seg, child)])
      | r => r

/-- Modelled from the spec: the node reached from a node along a path, a dotted
segment descending a Map and a bracketed one a List. -/
def Node.get : Option Node → List PathSeg → Option Node
  | cur, [] => cur
  | some (.branch array children), seg :: more =>
    if array = seg.isIndex then Node.get (children.lookup seg) more else none
  | _, _ :: _ => none

mutual

/-- Modelled from the spec: the leaves below a node at the path `here`, with
their paths. -/
def Node.leaves : Node → List PathSeg → List (List PathSeg × Str)
  | .leaf v, here => [(here, v)]
  | .branch _ children, here => Node.leavesOf children here
  | .empty _, _ => []

/-- Modelled from the spec: the leaves below the children of a node. -/
def Node.leavesOf : List (PathSeg × Node) → List PathSeg → List (List PathSeg × Str)
  | [], _ => []
  | (seg, n) :: rest, here => Node.leaves n (here ++ [seg]) ++ Node.leavesOf rest here

end

/-- Modelled from the spec: the state of the Store, its root node, `none` as
long as nothing was written. -/
abbrev Store := Option Node

/-- Modelled from the spec: the operation `Set(key, value)` of the Store, by
the Set algorithm; a write that fails leaves the Store as it was.  For a key
outside the grammar, a case for which the spec gives no outcome, it fails. -/
def Store.Set (s : Store) (key val : Str) : Store × Res Unit :=
  match SplitPath key with
  | none => (s, .err (.New ("invalid key '".toList ++ key ++ "'".toList)))
  | some path =>
    match Node.set key val [] path s with
    | .ok root => (some root, .ok ())
    | .err e => (s, .err e)
    | .panic => (s, .panic)
    | .timeout => (s, .timeout)

/-- Modelled from the spec: the value of the Leaf at a path. -/
def Node.leafAt (s : Option Node) (path : List PathSeg) : Option Str :=
  match Node.get s path with
  | some (.leaf v) => some v
  | _ => none

/-- Modelled from the spec: the operation `Get(key)` of the Store, which finds
a leaf only. -/
def Store.Get (s : Store) (key : Str) : Option Str :=
  match SplitPath key with
  | some path => Node.leafAt s path
  | none => none

/-- Modelled from the spec: the operation `Has(key)` of the Store, true for
any node, leaf or not. -/
def Store.Has (s : Store) (key : Str) : Bool :=
  match SplitPath key with
  | some path => (Node.get s path).isSome
  | none => false

/-- Modelled from the spec: the operation `SubKeys(key)` of the Store: the keys
of a Map in insertion order, the indices `0`, `1`, … of a List, and the error
`property 'K' is value` for a Leaf. -/
def Store.SubKeys (s : Store) (key : Str) : Res (List Str) :=
  match SplitPath key with
  | some path =>
    match Node.get s path with
    | some (.leaf _) => .err (.New ("property '".toList ++ key ++ "' is value".toList))
    | some (.branch true children) =>
      .ok ((List.range children.length).map (fun i => (Nat.repr i).toList))
    | some (.branch false children) => .ok (children.map (fun c => c.1.text))
    | _ => .ok []
  | none => .ok []

/-- Modelled from the spec: the operation `Keys()` of the Store, the sorted
list of the leaf keys. -/
def Store.Keys (s : Store) : List Str :=
  match s with
  | none => []
  | some root => ((Node.leaves root []).map (fun l => JoinPath l.1)).insertionSort (· ≤ ·)

/-- Modelled from the spec: the entries of a flat map with the value of a key
replaced, or the entry added after the others. -/
def putEntry : List (Str × Str) → Str → Str → List (Str × Str)
  | [], key, val => [(key, val)]
  | (k, v) :: rest, key, val =>
    if k = key then (key, val) :: rest else (k, v) :: putEntry rest key val

mutual

/-- Modelled from the spec: the Flattener at the path `key`, adding to the flat
map `m`: a scalar gives the entry of its key, an empty list or map the
sentinel of its key, any other list or map the entries of its elements under
the indexed, respectively dotted, keys and no entry for itself.  For nil, which
the spec does not name, nothing is added. -/
def flattenValue : Nested → Str → List (Str × Str) → List (Str × Str)
  | .nil, _, m => m
  | .scalar text, key, m => putEntry m key text
  | .list [], key, m => putEntry m key emptyListLiteral
  | .list (e :: es), key, m => flattenList (e :: es) key 0 m
  | .map [], key, m => putEntry m key emptyMapLiteral
  | .map (e :: es), key, m => flattenEntries (e :: es) key m

/-- Modelled from the spec: the Flattener on the elements of a list from index
`i` on. -/
def flattenList : List Nested → Str → Nat → List (Str × Str) → List (Str × Str)
  | [], _, _, m => m
  | e :: es, key, i, m => flattenList es key (i + 1) (flattenValue e (indexed key i) m)

/-- Modelled from the spec: the Flattener on the entries of a map. -/
def flattenEntries : List (Str × Nested) → Str → List (Str × Str) → List (Str × Str)
  | [], _, m => m
  | (k, v) :: es, key, m => flattenEntries es key (flattenValue v (key ++ ".".toList ++ k) m)

end

/-- Modelled from the spec: the Flattener on a nested map, whose entries are
at the paths of their keys. -/
def flattenMap : List (Str × Nested) → List (Str × Str) → List (Str × Str)
  | [], m => m
  | (k, v) :: es, m => flattenMap es (flattenValue v k m)

/-- Modelled from the spec: the packages `store` and `flat` by the Store and the
Flattener of the spec, a `range` loop visiting the entries of a map in the
given arrangement. -/
def specOps (range : List (Str × Str) → List (Str × Str)) : StoreOps Store where
  NewStorage := none
  Copy := fun s => s
  Set := Store.Set
  view := fun s => { Get := Store.Get s, Has := Store.Has s, SubKeys := Store.SubKeys s }
  Keys := Store.Keys
  FlattenValue := fun key val => flattenValue val key []
  FlattenMap := fun m => flattenMap m []
  range := range

/-- Modelled from the spec: how the message of a shape error names the shape
of a node, `a value`, `an array` or `a map`; an Empty has no shape. -/
def Node.word : Node → Str
  | .leaf _ => "a value".toList
  | .branch array _ => branchWord array
  | .empty _ => []

/-- Modelled from the spec: the node has a shape, it is not an Empty. -/
def Node.fixed : Node → Bool
  | .empty _ => false
  | _ => true

/-- Modelled from the spec: the write of a value at the segments `rest` below a
node needs the node to have another shape: a descendant under a Leaf, a dotted
descendant under a List, a bracketed descendant under a Map, the literal of an
empty map or list in the place of a Leaf, or, in the place of a Map or List,
any value but the literal of the empty container of that shape. -/
def Node.refuses (n : Node) (rest : List PathSeg) (val : Str) : Prop :=
  match n, rest with
  | .leaf _, _ :: _ => True
  | .leaf _, [] => val = emptyMapLiteral ∨ val = emptyListLiteral
  | .branch array _, seg :: _ => array ≠ seg.isIndex
  | .branch array _, [] => val ≠ (if array then emptyListLiteral else emptyMapLiteral)
  | .empty _, _ => False

/-- The store of the storage test after `Set("key", "abc")`. -/
def leafStore : Store := (Properties.Set (specOps id) none "key".toList (.scalar "abc".toList)).1

/-- The store in which `k.b` holds the leaf `x`. -/
def conflictStore : Store := (Properties.Set (specOps id) none "k.b".toList (.scalar "x".toList)).1

/-- A map that flattens under `k` into the pairs `k.a = 1` and `k.b[0] = 2`. -/
def mixedValue : Nested :=
  .map [("a".toList, .scalar "1".toList), ("b".toList, .list [.scalar "2".toList])]

/-- The store in which `k.a` and `k.b` hold leaves. -/
def twoLeafStore : Store :=
  (Properties.Set (specOps id) conflictStore "k.a".toList (.scalar "y".toList)).1

/-- A map that flattens under `k` into the pairs `k.a[0] = 1` and `k.b[0] = 2`. -/
def twoListValue : Nested :=
  .map [("a".toList, .list [.scalar "1".toList]), ("b".toList, .list [.scalar "2".toList])]

/-- The packages `store` and `flat` with the `range` loop visiting the entries
of a map in another arrangement. -/
def StoreOps.withRange {σ : Type} (ops : StoreOps σ)
    (range : List (Str × Str) → List (Str × Str)) : StoreOps σ :=
  { ops with range := range }

/-- The value the last pair of the list with key `k` gives it, `base` when the
list has no pair with that key. -/
def lastWrite : List (Str × Str) → Str → Option Str → Option Str
  | [], _, base => base
  | (k', v) :: rest, k, base => lastWrite rest k (if k' = k then some v else base)

/-- What the claim of the last writer takes from the packages `store` and
`flat`, which are not among the sources, for the key `k` and the pairs `ws`
written: a scalar flattens into the single entry of its key, a `range` loop
over a map of one entry visits that entry, a successful write of a pair with
key `k` leaves its value as the leaf `Get` finds at `k`, and a successful write
of a pair with another key leaves what `Get` finds at `k` as it was. -/
def LeafLaws {σ : Type} (ops : StoreOps σ) (k : Str) (ws : List (Str × Str)) : Prop :=
  (∀ k' v', (k', v') ∈ ws → ops.FlattenValue k' (.scalar v') = [(k', v')]) ∧
  (∀ x, ops.range [x] = [x]) ∧
  (∀ v, (k, v) ∈ ws → ∀ s s', ops.Set s k v = (s', .ok ()) → (ops.view s').Get k = some v) ∧
  (∀ k' v', (k', v') ∈ ws → k' ≠ k → ∀ s s', ops.Set s k' v' = (s', .ok ()) →
    (ops.view s').Get k = (ops.view s).Get k)

/-- The pairs the command line gives: for every element that is the option
flag and is not the last one, the pair of the element after it. -/
def argPairs (option : Str) : List Str → List (Str × Str)
  | [] => []
  | s :: rest =>
    if s = option then
      match rest with
      | [] => []
      | next :: _ => keyValue next :: argPairs option rest
    else argPairs option rest

/-- A configuration in which the code sets `k` to `v0`, the environment holds
`GS_K=v2` and the command line `-D k=v1`, on the Store of the spec. -/
def overrideConfig : Configuration Store where
  prop := (Properties.Set (specOps id) none "k".toList (.scalar "v0".toList)).1
  env := { environ := ["GS_K=v2".toList] }
  args := { cmdArgs := ["-D".toList, "k=v1".toList] }

/-- The struct type `Item` with the single field `X int` tagged
`value:"$\x7bx:=1\x7d"`: all its fields have a default. -/
def itemType : GoType :=
  .struct "Item".toList
    [.mk "X".toList "value:\"$\x7bx:=1\x7d\"".toList false true (.basic .Int [])]

/-- The properties of a list `k` of one element with the leaf `k[0].x = 5`. -/
def itemsProperties : Properties where
  storage := exampleStorage [("k[0].x".toList, "5".toList)] ["k".toList, "k[0]".toList]

/-- The properties with the leaves `a = 1` and `b = x\x7d`: no value contains
an opener. -/
def plainProperties : Properties where
  storage := exampleStorage [("a".toList, "1".toList), ("b".toList, "x\x7d".toList)] []

/-- The offsets of a scan moved `k` characters to the right; `-1` stays. -/
def Scan.shift (k : Nat) (sc : Scan) : Scan :=
  ⟨sc.count, if sc.start < 0 then sc.start else sc.start + k,
    if sc.end_ < 0 then sc.end_ else sc.end_ + k⟩

/-- The properties with the leaves `n = 300` and `m = -129`. -/
def sizedProperties : Properties where
  storage := exampleStorage [("n".toList, "300".toList), ("m".toList, "-129".toList)] []

/-- The properties with the leaves `a[0] = 1` and `a[1] = x`. -/
def brokenListProperties : Properties where
  storage := exampleStorage [("a[0]".toList, "1".toList), ("a[1]".toList, "x".toList)] []

/-- The properties with the map node `m` without children and the leaf `e`
holding the empty text. -/
def hollowProperties : Properties where
  storage := exampleStorage [("e".toList, [])] ["m".toList]

/-- The pairs the loop of `(*PropertySources).copyTo` over the keys of the
properties `c` of a file writes: every key of `c.Keys()`, in that order, with
the value `c.Get(key)`. -/
def filePairs {σ : Type} (ops : StoreOps σ) (c : σ) : List (Str × Str) :=
  (ops.Keys c).map (fun key => (key, Properties.Get ⟨ops.view c⟩ key))

/-- The pairs a list of locations contributes to the properties `out`: for each
location in turn, resolved against the properties accumulated so far, the
pairs of its file when the file loads, and nothing for that location when it
does not. -/
def PropertySources.pairsInner {σ : Type} (rt : Runtime) (ops : StoreOps σ) (host : Host)
    (fuel : Nat) (workDir : Str) : List Str → σ → List (Str × Str)
  | [], _ => []
  | s :: ss, out =>
    match Properties.Resolve rt ⟨ops.view out⟩ fuel s with
    | .ok filename =>
      match Load rt ops host (locationFile host workDir filename) with
      | .ok c =>
        filePairs ops c ++
          PropertySources.pairsInner rt ops host fuel workDir ss
            (writeAll ops (filePairs ops c) out).1
      | _ => PropertySources.pairsInner rt ops host fuel workDir ss out
    | _ => []

/-- The pairs the lists of locations contribute, list after list. -/
def PropertySources.pairsOuter {σ : Type} (rt : Runtime) (ops : StoreOps σ) (host : Host)
    (fuel : Nat) (workDir : Str) : List (List Str) → σ → List (Str × Str)
  | [], _ => []
  | ss :: rest, out =>
    PropertySources.pairsInner rt ops host fuel workDir ss out ++
      PropertySources.pairsOuter rt ops host fuel workDir rest
        (writeAll ops (PropertySources.pairsInner rt ops host fuel workDir ss out) out).1

/-- The pairs a file or dynamic layer contributes to the properties `out`: the
keys and values of the files of its locations that load, in the order of the
locations. -/
def PropertySources.pairs {σ : Type} (rt : Runtime) (ops : StoreOps σ) (host : Host)
    (fuel : Nat) (p : PropertySources) (out : σ) : List (Str × Str) :=
  PropertySources.pairsOuter rt ops host fuel
    (if p.workDir = [] then host.Getwd else p.workDir) p.locations out

/-- The pairs the file layer of a configuration contributes in `Refresh`: those
of its locations on the copy of the properties set by code. -/
def Configuration.fileWrites {σ : Type} (rt : Runtime) (ops : StoreOps σ) (host : Host)
    (fuel : Nat) (c : Configuration σ) : List (Str × Str) :=
  c.file.pairs rt ops host fuel (ops.Copy c.prop)

/-- The pairs the environment layer contributes: the entries selected, in the
order of the environment. -/
def Configuration.envWrites {σ : Type} (host : Host) (c : Configuration σ)
    (inc exc : List (Str → Bool)) : List (Str × Str) :=
  c.env.environ.filterMap (selectEntry host c.env.pre inc exc)

/-- The pairs the command line layer contributes. -/
def Configuration.argWrites {σ : Type} (c : Configuration σ) : List (Str × Str) :=
  argPairs c.args.option c.args.cmdArgs

/-- The pairs the dynamic layer contributes in `Refresh`: those of its locations
on the properties the file, environment and command line layers left. -/
def Configuration.dyncWrites {σ : Type} (rt : Runtime) (ops : StoreOps σ) (host : Host)
    (fuel : Nat) (c : Configuration σ) : List (Str × Str) :=
  c.dync.pairs rt ops host fuel
    (c.args.copyTo ops
      (c.env.copyTo ops host (c.file.copyTo rt ops host fuel (ops.Copy c.prop)).1).1).1

/-- An example of a host with two files, `/work/app.properties` holding
`k=vf,f=1` and `/work/dyn.properties` holding `k=v4`, and a reader for the
extension `.properties` that takes the entries `key=value` between commas. -/
def layeredHost : Host :=
  { exampleHost with
    ReadFile := fun file =>
      if file = "/work/app.properties".toList then .ok "k=vf,f=1".toList
      else if file = "/work/dyn.properties".toList then .ok "k=v4".toList
      else .err (.New "no such file or directory".toList)
    readers := fun ext =>
      if ext = ".properties".toList then
        some (fun b => .ok ((Split b ",".toList).map
          (fun e => ((entryPair e).1, Nested.scalar (entryPair e).2))))
      else none }

/-- A configuration in which every layer defines `k`: the code sets `v0`, the
file `app.properties` holds `vf`, the environment `v2`, the command line `v1`
and the dynamic source `dyn.properties` holds `v4`. -/
def layeredConfig : Configuration Store where
  prop := (Properties.Set (specOps id) none "k".toList (.scalar "v0".toList)).1
  file := { locations := [["app.properties".toList]] }
  env := { environ := ["GS_K=v2".toList] }
  args := { cmdArgs := ["-D".toList, "k=v1".toList] }
  dync := { locations := [["dyn.properties".toList]] }

/-- The configuration `layeredConfig` without its dynamic source. -/
def staticConfig : Configuration Store :=
  { layeredConfig with dync := {} }

/-- The configuration `layeredConfig` with its file layer only. -/
def fileConfig : Configuration Store :=
  { layeredConfig with env := {}, args := {}, dync := {} }

/-- The store in which `k.b` holds the leaf `x` and `k.a` the leaf `1`. -/
def heldStore : Store :=
  (Properties.Set (specOps id) conflictStore "k.a".toList (.scalar "1".toList)).1

/-! ## Facts about the string searches -/

theorem hasPrefix_iff (s pre : Str) : HasPrefix s pre = true ↔ pre <+: s := by
  unfold HasPrefix
  exact List.isPrefixOf_iff_prefix

theorem infix_of_infix_tail {sub : Str} {c : Char} {cs : Str} (h : sub <:+: cs) :
    sub <:+: c :: cs := by
  obtain ⟨a, b, hab⟩ := h
  exact ⟨c :: a, b, by simp [← hab]⟩

theorem indexFrom_range (sub : Str) : ∀ (s : Str) (i : Nat),
    IndexFrom sub s i = -1 ∨
      ((i : Int) ≤ IndexFrom sub s i ∧ IndexFrom sub s i + sub.length ≤ i + s.length) := by
  intro s
  induction s with
  | nil =>
    intro i
    by_cases h : sub = []
    · right; simp [IndexFrom, h]
    · left; simp [IndexFrom, h]
  | cons c cs ih =>
    intro i
    unfold IndexFrom
    by_cases hp : HasPrefix (c :: cs) sub = true
    · right
      rw [if_pos hp]
      have := ((hasPrefix_iff _ _).1 hp).length_le
      constructor
      · exact le_refl _
      · have : (sub.length : Int) ≤ ((c :: cs).length : Int) := by exact_mod_cast this
        omega
    · rw [if_neg hp]
      rcases ih (i + 1) with h | ⟨h1, h2⟩
      · left; exact h
      · right
        simp only [List.length_cons]
        push_cast at h1 h2 ⊢
        omega

theorem indexFrom_absent {sub : Str} : ∀ (s : Str) (i : Nat), ¬ sub <:+: s →
    IndexFrom sub s i = -1 := by
  intro s
  induction s with
  | nil =>
    intro i h
    have : sub ≠ [] := by
      rintro rfl
      exact h (List.infix_refl _)
    simp [IndexFrom, this]
  | cons c cs ih =>
    intro i h
    unfold IndexFrom
    have hp : ¬ HasPrefix (c :: cs) sub = true := fun hp =>
      h ((hasPrefix_iff _ _).1 hp).isInfix
    rw [if_neg hp]
    exact ih (i + 1) (fun h' => h (infix_of_infix_tail h'))

theorem lastIndexFrom_range (sub : Str) : ∀ (s : Str) (i : Nat),
    LastIndexFrom sub s i = -1 ∨
      ((i : Int) ≤ LastIndexFrom sub s i ∧
        LastIndexFrom sub s i + sub.length ≤ i + s.length) := by
  intro s
  induction s with
  | nil =>
    intro i
    by_cases h : sub = []
    · right; simp [LastIndexFrom, h]
    · left; simp [LastIndexFrom, h]
  | cons c cs ih =>
    intro i
    unfold LastIndexFrom
    simp only []
    by_cases hr : 0 ≤ LastIndexFrom sub cs (i + 1)
    · rw [if_pos hr]
      rcases ih (i + 1) with h | ⟨h1, h2⟩
      · omega
      · right
        simp only [List.length_cons]
        push_cast at h1 h2 ⊢
        omega
    · rw [if_neg hr]
      by_cases hp : HasPrefix (c :: cs) sub = true
      · right
        rw [if_pos hp]
        have := ((hasPrefix_iff _ _).1 hp).length_le
        have : (sub.length : Int) ≤ ((c :: cs).length : Int) := by exact_mod_cast this
        constructor
        · exact le_refl _
        · omega
      · left; rw [if_neg hp]

theorem lastIndexFrom_absent {sub : Str} : ∀ (s : Str) (i : Nat), ¬ sub <:+: s →
    LastIndexFrom sub s i = -1 := by
  intro s
  induction s with
  | nil =>
    intro i h
    have : sub ≠ [] := by
      rintro rfl
      exact h (List.infix_refl _)
    simp [LastIndexFrom, this]
  | cons c cs ih =>
    intro i h
    unfold LastIndexFrom
    simp only []
    have hp : ¬ HasPrefix (c :: cs) sub = true := fun hp =>
      h ((hasPrefix_iff _ _).1 hp).isInfix
    rw [ih (i + 1) (fun h' => h (infix_of_infix_tail h'))]
    simp [hp]

/-- A match found in a suffix is the last match of the whole string. -/
theorem lastIndexFrom_append (sub : Str) : ∀ (a b : Str) (i : Nat),
    0 ≤ LastIndexFrom sub b (i + a.length) →
    LastIndexFrom sub (a ++ b) i = LastIndexFrom sub b (i + a.length) := by
  intro a
  induction a with
  | nil => intro b i _; simp
  | cons c cs ih =>
    intro b i h
    have h' : 0 ≤ LastIndexFrom sub b (i + 1 + cs.length) := by
      have : i + 1 + cs.length = i + (c :: cs).length := by simp; omega
      rw [this]; exact h
    have e := ih b (i + 1) h'
    have hlen : i + (c :: cs).length = i + 1 + cs.length := by simp; omega
    rw [hlen]
    show LastIndexFrom sub (c :: (cs ++ b)) i = _
    conv_lhs => unfold LastIndexFrom
    simp only []
    rw [e, if_pos h']

/-- The last match of a string that begins with `sub` and has no later match. -/
theorem lastIndexFrom_here (sub : Str) (c : Char) (cs : Str) (i : Nat)
    (hp : sub <+: c :: cs) (hn : ¬ sub <:+: cs) :
    LastIndexFrom sub (c :: cs) i = i := by
  unfold LastIndexFrom
  simp only []
  rw [lastIndexFrom_absent cs (i + 1) hn]
  simp [(hasPrefix_iff _ _).2 hp]

/-- A last match at the very start means the string begins with `sub`. -/
theorem lastIndexFrom_eq_start (sub : Str) (c : Char) (cs : Str) (i : Nat)
    (h : LastIndexFrom sub (c :: cs) i = i) : sub <+: c :: cs := by
  unfold LastIndexFrom at h
  simp only [] at h
  by_cases hr : 0 ≤ LastIndexFrom sub cs (i + 1)
  · rw [if_pos hr] at h
    rcases lastIndexFrom_range sub cs (i + 1) with h1 | ⟨h1, _⟩
    · omega
    · push_cast at h1; omega
  · rw [if_neg hr] at h
    by_cases hp : HasPrefix (c :: cs) sub = true
    · exact (hasPrefix_iff _ _).1 hp
    · rw [if_neg hp] at h; omega

/-- The first match of a separator of two different characters sits right
after a text that does not contain the separator. -/
theorem indexFrom_two (x y : Char) (hxy : x ≠ y) : ∀ (a b : Str) (i : Nat),
    ¬ [x, y] <:+: a → IndexFrom [x, y] (a ++ x :: y :: b) i = i + a.length := by
  intro a
  induction a with
  | nil =>
    intro b i _
    simp [IndexFrom, HasPrefix]
  | cons c cs ih =>
    intro b i h
    have hp : ¬ HasPrefix (c :: cs ++ x :: y :: b) [x, y] = true := by
      intro hp
      have hp' := (hasPrefix_iff _ _).1 hp
      cases cs with
      | nil =>
        obtain ⟨t, ht⟩ := hp'
        simp at ht
        exact hxy ht.2.1.symm
      | cons d ds =>
        obtain ⟨t, ht⟩ := hp'
        simp at ht
        apply h
        refine ⟨[], ds, ?_⟩
        simp [ht.1, ht.2.1]
    show IndexFrom [x, y] (c :: (cs ++ x :: y :: b)) i = _
    unfold IndexFrom
    rw [if_neg (by simpa using hp), ih b (i + 1) (fun h' => h (infix_of_infix_tail h'))]
    simp only [List.length_cons]; push_cast; omega

theorem splitN_two (sep s : Str) :
    SplitN sep 2 s =
      if Index s sep < 0 then [s]
      else [s.take (Index s sep).toNat, s.drop ((Index s sep).toNat + sep.length)] := by
  simp [SplitN]

theorem slice_mid (a b c : Str) :
    slice (a ++ b ++ c) a.length (a.length + b.length) = some b := by
  unfold slice
  have h : (0 : Int) ≤ a.length ∧ (a.length : Int) ≤ a.length + b.length ∧
      ((a.length : Int) + b.length) ≤ ((a ++ b ++ c).length : Int) := by
    simp only [List.length_append]
    push_cast
    omega
  rw [if_pos h]
  have e1 : ((a.length : Int) + b.length).toNat = a.length + b.length := by omega
  have e2 : (a.length : Int).toNat = a.length := by omega
  rw [e1, e2]
  congr 1
  rw [← List.length_append, List.take_left' rfl]
  simp

theorem slice_end (a b : Str) :
    slice (a ++ b) a.length (a ++ b).length = some b := by
  have := slice_mid a b []
  simpa using this

/-! ## Facts about the tag parser -/

theorem index_open_start (rest : Str) : Index (sOpen ++ rest) sOpen = 0 := by
  simp [Index, sOpen, IndexFrom, HasPrefix]

theorem not_infix_pair_of_not_mem (x : Char) (s : Str) (h : x ∉ s) : ¬ [x, x] <:+: x :: s := by
  rintro ⟨a, b, hab⟩
  cases a with
  | nil =>
    simp at hab
    exact h (by rw [← hab]; simp)
  | cons d ds =>
    simp at hab
    exact h (by rw [← hab.2]; simp)

theorem not_infix_single_of_not_mem (x : Char) (s : Str) (h : x ∉ s) : ¬ [x] <:+: s := by
  rintro ⟨a, b, hab⟩
  exact h (by rw [← hab]; simp)

theorem slice_mid' (a b c : Str) (lo hi : Int) (hlo : lo = a.length)
    (hhi : hi = a.length + b.length) : slice (a ++ b ++ c) lo hi = some b := by
  subst hlo hhi
  exact slice_mid a b c

theorem parseTag_steps (tag body splitter : Str) (i j : Int)
    (hi : LastIndex tag sSplit = i) (hi0 : i ≠ 0)
    (hj : LastIndex tag sClose = j) (hj0 : 0 < j)
    (hk : Index tag sOpen = 0)
    (hs : (if i > j then (slice tag (i + 2) tag.length).map TrimSpace else some []) =
      some splitter)
    (hb : slice tag 2 j = some body) :
    ParseTag tag = .ok (bodyTag body splitter) := by
  unfold ParseTag
  simp only [hi, hj, hk]
  rw [if_neg hi0, if_neg (by omega), if_neg (by omega), hs]
  simp only [zero_add, hb, splitN_two, bodyTag]
  by_cases hm : Index body sAssign < 0
  · simp [hm]
  · simp [hm, show sAssign.length = 2 from rfl]

/-- A placeholder without splitter: whatever stands between the opener and the
final closing brace is the body. -/
theorem parseTag_region (body : Str) :
    ParseTag (sOpen ++ body ++ sClose) = .ok (bodyTag body []) := by
  have hlen : ((sOpen ++ body ++ sClose).length : Int) = body.length + 3 := by
    simp [sOpen, sClose]; omega
  have hj : LastIndex (sOpen ++ body ++ sClose) sClose = body.length + 2 := by
    unfold LastIndex
    have h1 : LastIndexFrom sClose sClose (0 + (sOpen ++ body).length) =
        ((0 + (sOpen ++ body).length : Nat) : Int) :=
      lastIndexFrom_here sClose cClose [] _ (List.prefix_refl _) (by simp [sClose])
    rw [lastIndexFrom_append sClose (sOpen ++ body) sClose 0 (by rw [h1]; omega), h1]
    simp [sOpen]
    omega
  have hi : LastIndex (sOpen ++ body ++ sClose) sSplit = -1 ∨
      ((0 : Nat) ≤ LastIndex (sOpen ++ body ++ sClose) sSplit ∧
        LastIndex (sOpen ++ body ++ sClose) sSplit + sSplit.length ≤
          (0 : Nat) + (sOpen ++ body ++ sClose).length) :=
    lastIndexFrom_range sSplit (sOpen ++ body ++ sClose) 0
  have hi0 : LastIndex (sOpen ++ body ++ sClose) sSplit ≠ 0 := by
    intro h0
    have := lastIndexFrom_eq_start sSplit cDollar (cOpen :: (body ++ sClose)) 0
      (by simpa [LastIndex, sOpen] using h0)
    obtain ⟨t, ht⟩ := this
    simp [sSplit, cDollar] at ht
  apply parseTag_steps _ body [] _ _ rfl hi0 hj (by omega) (index_open_start _)
  · rw [if_neg]
    rcases hi with h | ⟨_, h⟩
    · omega
    · rw [show sSplit.length = 2 from rfl] at h
      push_cast at h
      omega
  · exact slice_mid' sOpen body sClose _ _ rfl (by simp [sOpen]; omega)

/-- A placeholder followed by a splitter name. -/
theorem parseTag_region_splitter (body s : Str) (h1 : cClose ∉ s) (h2 : '>' ∉ s) :
    ParseTag (sOpen ++ body ++ sClose ++ (sSplit ++ s)) = .ok (bodyTag body (TrimSpace s)) := by
  have hi : LastIndex (sOpen ++ body ++ sClose ++ (sSplit ++ s)) sSplit = body.length + 3 := by
    unfold LastIndex
    have h1 : LastIndexFrom sSplit (sSplit ++ s) (0 + (sOpen ++ body ++ sClose).length) =
        ((0 + (sOpen ++ body ++ sClose).length : Nat) : Int) :=
      lastIndexFrom_here sSplit '>' ('>' :: s) _ ⟨s, rfl⟩ (not_infix_pair_of_not_mem _ _ h2)
    rw [lastIndexFrom_append sSplit _ _ 0 (by rw [h1]; omega), h1]
    simp [sOpen, sClose]; omega
  have hj : LastIndex (sOpen ++ body ++ sClose ++ (sSplit ++ s)) sClose = body.length + 2 := by
    unfold LastIndex
    have e : sOpen ++ body ++ sClose ++ (sSplit ++ s) = (sOpen ++ body) ++ (cClose :: (sSplit ++ s)) := by
      simp [sClose]
    have h1 : LastIndexFrom sClose (cClose :: (sSplit ++ s)) (0 + (sOpen ++ body).length) =
        ((0 + (sOpen ++ body).length : Nat) : Int) :=
      lastIndexFrom_here sClose cClose _ _ ⟨sSplit ++ s, rfl⟩
        (not_infix_single_of_not_mem _ _ (by simp [sSplit, cClose, h1]; exact h1))
    rw [e, lastIndexFrom_append sClose _ _ 0 (by rw [h1]; omega), h1]
    simp [sOpen]
    omega
  apply parseTag_steps _ body (TrimSpace s) _ _ hi (by omega) hj (by omega)
  · have : sOpen ++ body ++ sClose ++ (sSplit ++ s) = sOpen ++ (body ++ sClose ++ (sSplit ++ s)) := by
      simp
    rw [this]; exact index_open_start _
  · rw [if_pos (by omega)]
    have := slice_end (sOpen ++ body ++ sClose ++ sSplit) s
    have e : ((sOpen ++ body ++ sClose ++ sSplit).length : Int) = (body.length : Int) + 3 + 2 := by
      simp [sOpen, sClose, sSplit]; omega
    rw [e] at this
    simp only [List.append_assoc] at this ⊢
    rw [this]; rfl
  · have := slice_mid' sOpen body (sClose ++ (sSplit ++ s)) 2 (body.length + 2) rfl
      (by simp [sOpen]; omega)
    simpa using this

theorem bodyTag_key_only (K splitter : Str) (hK : ¬ sAssign <:+: K) :
    bodyTag K splitter = { Key := K, Splitter := splitter } := by
  unfold bodyTag
  rw [if_pos]
  unfold Index
  rw [indexFrom_absent K 0 hK]
  decide

theorem bodyTag_key_def (K D splitter : Str) (hK : ¬ sAssign <:+: K) :
    bodyTag (K ++ sAssign ++ D) splitter =
      { Key := K, HasDef := true, Def := D, Splitter := splitter } := by
  have hi : Index (K ++ sAssign ++ D) sAssign = K.length := by
    have := indexFrom_two ':' '=' (by decide) K D 0 hK
    simpa [Index, sAssign] using this
  unfold bodyTag
  rw [if_neg (by rw [hi]; omega), hi]
  simp [sAssign]

/-- The receiver of `BindTag` after a tag that parses. -/
theorem bindTag_ok (param : BindParam) (tag validate : Str) (t : ParsedTag)
    (ht : ParseTag tag = .ok t) :
    param.BindTag tag validate =
      ({ Key := joinKey param.Key (normalKey t.Key)
         Path := param.Path
         Tag := { t with Key := normalKey t.Key }
         Validate := validate }, .ok ()) := by
  unfold BindParam.BindTag
  rw [ht]
  obtain ⟨tk, td, th, ts⟩ := t
  have hR : "ROOT".toList = ['R', 'O', 'O', 'T'] := rfl
  simp only [normalKey, joinKey, hR]
  by_cases h1 : tk = ['R', 'O', 'O', 'T']
  · by_cases h2 : param.Key = [] <;> simp [h1, h2]
  · by_cases h3 : tk = []
    · by_cases h2 : param.Key = [] <;> simp [h1, h2, h3]
    · by_cases h2 : param.Key = [] <;> simp [h1, h2, h3]

/-! ## Facts about the scanner -/

/-- Outside a placeholder the scanner passes over a text without opener. -/
theorem scanLoop_skip : ∀ (pre rest : Str) (i : Nat) (st : Int),
    ¬ sOpen <:+: pre → rest.head? ≠ some cOpen →
    scanLoop (pre ++ rest) i 0 st = scanLoop rest (i + pre.length) 0 st := by
  intro pre
  induction pre with
  | nil => intro rest i st _ _; simp
  | cons c cs ih =>
    intro rest i st h hr
    have h' : ¬ sOpen <:+: cs := fun h' => h (infix_of_infix_tail h')
    have e : i + (c :: cs).length = i + 1 + cs.length := by simp; omega
    rw [e, ← ih rest (i + 1) st h' hr]
    show scanLoop (c :: (cs ++ rest)) i 0 st = _
    conv_lhs => unfold scanLoop
    by_cases hc : c = cDollar
    · have hh : ¬ (cs ++ rest).head? = some cOpen := by
        cases cs with
        | nil => simpa using hr
        | cons d ds =>
          intro hd
          simp at hd
          exact h ⟨[], ds, by simp [sOpen, hc, hd]⟩
      rw [if_pos hc, if_neg hh]
    · rw [if_neg hc]
      by_cases hc2 : c = cClose
      · rw [if_pos hc2, if_neg (by omega)]
      · rw [if_neg hc2]

/-- A text without opener leaves the scanner in its initial state. -/
theorem scan_no_open (s : Str) (h : ¬ sOpen <:+: s) : scan s = ⟨0, -1, -1⟩ := by
  have := scanLoop_skip s [] 0 (-1) h (by simp)
  simpa [scan, scanLoop] using this

/-- Inside a placeholder whose nesting count stays positive the scanner runs to
the end of the text without finding the closing brace. -/
theorem scanLoop_unclosed : ∀ (l : Str) (c i : Nat) (st : Int), 0 < c →
    (∀ k, 0 < k → k ≤ l.length → closersBefore l k < c + openersBefore l k) →
    (scanLoop l i c st).start = st ∧ (scanLoop l i c st).end_ = -1 ∧
      0 < (scanLoop l i c st).count := by
  intro l
  induction l with
  | nil => intro c i st hc _; simp [scanLoop, hc]
  | cons x xs ih =>
    intro c i st hc h
    have h1 := h 1 (by omega) (by simp)
    have hs : ∀ k, 0 < k → k ≤ xs.length →
        closersBefore (x :: xs) (k + 1) < c + openersBefore (x :: xs) (k + 1) :=
      fun k _ hk => h (k + 1) (by omega) (by simp; omega)
    unfold scanLoop
    by_cases hx : x = cDollar
    · by_cases hh : xs.head? = some cOpen
      · simp only [hx, hh, if_true]
        have hne : ¬ c = 0 := by omega
        rw [if_neg hne]
        apply ih (c + 1) (i + 1) st (by omega)
        intro k hk0 hk
        have := hs k hk0 hk
        simp [closersBefore, openersBefore, hx, hh, cDollar, cClose] at this
        omega
      · simp only [hx, hh, if_true, if_false]
        apply ih c (i + 1) st hc
        intro k hk0 hk
        have := hs k hk0 hk
        simp [closersBefore, openersBefore, hx, hh, cDollar, cClose] at this
        omega
    · by_cases hx2 : x = cClose
      · have hc2 : 2 ≤ c := by
          cases xs <;> simp [closersBefore, openersBefore, hx2, cDollar, cClose] at h1 <;> omega
        have hne : ¬ c - 1 = 0 := by omega
        simp only [hx, hx2, if_true, if_false, hc, hne]
        apply ih (c - 1) (i + 1) st (by omega)
        intro k hk0 hk
        have := hs k hk0 hk
        simp [closersBefore, openersBefore, hx2, cDollar, cClose] at this
        omega
      · simp only [hx, hx2, if_false]
        apply ih c (i + 1) st hc
        intro k hk0 hk
        have := hs k hk0 hk
        simp [closersBefore, openersBefore, hx, hx2] at this
        omega

theorem openersBefore_zero (l : Str) : openersBefore l 0 = 0 := by
  cases l <;> rfl

theorem closersBefore_zero (l : Str) : closersBefore l 0 = 0 := by
  cases l <;> rfl

theorem openersBefore_succ (c : Char) (rest : Str) (k : Nat) :
    openersBefore (c :: rest) (k + 1) =
      (if c = cDollar ∧ rest.head? = some cOpen then 1 else 0) + openersBefore rest k := rfl

theorem closersBefore_succ (c : Char) (rest : Str) (k : Nat) :
    closersBefore (c :: rest) (k + 1) = (if c = cClose then 1 else 0) + closersBefore rest k := rfl

/-- What follows a character other than `$` does not change the count of openers. -/
theorem openersBefore_append (x : Char) (hx : x ≠ cDollar) : ∀ (a b : Str) (k : Nat),
    k ≤ a.length + 1 → openersBefore (a ++ x :: b) k = openersBefore (a ++ [x]) k := by
  intro a
  induction a with
  | nil =>
    intro b k hk
    cases k with
    | zero => rfl
    | succ k =>
      have : k = 0 := by simpa using hk
      subst this
      simp [openersBefore_succ, openersBefore_zero, hx]
  | cons c cs ih =>
    intro b k hk
    cases k with
    | zero => rfl
    | succ k =>
      have hk' : k ≤ cs.length + 1 := by simpa using hk
      have hh : (cs ++ x :: b).head? = (cs ++ [x]).head? := by cases cs <;> rfl
      show openersBefore (c :: (cs ++ x :: b)) (k + 1) = openersBefore (c :: (cs ++ [x])) (k + 1)
      rw [openersBefore_succ, openersBefore_succ, ih b k hk', hh]

theorem closersBefore_append (x : Char) : ∀ (a b : Str) (k : Nat),
    k ≤ a.length + 1 → closersBefore (a ++ x :: b) k = closersBefore (a ++ [x]) k := by
  intro a
  induction a with
  | nil =>
    intro b k hk
    cases k with
    | zero => rfl
    | succ k =>
      have : k = 0 := by simpa using hk
      subst this
      simp [closersBefore_succ, closersBefore_zero]
  | cons c cs ih =>
    intro b k hk
    cases k with
    | zero => rfl
    | succ k =>
      have hk' : k ≤ cs.length + 1 := by simpa using hk
      show closersBefore (c :: (cs ++ x :: b)) (k + 1) = closersBefore (c :: (cs ++ [x])) (k + 1)
      rw [closersBefore_succ, closersBefore_succ, ih b k hk']

/-- Inside a placeholder the scanner stops at the first closing brace that
takes the nesting count back to zero. -/
theorem scanLoop_closed : ∀ (l : Str) (c i : Nat) (st : Int) (m : Nat), 0 < c → m < l.length →
    (∀ k, 0 < k → k ≤ m → closersBefore l k < c + openersBefore l k) →
    closersBefore l (m + 1) = c + openersBefore l (m + 1) →
    scanLoop l i c st = ⟨0, st, (i : Int) + m⟩ := by
  intro l
  induction l with
  | nil => intro c i st m _ hm; simp at hm
  | cons x xs ih =>
    intro c i st m hc hm h heq
    have hne : ¬ c = 0 := by omega
    obtain ⟨o, ho⟩ : ∃ o : Nat, o = (if x = cDollar ∧ xs.head? = some cOpen then 1 else 0) :=
      ⟨_, rfl⟩
    obtain ⟨cl, hcl⟩ : ∃ cl : Nat, cl = (if x = cClose then 1 else 0) := ⟨_, rfl⟩
    have hstep : ∀ k, closersBefore (x :: xs) (k + 1) = cl + closersBefore xs k ∧
        openersBefore (x :: xs) (k + 1) = o + openersBefore xs k := by
      intro k
      rw [closersBefore_succ, openersBefore_succ, ho, hcl]
      exact ⟨rfl, rfl⟩
    have hdc : ¬ cDollar = cClose := by decide
    unfold scanLoop
    cases m with
    | zero =>
      rw [(hstep 0).1, (hstep 0).2, closersBefore_zero, openersBefore_zero] at heq
      by_cases hx : x = cDollar
      · exfalso
        rw [if_neg (by rw [hx]; exact hdc)] at hcl
        omega
      · rw [if_neg (fun hh => hx hh.1)] at ho
        by_cases hx2 : x = cClose
        · rw [if_pos hx2] at hcl
          have hc1 : c = 1 := by omega
          subst hc1
          rw [if_neg hx, if_pos hx2, if_pos hc, if_pos rfl]
          simp
        · rw [if_neg hx2] at hcl
          omega
    | succ m =>
      have hm' : m < xs.length := by simpa using hm
      have h1 := h 1 (by omega) (by omega)
      rw [(hstep 0).1, (hstep 0).2, closersBefore_zero, openersBefore_zero] at h1
      have hs : ∀ k, 0 < k → k ≤ m →
          cl + closersBefore xs k < c + (o + openersBefore xs k) := by
        intro k hk0 hk
        have := h (k + 1) (by omega) (by omega)
        rwa [(hstep k).1, (hstep k).2] at this
      have hcast : ((i + 1 : Nat) : Int) + (m : Int) = (i : Int) + ((m + 1 : Nat) : Int) := by
        push_cast; omega
      rw [← hcast]
      rw [(hstep (m + 1)).1, (hstep (m + 1)).2] at heq
      by_cases hx : x = cDollar
      · rw [if_neg (by rw [hx]; exact hdc)] at hcl
        by_cases hh : xs.head? = some cOpen
        · rw [if_pos ⟨hx, hh⟩] at ho
          rw [if_pos hx, if_pos hh, if_neg hne]
          apply ih (c + 1) (i + 1) st m (by omega) hm'
          · intro k hk0 hk
            have := hs k hk0 hk
            omega
          · omega
        · rw [if_neg (fun h' => hh h'.2)] at ho
          rw [if_pos hx, if_neg hh]
          apply ih c (i + 1) st m hc hm'
          · intro k hk0 hk
            have := hs k hk0 hk
            omega
          · omega
      · rw [if_neg (fun hh => hx hh.1)] at ho
        rw [if_neg hx]
        by_cases hx2 : x = cClose
        · rw [if_pos hx2] at hcl
          have hne1 : ¬ c - 1 = 0 := by omega
          rw [if_pos hx2, if_pos hc, if_neg hne1]
          apply ih (c - 1) (i + 1) st m (by omega) hm'
          · intro k hk0 hk
            have := hs k hk0 hk
            omega
          · omega
        · rw [if_neg hx2] at hcl
          rw [if_neg hx2]
          apply ih c (i + 1) st m hc hm'
          · intro k hk0 hk
            have := hs k hk0 hk
            omega
          · omega

theorem scan_region (pre body suf : Str) (hpre : ¬ sOpen <:+: pre)
    (htop : TopLevel (sOpen ++ body ++ sClose)) :
    scan (pre ++ (sOpen ++ body ++ sClose) ++ suf) =
      ⟨0, pre.length, (pre.length : Int) + body.length + 2⟩ := by
  have e1 : pre ++ (sOpen ++ body ++ sClose) ++ suf =
      pre ++ (cDollar :: cOpen :: (body ++ cClose :: suf)) := by
    simp [sOpen, sClose]
  have hr : sOpen ++ body ++ sClose = cDollar :: ((cOpen :: body) ++ [cClose]) := by
    simp [sOpen, sClose]
  rw [hr] at htop
  obtain ⟨h1, h2⟩ := htop
  have hlen : (cDollar :: ((cOpen :: body) ++ [cClose])).length = body.length + 3 := by simp
  rw [hlen] at h1 h2
  unfold scan
  rw [e1, scanLoop_skip pre _ 0 (-1) hpre (by simp [cDollar, cOpen])]
  conv_lhs => unfold scanLoop
  rw [if_pos rfl, if_pos (by rfl), if_pos rfl]
  have e2 : cOpen :: (body ++ cClose :: suf) = (cOpen :: body) ++ cClose :: suf := rfl
  rw [e2, scanLoop_closed _ 1 (0 + pre.length + 1) _ (body.length + 1) (by omega) (by simp)]
  · congr 1
    · simp
    · push_cast; omega
  · intro k hk0 hk
    rw [closersBefore_append cClose _ suf k (by simp; omega),
      openersBefore_append cClose (by decide) _ suf k (by simp; omega)]
    have := h1 (k + 1) (by omega) (by omega)
    rw [closersBefore_succ, openersBefore_succ, if_neg (by decide)] at this
    simp only [List.cons_append, List.head?_cons, and_self, if_true] at this
    simpa using this
  · rw [closersBefore_append cClose _ suf _ (by simp),
      openersBefore_append cClose (by decide) _ suf _ (by simp)]
    have := h2
    rw [closersBefore_succ, openersBefore_succ, if_neg (by decide)] at this
    simp only [List.cons_append, List.head?_cons, and_self, if_true] at this
    simpa using this

theorem scan_unclosed (pre tail : Str) (hpre : ¬ sOpen <:+: pre)
    (h : Unclosed (sOpen ++ tail)) :
    (scan (pre ++ (sOpen ++ tail))).start = pre.length ∧
      (scan (pre ++ (sOpen ++ tail))).end_ = -1 ∧ 0 < (scan (pre ++ (sOpen ++ tail))).count := by
  have e1 : pre ++ (sOpen ++ tail) = pre ++ (cDollar :: cOpen :: tail) := rfl
  unfold scan
  rw [e1, scanLoop_skip pre _ 0 (-1) hpre (by simp [cDollar, cOpen])]
  conv in scanLoop (cDollar :: cOpen :: tail) _ _ _ => unfold scanLoop
  rw [if_pos rfl, if_pos (by rfl), if_pos rfl]
  have := scanLoop_unclosed (cOpen :: tail) 1 (0 + pre.length + 1) ((0 + pre.length : Nat) : Int)
    (by omega) (by
      intro k hk0 hk
      have := h (k + 1) (by simpa [sOpen] using hk) (by omega)
      have e : sOpen ++ tail = cDollar :: cOpen :: tail := rfl
      rw [e, closersBefore_succ, openersBefore_succ, if_neg (by decide)] at this
      simp only [List.head?_cons, and_self, if_true] at this
      omega)
  simpa using this

theorem bindTag_region (body : Str) :
    BindParam.BindTag {} (sOpen ++ body ++ sClose) [] = (regionParam body, .ok ()) := by
  rw [bindTag_ok {} (sOpen ++ body ++ sClose) [] (bodyTag body []) (parseTag_region body)]
  simp [regionParam, joinKey]

theorem resolve_zero (rt : Runtime) (p : Properties) (param : BindParam) :
    resolve rt p 0 param = .timeout := by
  rw [resolve]

theorem resolveString_zero (rt : Runtime) (p : Properties) (s : Str) :
    resolveString rt p 0 s = .timeout := by
  rw [resolveString]

theorem resolve_succ (rt : Runtime) (p : Properties) (fuel : Nat) (param : BindParam) :
    resolve rt p (fuel + 1) param =
      match p.storage.Get param.Key with
      | some val => resolveString rt p fuel val
      | none =>
        if p.storage.Has param.Key then
          .err (resolvePropertyError rt 418 param.Key (notSimpleValueError rt param.Key))
        else if param.Tag.HasDef then resolveString rt p fuel param.Tag.Def
        else .err (resolvePropertyError rt 424 param.Key (notExistError rt param.Key)) := by
  rfl

theorem resolveString_succ (rt : Runtime) (p : Properties) (fuel : Nat) (s : Str) :
    resolveString rt p (fuel + 1) s =
      if (scan s).start < 0 then .ok s
      else if (scan s).end_ < 0 ∨ (scan s).count > 0 then
        .err (resolveStringError rt 462 s .ErrInvalidSyntax)
      else
        match slice s (scan s).start ((scan s).end_ + 1) with
        | none => .panic
        | some region =>
          match BindParam.BindTag {} region [] with
          | (_, .panic) => .panic
          | (param, _) =>
            match resolve rt p fuel param with
            | .panic => .panic
            | .timeout => .timeout
            | .err e => .err (resolveStringError rt 470 s e)
            | .ok s1 =>
              match slice s ((scan s).end_ + 1) s.length with
              | none => .panic
              | some rest =>
                match resolveString rt p fuel rest with
                | .panic => .panic
                | .timeout => .timeout
                | .err e => .err (resolveStringError rt 475 s e)
                | .ok s2 =>
                  match slice s 0 (scan s).start with
                  | none => .panic
                  | some pre => .ok (pre ++ s1 ++ s2) := by
  rfl

/-- One step of `resolveString` on a text in which the scanner isolated the
placeholder with the given body: the placeholder is resolved, then the text
after it. -/
theorem resolveString_of_scan (rt : Runtime) (p : Properties) (pre body suf : Str) (n : Nat)
    (hsc : scan (pre ++ (sOpen ++ body ++ sClose) ++ suf) =
      ⟨0, pre.length, (pre.length : Int) + body.length + 2⟩) :
    resolveString rt p (n + 1) (pre ++ (sOpen ++ body ++ sClose) ++ suf) =
      substitute rt (pre ++ (sOpen ++ body ++ sClose) ++ suf) pre
        (resolve rt p n (regionParam body)) (resolveString rt p n suf) := by
  have hreg : slice (pre ++ (sOpen ++ body ++ sClose) ++ suf) (pre.length : Int)
      ((pre.length : Int) + body.length + 2 + 1) = some (sOpen ++ body ++ sClose) :=
    slice_mid' pre (sOpen ++ body ++ sClose) suf _ _ rfl (by simp [sOpen, sClose]; omega)
  have hsuf : slice (pre ++ (sOpen ++ body ++ sClose) ++ suf)
      ((pre.length : Int) + body.length + 2 + 1)
      (pre ++ (sOpen ++ body ++ sClose) ++ suf).length = some suf := by
    have := slice_end (pre ++ (sOpen ++ body ++ sClose)) suf
    have e : ((pre ++ (sOpen ++ body ++ sClose)).length : Int) =
        (pre.length : Int) + body.length + 2 + 1 := by
      simp [sOpen, sClose]; omega
    rw [e] at this
    exact this
  have hp : slice (pre ++ (sOpen ++ body ++ sClose) ++ suf) 0 (pre.length : Int) = some pre := by
    have := slice_mid' [] pre ((sOpen ++ body ++ sClose) ++ suf) 0 pre.length rfl (by simp)
    simpa using this
  rw [resolveString_succ]
  simp only [hsc]
  rw [if_neg (by omega), if_neg (by omega), hreg]
  simp only [bindTag_region, hsuf, hp, substitute]

/-- The scanner passes over a text without `$` and without closing brace,
whatever the nesting count. -/
theorem scanLoop_plain : ∀ (t rest : Str) (i c : Nat) (st : Int),
    cDollar ∉ t → cClose ∉ t →
    scanLoop (t ++ rest) i c st = scanLoop rest (i + t.length) c st := by
  intro t
  induction t with
  | nil => intro rest i c st _ _; simp
  | cons x xs ih =>
    intro rest i c st h1 h2
    have hx1 : ¬ x = cDollar := fun h => h1 (by simp [h])
    have hx2 : ¬ x = cClose := fun h => h2 (by simp [h])
    have e : i + (x :: xs).length = i + 1 + xs.length := by simp; omega
    rw [e, ← ih rest (i + 1) c st (fun h => h1 (by simp [h])) (fun h => h2 (by simp [h]))]
    show scanLoop (x :: (xs ++ rest)) i c st = _
    conv_lhs => unfold scanLoop
    rw [if_neg hx1, if_neg hx2]

/-- Inside a placeholder the scanner either reaches the end of the text with
the placeholder still open, or stops at a closing brace. -/
theorem scanLoop_inside : ∀ (l : Str) (c i : Nat) (st : Int), 0 < c →
    ((scanLoop l i c st).start = st ∧ (scanLoop l i c st).end_ = -1 ∧
        0 < (scanLoop l i c st).count) ∨
      ∃ a b, l = a ++ cClose :: b ∧ scanLoop l i c st = ⟨0, st, (i : Int) + a.length⟩ := by
  intro l
  induction l with
  | nil => intro c i st hc; left; simp [scanLoop, hc]
  | cons x xs ih =>
    intro c i st hc
    have hne : ¬ c = 0 := by omega
    have lift : ∀ c', 0 < c' →
        (((scanLoop xs (i + 1) c' st).start = st ∧ (scanLoop xs (i + 1) c' st).end_ = -1 ∧
          0 < (scanLoop xs (i + 1) c' st).count) ∨
        ∃ a b, x :: xs = a ++ cClose :: b ∧
          scanLoop xs (i + 1) c' st = ⟨0, st, (i : Int) + a.length⟩) := by
      intro c' hc'
      rcases ih c' (i + 1) st hc' with h | ⟨a, b, hab, hr⟩
      · left; exact h
      · right
        refine ⟨x :: a, b, by simp [hab], ?_⟩
        rw [hr]
        congr 1
        simp only [List.length_cons]
        push_cast
        omega
    unfold scanLoop
    by_cases hx : x = cDollar
    · by_cases hh : xs.head? = some cOpen
      · rw [if_pos hx, if_pos hh, if_neg hne]
        exact lift (c + 1) (by omega)
      · rw [if_pos hx, if_neg hh]
        exact lift c hc
    · rw [if_neg hx]
      by_cases hx2 : x = cClose
      · rw [if_pos hx2, if_pos hc]
        by_cases h1 : c - 1 = 0
        · rw [if_pos h1]
          right
          exact ⟨[], xs, by simp [hx2], by simp [h1]⟩
        · rw [if_neg h1]
          exact lift (c - 1) (by omega)
      · rw [if_neg hx2]
        exact lift c hc

/-- A text has no opener, or splits at its first opener. -/
theorem first_open (s : Str) :
    ¬ sOpen <:+: s ∨ ∃ pre tail, s = pre ++ (sOpen ++ tail) ∧ ¬ sOpen <:+: pre := by
  induction s with
  | nil => left; simp [sOpen]
  | cons x xs ih =>
    by_cases hp : sOpen <+: x :: xs
    · right
      obtain ⟨t, ht⟩ := hp
      exact ⟨[], t, by simp [ht], by simp [sOpen]⟩
    · rcases ih with h | ⟨pre, tail, hs, hpre⟩
      · left
        intro hin
        rcases List.infix_cons_iff.1 hin with h' | h'
        · exact hp h'
        · exact h h'
      · right
        refine ⟨x :: pre, tail, by simp [hs], ?_⟩
        intro hin
        rcases List.infix_cons_iff.1 hin with h' | h'
        · apply hp
          obtain ⟨t, ht⟩ := h'
          refine ⟨(x :: xs).drop 2, ?_⟩
          have h2 : (x :: pre).take 2 = sOpen := by
            rw [← ht]; simp [sOpen]
          have h3 : (x :: xs).take 2 = sOpen := by
            rw [hs]
            cases pre with
            | nil => simp [sOpen] at h2
            | cons y ys => simpa using h2
          rw [← h3]
          exact List.take_append_drop 2 (x :: xs)
        · exact hpre h'

/-- The three ways the scanner can leave a text. -/
theorem scan_cases (s : Str) :
    (¬ sOpen <:+: s ∧ scan s = ⟨0, -1, -1⟩) ∨
    (∃ pre tail, s = pre ++ (sOpen ++ tail) ∧ ¬ sOpen <:+: pre ∧
      (scan s).start = pre.length ∧ (scan s).end_ = -1 ∧ 0 < (scan s).count) ∨
    (∃ pre body suf, s = pre ++ (sOpen ++ body ++ sClose) ++ suf ∧ ¬ sOpen <:+: pre ∧
      scan s = ⟨0, pre.length, (pre.length : Int) + body.length + 2⟩) := by
  rcases first_open s with h | ⟨pre, tail, hs, hpre⟩
  · left; exact ⟨h, scan_no_open s h⟩
  · right
    have e1 : pre ++ (sOpen ++ tail) = pre ++ (cDollar :: cOpen :: tail) := rfl
    have hscan : scan s = scanLoop (cOpen :: tail) (pre.length + 1) 1 (pre.length : Int) := by
      rw [hs, e1]
      unfold scan
      rw [scanLoop_skip pre _ 0 (-1) hpre (by simp [cDollar, cOpen])]
      conv_lhs => unfold scanLoop
      rw [if_pos rfl, if_pos (by rfl), if_pos rfl]
      simp
    rcases scanLoop_inside (cOpen :: tail) 1 (pre.length + 1) (pre.length : Int) (by omega)
      with h | ⟨a, b, hab, hr⟩
    · left
      rw [← hscan] at h
      exact ⟨pre, tail, hs, hpre, h⟩
    · right
      cases a with
      | nil => simp [cOpen, cClose] at hab
      | cons y body =>
        simp only [List.cons_append, List.cons.injEq] at hab
        refine ⟨pre, body, b, ?_, hpre, ?_⟩
        · rw [hs, hab.2]; simp [sOpen, sClose]
        · rw [hscan, hr]
          congr 1
          simp only [List.length_cons]
          push_cast
          omega

theorem normalKey_id (K : Str) (h0 : K ≠ []) (hR : K ≠ "ROOT".toList) : normalKey K = K := by
  unfold normalKey
  rw [if_neg hR, if_neg h0]

theorem bodyTag_parts (K : Str) (D : Option Str) (hK : ¬ sAssign <:+: K) (sp : Str) :
    bodyTag (K ++ defaultPart D) sp =
      { Key := K, Def := D.getD [], HasDef := D.isSome, Splitter := sp } := by
  cases D with
  | none => simpa [defaultPart] using bodyTag_key_only K sp hK
  | some d => simpa [defaultPart] using bodyTag_key_def K d sp hK

theorem regionParam_parts (K : Str) (D : Option Str) (h0 : K ≠ []) (hR : K ≠ "ROOT".toList)
    (hK : ¬ sAssign <:+: K) :
    regionParam (K ++ defaultPart D) =
      { Key := K, Tag := { Key := K, Def := D.getD [], HasDef := D.isSome } } := by
  unfold regionParam
  rw [bodyTag_parts K D hK, normalKey_id K h0 hR]

theorem resolveString_plain (rt : Runtime) (p : Properties) (s : Str) (h : ¬ sOpen <:+: s)
    (n : Nat) : resolveString rt p (n + 1) s = .ok s := by
  rw [resolveString_succ, scan_no_open s h]
  simp

/-- One step of `resolveString` on a text whose first top-level placeholder is
closed. -/
theorem resolveString_region (rt : Runtime) (p : Properties) (pre body suf : Str) (n : Nat)
    (hpre : ¬ sOpen <:+: pre) (htop : TopLevel (sOpen ++ body ++ sClose)) :
    resolveString rt p (n + 1) (pre ++ (sOpen ++ body ++ sClose) ++ suf) =
      substitute rt (pre ++ (sOpen ++ body ++ sClose) ++ suf) pre
        (resolve rt p n (regionParam body)) (resolveString rt p n suf) :=
  resolveString_of_scan rt p pre body suf n (scan_region pre body suf hpre htop)

theorem error_suffix (pre : Str) (e : Err) : (Err.Wrap pre e []).Error = pre ++ e.Error := by
  simp [Err.Error]

theorem scanLoop_open_step (rest : Str) (i c : Nat) (st : Int) :
    scanLoop (cDollar :: cOpen :: rest) i c st =
      scanLoop (cOpen :: rest) (i + 1) (c + 1) (if c = 0 then (i : Int) else st) := by
  conv_lhs => unfold scanLoop
  rw [if_pos rfl, if_pos (by rfl)]

theorem scanLoop_close_step (rest : Str) (i c : Nat) (st : Int) (hc : 1 < c) :
    scanLoop (cClose :: rest) i c st = scanLoop rest (i + 1) (c - 1) st := by
  conv_lhs => unfold scanLoop
  rw [if_neg (by decide), if_pos rfl, if_pos (by omega), if_neg (by omega)]

theorem scanLoop_close_stop (rest : Str) (i : Nat) (st : Int) :
    scanLoop (cClose :: rest) i 1 st = ⟨0, st, (i : Int)⟩ := by
  conv_lhs => unfold scanLoop
  rw [if_neg (by decide), if_pos rfl, if_pos (by omega), if_pos rfl]

theorem not_open_infix_of_no_dollar (t : Str) (h : cDollar ∉ t) : ¬ sOpen <:+: t := by
  rintro ⟨a, b, hab⟩
  exact h (by rw [← hab]; simp [sOpen])

/-- The scanner on a placeholder whose body has no `$` and no closing brace. -/
theorem scan_plain_region (pre t suf : Str) (hpre : ¬ sOpen <:+: pre)
    (h1 : cDollar ∉ t) (h2 : cClose ∉ t) :
    scan (pre ++ (sOpen ++ t ++ sClose) ++ suf) =
      ⟨0, pre.length, (pre.length : Int) + t.length + 2⟩ := by
  have e1 : pre ++ (sOpen ++ t ++ sClose) ++ suf =
      pre ++ (cDollar :: cOpen :: (t ++ cClose :: suf)) := by
    simp [sOpen, sClose]
  have e2 : cOpen :: (t ++ cClose :: suf) = (cOpen :: t) ++ cClose :: suf := rfl
  unfold scan
  rw [e1, scanLoop_skip pre _ 0 (-1) hpre (by simp [cDollar, cOpen]), scanLoop_open_step, e2,
    scanLoop_plain (cOpen :: t) _ _ _ _ (by simp [cDollar, cOpen]; exact h1)
      (by simp [cClose, cOpen]; exact h2),
    scanLoop_close_stop]
  simp only [if_true, List.length_cons]
  congr 1
  · simp
  · push_cast; omega

/-- The scanner on a placeholder whose default is a placeholder, both keys plain. -/
theorem scan_nested_region (pre A B suf : Str) (hpre : ¬ sOpen <:+: pre)
    (a1 : cDollar ∉ A) (a2 : cClose ∉ A) (b1 : cDollar ∉ B) (b2 : cClose ∉ B) :
    scan (pre ++ (sOpen ++ (A ++ (sAssign ++ (sOpen ++ B ++ sClose))) ++ sClose) ++ suf) =
      ⟨0, pre.length,
        (pre.length : Int) + (A ++ (sAssign ++ (sOpen ++ B ++ sClose))).length + 2⟩ := by
  have e1 : pre ++ (sOpen ++ (A ++ (sAssign ++ (sOpen ++ B ++ sClose))) ++ sClose) ++ suf =
      pre ++ (cDollar :: cOpen :: ((A ++ sAssign) ++
        (cDollar :: cOpen :: (B ++ cClose :: cClose :: suf)))) := by
    simp [sOpen, sClose]
  have e2 : ∀ (x y : Str), cOpen :: (x ++ y) = (cOpen :: x) ++ y := fun _ _ => rfl
  unfold scan
  rw [e1, scanLoop_skip pre _ 0 (-1) hpre (by simp [cDollar, cOpen]), scanLoop_open_step, e2,
    scanLoop_plain (cOpen :: (A ++ sAssign)) _ _ _ _
      (by simp [cDollar, cOpen, sAssign]; exact a1) (by simp [cClose, cOpen, sAssign]; exact a2),
    scanLoop_open_step, e2,
    scanLoop_plain (cOpen :: B) _ _ _ _ (by simp [cDollar, cOpen]; exact b1)
      (by simp [cClose, cOpen]; exact b2),
    scanLoop_close_step _ _ _ _ (by omega), scanLoop_close_stop]
  simp only [if_true, List.length_cons, List.length_append]
  congr 1
  · simp
  · simp [sOpen, sClose, sAssign]; omega

theorem regionParam_key_only (K : Str) (h0 : K ≠ []) (hR : K ≠ "ROOT".toList)
    (hK : ¬ sAssign <:+: K) :
    regionParam K = { Key := K, Tag := { Key := K } } := by
  have := regionParam_parts K none h0 hR hK
  simpa [defaultPart] using this

/-- The three ways a call of `resolveString` can go, whatever fuel it has. -/
theorem resolveString_cases (rt : Runtime) (p : Properties) (s : Str) :
    (¬ sOpen <:+: s ∧ ∀ n, resolveString rt p (n + 1) s = .ok s) ∨
    (∀ n, resolveString rt p (n + 1) s =
      .err (resolveStringError rt 462 s .ErrInvalidSyntax)) ∨
    (∃ pre body suf, s = pre ++ (sOpen ++ body ++ sClose) ++ suf ∧ ¬ sOpen <:+: pre ∧
      ∀ n, resolveString rt p (n + 1) s =
        substitute rt s pre (resolve rt p n (regionParam body)) (resolveString rt p n suf)) := by
  rcases scan_cases s with ⟨h, _⟩ | ⟨pre, tail, _, _, h1, h2, _⟩ | ⟨pre, body, suf, hs, hpre, hsc⟩
  · left
    exact ⟨h, resolveString_plain rt p s h⟩
  · right; left
    intro n
    rw [resolveString_succ, if_neg (by rw [h1]; omega), if_pos (Or.inl (by rw [h2]; decide))]
  · right; right
    refine ⟨pre, body, suf, hs, hpre, ?_⟩
    subst hs
    intro n
    exact resolveString_of_scan rt p pre body suf n hsc

/-- One more unit of fuel does not change the outcome of a call that returned. -/
theorem resolve_mono_succ (rt : Runtime) (p : Properties) : ∀ n : Nat,
    (∀ s r, resolveString rt p n s = r → r ≠ .timeout → resolveString rt p (n + 1) s = r) ∧
    (∀ param r, resolve rt p n param = r → r ≠ .timeout → resolve rt p (n + 1) param = r) := by
  intro n
  induction n with
  | zero =>
    constructor
    · intro s r h hr
      rw [resolveString_zero] at h
      exact absurd h.symm hr
    · intro param r h hr
      rw [resolve_zero] at h
      exact absurd h.symm hr
  | succ n ih =>
    obtain ⟨ihs, ihr⟩ := ih
    constructor
    · intro s r h hr
      rcases resolveString_cases rt p s with ⟨_, h1⟩ | h1 | ⟨pre, body, suf, _, _, h1⟩
      · rw [h1 (n + 1), ← h, h1 n]
      · rw [h1 (n + 1), ← h, h1 n]
      · rw [h1 n] at h
        rw [h1 (n + 1)]
        cases hX : resolve rt p n (regionParam body) with
        | timeout =>
          rw [hX] at h
          exact absurd h.symm hr
        | panic =>
          rw [hX] at h
          rw [ihr _ _ hX (by simp)]
          exact h
        | err e =>
          rw [hX] at h
          rw [ihr _ _ hX (by simp)]
          exact h
        | ok x =>
          rw [hX] at h
          rw [ihr _ _ hX (by simp)]
          cases hY : resolveString rt p n suf with
          | timeout =>
            rw [hY] at h
            exact absurd h.symm hr
          | panic =>
            rw [hY] at h
            rw [ihs _ _ hY (by simp)]
            exact h
          | err e =>
            rw [hY] at h
            rw [ihs _ _ hY (by simp)]
            exact h
          | ok y =>
            rw [hY] at h
            rw [ihs _ _ hY (by simp)]
            exact h
    · intro param r h hr
      rw [resolve_succ] at h ⊢
      cases hg : p.storage.Get param.Key with
      | some val =>
        rw [hg] at h
        exact ihs val r h hr
      | none =>
        rw [hg] at h
        simp only [] at h ⊢
        by_cases hh : p.storage.Has param.Key = true
        · rw [if_pos hh] at h ⊢
          exact h
        · rw [if_neg hh] at h ⊢
          by_cases hd : param.Tag.HasDef = true
          · rw [if_pos hd] at h ⊢
            exact ihs _ r h hr
          · rw [if_neg hd] at h ⊢
            exact h

/-- Fuel is only a bound: a call that returned returns the same with any larger fuel. -/
theorem resolveString_mono (rt : Runtime) (p : Properties) (s : Str) (r : Res Str) (n m : Nat)
    (h : resolveString rt p n s = r) (hr : r ≠ .timeout) (hnm : n ≤ m) :
    resolveString rt p m s = r := by
  induction m with
  | zero =>
    have : n = 0 := by omega
    subst this
    exact h
  | succ m ih =>
    by_cases hn : n = m + 1
    · subst hn; exact h
    · exact (resolve_mono_succ rt p m).1 s r (ih (by omega)) hr

theorem dollarsOpen_suffix (a b : Str) (h : DollarsOpen (a ++ b)) : DollarsOpen b := by
  intro x y hxy
  exact h (a ++ x) y (by rw [hxy]; simp)

theorem dollarsOpen_front (a b : Str) (h : DollarsOpen (a ++ b)) (hb : b.head? ≠ some cOpen) :
    DollarsOpen a := by
  intro x y hxy
  have := h x (y ++ b) (by rw [hxy]; simp)
  cases y with
  | nil => exact absurd (by simpa using this) hb
  | cons c cs => simpa using this

theorem no_dollar_before_open (pre tail : Str) (h : DollarsOpen (pre ++ (sOpen ++ tail)))
    (hpre : ¬ sOpen <:+: pre) : cDollar ∉ pre := by
  intro hm
  obtain ⟨x, y, hxy⟩ := List.append_of_mem hm
  have := h x (y ++ (sOpen ++ tail)) (by rw [hxy]; simp)
  cases y with
  | nil => simp [sOpen, cDollar, cOpen] at this
  | cons c cs =>
    simp at this
    exact hpre ⟨x, cs, by rw [hxy, this]; simp [sOpen]⟩

theorem no_dollar_of_no_open (s : Str) (h : DollarsOpen s) (hs : ¬ sOpen <:+: s) :
    cDollar ∉ s := by
  intro hm
  obtain ⟨x, y, hxy⟩ := List.append_of_mem hm
  have := h x y hxy
  cases y with
  | nil => simp at this
  | cons c cs =>
    simp at this
    exact hs ⟨x, cs, by rw [hxy, this]; simp [sOpen]⟩

theorem dollarsOpen_nil : DollarsOpen [] := by
  intro a b hab
  cases a <;> simp at hab

theorem dollarsOpen_regionParam (body : Str) (h : DollarsOpen body) :
    DollarsOpen (regionParam body).Tag.Def := by
  unfold regionParam bodyTag
  by_cases hm : Index body sAssign < 0
  · rw [if_pos hm]
    exact dollarsOpen_nil
  · rw [if_neg hm]
    apply dollarsOpen_suffix (body.take ((Index body sAssign).toNat + 2))
    rw [List.take_append_drop]
    exact h

theorem dollarsOpen_iff (s : Str) : DollarsOpen s ↔ dollarsOpen s = true := by
  induction s with
  | nil => simp [dollarsOpen, dollarsOpen_nil]
  | cons c rest ih =>
    constructor
    · intro h
      have h1 : DollarsOpen rest := dollarsOpen_suffix [c] rest h
      have h2 : c = cDollar → rest.head? = some cOpen := fun hc => h [] rest (by rw [hc]; rfl)
      simp only [dollarsOpen, Bool.and_eq_true, Bool.or_eq_true, bne_iff_ne, ne_eq,
        beq_iff_eq]
      refine ⟨?_, ih.1 h1⟩
      by_cases hc : c = cDollar
      · right; exact h2 hc
      · left; exact hc
    · intro h
      simp only [dollarsOpen, Bool.and_eq_true, Bool.or_eq_true, bne_iff_ne, ne_eq,
        beq_iff_eq] at h
      intro a b hab
      cases a with
      | nil =>
        simp only [List.nil_append, List.cons.injEq] at hab
        rcases h.1 with h1 | h1
        · exact absurd hab.1 h1
        · rw [← hab.2]; exact h1
      | cons d ds =>
        simp only [List.cons_append, List.cons.injEq] at hab
        exact ih.2 h.2 ds b hab.2

theorem exampleStorage_get (leaves : List (Str × Str)) (nodes : List Str) (k v : Str)
    (h : (exampleStorage leaves nodes).Get k = some v) : (k, v) ∈ leaves := by
  induction leaves with
  | nil => simp [exampleStorage, List.lookup] at h
  | cons x xs ih =>
    obtain ⟨a, b⟩ := x
    by_cases hk : k = a
    · subst hk
      simp [exampleStorage, List.lookup] at h
      simp [h]
    · have hb : (k == a) = false := by simpa using hk
      simp only [exampleStorage, List.lookup, hb] at h
      exact List.mem_cons_of_mem _ (ih h)

/-- Where every `$` of the text and of the stored values opens a placeholder, a
resolved text has no `$` left. -/
theorem resolve_no_dollar (rt : Runtime) (p : Properties)
    (hstore : ∀ k v, p.storage.Get k = some v → DollarsOpen v) : ∀ n : Nat,
    (∀ s r, DollarsOpen s → resolveString rt p n s = .ok r → cDollar ∉ r) ∧
    (∀ param r, DollarsOpen param.Tag.Def → resolve rt p n param = .ok r → cDollar ∉ r) := by
  intro n
  induction n with
  | zero =>
    constructor
    · intro s r _ h
      rw [resolveString_zero] at h
      cases h
    · intro param r _ h
      rw [resolve_zero] at h
      cases h
  | succ n ih =>
    obtain ⟨ihs, ihr⟩ := ih
    constructor
    · intro s r hs h
      rcases resolveString_cases rt p s with ⟨hno, h1⟩ | h1 | ⟨pre, body, suf, hdec, hpre, h1⟩
      · rw [h1 n] at h
        cases h
        exact no_dollar_of_no_open s hs hno
      · rw [h1 n] at h
        cases h
      · rw [h1 n] at h
        have hs' : DollarsOpen (pre ++ (sOpen ++ (body ++ (sClose ++ suf)))) := by
          rw [hdec] at hs
          simpa using hs
        have hbody : DollarsOpen body := by
          have h2 := dollarsOpen_suffix (pre ++ sOpen) (body ++ (sClose ++ suf))
            (by simpa using hs')
          exact dollarsOpen_front body (sClose ++ suf) h2 (by simp [sClose, cClose, cOpen])
        have hsuf : DollarsOpen suf := by
          apply dollarsOpen_suffix (pre ++ (sOpen ++ body ++ sClose))
          rw [hdec] at hs
          exact hs
        cases hX : resolve rt p n (regionParam body) with
        | timeout => rw [hX] at h; cases h
        | panic => rw [hX] at h; cases h
        | err e => rw [hX] at h; cases h
        | ok x =>
          rw [hX] at h
          cases hY : resolveString rt p n suf with
          | timeout => rw [hY] at h; cases h
          | panic => rw [hY] at h; cases h
          | err e => rw [hY] at h; cases h
          | ok y =>
            rw [hY] at h
            simp only [substitute, Res.ok.injEq] at h
            rw [← h]
            have hx := ihr _ x (dollarsOpen_regionParam body hbody) hX
            have hy := ihs suf y hsuf hY
            have hp := no_dollar_before_open pre (body ++ (sClose ++ suf)) (by simpa using hs') hpre
            simp [hx, hy, hp]
    · intro param r hd h
      rw [resolve_succ] at h
      cases hg : p.storage.Get param.Key with
      | some val =>
        rw [hg] at h
        exact ihs val r (hstore _ _ hg) h
      | none =>
        rw [hg] at h
        simp only [] at h
        by_cases hh : p.storage.Has param.Key = true
        · rw [if_pos hh] at h
          cases h
        · rw [if_neg hh] at h
          by_cases hdef : param.Tag.HasDef = true
          · rw [if_pos hdef] at h
            exact ihs _ r hd h
          · rw [if_neg hdef] at h
            cases h

theorem wrapsNotExist_origin (rt : Runtime) (K : Str) (line : Nat) :
    WrapsNotExist rt K (resolvePropertyError rt line K (notExistError rt K)) := by
  constructor
  · simp [resolvePropertyError, notExistError, Err.Is, Err.same]
  · refine ⟨rt.FileLine line ++ ": resolve property ".toList ++ rt.Quote K ++ " error, ".toList,
      [], ?_⟩
    simp [resolvePropertyError, notExistError, Err.Error]

/-- Wrapping by `%w` keeps the sentinel and the message of the wrapped error. -/
theorem wrapsNotExist_wrap (rt : Runtime) (K : Str) (e : Err) (front back : Str)
    (h : WrapsNotExist rt K e) : WrapsNotExist rt K (.Wrap front e back) := by
  obtain ⟨h1, a, b, h2⟩ := h
  constructor
  · simp [Err.Is, Err.same, h1]
  · refine ⟨front ++ a, b ++ back, ?_⟩
    simp only [Err.Error, ← h2]
    simp

theorem wrapsNotExist_resolveString (rt : Runtime) (K : Str) (e : Err) (line : Nat) (s : Str)
    (h : WrapsNotExist rt K e) : WrapsNotExist rt K (resolveStringError rt line s e) :=
  wrapsNotExist_wrap rt K e _ [] h

theorem resolveString_mono' (rt : Runtime) (p : Properties) (n m : Nat) (hnm : n ≤ m) :
    (∀ s r, resolveString rt p n s = r → r ≠ .timeout → resolveString rt p m s = r) ∧
    (∀ param r, resolve rt p n param = r → r ≠ .timeout → resolve rt p m param = r) := by
  induction m with
  | zero =>
    have : n = 0 := by omega
    subst this
    exact ⟨fun _ _ h _ => h, fun _ _ h _ => h⟩
  | succ m ih =>
    by_cases hn : n = m + 1
    · subst hn
      exact ⟨fun _ _ h _ => h, fun _ _ h _ => h⟩
    · obtain ⟨ih1, ih2⟩ := ih (by omega)
      exact ⟨fun s r h hr => (resolve_mono_succ rt p m).1 s r (ih1 s r h hr) hr,
        fun q r h hr => (resolve_mono_succ rt p m).2 q r (ih2 q r h hr) hr⟩

/-- A text that fails because of a missing key makes `resolveString` return,
once it has fuel enough, an error that wraps `ErrNotExist` and names the key. -/
theorem stringMissing_fails (rt : Runtime) (p : Properties) (s K : Str)
    (h : StringMissing rt p s K) :
    ∃ n₀ e, WrapsNotExist rt K e ∧ ∀ n, n₀ ≤ n → resolveString rt p n s = .err e := by
  induction h with
  | absent pre body suf param hpre htop hparam hg hh hd =>
    refine ⟨2, resolveStringError rt 470 (pre ++ (sOpen ++ body ++ sClose) ++ suf)
        (resolvePropertyError rt 424 param.Key (notExistError rt param.Key)),
      wrapsNotExist_resolveString rt _ _ _ _ (wrapsNotExist_origin rt param.Key 424),
      fun n hn => ?_⟩
    obtain ⟨m, rfl⟩ : ∃ m, n = m + 2 := ⟨n - 2, by omega⟩
    rw [bindTag_region] at hparam
    replace hparam : regionParam body = param := hparam
    rw [resolveString_region rt p pre body suf (m + 1) hpre htop, hparam, resolve_succ]
    simp only [hg, hh, hd]
    rfl
  | inValue pre body suf param v K hpre htop hparam hg _ ih =>
    obtain ⟨n₀, e, he, hn₀⟩ := ih
    refine ⟨n₀ + 2, resolveStringError rt 470 (pre ++ (sOpen ++ body ++ sClose) ++ suf) e,
      wrapsNotExist_resolveString rt _ e _ _ he, fun n hn => ?_⟩
    obtain ⟨m, rfl⟩ : ∃ m, n = m + 2 := ⟨n - 2, by omega⟩
    rw [bindTag_region] at hparam
    replace hparam : regionParam body = param := hparam
    rw [resolveString_region rt p pre body suf (m + 1) hpre htop, hparam, resolve_succ]
    simp only [hg]
    rw [hn₀ m (by omega)]
    rfl
  | inDefault pre body suf param K hpre htop hparam hg hh hd _ ih =>
    obtain ⟨n₀, e, he, hn₀⟩ := ih
    refine ⟨n₀ + 2, resolveStringError rt 470 (pre ++ (sOpen ++ body ++ sClose) ++ suf) e,
      wrapsNotExist_resolveString rt _ e _ _ he, fun n hn => ?_⟩
    obtain ⟨m, rfl⟩ : ∃ m, n = m + 2 := ⟨n - 2, by omega⟩
    rw [bindTag_region] at hparam
    replace hparam : regionParam body = param := hparam
    rw [resolveString_region rt p pre body suf (m + 1) hpre htop, hparam, resolve_succ]
    simp only [hg, hh, hd]
    rw [hn₀ m (by omega)]
    rfl
  | later pre body suf param K x k hpre htop hparam hx _ ih =>
    obtain ⟨n₀, e, he, hn₀⟩ := ih
    refine ⟨max n₀ k + 1, resolveStringError rt 475 (pre ++ (sOpen ++ body ++ sClose) ++ suf) e,
      wrapsNotExist_resolveString rt _ e _ _ he, fun n hn => ?_⟩
    obtain ⟨m, rfl⟩ : ∃ m, n = m + 1 := ⟨n - 1, by omega⟩
    rw [bindTag_region] at hparam
    replace hparam : regionParam body = param := hparam
    rw [resolveString_region rt p pre body suf m hpre htop, hparam,
      (resolveString_mono' rt p k m (by omega)).2 param _ hx (by simp),
      hn₀ m (by omega)]
    rfl

theorem resolveMissing_fails (rt : Runtime) (p : Properties) (param : BindParam) (K : Str)
    (h : ResolveMissing rt p param K) :
    ∃ n₀ e, WrapsNotExist rt K e ∧ ∀ n, n₀ ≤ n → resolve rt p n param = .err e := by
  cases h
  case absent hg hh hd =>
    refine ⟨1, _, wrapsNotExist_origin rt param.Key 424, fun n hn => ?_⟩
    obtain ⟨m, rfl⟩ : ∃ m, n = m + 1 := ⟨n - 1, by omega⟩
    rw [resolve_succ]
    simp only [hg, hh, hd]
    rfl
  case inValue v hg hs =>
    obtain ⟨n₀, e, he, hn₀⟩ := stringMissing_fails rt p v K hs
    refine ⟨n₀ + 1, e, he, fun n hn => ?_⟩
    obtain ⟨m, rfl⟩ : ∃ m, n = m + 1 := ⟨n - 1, by omega⟩
    rw [resolve_succ]
    simp only [hg]
    exact hn₀ m (by omega)
  case inDefault hg hh hd hs =>
    obtain ⟨n₀, e, he, hn₀⟩ := stringMissing_fails rt p _ K hs
    refine ⟨n₀ + 1, e, he, fun n hn => ?_⟩
    obtain ⟨m, rfl⟩ : ∃ m, n = m + 1 := ⟨n - 1, by omega⟩
    rw [resolve_succ]
    simp only [hg, hh, hd]
    exact hn₀ m (by omega)

theorem wrapsNotExist_bind (rt : Runtime) (K : Str) (e : Err) (line : Nat) (path : Str)
    (h : WrapsNotExist rt K e) : WrapsNotExist rt K (bindError rt line path e) :=
  wrapsNotExist_wrap rt K e _ [] h

theorem validate_err (env : Env) (param : BindParam) (v : Value) (e : Err) :
    validate env param (v, .err e) = (v, .err e) := rfl

/-- A scalar target whose parameter does not resolve: the error of `resolve`
comes back wrapped on line 166. -/
theorem bindValue_resolve_err (env : Env) (p : Properties) (filter : Option Filter) (n : Nat)
    (v : Value) (t : GoType) (param : BindParam) (e : Err)
    (h1 : env.IsValueType t = true) (h2 : t.Kind ≠ .Map) (h3 : t.Kind ≠ .Slice)
    (h4 : t.Kind ≠ .Array) (h5 : ¬ ((env.converters t).isNone ∧ t.Kind = .Struct))
    (hr : resolve env.rt p n param = .err e) :
    BindValue env p filter (n + 1) v t param = (v, .err (bindError env.rt 166 param.Path e)) := by
  rw [BindValue]
  simp only [h1, not_true_eq_false, if_false]
  rw [if_neg h5, hr]
  cases hk : t.Kind <;> first | exact absurd hk h2 | exact absurd hk h3 | exact absurd hk h4 | rfl

theorem validate_snd_err (env : Env) (param : BindParam) (out : Value × Res Unit) (e : Err)
    (h : out.2 = .err e) : (validate env param out).2 = .err e := by
  obtain ⟨v, r⟩ := out
  simp only at h
  subst h
  rfl

/-- A struct target without converter: the error of `bindStruct` comes back
wrapped on line 159. -/
theorem bindValue_struct_err (env : Env) (p : Properties) (filter : Option Filter) (n : Nat)
    (v : Value) (t : GoType) (param : BindParam) (e : Err)
    (h1 : env.IsValueType t = true) (h2 : t.Kind = .Struct) (h3 : (env.converters t).isNone)
    (hr : (bindStruct env p filter n v t param).2 = .err e) :
    (BindValue env p filter (n + 1) v t param).2 = .err (bindError env.rt 159 param.Path e) := by
  rw [BindValue]
  simp only [h1, not_true_eq_false, if_false]
  apply validate_snd_err
  rw [h2]
  simp only [h3, h2, and_self, if_true]
  cases hX : bindStruct env p filter n v t param with
  | mk v' r =>
    rw [hX] at hr
    simp only at hr
    subst hr
    rfl

/-- The error of the field loop is the error of `bindStruct`. -/
theorem bindStruct_fields_err (env : Env) (p : Properties) (filter : Option Filter) (n : Nat)
    (name : Str) (fields : List StructField) (values : List Value) (param : BindParam) (e : Err)
    (h1 : ¬ (param.Tag.HasDef ∧ param.Tag.Def ≠ []))
    (hr : (bindFields env p filter n fields values param).2 = .err e) :
    (bindStruct env p filter (n + 1) (.struct values) (.struct name fields) param).2 = .err e := by
  rw [bindStruct]
  rw [if_neg h1]
  simp only []
  exact hr

theorem bindFields_here_err (env : Env) (p : Properties) (filter : Option Filter) (n : Nat)
    (ft : StructField) (fields : List StructField) (fv : Value) (values : List Value)
    (param : BindParam) (e : Err)
    (hr : (bindField env p filter n ft fv param).2 = .err e) :
    (bindFields env p filter (n + 1) (ft :: fields) (fv :: values) param).2 = .err e := by
  rw [bindFields]
  cases hX : bindField env p filter n ft fv param with
  | mk v' r =>
    rw [hX] at hr
    simp only at hr
    subst hr
    rfl

theorem bindFields_later_err (env : Env) (p : Properties) (filter : Option Filter) (n : Nat)
    (ft : StructField) (fields : List StructField) (fv fv' : Value) (values : List Value)
    (param : BindParam) (e : Err)
    (h1 : bindField env p filter n ft fv param = (fv', .ok ()))
    (hr : (bindFields env p filter n fields values param).2 = .err e) :
    (bindFields env p filter (n + 1) (ft :: fields) (fv :: values) param).2 = .err e := by
  rw [bindFields, h1]
  simp only []
  exact hr

theorem bindField_tagged_err (env : Env) (p : Properties) (filter : Option Filter) (n : Nat)
    (ft : StructField) (fv fv' : Value) (param subParam : BindParam) (tag : Str) (e : Err)
    (h1 : ft.Exported = true) (h2 : env.Lookup ft.Tag "value".toList = some tag)
    (h3 : BindParam.BindTag { Key := param.Key, Path := param.Path ++ ".".toList ++ ft.Name } tag
        ft.Tag = (subParam, .ok ()))
    (h4 : (filter = none ∧ fv' = fv) ∨ ∃ f, filter = some f ∧ f fv subParam = (fv', .ok false))
    (hr : (BindValue env p filter n fv' ft.Typ subParam).2 = .err e) :
    (bindField env p filter (n + 1) ft fv param).2 = .err (bindError env.rt 379 param.Path e) := by
  rw [bindField]
  simp only [h1, not_true_eq_false, if_false, h2, h3]
  have hv : ∀ out : Value × Res Unit, out.2 = .err e →
      (match out with
        | (fv, Res.err e) => (fv, Res.err (bindError env.rt 379 param.Path e))
        | out => out).2 = .err (bindError env.rt 379 param.Path e) := by
    rintro ⟨v', r⟩ h
    simp only at h
    subst h
    rfl
  rcases h4 with ⟨hn, hfv⟩ | ⟨f, hf, hfv⟩
  · subst hn hfv
    exact hv _ hr
  · subst hf
    simp only [hfv]
    exact hv _ hr

theorem bindField_embedded_err (env : Env) (p : Properties) (filter : Option Filter) (n : Nat)
    (ft : StructField) (fv : Value) (param : BindParam) (e : Err)
    (h1 : ft.Exported = true) (h2 : env.Lookup ft.Tag "value".toList = none)
    (h3 : ft.Anonymous = true) (h4 : ft.Typ.Kind = .Struct)
    (hr : (bindStruct env p filter n fv ft.Typ
      { Key := param.Key, Path := param.Path ++ ".".toList ++ ft.Name }).2 = .err e) :
    (bindField env p filter (n + 1) ft fv param).2 = .err (bindError env.rt 390 param.Path e) := by
  rw [bindField]
  simp only [h1, not_true_eq_false, if_false, h2, h3, if_true, h4, ne_eq]
  cases hX : bindStruct env p filter n fv ft.Typ
    { Key := param.Key, Path := param.Path ++ ".".toList ++ ft.Name } with
  | mk v' r =>
    rw [hX] at hr
    simp only at hr
    subst hr
    rfl

theorem bindField_plain_err (env : Env) (p : Properties) (filter : Option Filter) (n : Nat)
    (ft : StructField) (fv : Value) (param : BindParam) (e : Err)
    (h1 : ft.Exported = true) (h2 : env.Lookup ft.Tag "value".toList = none)
    (h3 : ft.Anonymous = false) (h4 : env.IsValueType ft.Typ = true)
    (hr : (BindValue env p filter n fv ft.Typ
      { Key := fieldKey env param.Key ft.Name
        Path := param.Path ++ ".".toList ++ ft.Name }).2 = .err e) :
    (bindField env p filter (n + 1) ft fv param).2 = .err (bindError env.rt 404 param.Path e) := by
  rw [bindField]
  simp only [h1, not_true_eq_false, if_false, h2, h3, h4, if_true, Bool.false_eq_true]
  cases hX : BindValue env p filter n fv ft.Typ
    { Key := fieldKey env param.Key ft.Name, Path := param.Path ++ ".".toList ++ ft.Name } with
  | mk v' r =>
    rw [hX] at hr
    simp only at hr
    subst hr
    rfl

/-- A call that fails because of a missing key returns, once it has fuel
enough, an error that wraps `ErrNotExist` and names the key. -/
theorem bindMissing_fails (env : Env) (p : Properties) (filter : Option Filter) (c : Call)
    (K : Str) (h : BindMissing env p filter c K) :
    ∃ n₀ e, WrapsNotExist env.rt K e ∧ ∀ n, n₀ ≤ n → c.fails env p filter n e := by
  induction h with
  | scalar v t param K h1 h2 h3 h4 h5 hr =>
    obtain ⟨n₀, e, he, hn₀⟩ := resolveMissing_fails env.rt p param K hr
    refine ⟨n₀ + 1, bindError env.rt 166 param.Path e, wrapsNotExist_bind _ _ _ _ _ he,
      fun n hn => ?_⟩
    obtain ⟨m, rfl⟩ : ∃ m, n = m + 1 := ⟨n - 1, by omega⟩
    show (BindValue env p filter (m + 1) v t param).2 = _
    rw [bindValue_resolve_err env p filter m v t param e h1 h2 h3 h4 h5 (hn₀ m (by omega))]
  | structValue v t param K h1 h2 h3 _ ih =>
    obtain ⟨n₀, e, he, hn₀⟩ := ih
    refine ⟨n₀ + 1, bindError env.rt 159 param.Path e, wrapsNotExist_bind _ _ _ _ _ he,
      fun n hn => ?_⟩
    obtain ⟨m, rfl⟩ : ∃ m, n = m + 1 := ⟨n - 1, by omega⟩
    exact bindValue_struct_err env p filter m v t param e h1 h2 h3 (hn₀ m (by omega))
  | struct name fields values param K h1 _ ih =>
    obtain ⟨n₀, e, he, hn₀⟩ := ih
    refine ⟨n₀ + 1, e, he, fun n hn => ?_⟩
    obtain ⟨m, rfl⟩ : ∃ m, n = m + 1 := ⟨n - 1, by omega⟩
    exact bindStruct_fields_err env p filter m name fields values param e h1 (hn₀ m (by omega))
  | fieldsHere ft fields fv values param K _ ih =>
    obtain ⟨n₀, e, he, hn₀⟩ := ih
    refine ⟨n₀ + 1, e, he, fun n hn => ?_⟩
    obtain ⟨m, rfl⟩ : ∃ m, n = m + 1 := ⟨n - 1, by omega⟩
    exact bindFields_here_err env p filter m ft fields fv values param e (hn₀ m (by omega))
  | fieldsLater ft fields fv fv' values param K k hk _ ih =>
    obtain ⟨n₀, e, he, hn₀⟩ := ih
    refine ⟨max n₀ k + 1, e, he, fun n hn => ?_⟩
    obtain ⟨m, rfl⟩ : ∃ m, n = m + 1 := ⟨n - 1, by omega⟩
    exact bindFields_later_err env p filter m ft fields fv fv' values param e
      (hk m (by omega)) (hn₀ m (by omega))
  | fieldTagged ft fv fv' param subParam tag K h1 h2 h3 h4 _ ih =>
    obtain ⟨n₀, e, he, hn₀⟩ := ih
    refine ⟨n₀ + 1, bindError env.rt 379 param.Path e, wrapsNotExist_bind _ _ _ _ _ he,
      fun n hn => ?_⟩
    obtain ⟨m, rfl⟩ : ∃ m, n = m + 1 := ⟨n - 1, by omega⟩
    exact bindField_tagged_err env p filter m ft fv fv' param subParam tag e h1 h2 h3 h4
      (hn₀ m (by omega))
  | fieldEmbedded ft fv param K h1 h2 h3 h4 _ ih =>
    obtain ⟨n₀, e, he, hn₀⟩ := ih
    refine ⟨n₀ + 1, bindError env.rt 390 param.Path e, wrapsNotExist_bind _ _ _ _ _ he,
      fun n hn => ?_⟩
    obtain ⟨m, rfl⟩ : ∃ m, n = m + 1 := ⟨n - 1, by omega⟩
    exact bindField_embedded_err env p filter m ft fv param e h1 h2 h3 h4 (hn₀ m (by omega))
  | fieldPlain ft fv param K h1 h2 h3 h4 _ ih =>
    obtain ⟨n₀, e, he, hn₀⟩ := ih
    refine ⟨n₀ + 1, bindError env.rt 404 param.Path e, wrapsNotExist_bind _ _ _ _ _ he,
      fun n hn => ?_⟩
    obtain ⟨m, rfl⟩ : ∃ m, n = m + 1 := ⟨n - 1, by omega⟩
    exact bindField_plain_err env p filter m ft fv param e h1 h2 h3 h4 (hn₀ m (by omega))

/-- With a pointer to a variable or a `reflect.Value` as target and an argument
that gives a parameter, `Bind` returns what `BindValue` returns on that
parameter with the name of the type as path. -/
theorem bind_eq_bindValue (env : Env) (p : Properties) (n : Nat) (t : GoType) (v : Value)
    (args : List BindArg) (param : BindParam)
    (h : (args.headD (.tagArg (sOpen ++ "ROOT".toList ++ sClose))).getParam = .ok param) :
    (p.Bind env n (.pointer t (some v)) args).2 =
        (BindValue env p none n v t
          { param with
            Path := if env.TypeName t = [] then env.TypeString t else env.TypeName t }).2 ∧
      (p.Bind env n (.reflectValue t v) args).2 =
        (BindValue env p none n v t
          { param with
            Path := if env.TypeName t = [] then env.TypeString t else env.TypeName t }).2 := by
  constructor <;>
  · unfold Properties.Bind
    simp only [h]

theorem bindValue_zero (env : Env) (p : Properties) (filter : Option Filter) (v : Value)
    (t : GoType) (param : BindParam) : BindValue env p filter 0 v t param = (v, .timeout) := by
  rw [BindValue]

theorem bindValue_succ (env : Env) (p : Properties) (filter : Option Filter) (n : Nat) (v : Value)
    (t : GoType) (param : BindParam) :
    BindValue env p filter (n + 1) v t param =
      if ¬ env.IsValueType t then
        (v, .err (bindError env.rt 130 param.Path (.New "target should be value type".toList)))
      else validate env param (bindBody env p filter n v t param) := by
  rw [BindValue]
  by_cases h : env.IsValueType t = true
  · simp only [h, not_true_eq_false, if_false]
    congr 1
    unfold bindBody
    cases hk : t.Kind <;> simp only [reduceCtorEq, if_false, if_true, and_false, and_true] <;> rfl
  · simp only [h, Bool.false_eq_true, not_false_eq_true, if_true]

theorem validate_timeout (env : Env) (param : BindParam) (out : Value × Res Unit)
    (h : (validate env param out).2 ≠ .timeout) : out.2 ≠ .timeout := by
  obtain ⟨v, r⟩ := out
  intro hr
  simp only at hr
  subst hr
  exact h rfl

theorem wrapErr_timeout (rt : Runtime) (line : Nat) (path : Str) (out : Value × Res Unit)
    (h : (wrapErr rt line path out).2 ≠ .timeout) : out.2 ≠ .timeout := by
  obtain ⟨v, r⟩ := out
  intro hr
  simp only at hr
  subst hr
  exact h rfl

theorem bindResolved_timeout (env : Env) (v : Value) (t : GoType) (param : BindParam)
    (r : Res Str) (h : (bindResolved env v t param r).2 ≠ .timeout) : r ≠ .timeout := by
  intro hr
  subst hr
  exact h rfl

/-- One more unit of fuel does not change the outcome of a call of the binder
that returned. -/
theorem binder_mono_succ (env : Env) (filter : Option Filter) : ∀ n : Nat,
    (∀ p v t param, (BindValue env p filter n v t param).2 ≠ .timeout →
      BindValue env p filter (n + 1) v t param = BindValue env p filter n v t param) ∧
    (∀ p v t param, (bindSlice env p filter n v t param).2 ≠ .timeout →
      bindSlice env p filter (n + 1) v t param = bindSlice env p filter n v t param) ∧
    (∀ p et param i slice, (bindSliceLoop env p filter n et param i slice).2 ≠ .timeout →
      bindSliceLoop env p filter (n + 1) et param i slice =
        bindSliceLoop env p filter n et param i slice) ∧
    (∀ p v t param, (bindMap env p filter n v t param).2 ≠ .timeout →
      bindMap env p filter (n + 1) v t param = bindMap env p filter n v t param) ∧
    (∀ p kt et param keys ret, (bindMapLoop env p filter n kt et param keys ret).2 ≠ .timeout →
      bindMapLoop env p filter (n + 1) kt et param keys ret =
        bindMapLoop env p filter n kt et param keys ret) ∧
    (∀ p v t param, (bindStruct env p filter n v t param).2 ≠ .timeout →
      bindStruct env p filter (n + 1) v t param = bindStruct env p filter n v t param) ∧
    (∀ p fields values param, (bindFields env p filter n fields values param).2 ≠ .timeout →
      bindFields env p filter (n + 1) fields values param =
        bindFields env p filter n fields values param) ∧
    (∀ p ft fv param, (bindField env p filter n ft fv param).2 ≠ .timeout →
      bindField env p filter (n + 1) ft fv param = bindField env p filter n ft fv param) := by
  intro n
  induction n with
  | zero =>
    refine ⟨?_, ?_, ?_, ?_, ?_, ?_, ?_, ?_⟩
    · intro p v t param h; rw [BindValue] at h; exact absurd rfl h
    · intro p v t param h; rw [bindSlice] at h; exact absurd rfl h
    · intro p et param i slice h; rw [bindSliceLoop] at h; exact absurd rfl h
    · intro p v t param h; rw [bindMap] at h; exact absurd rfl h
    · intro p kt et param keys ret h; rw [bindMapLoop] at h; exact absurd rfl h
    · intro p v t param h; rw [bindStruct] at h; exact absurd rfl h
    · intro p fields values param h; rw [bindFields] at h; exact absurd rfl h
    · intro p ft fv param h; rw [bindField] at h; exact absurd rfl h
  | succ n ih =>
    obtain ⟨ihV, ihS, ihSL, ihM, ihML, ihT, ihFs, ihF⟩ := ih
    refine ⟨?_, ?_, ?_, ?_, ?_, ?_, ?_, ?_⟩
    · -- BindValue
      intro p v t param h
      rw [bindValue_succ env p filter n] at h
      rw [bindValue_succ env p filter (n + 1), bindValue_succ env p filter n]
      by_cases hv : env.IsValueType t = true
      · simp only [hv, not_true_eq_false, if_false] at h ⊢
        have hb := validate_timeout env param _ h
        congr 1
        unfold bindBody at hb ⊢
        split_ifs at hb ⊢ with h1 h2 h3 h4
        · exact ihM p v t param hb
        · exact ihS p v t param hb
        · rfl
        · rw [ihT p v t param (wrapErr_timeout _ _ _ _ hb)]
        · rw [(resolve_mono_succ env.rt p n).2 param _ rfl (bindResolved_timeout _ _ _ _ _ hb)]
      · simp only [hv, Bool.false_eq_true, not_false_eq_true, if_true]
    · -- bindSlice
      intro p v t param h
      rw [bindSlice] at h
      rw [bindSlice, bindSlice]
      cases ht : t.Elem with
      | none => rfl
      | some et =>
        rw [ht] at h
        simp only [] at h ⊢
        cases hg : getSlice env p et param with
        | err e => rfl
        | panic => rfl
        | timeout => rfl
        | ok q =>
          cases q with
          | none => rfl
          | some q =>
            rw [hg] at h
            simp only [] at h ⊢
            rw [ihSL q et param 0 [] h]
    · -- bindSliceLoop
      intro p et param i slice h
      rw [bindSliceLoop] at h
      rw [bindSliceLoop, bindSliceLoop]
      cases hX : BindValue env p filter n (zeroValue et) et
          { Key := indexed param.Key i, Path := indexed param.Path i } with
      | mk e r =>
        rw [hX] at h
        cases r with
        | timeout => exact absurd rfl h
        | panic => rw [ihV p _ _ _ (by rw [hX]; simp), hX]
        | err err => rw [ihV p _ _ _ (by rw [hX]; simp), hX]
        | ok u =>
          rw [ihV p _ _ _ (by rw [hX]; simp), hX]
          simp only [] at h ⊢
          exact ihSL p et param (i + 1) _ h
    · -- bindMap
      intro p v t param h
      cases t with
      | map kt et =>
        rw [bindMap] at h
        rw [bindMap, bindMap]
        by_cases hd : param.Tag.HasDef = true ∧ param.Tag.Def ≠ []
        · rw [if_pos hd, if_pos hd]
        · rw [if_neg hd] at h
          rw [if_neg hd, if_neg hd]
          cases hk : p.storage.SubKeys param.Key with
          | err e => rfl
          | panic => rfl
          | timeout => rfl
          | ok keys =>
            rw [hk] at h
            simp only [] at h ⊢
            rw [ihML p kt et param keys [] h]
      | _ => simp only [bindMap]
    · -- bindMapLoop
      intro p kt et param keys ret h
      cases keys with
      | nil => rw [bindMapLoop, bindMapLoop]
      | cons key keys =>
        rw [bindMapLoop] at h
        rw [bindMapLoop, bindMapLoop]
        cases hX : BindValue env p filter n (zeroValue et) et
            { Key := if param.Key ≠ [] then param.Key ++ ".".toList ++ key else key
              Path := param.Path } with
        | mk e r =>
          rw [hX] at h
          cases r with
          | timeout => exact absurd rfl h
          | panic => rw [ihV p _ _ _ (by rw [hX]; simp), hX]
          | err err => rw [ihV p _ _ _ (by rw [hX]; simp), hX]
          | ok u =>
            rw [ihV p _ _ _ (by rw [hX]; simp), hX]
            simp only [] at h ⊢
            split_ifs at h ⊢ with hk
            · exact ihML p kt et param keys _ h
            · rfl
    · -- bindStruct
      intro p v t param h
      cases t <;> cases v <;> try (simp only [bindStruct]; done)
      case struct.struct name fields values =>
        rw [bindStruct] at h
        rw [bindStruct, bindStruct]
        by_cases hd : param.Tag.HasDef = true ∧ param.Tag.Def ≠ []
        · rw [if_pos hd, if_pos hd]
        · rw [if_neg hd] at h
          rw [if_neg hd, if_neg hd]
          simp only [] at h ⊢
          rw [ihFs p fields values param h]
    · -- bindFields
      intro p fields values param h
      cases fields with
      | nil => rw [bindFields, bindFields]
      | cons ft fields =>
        cases values with
        | nil => rw [bindFields, bindFields]
        | cons fv values =>
          rw [bindFields] at h
          rw [bindFields, bindFields]
          cases hX : bindField env p filter n ft fv param with
          | mk e r =>
            rw [hX] at h
            cases r with
            | timeout => exact absurd rfl h
            | panic => rw [ihF p _ _ _ (by rw [hX]; simp), hX]
            | err err => rw [ihF p _ _ _ (by rw [hX]; simp), hX]
            | ok u =>
              rw [ihF p _ _ _ (by rw [hX]; simp), hX]
              simp only [] at h ⊢
              rw [ihFs p fields values param h]
    · -- bindField
      intro p ft fv param h
      rw [bindField] at h
      rw [bindField, bindField]
      by_cases he : ft.Exported = true
      · simp only [he, not_true_eq_false, if_false] at h ⊢
        cases hl : env.Lookup ft.Tag "value".toList with
        | some tag =>
          rw [hl] at h
          simp only [] at h ⊢
          cases hb : BindParam.BindTag
              { Key := param.Key, Path := param.Path ++ ".".toList ++ ft.Name } tag ft.Tag with
          | mk sub r =>
            rw [hb] at h
            cases r with
            | timeout => rfl
            | panic => rfl
            | err e => rfl
            | ok u =>
              simp only [] at h ⊢
              cases filter with
              | none =>
                simp only [] at h ⊢
                have := wrapErr_timeout env.rt 379 param.Path
                  (BindValue env p none n fv ft.Typ sub) h
                rw [ihV p _ _ _ this]
              | some f =>
                simp only [] at h ⊢
                cases hf : f fv sub with
                | mk fv' r' =>
                  rw [hf] at h
                  cases r' with
                  | timeout => rfl
                  | panic => rfl
                  | err e => rfl
                  | ok b =>
                    cases b with
                    | true => rfl
                    | false =>
                      simp only [] at h ⊢
                      have := wrapErr_timeout env.rt 379 param.Path
                        (BindValue env p (some f) n fv' ft.Typ sub) h
                      rw [ihV p _ _ _ this]
        | none =>
          rw [hl] at h
          simp only [] at h ⊢
          split_ifs at h ⊢ with h1 h2 h3
          · rfl
          · have := wrapErr_timeout env.rt 390 param.Path _ h
            rw [ihT p _ _ _ this]
          · have := wrapErr_timeout env.rt 404 param.Path _ h
            rw [ihV p _ _ _ this]
          · rfl
      · simp only [he, Bool.false_eq_true, not_false_eq_true, if_true]

/-- Fuel is only a bound for the binder: a call that returned returns the same
with any larger fuel. -/
theorem binder_mono (env : Env) (filter : Option Filter) (n m : Nat) (hnm : n ≤ m) :
    (∀ p v t param, (BindValue env p filter n v t param).2 ≠ .timeout →
      BindValue env p filter m v t param = BindValue env p filter n v t param) ∧
    (∀ p v t param, (bindSlice env p filter n v t param).2 ≠ .timeout →
      bindSlice env p filter m v t param = bindSlice env p filter n v t param) ∧
    (∀ p et param i slice, (bindSliceLoop env p filter n et param i slice).2 ≠ .timeout →
      bindSliceLoop env p filter m et param i slice =
        bindSliceLoop env p filter n et param i slice) ∧
    (∀ p v t param, (bindMap env p filter n v t param).2 ≠ .timeout →
      bindMap env p filter m v t param = bindMap env p filter n v t param) ∧
    (∀ p kt et param keys ret, (bindMapLoop env p filter n kt et param keys ret).2 ≠ .timeout →
      bindMapLoop env p filter m kt et param keys ret =
        bindMapLoop env p filter n kt et param keys ret) ∧
    (∀ p v t param, (bindStruct env p filter n v t param).2 ≠ .timeout →
      bindStruct env p filter m v t param = bindStruct env p filter n v t param) ∧
    (∀ p fields values param, (bindFields env p filter n fields values param).2 ≠ .timeout →
      bindFields env p filter m fields values param =
        bindFields env p filter n fields values param) ∧
    (∀ p ft fv param, (bindField env p filter n ft fv param).2 ≠ .timeout →
      bindField env p filter m ft fv param = bindField env p filter n ft fv param) := by
  induction m with
  | zero =>
    have : n = 0 := by omega
    subst this
    exact ⟨fun _ _ _ _ _ => rfl, fun _ _ _ _ _ => rfl, fun _ _ _ _ _ _ => rfl,
      fun _ _ _ _ _ => rfl, fun _ _ _ _ _ _ _ => rfl, fun _ _ _ _ _ => rfl,
      fun _ _ _ _ _ => rfl, fun _ _ _ _ _ => rfl⟩
  | succ m ih =>
    by_cases hn : n = m + 1
    · subst hn
      exact ⟨fun _ _ _ _ _ => rfl, fun _ _ _ _ _ => rfl, fun _ _ _ _ _ _ => rfl,
        fun _ _ _ _ _ => rfl, fun _ _ _ _ _ _ _ => rfl, fun _ _ _ _ _ => rfl,
        fun _ _ _ _ _ => rfl, fun _ _ _ _ _ => rfl⟩
    · obtain ⟨iV, iS, iSL, iM, iML, iT, iFs, iF⟩ := ih (by omega)
      obtain ⟨sV, sS, sSL, sM, sML, sT, sFs, sF⟩ := binder_mono_succ env filter m
      refine ⟨?_, ?_, ?_, ?_, ?_, ?_, ?_, ?_⟩
      · intro p v t param h
        rw [sV p v t param (by rw [iV p v t param h]; exact h), iV p v t param h]
      · intro p v t param h
        rw [sS p v t param (by rw [iS p v t param h]; exact h), iS p v t param h]
      · intro p et param i slice h
        rw [sSL p et param i slice (by rw [iSL p et param i slice h]; exact h),
          iSL p et param i slice h]
      · intro p v t param h
        rw [sM p v t param (by rw [iM p v t param h]; exact h), iM p v t param h]
      · intro p kt et param keys ret h
        rw [sML p kt et param keys ret (by rw [iML p kt et param keys ret h]; exact h),
          iML p kt et param keys ret h]
      · intro p v t param h
        rw [sT p v t param (by rw [iT p v t param h]; exact h), iT p v t param h]
      · intro p fields values param h
        rw [sFs p fields values param (by rw [iFs p fields values param h]; exact h),
          iFs p fields values param h]
      · intro p ft fv param h
        rw [sF p ft fv param (by rw [iF p ft fv param h]; exact h), iF p ft fv param h]

/-- A call of `BindValue` that returned returns the same with any larger fuel. -/
theorem bindValue_mono (env : Env) (p : Properties) (filter : Option Filter) (n m : Nat)
    (v : Value) (t : GoType) (param : BindParam) (out : Value × Res Unit)
    (h : BindValue env p filter n v t param = out) (hr : out.2 ≠ .timeout) (hnm : n ≤ m) :
    BindValue env p filter m v t param = out := by
  subst h
  exact (binder_mono env filter n m hnm).1 p v t param hr

theorem bindBody_scalar (env : Env) (p : Properties) (filter : Option Filter) (n : Nat)
    (v : Value) (t : GoType) (param : BindParam) (h : ScalarTarget env t) :
    bindBody env p filter n v t param = bindResolved env v t param (resolve env.rt p n param) := by
  obtain ⟨_, h2, h3, h4, h5⟩ := h
  unfold bindBody
  rw [if_neg h2, if_neg h3, if_neg h4, if_neg h5]

theorem bindValue_scalar (env : Env) (p : Properties) (filter : Option Filter) (n : Nat)
    (v : Value) (t : GoType) (param : BindParam) (h : ScalarTarget env t) :
    BindValue env p filter (n + 1) v t param =
      validate env param (bindResolved env v t param (resolve env.rt p n param)) := by
  rw [bindValue_succ, bindBody_scalar env p filter n v t param h]
  simp only [h.1, not_true_eq_false, if_false]

theorem bindBody_map (env : Env) (p : Properties) (filter : Option Filter) (n : Nat)
    (v : Value) (t : GoType) (param : BindParam) (h : t.Kind = .Map) :
    bindBody env p filter n v t param = bindMap env p filter n v t param := by
  unfold bindBody
  rw [if_pos h]

theorem bindBody_slice (env : Env) (p : Properties) (filter : Option Filter) (n : Nat)
    (v : Value) (t : GoType) (param : BindParam) (h : t.Kind = .Slice) :
    bindBody env p filter n v t param = bindSlice env p filter n v t param := by
  unfold bindBody
  rw [if_neg (by rw [h]; decide), if_pos h]

theorem bindBody_array (env : Env) (p : Properties) (filter : Option Filter) (n : Nat)
    (v : Value) (t : GoType) (param : BindParam) (h : t.Kind = .Array) :
    bindBody env p filter n v t param =
      (v, .err (bindError env.rt 152 param.Path (.New "use slice instead of array".toList))) := by
  unfold bindBody
  rw [if_neg (by rw [h]; decide), if_neg (by rw [h]; decide), if_pos h]

theorem bindValue_valueType (env : Env) (p : Properties) (filter : Option Filter) (n : Nat)
    (v : Value) (t : GoType) (param : BindParam) (h : env.IsValueType t = true) :
    BindValue env p filter (n + 1) v t param =
      validate env param (bindBody env p filter n v t param) := by
  rw [bindValue_succ]
  simp only [h, not_true_eq_false, if_false]

/-- The loop of `bindSlice` when the elements from index `i` on bind to `es` and
the bind of the next index fails with `e`. -/
theorem bindSliceLoop_run (env : Env) (p : Properties) (filter : Option Filter) (et : GoType)
    (param : BindParam) (w : Value) (e : Err) :
    ∀ (es : List Value) (i : Nat) (acc : List Value),
      (∀ j x, es[j]? = some x → ∃ f,
        BindValue env p filter f (zeroValue et) et (elemParam param (i + j)) = (x, .ok ())) →
      (∃ f, BindValue env p filter f (zeroValue et) et (elemParam param (i + es.length)) =
        (w, .err e)) →
      ∃ F₀, ∀ F, F₀ ≤ F → bindSliceLoop env p filter F et param i acc =
        (acc ++ es, loopExit env.rt param.Path (.err e)) := by
  intro es
  induction es with
  | nil =>
    intro i acc _ hlast
    obtain ⟨f, hf⟩ := hlast
    refine ⟨f + 1, fun F hF => ?_⟩
    obtain ⟨m, rfl⟩ : ∃ m, F = m + 1 := ⟨F - 1, by omega⟩
    have hm := bindValue_mono env p filter f m _ _ _ _ hf (by simp) (by omega)
    rw [bindSliceLoop]
    simp only [List.length_nil, Nat.add_zero, elemParam] at hm
    rw [hm]
    simp only [loopExit, List.append_nil]
    split_ifs <;> rfl
  | cons x xs ih =>
    intro i acc hel hlast
    obtain ⟨f, hf⟩ := hel 0 x (by simp)
    obtain ⟨F₁, hF₁⟩ := ih (i + 1) (acc ++ [x])
      (fun j y hj => by
        have := hel (j + 1) y (by simpa using hj)
        rwa [show i + (j + 1) = i + 1 + j by omega] at this)
      (by
        rwa [show i + (x :: xs).length = i + 1 + xs.length by simp; omega] at hlast)
    refine ⟨max f F₁ + 1, fun F hF => ?_⟩
    obtain ⟨m, rfl⟩ : ∃ m, F = m + 1 := ⟨F - 1, by omega⟩
    have hm := bindValue_mono env p filter f m _ _ _ _ hf (by simp) (by omega)
    rw [bindSliceLoop]
    simp only [Nat.add_zero, elemParam] at hm
    rw [hm]
    simp only []
    rw [hF₁ m (by omega)]
    simp

/-- What the loop of `bindSlice` returned: the elements it appended are the
binds of the successive indices, and the bind of the next index did not succeed. -/
theorem bindSliceLoop_sound (env : Env) (p : Properties) (filter : Option Filter) (et : GoType)
    (param : BindParam) :
    ∀ (F i : Nat) (acc out : List Value) (r : Res Unit),
      bindSliceLoop env p filter F et param i acc = (out, r) → r ≠ .timeout →
      ∃ es, out = acc ++ es ∧
        (∀ j x, es[j]? = some x → ∃ f,
          BindValue env p filter f (zeroValue et) et (elemParam param (i + j)) = (x, .ok ())) ∧
        ∃ f w r', BindValue env p filter f (zeroValue et) et
            (elemParam param (i + es.length)) = (w, r') ∧
          r' ≠ .ok () ∧ r = loopExit env.rt param.Path r' := by
  intro F
  induction F with
  | zero =>
    intro i acc out r h hr
    rw [bindSliceLoop] at h
    simp only [Prod.mk.injEq] at h
    exact absurd h.2.symm hr
  | succ m ih =>
    intro i acc out r h hr
    rw [bindSliceLoop] at h
    cases hX : BindValue env p filter m (zeroValue et) et
        { Key := indexed param.Key i, Path := indexed param.Path i } with
    | mk e r0 =>
      rw [hX] at h
      cases r0 with
      | ok u =>
        simp only [] at h
        obtain ⟨es, hout, hel, f, w, r', hf, hr', hrr⟩ := ih (i + 1) (acc ++ [e]) out r h hr
        refine ⟨e :: es, by rw [hout]; simp, ?_, f, w, r', ?_, hr', hrr⟩
        · intro j x hj
          cases j with
          | zero =>
            simp only [List.getElem?_cons_zero, Option.some.injEq] at hj
            subst hj
            exact ⟨m, hX⟩
          | succ j =>
            simp only [List.getElem?_cons_succ] at hj
            obtain ⟨f', hf'⟩ := hel j x hj
            exact ⟨f', by rwa [show i + (j + 1) = i + 1 + j by omega]⟩
        · rwa [show i + (e :: es).length = i + 1 + es.length by simp; omega]
      | err err =>
        refine ⟨[], ?_, ?_, m, e, .err err, by simpa [elemParam] using hX, by simp, ?_⟩
        · simp only [] at h
          split_ifs at h <;> simp only [Prod.mk.injEq] at h <;> simp [h.1]
        · intro j x hj
          simp at hj
        · simp only [] at h
          simp only [loopExit]
          split_ifs at h ⊢ <;> simp only [Prod.mk.injEq] at h <;> exact h.2.symm
      | panic =>
        simp only [Prod.mk.injEq] at h
        refine ⟨[], by simp [h.1], ?_, m, e, .panic, by simpa [elemParam] using hX, by simp, ?_⟩
        · intro j x hj
          simp at hj
        · exact h.2.symm
      | timeout =>
        simp only [Prod.mk.injEq] at h
        exact absurd h.2.symm hr

theorem validate_ok_inv (env : Env) (param : BindParam) (x : Value × Res Unit) (out : Value)
    (h : validate env param x = (out, .ok ())) : x = (out, .ok ()) := by
  obtain ⟨v, r⟩ := x
  cases r with
  | ok u =>
    have h1 : (validate env param (v, .ok u)).1 = v := by
      unfold validate
      simp only []
      split
      · rfl
      · split
        · split <;> rfl
        · rfl
    rw [h] at h1
    simp only at h1
    rw [h1]
  | err e => exact h
  | panic => exact h
  | timeout => exact h

theorem getSlice_listed (env : Env) (p : Properties) (et : GoType) (param : BindParam)
    (h : p.Has (param.Key ++ "[0]".toList) = true) : getSlice env p et param = .ok (some p) := by
  unfold getSlice
  rw [if_pos h]

/-- The function `bindSlice` on a key whose element `[0]` the store has: the
loop runs over the store itself. -/
theorem bindSlice_listed (env : Env) (p : Properties) (filter : Option Filter) (F : Nat)
    (v : Value) (et : GoType) (param : BindParam)
    (h : p.Has (param.Key ++ "[0]".toList) = true) :
    bindSlice env p filter (F + 1) v (.slice et) param =
      (.slice (some (bindSliceLoop env p filter F et param 0 []).1),
        (bindSliceLoop env p filter F et param 0 []).2) := by
  rw [bindSlice]
  simp only [GoType.Elem, getSlice_listed env p et param h]

/-- A scalar target whose key is absent and has no default. -/
theorem bindValue_absent (env : Env) (p : Properties) (filter : Option Filter) (n : Nat)
    (v : Value) (t : GoType) (param : BindParam) (h : ScalarTarget env t)
    (hg : p.storage.Get param.Key = none) (hh : p.storage.Has param.Key = false)
    (hd : param.Tag.HasDef = false) :
    BindValue env p filter (n + 2) v t param =
      (v, .err (bindError env.rt 166 param.Path
        (resolvePropertyError env.rt 424 param.Key (notExistError env.rt param.Key)))) := by
  rw [bindValue_scalar env p filter (n + 1) v t param h, resolve_succ]
  simp only [hg, hh, hd]
  rfl

/-- A scalar target whose key is absent and has no default is bound with no fuel. -/
theorem bindValue_absent_not_ok (env : Env) (p : Properties) (filter : Option Filter) (f : Nat)
    (v x : Value) (t : GoType) (param : BindParam) (h : ScalarTarget env t)
    (hg : p.storage.Get param.Key = none) (hh : p.storage.Has param.Key = false)
    (hd : param.Tag.HasDef = false) :
    BindValue env p filter f v t param ≠ (x, .ok ()) := by
  intro hf
  have h1 := bindValue_mono env p filter f (f + 2) v t param _ hf (by simp) (by omega)
  rw [bindValue_absent env p filter f v t param h hg hh hd] at h1
  simp at h1

/-- The outcome of `BindValue` on a slice whose element `[0]` the store has. -/
theorem bindValue_listed (env : Env) (p : Properties) (filter : Option Filter) (F : Nat)
    (v : Value) (et : GoType) (param : BindParam) (hv : env.IsValueType (.slice et) = true)
    (h : p.Has (param.Key ++ "[0]".toList) = true) :
    BindValue env p filter (F + 2) v (.slice et) param =
      validate env param (.slice (some (bindSliceLoop env p filter F et param 0 []).1),
        (bindSliceLoop env p filter F et param 0 []).2) := by
  rw [bindValue_valueType env p filter (F + 1) v (.slice et) param hv,
    bindBody_slice env p filter (F + 1) v (.slice et) param rfl, bindSlice_listed env p filter F v et param h]

theorem bindValue_listed_run (env : Env) (p : Properties) (filter : Option Filter)
    (v : Value) (et : GoType) (param : BindParam) (hv : env.IsValueType (.slice et) = true)
    (h : p.Has (param.Key ++ "[0]".toList) = true) (es : List Value) (w : Value) (e : Err)
    (hel : ∀ j x, es[j]? = some x → ∃ f,
      BindValue env p filter f (zeroValue et) et (elemParam param j) = (x, .ok ()))
    (hlast : ∃ f, BindValue env p filter f (zeroValue et) et (elemParam param es.length) =
      (w, .err e)) :
    ∃ F₀, ∀ F, F₀ ≤ F → BindValue env p filter F v (.slice et) param =
      validate env param (.slice (some es), loopExit env.rt param.Path (.err e)) := by
  obtain ⟨F₁, hF₁⟩ := bindSliceLoop_run env p filter et param w e es 0 []
    (fun j x hj => by simpa using hel j x hj) (by simpa using hlast)
  refine ⟨F₁ + 2, fun F hF => ?_⟩
  obtain ⟨m, rfl⟩ : ∃ m, F = m + 2 := ⟨F - 2, by omega⟩
  rw [bindValue_listed env p filter m v et param hv h, hF₁ m (by omega)]
  simp

theorem bindValue_listed_sound (env : Env) (p : Properties) (filter : Option Filter)
    (v : Value) (et : GoType) (param : BindParam) (hv : env.IsValueType (.slice et) = true)
    (h : p.Has (param.Key ++ "[0]".toList) = true) (F : Nat) (out : Value)
    (hF : BindValue env p filter F v (.slice et) param = (out, .ok ())) :
    ∃ es, out = .slice (some es) ∧
      (∀ j x, es[j]? = some x → ∃ f,
        BindValue env p filter f (zeroValue et) et (elemParam param j) = (x, .ok ())) ∧
      ∃ f w e, BindValue env p filter f (zeroValue et) et (elemParam param es.length) =
        (w, .err e) ∧ e.Is .ErrNotExist = true := by
  cases F with
  | zero => rw [bindValue_zero] at hF; simp at hF
  | succ F =>
    cases F with
    | zero =>
      rw [bindValue_valueType env p filter 0 v (.slice et) param hv] at hF
      have := validate_ok_inv env param _ out hF
      rw [bindBody_slice env p filter 0 v (.slice et) param rfl, bindSlice] at this
      simp at this
    | succ F =>
      rw [bindValue_listed env p filter F v et param hv h] at hF
      have h1 := validate_ok_inv env param _ out hF
      simp only [Prod.mk.injEq] at h1
      obtain ⟨es, hout, hel, f, w, r', hf, hr', hrr⟩ :=
        bindSliceLoop_sound env p filter et param F 0 [] _ _ rfl (by rw [h1.2]; simp)
      refine ⟨es, ?_, fun j x hj => by simpa using hel j x hj, ?_⟩
      · rw [← h1.1, hout]; simp
      · rw [h1.2] at hrr
        cases r' with
        | ok u => exact absurd rfl hr'
        | err e =>
          refine ⟨f, w, e, by simpa using hf, ?_⟩
          simp only [loopExit] at hrr
          by_contra hn
          rw [if_neg hn] at hrr
          simp at hrr
        | panic => simp [loopExit] at hrr
        | timeout => simp [loopExit] at hrr

theorem validate_noDirective (env : Env) (param : BindParam) (v : Value)
    (h : NoDirective env param.Validate) : validate env param (v, .ok ()) = (v, .ok ()) := by
  obtain ⟨vd, hvd, hl | hl⟩ := h
  · unfold validate
    simp only [hvd, hl]
  · unfold validate
    simp only [hvd, hl]
    rfl

theorem splitN_within (sep : Str) : ∀ (n : Nat) (s x : Str), x ∈ SplitN sep n s → x <:+: s := by
  intro n
  induction n using Nat.strong_induction_on with
  | _ n ih =>
    intro s x hx
    match n, ih, hx with
    | 0, _, hx => simp [SplitN] at hx
    | 1, _, hx =>
      simp only [SplitN, List.mem_singleton] at hx
      rw [hx]
    | n + 2, ih, hx =>
      simp only [SplitN] at hx
      split_ifs at hx with hm
      · simp only [List.mem_singleton] at hx
        rw [hx]
      · rcases List.mem_cons.1 hx with hx | hx
        · rw [hx]
          exact (List.take_prefix _ _).isInfix
        · exact (ih (n + 1) (by omega) _ x hx).trans (List.drop_suffix _ _).isInfix

theorem trimSpace_within (s : Str) : TrimSpace s <:+: s := by
  unfold TrimSpace
  have h1 : ((s.dropWhile isSpace).reverse.dropWhile isSpace).reverse <+: s.dropWhile isSpace := by
    rw [← List.reverse_suffix, List.reverse_reverse]
    exact List.dropWhile_suffix _
  exact h1.isInfix.trans (List.dropWhile_suffix _).isInfix

theorem commaPieces_plain (v x : Str) (hv : ¬ sOpen <:+: v) (hx : x ∈ commaPieces v) :
    ¬ sOpen <:+: x := by
  unfold commaPieces Split at hx
  obtain ⟨y, hy, rfl⟩ := List.mem_map.1 hx
  intro h
  exact hv ((h.trans (trimSpace_within y)).trans (splitN_within _ _ _ _ hy))

/-- The function `bindSlice` once `getSlice` returned properties: the loop runs
over them. -/
theorem bindSlice_of_getSlice (env : Env) (p q : Properties) (filter : Option Filter) (F : Nat)
    (v : Value) (et : GoType) (param : BindParam)
    (h : getSlice env p et param = .ok (some q)) :
    bindSlice env p filter (F + 1) v (.slice et) param =
      (.slice (some (bindSliceLoop env q filter F et param 0 []).1),
        (bindSliceLoop env q filter F et param 0 []).2) := by
  rw [bindSlice]
  simp only [GoType.Elem, h]

/-- The function `getSlice` on a key that holds a leaf with a non-empty value,
under a tag without splitter: new properties with the trimmed pieces. -/
theorem getSlice_leaf (env : Env) (p : Properties) (et : GoType) (param : BindParam) (v : Str)
    (h0 : p.Has (param.Key ++ "[0]".toList) = false) (hh : p.Has param.Key = true)
    (hg : p.storage.Get param.Key = some v) (hne : v ≠ []) (hsp : param.Tag.Splitter = []) :
    getSlice env p et param =
      .ok (some (env.newProperties (indexedPairs param.Key (commaPieces v) 0))) := by
  unfold getSlice
  have hget : p.Get param.Key = v := by
    unfold Properties.Get
    rw [hg]
    rfl
  simp only [h0, Bool.false_eq_true, if_false, hh, if_true, hget, hne, hsp]
  rfl

/-- A string target at a leaf whose value has no placeholder receives the value. -/
theorem bindValue_string_leaf (env : Env) (p : Properties) (filter : Option Filter) (n : Nat)
    (v : Value) (param : BindParam) (x : Str)
    (hv : env.IsValueType (.basic .String []) = true)
    (hc : env.converters (.basic .String []) = none)
    (hd : NoDirective env param.Validate)
    (hg : p.storage.Get param.Key = some x) (hx : ¬ sOpen <:+: x) :
    BindValue env p filter (n + 3) v (.basic .String []) param = (.string x, .ok ()) := by
  have hs : ScalarTarget env (.basic .String []) :=
    ⟨hv, by decide, by decide, by decide, by simp [GoType.Kind]⟩
  rw [bindValue_scalar env p filter (n + 2) v _ param hs, resolve_succ]
  simp only [hg]
  rw [resolveString_plain env.rt p x hx n]
  simp only [bindResolved, convert, hc, bindScalar, GoType.Kind]
  exact validate_noDirective env param _ hd

/-- The error of a scalar bind at an absent key without default wraps `ErrNotExist`. -/
theorem notExist_is (rt : Runtime) (line : Nat) (path key : Str) :
    (bindError rt line path
      (resolvePropertyError rt 424 key (notExistError rt key))).Is .ErrNotExist = true := rfl

/-- The search for a single character finds its first instance. -/
theorem indexFrom_char (c : Char) : ∀ (s : Str) (i : Nat),
    (c ∉ s ∧ IndexFrom [c] s i < 0) ∨
    (∃ a b, s = a ++ c :: b ∧ c ∉ a ∧ IndexFrom [c] s i = (i : Int) + a.length) := by
  intro s
  induction s with
  | nil =>
    intro i
    left
    simp [IndexFrom]
  | cons x xs ih =>
    intro i
    by_cases hx : x = c
    · right
      subst hx
      exact ⟨[], xs, rfl, by simp, by simp [IndexFrom, HasPrefix]⟩
    · have hx' : ¬ c = x := fun h => hx h.symm
      have hp : HasPrefix (x :: xs) [c] = false := by
        simp [HasPrefix, List.isPrefixOf, hx']
      rcases ih (i + 1) with ⟨h1, h2⟩ | ⟨a, b, h1, h2, h3⟩
      · left
        refine ⟨by simp [h1, Ne.symm hx], ?_⟩
        unfold IndexFrom
        rw [hp]
        simpa using h2
      · right
        refine ⟨x :: a, b, by rw [h1]; rfl, by simp [h2, Ne.symm hx], ?_⟩
        unfold IndexFrom
        rw [hp]
        simp only [Bool.false_eq_true, if_false, h3, List.length_cons]
        push_cast
        omega

/-- The pieces `SplitN` cuts at a single character, when it may cut as often as
the text is long: joined by the character they give the text back, and none of
them holds the character. -/
theorem splitN_char (c : Char) : ∀ (n : Nat) (s : Str), s.length < n →
    Join (SplitN [c] n s) [c] = s ∧ (∀ x ∈ SplitN [c] n s, c ∉ x) ∧ SplitN [c] n s ≠ [] := by
  intro n
  induction n using Nat.strong_induction_on with
  | _ n ih =>
    intro s hs
    match n, ih, hs with
    | 0, _, hs => omega
    | 1, _, hs =>
      have : s = [] := List.length_eq_zero.1 (by omega)
      subst this
      simp [SplitN, Join]
    | n + 2, ih, hs =>
      simp only [SplitN]
      rcases indexFrom_char c s 0 with ⟨h1, h2⟩ | ⟨a, b, h1, h2, h3⟩
      · rw [if_pos (by simpa [Index] using h2)]
        simp [Join, h1]
      · have hm : Index s [c] = (a.length : Int) := by simpa [Index] using h3
        rw [if_neg (by rw [hm]; omega), hm]
        have e1 : s.take (a.length : Int).toNat = a := by
          rw [h1]
          simp
        have e2 : s.drop ((a.length : Int).toNat + [c].length) = b := by
          rw [h1]
          simp
        rw [e1, e2]
        have hb : b.length < n + 1 := by
          rw [h1] at hs
          simp at hs
          omega
        obtain ⟨j1, j2, j3⟩ := ih (n + 1) (by omega) b hb
        refine ⟨?_, ?_, by simp⟩
        · cases hsp : SplitN [c] (n + 1) b with
          | nil => exact absurd hsp j3
          | cons y ys =>
            rw [hsp] at j1
            simp only [Join]
            rw [j1, h1]
            simp
        · intro x hx
          rcases List.mem_cons.1 hx with hx | hx
          · rw [hx]; exact h2
          · exact j2 x hx

/-- What `strings.Split(s, ",")` returns: the pieces between the commas. -/
theorem split_comma (s : Str) :
    Join (Split s ",".toList) ",".toList = s ∧ ∀ x ∈ Split s ",".toList, ',' ∉ x := by
  obtain ⟨h1, h2, _⟩ := splitN_char ',' (s.length + 1) s (by omega)
  exact ⟨h1, h2⟩

theorem wrapsNotExist_slice (rt : Runtime) (K : Str) :
    WrapsNotExist rt K (sliceNotExistError rt K) := by
  constructor
  · simp [sliceNotExistError, Err.Is, Err.same]
  · refine ⟨rt.FileLine 267 ++ ": ".toList, [], ?_⟩
    simp [sliceNotExistError, Err.Error]

/-- The function `getSlice` on an absent key without default. -/
theorem getSlice_absent (env : Env) (p : Properties) (et : GoType) (param : BindParam)
    (h0 : p.Has (param.Key ++ "[0]".toList) = false) (hh : p.Has param.Key = false)
    (hd : param.Tag.HasDef = false) :
    getSlice env p et param = .err (sliceNotExistError env.rt param.Key) := by
  unfold getSlice
  simp only [h0, Bool.false_eq_true, if_false, hh, hd, not_false_eq_true, if_true]
  rfl

/-- The function `getSlice` on an absent key with the empty default. -/
theorem getSlice_empty_default (env : Env) (p : Properties) (et : GoType) (param : BindParam)
    (h0 : p.Has (param.Key ++ "[0]".toList) = false) (hh : p.Has param.Key = false)
    (hd : param.Tag.HasDef = true) (he : param.Tag.Def = []) :
    getSlice env p et param = .ok none := by
  unfold getSlice
  simp only [h0, Bool.false_eq_true, if_false, hh, hd, not_true_eq_false, he, if_true]

/-- The function `bindSlice` when `getSlice` fails: the error is wrapped on line
225 and the target is as it was. -/
theorem bindSlice_getSlice_err (env : Env) (p : Properties) (filter : Option Filter) (F : Nat)
    (v : Value) (et : GoType) (param : BindParam) (e : Err)
    (h : getSlice env p et param = .err e) :
    bindSlice env p filter (F + 1) v (.slice et) param =
      (v, .err (bindError env.rt 225 param.Path e)) := by
  rw [bindSlice]
  simp only [GoType.Elem, h]

theorem bindValue_slice (env : Env) (p : Properties) (filter : Option Filter) (n : Nat)
    (v : Value) (et : GoType) (param : BindParam) (hv : env.IsValueType (.slice et) = true) :
    BindValue env p filter (n + 1) v (.slice et) param =
      validate env param (bindSlice env p filter n v (.slice et) param) := by
  rw [bindValue_valueType env p filter n v (.slice et) param hv,
    bindBody_slice env p filter n v (.slice et) param rfl]

/-- The function `getSlice` up to the split, on a non-empty text to split. -/
theorem getSlice_split (env : Env) (p : Properties) (et : GoType) (param : BindParam) (s : Str)
    (h : SplitSource env p et param s) (hne : s ≠ []) (hsp : param.Tag.Splitter ≠ []) :
    (∀ fn e, env.splitters param.Tag.Splitter = some (some fn) → fn s = .err e →
      getSlice env p et param = .err (splitError env.rt e s)) ∧
    (env.splitters param.Tag.Splitter = none ∨ env.splitters param.Tag.Splitter = some none →
      getSlice env p et param = .err (unknownSplitterError env.rt param.Tag.Splitter)) := by
  obtain ⟨h0, hsrc⟩ := h
  constructor
  · intro fn e hf he
    unfold getSlice
    rcases hsrc with ⟨hh, hg⟩ | ⟨hh, hd, hdef, hc⟩
    · simp only [h0, Bool.false_eq_true, if_false, hh, if_true, hg, hne, hsp, hf, he]
      rfl
    · simp only [h0, Bool.false_eq_true, if_false, hh, hd, not_true_eq_false, hdef, hne,
        if_neg hc, hsp, hf, he]
      rfl
  · intro hf
    unfold getSlice
    rcases hsrc with ⟨hh, hg⟩ | ⟨hh, hd, hdef, hc⟩
    · rcases hf with hf | hf <;>
      · simp only [h0, Bool.false_eq_true, if_false, hh, if_true, hg, hne, hsp, hf]
        rfl
    · rcases hf with hf | hf <;>
      · simp only [h0, Bool.false_eq_true, if_false, hh, hd, not_true_eq_false, hdef, hne,
          if_neg hc, hsp, hf]
        rfl

/-- The loop of `bindMap` reads the key and the path of the parameter only. -/
theorem bindMapLoop_param (env : Env) (p : Properties) (filter : Option Filter)
    (param param' : BindParam) (hk : param.Key = param'.Key) (hp : param.Path = param'.Path) :
    ∀ (n : Nat) (kt et : GoType) (keys : List Str) (ret : List (Str × Value)),
      bindMapLoop env p filter n kt et param keys ret =
        bindMapLoop env p filter n kt et param' keys ret := by
  intro n
  induction n with
  | zero =>
    intro kt et keys ret
    rw [bindMapLoop, bindMapLoop]
  | succ n ih =>
    intro kt et keys ret
    cases keys with
    | nil => rw [bindMapLoop, bindMapLoop]
    | cons key keys =>
      rw [bindMapLoop, bindMapLoop, hk, hp]
      cases hX : BindValue env p filter n (zeroValue et) et
          { Key := if param'.Key ≠ [] then param'.Key ++ ".".toList ++ key else key
            Path := param'.Path } with
      | mk e r =>
        cases r with
        | ok u =>
          simp only []
          split_ifs
          · exact ih kt et keys _
          · rfl
        | err e => rfl
        | panic => rfl
        | timeout => rfl

/-- The body of the loop of `bindStruct` reads the key and the path of the
parameter only. -/
theorem bindField_param (env : Env) (p : Properties) (filter : Option Filter)
    (param param' : BindParam) (hk : param.Key = param'.Key) (hp : param.Path = param'.Path)
    (n : Nat) (ft : StructField) (fv : Value) :
    bindField env p filter n ft fv param = bindField env p filter n ft fv param' := by
  cases n with
  | zero => rw [bindField, bindField]
  | succ n => rw [bindField, bindField, hk, hp]

/-- The loop of `bindStruct` reads the key and the path of the parameter only. -/
theorem bindFields_param (env : Env) (p : Properties) (filter : Option Filter)
    (param param' : BindParam) (hk : param.Key = param'.Key) (hp : param.Path = param'.Path) :
    ∀ (n : Nat) (fields : List StructField) (values : List Value),
      bindFields env p filter n fields values param =
        bindFields env p filter n fields values param' := by
  intro n
  induction n with
  | zero =>
    intro fields values
    rw [bindFields, bindFields]
  | succ n ih =>
    intro fields values
    cases fields with
    | nil => rw [bindFields, bindFields]
    | cons ft fields =>
      cases values with
      | nil => rw [bindFields, bindFields]
      | cons fv values =>
        rw [bindFields, bindFields, bindField_param env p filter param param' hk hp n ft fv,
          ih fields values]

/-- The function `bindMap` under a non-empty default. -/
theorem bindMap_default (env : Env) (p : Properties) (filter : Option Filter) (n : Nat)
    (v : Value) (t : GoType) (param : BindParam)
    (hd : param.Tag.HasDef = true ∧ param.Tag.Def ≠ []) :
    bindMap env p filter (n + 1) v t param =
      (v, .err (bindError env.rt 313 param.Path mapDefaultError)) := by
  cases t <;> simp only [bindMap, if_pos hd] <;> rfl

/-- The function `bindStruct` under a non-empty default. -/
theorem bindStruct_default (env : Env) (p : Properties) (filter : Option Filter) (n : Nat)
    (v : Value) (t : GoType) (param : BindParam)
    (hd : param.Tag.HasDef = true ∧ param.Tag.Def ≠ []) :
    bindStruct env p filter (n + 1) v t param =
      (v, .err (bindError env.rt 349 param.Path structDefaultError)) := by
  cases t <;> cases v <;> simp only [bindStruct, if_pos hd] <;> rfl

/-- The function `bindMap` under the empty default does what it does without
default. -/
theorem bindMap_empty_default (env : Env) (p : Properties) (filter : Option Filter) (n : Nat)
    (v : Value) (t : GoType) (param : BindParam) (he : param.Tag.Def = []) :
    bindMap env p filter n v t param = bindMap env p filter n v t param.withoutDefault := by
  have h1 : ¬ (param.Tag.HasDef = true ∧ param.Tag.Def ≠ []) := fun h => h.2 he
  have h2 : ¬ (param.withoutDefault.Tag.HasDef = true ∧ param.withoutDefault.Tag.Def ≠ []) :=
    fun h => h.2 rfl
  cases n with
  | zero => rw [bindMap, bindMap]
  | succ n =>
    cases t with
    | map kt et =>
      rw [bindMap, bindMap, if_neg h1, if_neg h2]
      have hk : param.withoutDefault.Key = param.Key := rfl
      have hp : param.withoutDefault.Path = param.Path := rfl
      rw [hk, hp]
      cases hs : p.storage.SubKeys param.Key with
      | ok keys =>
        simp only []
        rw [bindMapLoop_param env p filter param param.withoutDefault rfl rfl]
      | err e => rfl
      | panic => rfl
      | timeout => rfl
    | _ => simp only [bindMap, if_neg h1, if_neg h2]

/-- The function `bindStruct` under the empty default does what it does without
default. -/
theorem bindStruct_empty_default (env : Env) (p : Properties) (filter : Option Filter) (n : Nat)
    (v : Value) (t : GoType) (param : BindParam) (he : param.Tag.Def = []) :
    bindStruct env p filter n v t param = bindStruct env p filter n v t param.withoutDefault := by
  have h1 : ¬ (param.Tag.HasDef = true ∧ param.Tag.Def ≠ []) := fun h => h.2 he
  have h2 : ¬ (param.withoutDefault.Tag.HasDef = true ∧ param.withoutDefault.Tag.Def ≠ []) :=
    fun h => h.2 rfl
  cases n with
  | zero => rw [bindStruct, bindStruct]
  | succ n =>
    cases t <;> cases v <;> try (simp only [bindStruct, if_neg h1, if_neg h2]; done)
    case struct.struct name fields values =>
      rw [bindStruct, bindStruct, if_neg h1, if_neg h2]
      simp only []
      rw [bindFields_param env p filter param param.withoutDefault rfl rfl]

/-- The deferred function of `BindValue` reads the field tag of the parameter only. -/
theorem validate_param (env : Env) (param param' : BindParam)
    (h : param.Validate = param'.Validate) (out : Value × Res Unit) :
    validate env param out = validate env param' out := by
  unfold validate
  rw [h]

/-- The body of the loop of `bindStruct` on an exported field without `value` tag
that is not embedded and whose type is a value type. -/
theorem bindField_plain (env : Env) (p : Properties) (filter : Option Filter) (n : Nat)
    (ft : StructField) (fv : Value) (param : BindParam)
    (h1 : ft.Exported = true) (h2 : env.Lookup ft.Tag "value".toList = none)
    (h3 : ft.Anonymous = false) (h4 : env.IsValueType ft.Typ = true) :
    bindField env p filter (n + 1) ft fv param =
      wrapErr env.rt 404 param.Path
        (BindValue env p filter n fv ft.Typ
          { Key := fieldKey env param.Key ft.Name
            Path := param.Path ++ ".".toList ++ ft.Name }) := by
  rw [bindField]
  simp only [h1, not_true_eq_false, if_false, h2, h3, h4, if_true, Bool.false_eq_true]
  rfl

theorem underscoresToDots_append (a b : Str) :
    underscoresToDots (a ++ b) = underscoresToDots a ++ underscoresToDots b := by
  simp [underscoresToDots]

theorem underscoresToDots_id (a : Str) (h : '_' ∉ a) : underscoresToDots a = a := by
  unfold underscoresToDots
  induction a with
  | nil => rfl
  | cons c cs ih =>
    simp only [List.mem_cons, not_or] at h
    simp only [List.map_cons, ih h.2]
    rw [if_neg (fun hc => h.1 hc.symm)]

theorem wrapErr_fst (rt : Runtime) (line : Nat) (path : Str) (out : Value × Res Unit) :
    (wrapErr rt line path out).1 = out.1 := by
  obtain ⟨v, r⟩ := out
  cases r <;> rfl

theorem wrapErr_ok_iff (rt : Runtime) (line : Nat) (path : Str) (out : Value × Res Unit) :
    (wrapErr rt line path out).2 = .ok () ↔ out.2 = .ok () := by
  obtain ⟨v, r⟩ := out
  cases r <;> simp [wrapErr]

/-- Without directive for the validator the deferred function of `BindValue`
changes nothing. -/
theorem validate_noDirective_id (env : Env) (param : BindParam) (out : Value × Res Unit)
    (h : NoDirective env param.Validate) : validate env param out = out := by
  obtain ⟨v, r⟩ := out
  cases r with
  | ok u => exact validate_noDirective env param v h
  | err e => rfl
  | panic => rfl
  | timeout => rfl

/-- The body of the loop of `bindStruct` on an exported, embedded field without
`value` tag whose type is a struct. -/
theorem bindField_embedded (env : Env) (p : Properties) (filter : Option Filter) (n : Nat)
    (ft : StructField) (fv : Value) (param : BindParam)
    (h1 : ft.Exported = true) (h2 : env.Lookup ft.Tag "value".toList = none)
    (h3 : ft.Anonymous = true) (h4 : ft.Typ.Kind = .Struct) :
    bindField env p filter (n + 1) ft fv param =
      wrapErr env.rt 390 param.Path
        (bindStruct env p filter n fv ft.Typ
          { Key := param.Key, Path := param.Path ++ ".".toList ++ ft.Name }) := by
  rw [bindField]
  simp only [h1, not_true_eq_false, if_false, h2, h3, if_true, h4, ne_eq]
  rfl

/-- The body of the loop of `bindStruct` on an exported, embedded field without
`value` tag whose type is no struct. -/
theorem bindField_embedded_skip (env : Env) (p : Properties) (filter : Option Filter) (n : Nat)
    (ft : StructField) (fv : Value) (param : BindParam)
    (h1 : ft.Exported = true) (h2 : env.Lookup ft.Tag "value".toList = none)
    (h3 : ft.Anonymous = true) (h4 : ft.Typ.Kind ≠ .Struct) :
    bindField env p filter (n + 1) ft fv param = (fv, .ok ()) := by
  rw [bindField]
  simp only [h1, not_true_eq_false, if_false, h2, h3, if_true, h4, ne_eq, not_false_eq_true]

/-- The function `BindValue` on a struct type without converter, under a
parameter without directive for the validator. -/
theorem bindValue_struct (env : Env) (p : Properties) (filter : Option Filter) (n : Nat)
    (v : Value) (t : GoType) (param : BindParam) (hv : env.IsValueType t = true)
    (hk : t.Kind = .Struct) (hc : env.converters t = none)
    (hd : NoDirective env param.Validate) :
    BindValue env p filter (n + 1) v t param =
      wrapErr env.rt 159 param.Path (bindStruct env p filter n v t param) := by
  rw [bindValue_valueType env p filter n v t param hv, validate_noDirective_id env param _ hd]
  unfold bindBody
  rw [if_neg (by rw [hk]; decide), if_neg (by rw [hk]; decide), if_neg (by rw [hk]; decide),
    if_pos ⟨by rw [hc]; rfl, hk⟩]

/-- The function `bindStruct` on a struct under a parameter without default. -/
theorem bindStruct_fields (env : Env) (p : Properties) (filter : Option Filter) (n : Nat)
    (name : Str) (fields : List StructField) (values : List Value) (param : BindParam)
    (h : ¬ (param.Tag.HasDef = true ∧ param.Tag.Def ≠ [])) :
    bindStruct env p filter (n + 1) (.struct values) (.struct name fields) param =
      (.struct (bindFields env p filter n fields values param).1,
        (bindFields env p filter n fields values param).2) := by
  rw [bindStruct, if_neg h]

theorem bindTag_validate (param sub : BindParam) (tag validate : Str)
    (h : param.BindTag tag validate = (sub, .ok ())) : sub.Validate = validate := by
  cases ht : ParseTag tag with
  | ok t =>
    rw [bindTag_ok param tag validate t ht] at h
    simp only [Prod.mk.injEq, and_true] at h
    rw [← h]
  | err e => simp [BindParam.BindTag, ht] at h
  | panic => simp [BindParam.BindTag, ht] at h
  | timeout => simp [BindParam.BindTag, ht] at h

/-- The deferred function of `BindValue` after a bind without error, when the
field tag has a non-empty directive for the validator. -/
theorem validate_directive (env : Env) (param : BindParam) (v : Value)
    (vd : ValidatorInterface) (d : Str) (hvd : env.Validator = some vd)
    (hl : env.Lookup param.Validate vd.Name = some d) (hd : d ≠ []) :
    validate env param (v, .ok ()) = (v, vd.Field d v) := by
  unfold validate
  simp only [hvd, hl]
  rw [if_pos (List.length_pos.2 hd)]

/-- The deferred function of `BindValue` after a bind that did not succeed. -/
theorem validate_failed (env : Env) (param : BindParam) (v : Value) (r : Res Unit)
    (hr : r ≠ .ok ()) : validate env param (v, r) = (v, r) := by
  cases r with
  | ok u => exact absurd rfl hr
  | err e => rfl
  | panic => rfl
  | timeout => rfl

/-- The body of the loop of `bindStruct` on an exported field with a `value`
tag that parses, the filter letting the field through. -/
theorem bindField_tagged (env : Env) (p : Properties) (filter : Option Filter) (n : Nat)
    (ft : StructField) (fv fv' : Value) (param sub : BindParam) (tag : Str)
    (h1 : ft.Exported = true) (h2 : env.Lookup ft.Tag "value".toList = some tag)
    (h3 : BindParam.BindTag { Key := param.Key, Path := param.Path ++ ".".toList ++ ft.Name } tag
        ft.Tag = (sub, .ok ()))
    (h4 : (filter = none ∧ fv' = fv) ∨ ∃ f, filter = some f ∧ f fv sub = (fv', .ok false)) :
    bindField env p filter (n + 1) ft fv param =
      wrapErr env.rt 379 param.Path (BindValue env p filter n fv' ft.Typ sub) := by
  rw [bindField]
  simp only [h1, not_true_eq_false, if_false, h2, h3]
  rcases h4 with ⟨hn, hfv⟩ | ⟨f, hf, hfv⟩
  · subst hn hfv
    rfl
  · subst hf
    simp only [hfv]
    rfl

/-- A scalar target whose key is absent and whose tag has the empty default is
bound from the empty text. -/
theorem bindValue_empty_default (env : Env) (p : Properties) (filter : Option Filter) (n : Nat)
    (v : Value) (t : GoType) (param : BindParam) (h : ScalarTarget env t)
    (hg : p.storage.Get param.Key = none) (hh : p.storage.Has param.Key = false)
    (hd : param.Tag.HasDef = true) (he : param.Tag.Def = []) :
    BindValue env p filter (n + 3) v t param = validate env param (convert env v t param []) := by
  rw [bindValue_scalar env p filter (n + 2) v t param h, resolve_succ]
  simp only [hg, hh, hd, he]
  rw [resolveString_plain env.rt p [] (by decide) n]
  rfl

theorem takeWhile_ne_append (c : Char) (a b : Str) (h : c ∉ a) :
    (a ++ c :: b).takeWhile (· ≠ c) = a ∧ (a ++ c :: b).dropWhile (· ≠ c) = c :: b := by
  induction a with
  | nil => simp
  | cons x xs ih =>
    simp only [List.mem_cons, not_or] at h
    have hd : decide (x ≠ c) = true := by
      have hx : x ≠ c := fun e => h.1 e.symm
      simpa using hx
    rw [List.cons_append, List.takeWhile_cons, List.dropWhile_cons]
    simp only [hd, if_true, (ih h.2).1, (ih h.2).2, and_self]

/-- The two texts `copyTo` passes to `Set` are the pair the argument stands for. -/
theorem splitN_keyValue (next : Str) :
    (if (SplitN "=".toList 2 next).length = 1 then SplitN "=".toList 2 next ++ ["true".toList]
      else SplitN "=".toList 2 next) = [(keyValue next).1, (keyValue next).2] := by
  have he : "=".toList = ['='] := rfl
  rw [he]
  rcases indexFrom_char '=' next 0 with ⟨h1, h2⟩ | ⟨a, b, h1, h2, h3⟩
  · have hS : SplitN ['='] 2 next = [next] := by
      rw [splitN_two, if_pos (by simpa [Index] using h2)]
    rw [hS]
    simp [keyValue, h1]
  · have hm : Index next ['='] = (a.length : Int) := by simpa [Index] using h3
    have hS : SplitN ['='] 2 next = [a, b] := by
      rw [splitN_two, if_neg (by rw [hm]; omega), hm, h1]
      simp
    have hin : '=' ∈ next := by rw [h1]; simp
    obtain ⟨t1, t2⟩ := takeWhile_ne_append '=' a b h2
    rw [hS]
    simp only [keyValue, hin, if_true]
    rw [h1, t1, t2]
    simp

theorem copyToLoop_nil {σ : Type} (ops : StoreOps σ) (option : Str) (out : σ) :
    CommandArgs.copyToLoop ops option [] out = (out, .ok ()) := by
  unfold CommandArgs.copyToLoop
  rfl

theorem copyToLoop_other {σ : Type} (ops : StoreOps σ) (option s : Str) (rest : List Str)
    (out : σ) (hs : s ≠ option) :
    CommandArgs.copyToLoop ops option (s :: rest) out =
      CommandArgs.copyToLoop ops option rest out := by
  conv_lhs => unfold CommandArgs.copyToLoop
  simp only [if_neg hs]

theorem copyToLoop_last {σ : Type} (ops : StoreOps σ) (option : Str) (out : σ) :
    CommandArgs.copyToLoop ops option [option] out =
      (out, .err (.New "cmd option -D needs arg".toList)) := by
  conv_lhs => unfold CommandArgs.copyToLoop
  simp only [if_true]

theorem copyToLoop_flag {σ : Type} (ops : StoreOps σ) (option next : Str) (rest : List Str)
    (out : σ) :
    CommandArgs.copyToLoop ops option (option :: next :: rest) out =
      match Properties.Set ops out (keyValue next).1 (.scalar (keyValue next).2) with
      | (out, .ok ()) => CommandArgs.copyToLoop ops option (next :: rest) out
      | (out, r) => (out, r) := by
  conv_lhs => unfold CommandArgs.copyToLoop
  simp only [if_true, splitN_keyValue]

/-- The loop of `copyTo` from an index on is the reference scan over the indices
from that index on. -/
theorem copyToLoop_scan {σ : Type} (ops : StoreOps σ) (option : Str) :
    ∀ (rest pre : List Str) (out : σ),
      CommandArgs.copyToLoop ops option rest out =
        scanIndices ops option (pre ++ rest) (List.range' pre.length rest.length) out := by
  intro rest
  induction rest with
  | nil =>
    intro pre out
    rw [copyToLoop_nil]
    simp [scanIndices, List.range']
  | cons s rest ih =>
    intro pre out
    have hget : (pre ++ s :: rest)[pre.length]? = some s := by
      rw [List.getElem?_append_right (le_refl _)]
      simp
    have hnext : pre ++ s :: rest = (pre ++ [s]) ++ rest := by simp
    have hlen : (pre ++ [s]).length = pre.length + 1 := by simp
    simp only [List.length_cons, List.range', scanIndices]
    by_cases hs : s = option
    · subst hs
      cases rest with
      | nil =>
        rw [copyToLoop_last]
        simp [scanAt, hget]
      | cons next rest =>
        have hlast : ¬ pre.length + 1 = (pre ++ s :: next :: rest).length := by
          simp only [List.length_append, List.length_cons]; omega
        have hn : (pre ++ s :: next :: rest).getD (pre.length + 1) [] = next := by
          rw [List.getD_eq_getElem?_getD, List.getElem?_append_right (by omega)]
          simp
        have hstep : scanAt ops s (pre ++ s :: next :: rest) pre.length out =
            Properties.Set ops out (keyValue next).1 (.scalar (keyValue next).2) := by
          unfold scanAt
          rw [hget, if_pos rfl, if_neg hlast, hn]
        rw [hstep, copyToLoop_flag]
        cases hset : Properties.Set ops out (keyValue next).1 (.scalar (keyValue next).2) with
        | mk out' r =>
          cases r with
          | ok u =>
            simp only []
            rw [ih (pre ++ [s]) out', hlen, ← hnext]
          | err e => rfl
          | panic => rfl
          | timeout => rfl
    · have hstep : scanAt ops option (pre ++ s :: rest) pre.length out = (out, .ok ()) := by
        unfold scanAt
        rw [hget, if_neg (by simpa using hs)]
      rw [hstep, copyToLoop_other ops option s rest out hs]
      simp only []
      rw [ih (pre ++ [s]) out, hlen, ← hnext]

theorem splitN_entryPair (entry : Str) :
    SplitN "=".toList 2 entry =
      if '=' ∈ entry then [(entryPair entry).1, (entryPair entry).2] else [entry] := by
  have he : "=".toList = ['='] := rfl
  rw [he]
  rcases indexFrom_char '=' entry 0 with ⟨h1, h2⟩ | ⟨a, b, h1, h2, h3⟩
  · rw [splitN_two, if_pos (by simpa [Index] using h2), if_neg h1]
  · have hm : Index entry ['='] = (a.length : Int) := by simpa [Index] using h3
    have hS : SplitN ['='] 2 entry = [a, b] := by
      rw [splitN_two, if_neg (by rw [hm]; omega), hm, h1]
      simp
    have hin : '=' ∈ entry := by rw [h1]; simp
    obtain ⟨t1, t2⟩ := takeWhile_ne_append '=' a b h2
    rw [hS, if_pos hin]
    simp only [entryPair, hin, if_true]
    rw [h1, t1, t2]
    simp

theorem matches_any (rex : List (Str → Bool)) (s : Str) :
    Environment.matches rex s = rex.any (fun r => r s) := by
  induction rex with
  | nil => rfl
  | cons r rest ih =>
    simp only [Environment.matches, List.any_cons, ih]
    cases r s <;> simp

/-- One turn of the loop of `copyTo` on an entry that is not imported. -/
theorem envLoop_skip {σ : Type} (ops : StoreOps σ) (host : Host) (pre : Str)
    (inc exc : List (Str → Bool)) (entry : Str) (rest : List Str) (p : σ)
    (h : importedAs pre inc exc (entryPair entry).1 = none) :
    Environment.copyToLoop ops host pre inc exc (entry :: rest) p =
      Environment.copyToLoop ops host pre inc exc rest p := by
  conv_lhs => unfold Environment.copyToLoop
  have hk : ∃ more, SplitN "=".toList 2 entry = (entryPair entry).1 :: more := by
    rw [splitN_entryPair]
    by_cases hin : '=' ∈ entry
    · rw [if_pos hin]; exact ⟨_, rfl⟩
    · rw [if_neg hin]; simp [entryPair, hin]
  obtain ⟨more, hS⟩ := hk
  simp only [hS]
  unfold importedAs at h
  by_cases hp : pre.isPrefixOf (entryPair entry).1 = true
  · rw [if_pos hp] at h; cases h
  · rw [if_neg hp] at h
    have hp2 : ¬ (HasPrefix (entryPair entry).1 pre = true) := hp
    rw [if_neg hp2]
    by_cases hm : (inc.any (fun r => r (entryPair entry).1) = true
        ∧ ¬ exc.any (fun r => r (entryPair entry).1) = true)
    · rw [if_pos hm] at h; cases h
    · rw [if_neg]
      rw [matches_any, matches_any]
      intro hc
      apply hm
      simpa using hc

/-- One turn of the loop of `copyTo` on an entry that is imported. -/
theorem envLoop_take {σ : Type} (ops : StoreOps σ) (host : Host) (pre : Str)
    (inc exc : List (Str → Bool)) (entry : Str) (rest : List Str) (p : σ) (name : Str)
    (h : importedAs pre inc exc (entryPair entry).1 = some name) :
    Environment.copyToLoop ops host pre inc exc (entry :: rest) p =
      match Properties.Set ops p (host.ToLower (underscoresToDots name))
          (.scalar (entryPair entry).2) with
      | (p, .ok ()) => Environment.copyToLoop ops host pre inc exc rest p
      | (p, r) => (p, r) := by
  conv_lhs => unfold Environment.copyToLoop
  have hk : ∃ more, SplitN "=".toList 2 entry = (entryPair entry).1 :: more ∧
      (match more with
        | [] => []
        | v :: _ => v) = (entryPair entry).2 := by
    rw [splitN_entryPair]
    by_cases hin : '=' ∈ entry
    · rw [if_pos hin]; exact ⟨_, rfl, rfl⟩
    · rw [if_neg hin]; simp [entryPair, hin]
  obtain ⟨more, hS, hv⟩ := hk
  simp only [hS, hv]
  unfold importedAs at h
  by_cases hp : pre.isPrefixOf (entryPair entry).1 = true
  · rw [if_pos hp] at h
    have hp2 : HasPrefix (entryPair entry).1 pre = true := hp
    rw [if_pos hp2]
    cases h
    rfl
  · rw [if_neg hp] at h
    have hp2 : ¬ (HasPrefix (entryPair entry).1 pre = true) := hp
    rw [if_neg hp2]
    by_cases hm : (inc.any (fun r => r (entryPair entry).1) = true
        ∧ ¬ exc.any (fun r => r (entryPair entry).1) = true)
    · rw [if_pos hm] at h
      cases h
      rw [if_pos]
      rw [matches_any, matches_any]
      simpa using hm
    · rw [if_neg hm] at h; cases h

theorem envLoop_writeAll {σ : Type} (ops : StoreOps σ) (host : Host) (pre : Str)
    (inc exc : List (Str → Bool)) (environ : List Str) (p : σ) :
    Environment.copyToLoop ops host pre inc exc environ p =
      writeAll ops (environ.filterMap (selectEntry host pre inc exc)) p := by
  induction environ generalizing p with
  | nil => rfl
  | cons entry rest ih =>
    cases h : importedAs pre inc exc (entryPair entry).1 with
    | none =>
      rw [envLoop_skip ops host pre inc exc entry rest p h, ih]
      have hs : selectEntry host pre inc exc entry = none := by simp [selectEntry, h]
      rw [List.filterMap_cons_none hs]
    | some name =>
      rw [envLoop_take ops host pre inc exc entry rest p name h]
      have hs : selectEntry host pre inc exc entry =
          some (host.ToLower (underscoresToDots name), (entryPair entry).2) := by
        simp [selectEntry, h]
      rw [List.filterMap_cons_some hs]
      conv_rhs => unfold writeAll
      cases hset : Properties.Set ops p (host.ToLower (underscoresToDots name))
          (.scalar (entryPair entry).2) with
      | mk p1 r =>
        cases r with
        | ok u => cases u; simp only [ih]
        | err e => rfl
        | panic => rfl
        | timeout => rfl

theorem toRex_err (host : Host) (patterns : List Str) (e : Err)
    (h : Environment.toRex host patterns = .err e) :
    ∃ v ∈ patterns, host.Compile v = .err e := by
  induction patterns with
  | nil => simp [Environment.toRex] at h
  | cons v rest ih =>
    unfold Environment.toRex at h
    cases hc : host.Compile v with
    | ok exp =>
      rw [hc] at h
      cases hr : Environment.toRex host rest with
      | ok rex => rw [hr] at h; simp at h
      | err e2 =>
        rw [hr] at h
        simp only at h
        cases h
        obtain ⟨w, hw, hw2⟩ := ih hr
        exact ⟨w, List.mem_cons_of_mem _ hw, hw2⟩
      | panic => rw [hr] at h; simp at h
      | timeout => rw [hr] at h; simp at h
    | err e2 =>
      rw [hc] at h
      simp only at h
      cases h
      exact ⟨v, List.mem_cons_self _ _, hc⟩
    | panic => rw [hc] at h; simp at h
    | timeout => rw [hc] at h; simp at h

theorem copyToInner_cons_err {σ : Type} (rt : Runtime) (ops : StoreOps σ) (host : Host)
    (fuel : Nat) (workDir s : Str) (ss : List Str) (out : σ) (e : Err)
    (h : resolveString rt ⟨ops.view out⟩ fuel s = .err e) :
    PropertySources.copyToInner rt ops host fuel workDir (s :: ss) out = (out, .err e) := by
  conv_lhs => unfold PropertySources.copyToInner
  simp only [Properties.Resolve, h]

theorem copyToInner_append {σ : Type} (rt : Runtime) (ops : StoreOps σ) (host : Host)
    (fuel : Nat) (workDir : Str) (pre post : List Str) (out out1 : σ)
    (h : PropertySources.copyToInner rt ops host fuel workDir pre out = (out1, .ok ())) :
    PropertySources.copyToInner rt ops host fuel workDir (pre ++ post) out =
      PropertySources.copyToInner rt ops host fuel workDir post out1 := by
  induction pre generalizing out with
  | nil =>
    simp only [PropertySources.copyToInner] at h
    cases h
    rfl
  | cons s ss ih =>
    rw [List.cons_append]
    unfold PropertySources.copyToInner at h
    conv_lhs => unfold PropertySources.copyToInner
    cases hr : Properties.Resolve rt ⟨ops.view out⟩ fuel s with
    | ok filename =>
      rw [hr] at h
      simp only [] at h ⊢
      cases hl : Load rt ops host
          (if host.IsAbs filename = true then filename else host.Join workDir filename) with
      | ok c =>
        rw [hl] at h
        simp only [] at h ⊢
        cases hk : PropertySources.copyKeys ops c (ops.Keys c) out with
        | mk o r =>
          rw [hk] at h
          cases r with
          | ok u => cases u; exact ih o h
          | err e => simp at h
          | panic => simp at h
          | timeout => simp at h
      | err e =>
        rw [hl] at h
        simp only [] at h ⊢
        by_cases hn : host.IsNotExist e = true
        · rw [if_pos hn] at h ⊢; exact ih out h
        · rw [if_neg hn] at h; simp at h
      | panic => rw [hl] at h; simp at h
      | timeout => rw [hl] at h; simp at h
    | err e => rw [hr] at h; simp at h
    | panic => rw [hr] at h; simp at h
    | timeout => rw [hr] at h; simp at h

theorem copyToOuter_append {σ : Type} (rt : Runtime) (ops : StoreOps σ) (host : Host)
    (fuel : Nat) (workDir : Str) (before after : List (List Str)) (out out1 : σ)
    (h : PropertySources.copyToOuter rt ops host fuel workDir before out = (out1, .ok ())) :
    PropertySources.copyToOuter rt ops host fuel workDir (before ++ after) out =
      PropertySources.copyToOuter rt ops host fuel workDir after out1 := by
  induction before generalizing out with
  | nil =>
    simp only [PropertySources.copyToOuter] at h
    cases h
    rfl
  | cons ss rest ih =>
    rw [List.cons_append]
    unfold PropertySources.copyToOuter at h
    conv_lhs => unfold PropertySources.copyToOuter
    cases hk : PropertySources.copyToInner rt ops host fuel workDir ss out with
    | mk o r =>
      rw [hk] at h
      cases r with
      | ok u => cases u; exact ih o h
      | err e => simp at h
      | panic => simp at h
      | timeout => simp at h

/-- The source fails with the outcome of the location that is reached, when that
outcome is not a success. -/
theorem copyTo_reach {σ : Type} (rt : Runtime) (ops : StoreOps σ) (host : Host) (fuel : Nat)
    (p : PropertySources) (before after : List (List Str)) (pre post : List Str) (s : Str)
    (out out0 out1 out2 : σ) (r : Res Unit)
    (hloc : p.locations = before ++ (pre ++ s :: post) :: after)
    (hbefore : PropertySources.copyToOuter rt ops host fuel
      (if p.workDir = [] then host.Getwd else p.workDir) before out = (out0, .ok ()))
    (hpre : PropertySources.copyToInner rt ops host fuel
      (if p.workDir = [] then host.Getwd else p.workDir) pre out0 = (out1, .ok ()))
    (hs : PropertySources.copyToInner rt ops host fuel
      (if p.workDir = [] then host.Getwd else p.workDir) (s :: post) out1 = (out2, r))
    (hr : r ≠ .ok ()) :
    p.copyTo rt ops host fuel out = (out2, r) := by
  unfold PropertySources.copyTo
  rw [hloc, copyToOuter_append rt ops host fuel _ before _ out out0 hbefore]
  conv_lhs => unfold PropertySources.copyToOuter
  rw [copyToInner_append rt ops host fuel _ pre _ out0 out1 hpre, hs]
  cases r with
  | ok u => cases u; exact absurd rfl hr
  | err e => rfl
  | panic => rfl
  | timeout => rfl

theorem merge_cons_err {σ : Type} (p p1 : σ) (s : σ → σ × Res Unit)
    (sources : List (σ → σ × Res Unit)) (e : Err) (h : s p = (p1, .err e)) :
    merge p (s :: sources) = .err e := by
  conv_lhs => unfold merge
  rw [h]

theorem merge_cons_ok {σ : Type} (p p1 : σ) (s : σ → σ × Res Unit)
    (sources : List (σ → σ × Res Unit)) (h : s p = (p1, .ok ())) :
    merge p (s :: sources) = merge p1 sources := by
  conv_lhs => unfold merge
  rw [h]

theorem load_unsupported {σ : Type} (rt : Runtime) (ops : StoreOps σ) (host : Host)
    (file b : Str) (hb : host.ReadFile file = .ok b)
    (hr : host.readers (host.Ext file) = none) :
    Load rt ops host file = .err (unsupportedError rt (host.Ext file)) := by
  unfold Load Properties.Load Properties.Bytes
  rw [hb]
  simp only [hr]

theorem load_readFile_err {σ : Type} (rt : Runtime) (ops : StoreOps σ) (host : Host)
    (file : Str) (e : Err) (hb : host.ReadFile file = .err e) :
    Load rt ops host file = (.err e : Res σ) := by
  unfold Load Properties.Load
  rw [hb]

theorem copyToInner_load_err {σ : Type} (rt : Runtime) (ops : StoreOps σ) (host : Host)
    (fuel : Nat) (workDir s filename : Str) (ss : List Str) (out : σ) (e : Err)
    (hres : Properties.Resolve rt ⟨ops.view out⟩ fuel s = .ok filename)
    (hl : Load rt ops host (locationFile host workDir filename) = (.err e : Res σ)) :
    PropertySources.copyToInner rt ops host fuel workDir (s :: ss) out =
      if host.IsNotExist e then PropertySources.copyToInner rt ops host fuel workDir ss out
      else (out, .err e) := by
  conv_lhs => unfold PropertySources.copyToInner
  unfold locationFile at hl
  simp only [hres, hl]

theorem lookup_putChild_same (cs : List (PathSeg × Node)) (seg : PathSeg) (n : Node) :
    (putChild cs seg n).lookup seg = some n := by
  induction cs with
  | nil => simp [putChild, List.lookup]
  | cons x xs ih =>
    obtain ⟨s, m⟩ := x
    by_cases h : s = seg
    · simp [putChild, h, List.lookup]
    · have h2 : (seg == s) = false := by simpa using fun e => h e.symm
      simp only [putChild, if_neg h, List.lookup, h2, ih]

theorem lookup_putChild_other (cs : List (PathSeg × Node)) (seg seg' : PathSeg) (n : Node)
    (h : seg' ≠ seg) : (putChild cs seg n).lookup seg' = cs.lookup seg' := by
  induction cs with
  | nil =>
    have h2 : (seg' == seg) = false := by simpa using h
    simp [putChild, List.lookup, h2]
  | cons x xs ih =>
    obtain ⟨s, m⟩ := x
    by_cases hs : s = seg
    · subst hs
      have h2 : (seg' == s) = false := by simpa using h
      simp only [putChild, if_true, List.lookup, h2]
    · simp only [putChild, if_neg hs, List.lookup]
      cases seg' == s
      · exact ih
      · rfl

theorem node_get_nil (cur : Option Node) : Node.get cur [] = cur := by
  cases cur with
  | none => rfl
  | some n => cases n <;> rfl

theorem node_get_cons (cur : Option Node) (seg : PathSeg) (more : List PathSeg) (n : Node)
    (h : Node.get cur (seg :: more) = some n) :
    ∃ children, cur = some (.branch seg.isIndex children) ∧
      Node.get (children.lookup seg) more = some n := by
  cases cur with
  | none => simp [Node.get] at h
  | some c =>
    cases c with
    | leaf v => simp [Node.get] at h
    | empty l => simp [Node.get] at h
    | branch array children =>
      simp only [Node.get] at h
      by_cases ha : array = seg.isIndex
      · rw [if_pos ha] at h
        subst ha
        exact ⟨children, rfl, h⟩
      · rw [if_neg ha] at h
        cases h

theorem node_set_branch (key val : Str) (here more : List PathSeg) (seg : PathSeg)
    (children : List (PathSeg × Node)) :
    Node.set key val here (seg :: more) (some (.branch seg.isIndex children)) =
      match Node.set key val (here ++ [seg]) more (children.lookup seg) with
      | .ok child => .ok (.branch seg.isIndex (putChild children seg child))
      | r => r := by
  conv_lhs => unfold Node.set
  simp only [if_true]

/-- A write that needs a node on its way to have another shape fails, and the
error names the node, its shape and the key written. -/
theorem node_set_refused (key val : Str) (pK rest : List PathSeg) (n : Node) :
    ∀ (here : List PathSeg) (cur : Option Node), Node.get cur pK = some n → n.refuses rest val →
      Node.set key val here (pK ++ rest) cur =
        .err (shapeError (JoinPath (here ++ pK)) n.word key) := by
  induction pK with
  | nil =>
    intro here cur hget href
    rw [node_get_nil] at hget
    subst hget
    rw [List.nil_append, List.append_nil]
    cases n with
    | leaf v =>
      cases rest with
      | nil =>
        simp only [Node.refuses] at href
        simp only [Node.set, Node.install, if_pos href, Node.word]
      | cons seg more => simp [Node.set, Node.word]
    | empty l => cases rest <;> simp [Node.refuses] at href
    | branch array children =>
      cases rest with
      | nil =>
        simp only [Node.refuses] at href
        simp only [Node.set, Node.install, if_neg href, Node.word]
      | cons seg more =>
        simp only [Node.refuses] at href
        simp only [Node.set, if_neg href, Node.word]
  | cons s pK ih =>
    intro here cur hget href
    obtain ⟨children, hcur, hsub⟩ := node_get_cons cur s pK n hget
    subst hcur
    rw [List.cons_append, node_set_branch, ih (here ++ [s]) _ hsub href]
    simp

/-- A write that succeeds with a value that is not the literal of an empty map
or list leaves a Leaf with the value at the path. -/
theorem node_set_leafAt (key val : Str) (hv : ¬ (val = emptyMapLiteral ∨ val = emptyListLiteral))
    (path : List PathSeg) :
    ∀ (here : List PathSeg) (cur : Option Node) (root : Node),
      Node.set key val here path cur = .ok root → Node.leafAt (some root) path = some val := by
  induction path with
  | nil =>
    intro here cur root h
    have hr : root = .leaf val := by
      cases cur with
      | none => simp [Node.set, Node.install, newNode, if_neg hv] at h; exact h.symm
      | some c =>
        cases c with
        | leaf v => simp [Node.set, Node.install, if_neg hv] at h; exact h.symm
        | empty l => simp [Node.set, Node.install, newNode, if_neg hv] at h; exact h.symm
        | branch array children =>
          exfalso
          have hv2 : ¬ val = (if array = true then emptyListLiteral else emptyMapLiteral) := by
            cases array
            · simpa using fun e => hv (Or.inl e)
            · simpa using fun e => hv (Or.inr e)
          simp [Node.set, Node.install, if_neg hv2] at h
    subst hr
    rfl
  | cons seg more ih =>
    intro here cur root h
    have key_step : ∀ (lookup : Option Node) (array : Bool) (children : List (PathSeg × Node)),
        array = seg.isIndex →
        (match Node.set key val (here ++ [seg]) more lookup with
          | .ok child => Res.ok (Node.branch array (putChild children seg child))
          | r => r) = .ok root →
        Node.leafAt (some root) (seg :: more) = some val := by
      intro lookup array children ha hm
      cases hc : Node.set key val (here ++ [seg]) more lookup with
      | ok child =>
        rw [hc] at hm
        simp only [Res.ok.injEq] at hm
        subst hm
        have := ih (here ++ [seg]) lookup child hc
        simp only [Node.leafAt, Node.get, ha, if_true, lookup_putChild_same] at this ⊢
        exact this
      | err e => rw [hc] at hm; cases hm
      | panic => rw [hc] at hm; cases hm
      | timeout => rw [hc] at hm; cases hm
    cases cur with
    | none =>
      simp only [Node.set] at h
      exact key_step none seg.isIndex [] rfl h
    | some c =>
      cases c with
      | leaf v => simp [Node.set] at h
      | empty l =>
        simp only [Node.set] at h
        exact key_step none seg.isIndex [] rfl h
      | branch array children =>
        simp only [Node.set] at h
        by_cases ha : array = seg.isIndex
        · rw [if_pos ha] at h
          exact key_step _ array children ha h
        · rw [if_neg ha] at h
          cases h

/-- The cases of a write that succeeds at the node itself. -/
theorem node_set_nil_ok (key val : Str) (here : List PathSeg) (cur : Option Node) (root : Node)
    (h : Node.set key val here [] cur = .ok root) :
    ((cur = none ∨ ∃ l, cur = some (.empty l)) ∧ root = newNode val) ∨
    (∃ old, cur = some (.leaf old) ∧ root = .leaf val) ∨
    (∃ array children, cur = some (.branch array children) ∧ root = .branch array children) := by
  cases cur with
  | none =>
    simp only [Node.set, Node.install, Res.ok.injEq] at h
    exact Or.inl ⟨Or.inl rfl, h.symm⟩
  | some c =>
    cases c with
    | leaf v =>
      simp only [Node.set, Node.install] at h
      by_cases hv : val = emptyMapLiteral ∨ val = emptyListLiteral
      · rw [if_pos hv] at h; cases h
      · rw [if_neg hv] at h
        simp only [Res.ok.injEq] at h
        exact Or.inr (Or.inl ⟨v, rfl, h.symm⟩)
    | empty l =>
      simp only [Node.set, Node.install, Res.ok.injEq] at h
      exact Or.inl ⟨Or.inr ⟨l, rfl⟩, h.symm⟩
    | branch array children =>
      simp only [Node.set, Node.install] at h
      by_cases hv : val = (if array = true then emptyListLiteral else emptyMapLiteral)
      · rw [if_pos hv] at h
        simp only [Res.ok.injEq] at h
        exact Or.inr (Or.inr ⟨array, children, rfl, h.symm⟩)
      · rw [if_neg hv] at h; cases h

/-- The cases of a write that succeeds below the node: the node is a Map or a
List that agrees with the segment, or there is no node or an Empty, and the
write below succeeds. -/
theorem node_set_cons_ok (key val : Str) (here more : List PathSeg) (seg : PathSeg)
    (cur : Option Node) (root : Node)
    (h : Node.set key val here (seg :: more) cur = .ok root) :
    ∃ children child,
      (cur = some (.branch seg.isIndex children) ∨
        ((cur = none ∨ ∃ l, cur = some (.empty l)) ∧ children = [])) ∧
      Node.set key val (here ++ [seg]) more (children.lookup seg) = .ok child ∧
      root = .branch seg.isIndex (putChild children seg child) := by
  have step : ∀ (lookup : Option Node) (array : Bool) (children : List (PathSeg × Node)),
      (match Node.set key val (here ++ [seg]) more lookup with
        | .ok child => Res.ok (Node.branch array (putChild children seg child))
        | r => r) = .ok root →
      ∃ child, Node.set key val (here ++ [seg]) more lookup = .ok child ∧
        root = .branch array (putChild children seg child) := by
    intro lookup array children hm
    cases hc : Node.set key val (here ++ [seg]) more lookup with
    | ok child =>
      rw [hc] at hm
      simp only [Res.ok.injEq] at hm
      exact ⟨child, rfl, hm.symm⟩
    | err e => rw [hc] at hm; cases hm
    | panic => rw [hc] at hm; cases hm
    | timeout => rw [hc] at hm; cases hm
  cases cur with
  | none =>
    simp only [Node.set] at h
    obtain ⟨child, h1, h2⟩ := step none seg.isIndex [] h
    exact ⟨[], child, Or.inr ⟨Or.inl rfl, rfl⟩, h1, h2⟩
  | some c =>
    cases c with
    | leaf v => simp [Node.set] at h
    | empty l =>
      simp only [Node.set] at h
      obtain ⟨child, h1, h2⟩ := step none seg.isIndex [] h
      exact ⟨[], child, Or.inr ⟨Or.inr ⟨l, rfl⟩, rfl⟩, h1, h2⟩
    | branch array children =>
      simp only [Node.set] at h
      by_cases ha : array = seg.isIndex
      · rw [if_pos ha] at h
        subst ha
        obtain ⟨child, h1, h2⟩ := step _ _ children h
        exact ⟨children, child, Or.inl rfl, h1, h2⟩
      · rw [if_neg ha] at h
        cases h

theorem node_get_branch (array : Bool) (children : List (PathSeg × Node)) (seg : PathSeg)
    (more : List PathSeg) :
    Node.get (some (.branch array children)) (seg :: more) =
      if array = seg.isIndex then Node.get (children.lookup seg) more else none := rfl

theorem node_get_none (q : List PathSeg) (n : Node) : Node.get none q ≠ some n := by
  cases q <;> simp [Node.get]

theorem node_get_empty (l : Str) (q : List PathSeg) (n : Node)
    (h : Node.get (some (.empty l)) q = some n) : n.fixed = false := by
  cases q with
  | nil => simp only [Node.get, Option.some.injEq] at h; subst h; rfl
  | cons s q => simp [Node.get] at h

theorem node_get_leaf (v : Str) (q : List PathSeg) (n : Node)
    (h : Node.get (some (.leaf v)) q = some n) : q = [] ∧ n = .leaf v := by
  cases q with
  | nil => simp only [Node.get, Option.some.injEq] at h; exact ⟨rfl, h.symm⟩
  | cons s q => simp [Node.get] at h

/-- A write that succeeds keeps the shape of every node that has one. -/
theorem node_set_shape (key val : Str) (path : List PathSeg) :
    ∀ (here : List PathSeg) (cur : Option Node) (root : Node) (q : List PathSeg) (n : Node),
      Node.set key val here path cur = .ok root → Node.get cur q = some n → n.fixed = true →
      ∃ n', Node.get (some root) q = some n' ∧ n'.word = n.word ∧ n'.fixed = true := by
  induction path with
  | nil =>
    intro here cur root q n h hget hfix
    rcases node_set_nil_ok key val here cur root h with
      ⟨hc | ⟨l, hc⟩, _⟩ | ⟨old, hc, hr⟩ | ⟨array, children, hc, hr⟩
    · subst hc; exact absurd hget (node_get_none q n)
    · subst hc
      rw [node_get_empty l q n hget] at hfix
      cases hfix
    · subst hc hr
      obtain ⟨hq, hn⟩ := node_get_leaf old q n hget
      subst hq hn
      exact ⟨.leaf val, rfl, rfl, rfl⟩
    · subst hc hr
      exact ⟨n, hget, rfl, hfix⟩
  | cons seg more ih =>
    intro here cur root q n h hget hfix
    obtain ⟨children, child, hcur, hsub, hroot⟩ := node_set_cons_ok key val here more seg cur root h
    subst hroot
    rcases hcur with hc | ⟨hc | ⟨l, hc⟩, _⟩
    · subst hc
      cases q with
      | nil =>
        simp only [Node.get, Option.some.injEq] at hget
        subst hget
        exact ⟨_, rfl, rfl, rfl⟩
      | cons s q' =>
        rw [node_get_branch] at hget ⊢
        by_cases ha : seg.isIndex = s.isIndex
        · rw [if_pos ha] at hget ⊢
          by_cases hs : s = seg
          · subst hs
            rw [lookup_putChild_same]
            exact ih (here ++ [s]) _ child q' n hsub hget hfix
          · rw [lookup_putChild_other _ _ _ _ hs]
            exact ⟨n, hget, rfl, hfix⟩
        · rw [if_neg ha] at hget
          cases hget
    · subst hc; exact absurd hget (node_get_none q n)
    · subst hc
      rw [node_get_empty l q n hget] at hfix
      cases hfix

theorem leafAt_none (q : List PathSeg) : Node.leafAt none q = none := by
  cases q <;> rfl

theorem leafAt_empty (l : Str) (q : List PathSeg) : Node.leafAt (some (.empty l)) q = none := by
  cases q <;> rfl

theorem leafAt_newNode (val : Str) (s : PathSeg) (q : List PathSeg) :
    Node.leafAt (some (newNode val)) (s :: q) = none := by
  unfold newNode
  split <;> rfl

theorem leafAt_branch (array : Bool) (children : List (PathSeg × Node)) (seg : PathSeg)
    (more : List PathSeg) :
    Node.leafAt (some (.branch array children)) (seg :: more) =
      if array = seg.isIndex then Node.leafAt (children.lookup seg) more else none := by
  unfold Node.leafAt
  rw [node_get_branch]
  by_cases ha : array = seg.isIndex
  · rw [if_pos ha, if_pos ha]
  · rw [if_neg ha, if_neg ha]

/-- A write that succeeds leaves the leaves at the other paths as they were. -/
theorem node_set_frame (key val : Str) (path : List PathSeg) :
    ∀ (here : List PathSeg) (cur : Option Node) (root : Node) (q : List PathSeg),
      Node.set key val here path cur = .ok root → q ≠ path →
      Node.leafAt (some root) q = Node.leafAt cur q := by
  induction path with
  | nil =>
    intro here cur root q h hq
    cases q with
    | nil => exact absurd rfl hq
    | cons s q' =>
      rcases node_set_nil_ok key val here cur root h with
        ⟨hc | ⟨l, hc⟩, hr⟩ | ⟨old, hc, hr⟩ | ⟨array, children, hc, hr⟩
      · subst hc hr; rw [leafAt_newNode, leafAt_none]
      · subst hc hr; rw [leafAt_newNode, leafAt_empty]
      · subst hc hr; rfl
      · subst hc hr; rfl
  | cons seg more ih =>
    intro here cur root q h hq
    obtain ⟨children, child, hcur, hsub, hroot⟩ := node_set_cons_ok key val here more seg cur root h
    subst hroot
    have hbranch : Node.leafAt (some (.branch seg.isIndex (putChild children seg child))) q =
        Node.leafAt (some (.branch seg.isIndex children)) q := by
      cases q with
      | nil => rfl
      | cons s q' =>
        rw [leafAt_branch, leafAt_branch]
        by_cases ha : seg.isIndex = s.isIndex
        · rw [if_pos ha, if_pos ha]
          by_cases hs : s = seg
          · subst hs
            rw [lookup_putChild_same]
            exact ih (here ++ [s]) _ child q' hsub (fun e => hq (by rw [e]))
          · rw [lookup_putChild_other _ _ _ _ hs]
        · rw [if_neg ha, if_neg ha]
    rcases hcur with hc | ⟨hc | ⟨l, hc⟩, hch⟩
    · subst hc; exact hbranch
    · subst hc hch
      rw [hbranch, leafAt_none]
      cases q with
      | nil => rfl
      | cons s q' =>
        rw [leafAt_branch]
        simp [List.lookup, leafAt_none]
    · subst hc hch
      rw [hbranch, leafAt_empty]
      cases q with
      | nil => rfl
      | cons s q' =>
        rw [leafAt_branch]
        simp [List.lookup, leafAt_none]

/-- A write of a value that is not the literal of an empty map or list succeeds
at a path that holds a Leaf. -/
theorem node_set_over_leaf (key val : Str)
    (hv : ¬ (val = emptyMapLiteral ∨ val = emptyListLiteral)) (pK : List PathSeg) (old : Str) :
    ∀ (here : List PathSeg) (cur : Option Node), Node.get cur pK = some (.leaf old) →
      ∃ root, Node.set key val here pK cur = .ok root := by
  induction pK with
  | nil =>
    intro here cur hget
    rw [node_get_nil] at hget
    subst hget
    exact ⟨.leaf val, by simp [Node.set, Node.install, if_neg hv]⟩
  | cons s pK ih =>
    intro here cur hget
    obtain ⟨children, hcur, hsub⟩ := node_get_cons cur s pK _ hget
    subst hcur
    obtain ⟨child, hchild⟩ := ih (here ++ [s]) _ hsub
    exact ⟨_, by rw [node_set_branch, hchild]⟩

/-- A write that fails leaves the Store as it was. -/
theorem store_set_failed (s s' : Store) (key val : Str) (r : Res Unit)
    (h : Store.Set s key val = (s', r)) (hr : r ≠ .ok ()) : s' = s := by
  unfold Store.Set at h
  cases hp : SplitPath key with
  | none =>
    simp only [hp, Prod.mk.injEq] at h
    exact h.1.symm
  | some path =>
    cases hn : Node.set key val [] path s with
    | ok root =>
      simp only [hp, hn, Prod.mk.injEq] at h
      exact absurd h.2.symm hr
    | err e => simp only [hp, hn, Prod.mk.injEq] at h; exact h.1.symm
    | panic => simp only [hp, hn, Prod.mk.injEq] at h; exact h.1.symm
    | timeout => simp only [hp, hn, Prod.mk.injEq] at h; exact h.1.symm

theorem store_set_ok (s s' : Store) (key val : Str) (h : Store.Set s key val = (s', .ok ())) :
    ∃ path root, SplitPath key = some path ∧ Node.set key val [] path s = .ok root ∧
      s' = some root := by
  unfold Store.Set at h
  cases hp : SplitPath key with
  | none => simp [hp] at h
  | some path =>
    cases hn : Node.set key val [] path s with
    | ok root =>
      simp only [hp, hn, Prod.mk.injEq, and_true] at h
      exact ⟨path, root, rfl, hn, h.symm⟩
    | err e => simp [hp, hn] at h
    | panic => simp [hp, hn] at h
    | timeout => simp [hp, hn] at h

/-- The Store refuses a write that needs a node to have another shape. -/
theorem store_set_refused (s : Store) (pK rest : List PathSeg) (n : Node) (Y val : Str)
    (hK : Node.get s pK = some n) (hY : SplitPath Y = some (pK ++ rest))
    (href : n.refuses rest val) :
    Store.Set s Y val = (s, .err (shapeError (JoinPath pK) n.word Y)) := by
  unfold Store.Set
  rw [hY]
  simp only [node_set_refused Y val pK rest n [] s hK href, List.nil_append]

/-- After a successful write of a value that is not the literal of an empty map
or list, `Get` finds the value at the key. -/
theorem store_set_get (s s' : Store) (key val : Str)
    (hv : ¬ (val = emptyMapLiteral ∨ val = emptyListLiteral))
    (h : Store.Set s key val = (s', .ok ())) : Store.Get s' key = some val := by
  obtain ⟨path, root, hp, hn, hs⟩ := store_set_ok s s' key val h
  subst hs
  unfold Store.Get
  rw [hp]
  exact node_set_leafAt key val hv path [] s root hn

/-- A successful write at a key leaves `Get` at a key with another path as it was. -/
theorem store_set_frame (s s' : Store) (key val k : Str) (p : List PathSeg)
    (hk : SplitPath k = some p) (hne : SplitPath key ≠ some p)
    (h : Store.Set s key val = (s', .ok ())) : Store.Get s' k = Store.Get s k := by
  obtain ⟨path, root, hp, hn, hs⟩ := store_set_ok s s' key val h
  subst hs
  unfold Store.Get
  rw [hk]
  exact node_set_frame key val path [] s root p hn (fun e => hne (by rw [hp, e]))

/-- A write of the Store keeps the shape of every node that has one, whether
it succeeds or fails. -/
theorem store_set_shape (s s' : Store) (key val : Str) (r : Res Unit) (q : List PathSeg)
    (n : Node) (h : Store.Set s key val = (s', r)) (hget : Node.get s q = some n)
    (hfix : n.fixed = true) :
    ∃ n', Node.get s' q = some n' ∧ n'.word = n.word ∧ n'.fixed = true := by
  by_cases hr : r = .ok ()
  · subst hr
    obtain ⟨path, root, _, hn, hs⟩ := store_set_ok s s' key val h
    subst hs
    exact node_set_shape key val path [] s root q n hn hget hfix
  · rw [store_set_failed s s' key val r h hr]
    exact ⟨n, hget, rfl, hfix⟩

/-- The loop of `merge` on the Store keeps the shape of every node that has one. -/
theorem mergeLoop_shape (range : List (Str × Str) → List (Str × Str)) (q : List PathSeg)
    (ws : List (Str × Str)) :
    ∀ (s s' : Store) (r : Res Unit) (n : Node),
      Properties.mergeLoop (specOps range) s ws = (s', r) → Node.get s q = some n →
      n.fixed = true → ∃ n', Node.get s' q = some n' ∧ n'.word = n.word ∧ n'.fixed = true := by
  induction ws with
  | nil =>
    intro s s' r n h hget hfix
    simp only [Properties.mergeLoop, Prod.mk.injEq] at h
    rw [← h.1]
    exact ⟨n, hget, rfl, hfix⟩
  | cons w ws ih =>
    intro s s' r n h hget hfix
    obtain ⟨key, val⟩ := w
    unfold Properties.mergeLoop at h
    cases hset : Properties.store (specOps range) s key val with
    | mk s1 r1 =>
      obtain ⟨n1, hn1, hw1, hf1⟩ := store_set_shape s s1 key val r1 q n hset hget hfix
      rw [hset] at h
      cases r1 with
      | ok u =>
        cases u
        obtain ⟨n2, hn2, hw2, hf2⟩ := ih s1 s' r n1 h hn1 hf1
        exact ⟨n2, hn2, hw2.trans hw1, hf2⟩
      | err e => simp only [Prod.mk.injEq] at h; rw [← h.1]; exact ⟨n1, hn1, hw1, hf1⟩
      | panic => simp only [Prod.mk.injEq] at h; rw [← h.1]; exact ⟨n1, hn1, hw1, hf1⟩
      | timeout => simp only [Prod.mk.injEq] at h; rw [← h.1]; exact ⟨n1, hn1, hw1, hf1⟩

theorem mergeLoop_cons_failed {σ : Type} (ops : StoreOps σ) (s s1 : σ) (key val : Str)
    (rest : List (Str × Str)) (r : Res Unit) (h : ops.Set s key val = (s1, r))
    (hr : r ≠ .ok ()) : Properties.mergeLoop ops s ((key, val) :: rest) = (s1, r) := by
  unfold Properties.mergeLoop
  cases r with
  | ok u => cases u; exact absurd rfl hr
  | err e => simp only [Properties.store, h]
  | panic => simp only [Properties.store, h]
  | timeout => simp only [Properties.store, h]

theorem mergeLoop_cons_ok {σ : Type} (ops : StoreOps σ) (s s1 : σ) (key val : Str)
    (rest : List (Str × Str)) (h : ops.Set s key val = (s1, .ok ())) :
    Properties.mergeLoop ops s ((key, val) :: rest) = Properties.mergeLoop ops s1 rest := by
  conv_lhs => unfold Properties.mergeLoop
  simp only [Properties.store, h]

theorem splitPath_nil : SplitPath [] = none := rfl

/-- The loop of `merge` over the pairs visited before a pair and then that pair. -/
theorem mergeLoop_append {σ : Type} (ops : StoreOps σ) (pre post : List (Str × Str)) :
    ∀ (s s1 : σ), Properties.mergeLoop ops s pre = (s1, .ok ()) →
      Properties.mergeLoop ops s (pre ++ post) = Properties.mergeLoop ops s1 post := by
  induction pre with
  | nil =>
    intro s s1 h
    simp only [Properties.mergeLoop, Prod.mk.injEq, and_true] at h
    subst h
    rfl
  | cons w pre ih =>
    intro s s1 h
    obtain ⟨key, val⟩ := w
    rw [List.cons_append]
    unfold Properties.mergeLoop at h
    conv_lhs => unfold Properties.mergeLoop
    cases hset : Properties.store ops s key val with
    | mk s2 r =>
      rw [hset] at h
      cases r with
      | ok u => cases u; exact ih s2 s1 h
      | err e => simp at h
      | panic => simp at h
      | timeout => simp at h

/-- A loop of `merge` that does not succeed stops at a pair whose write does not
succeed, the pairs before it being written. -/
theorem mergeLoop_failed {σ : Type} (ops : StoreOps σ) (ws : List (Str × Str)) :
    ∀ (s s' : σ) (r : Res Unit), Properties.mergeLoop ops s ws = (s', r) → r ≠ .ok () →
      ∃ pre Y v post s1, ws = pre ++ (Y, v) :: post ∧
        Properties.mergeLoop ops s pre = (s1, .ok ()) ∧ ops.Set s1 Y v = (s', r) := by
  induction ws with
  | nil =>
    intro s s' r h hr
    simp only [Properties.mergeLoop, Prod.mk.injEq] at h
    exact absurd h.2.symm hr
  | cons w ws ih =>
    intro s s' r h hr
    obtain ⟨key, val⟩ := w
    unfold Properties.mergeLoop at h
    cases hset : Properties.store ops s key val with
    | mk s2 r2 =>
      rw [hset] at h
      have hfail : r2 ≠ .ok () → ∃ pre Y v post s1, (key, val) :: ws = pre ++ (Y, v) :: post ∧
          Properties.mergeLoop ops s pre = (s1, .ok ()) ∧ ops.Set s1 Y v = (s', r) := by
        intro h2
        have he : (s2, r2) = (s', r) := by
          cases r2 with
          | ok u => cases u; exact absurd rfl h2
          | err e => exact h
          | panic => exact h
          | timeout => exact h
        simp only [Prod.mk.injEq] at he
        refine ⟨[], key, val, ws, s, rfl, rfl, ?_⟩
        rw [← he.1, ← he.2]
        exact hset
      cases r2 with
      | ok u =>
        cases u
        obtain ⟨pre, Y, v, post, s1, hws, hpre, hY⟩ := ih s2 s' r h hr
        refine ⟨(key, val) :: pre, Y, v, post, s1, by rw [hws]; rfl, ?_, hY⟩
        rw [mergeLoop_cons_ok ops s s2 key val pre hset]
        exact hpre
      | err e => exact hfail (by simp)
      | panic => exact hfail (by simp)
      | timeout => exact hfail (by simp)

/-- The loop of `merge` does not depend on the arrangement of a `range` loop. -/
theorem mergeLoop_withRange {σ : Type} (ops : StoreOps σ)
    (range : List (Str × Str) → List (Str × Str)) (ws : List (Str × Str)) :
    ∀ s : σ, Properties.mergeLoop (ops.withRange range) s ws = Properties.mergeLoop ops s ws := by
  induction ws with
  | nil => intro s; rfl
  | cons w ws ih =>
    intro s
    obtain ⟨key, val⟩ := w
    unfold Properties.mergeLoop
    have e : Properties.store (ops.withRange range) s key val = Properties.store ops s key val :=
      rfl
    rw [e]
    cases hset : Properties.store ops s key val with
    | mk s1 r =>
      cases r with
      | ok u => cases u; exact ih s1
      | err e => rfl
      | panic => rfl
      | timeout => rfl

theorem lastWrite_append (a b : List (Str × Str)) (k : Str) :
    ∀ base, lastWrite (a ++ b) k base = lastWrite b k (lastWrite a k base) := by
  induction a with
  | nil => intro base; rfl
  | cons x a ih =>
    intro base
    obtain ⟨k', v⟩ := x
    rw [List.cons_append]
    simp only [lastWrite]
    exact ih _

theorem lastWrite_some (ws : List (Str × Str)) (k v : Str) :
    ∀ base, lastWrite ws k none = some v → lastWrite ws k base = some v := by
  induction ws with
  | nil => intro base h; cases h
  | cons x ws ih =>
    intro base h
    obtain ⟨k', w⟩ := x
    simp only [lastWrite] at h ⊢
    by_cases hk : k' = k
    · rw [if_pos hk] at h ⊢; exact h
    · rw [if_neg hk] at h ⊢; exact ih base h

theorem leafLaws_mono {σ : Type} (ops : StoreOps σ) (k : Str) (ws ws' : List (Str × Str))
    (hsub : ∀ x, x ∈ ws' → x ∈ ws) (h : LeafLaws ops k ws) : LeafLaws ops k ws' :=
  ⟨fun k' v' hm => h.1 k' v' (hsub _ hm), h.2.1, fun v hm => h.2.2.1 v (hsub _ hm),
    fun k' v' hm => h.2.2.2 k' v' (hsub _ hm)⟩

/-- Under the laws, `Properties.Set` of a scalar is the write of the storage. -/
theorem set_scalar {σ : Type} (ops : StoreOps σ) (s : σ) (key val : Str) (hkey : key ≠ [])
    (hf : ops.FlattenValue key (.scalar val) = [(key, val)]) (hr : ∀ x, ops.range [x] = [x]) :
    Properties.Set ops s key (.scalar val) = ops.Set s key val := by
  unfold Properties.Set Properties.merge
  rw [if_neg hkey, hf, hr]
  unfold Properties.mergeLoop
  simp only [Properties.store]
  cases hset : ops.Set s key val with
  | mk s1 r =>
    cases r with
    | ok u => cases u; rfl
    | err e => rfl
    | panic => rfl
    | timeout => rfl

theorem set_empty_key {σ : Type} (ops : StoreOps σ) (s : σ) (val : Nested) :
    Properties.Set ops s [] val = (s, .err (.New "key is empty".toList)) := by
  unfold Properties.Set
  rw [if_pos rfl]

theorem writeAll_cons_ok {σ : Type} (ops : StoreOps σ) (key val : Str) (ws : List (Str × Str))
    (s s' : σ) (h : writeAll ops ((key, val) :: ws) s = (s', .ok ())) :
    ∃ s1, Properties.Set ops s key (.scalar val) = (s1, .ok ()) ∧
      writeAll ops ws s1 = (s', .ok ()) := by
  unfold writeAll at h
  cases hset : Properties.Set ops s key (.scalar val) with
  | mk s1 r =>
    rw [hset] at h
    cases r with
    | ok u => cases u; exact ⟨s1, rfl, h⟩
    | err e => simp at h
    | panic => simp at h
    | timeout => simp at h

theorem writeAll_append {σ : Type} (ops : StoreOps σ) (a b : List (Str × Str)) :
    ∀ (s s1 : σ), writeAll ops a s = (s1, .ok ()) →
      writeAll ops (a ++ b) s = writeAll ops b s1 := by
  induction a with
  | nil =>
    intro s s1 h
    simp only [writeAll, Prod.mk.injEq, and_true] at h
    subst h
    rfl
  | cons x a ih =>
    intro s s1 h
    obtain ⟨key, val⟩ := x
    obtain ⟨s2, hset, hrest⟩ := writeAll_cons_ok ops key val a s s1 h
    rw [List.cons_append]
    conv_lhs => unfold writeAll
    rw [hset]
    exact ih s2 s1 hrest

/-- Under the laws, after the pairs are written `Get` finds at `k` the value of
the last pair with key `k`, or what it found before when there is none. -/
theorem writeAll_get {σ : Type} (ops : StoreOps σ) (k : Str) (ws : List (Str × Str)) :
    ∀ (s s' : σ), LeafLaws ops k ws → writeAll ops ws s = (s', .ok ()) →
      (ops.view s').Get k = lastWrite ws k ((ops.view s).Get k) := by
  induction ws with
  | nil =>
    intro s s' _ h
    simp only [writeAll, Prod.mk.injEq, and_true] at h
    subst h
    rfl
  | cons x ws ih =>
    intro s s' hlaws h
    obtain ⟨key, val⟩ := x
    obtain ⟨s1, hset, hrest⟩ := writeAll_cons_ok ops key val ws s s' h
    have hkey : key ≠ [] := by
      intro e
      rw [e, set_empty_key] at hset
      simp at hset
    rw [set_scalar ops s key val hkey (hlaws.1 key val (List.mem_cons_self _ _)) hlaws.2.1]
      at hset
    have hlaws' : LeafLaws ops k ws :=
      leafLaws_mono ops k _ ws (fun x hx => List.mem_cons_of_mem _ hx) hlaws
    rw [ih s1 s' hlaws' hrest]
    simp only [lastWrite]
    by_cases hk : key = k
    · subst hk
      rw [if_pos rfl, hlaws.2.2.1 val (List.mem_cons_self _ _) s s1 hset]
    · rw [if_neg hk, hlaws.2.2.2 key val (List.mem_cons_self _ _) hk s s1 hset]

/-- A run of the command line layer that succeeds writes the pairs of the
command line. -/
theorem args_writes {σ : Type} (ops : StoreOps σ) (option : Str) (argv : List Str) :
    ∀ (out out' : σ), CommandArgs.copyToLoop ops option argv out = (out', .ok ()) →
      writeAll ops (argPairs option argv) out = (out', .ok ()) := by
  induction argv with
  | nil =>
    intro out out' h
    rw [copyToLoop_nil] at h
    exact h
  | cons s rest ih =>
    intro out out' h
    by_cases hs : s = option
    · subst hs
      cases rest with
      | nil =>
        rw [copyToLoop_last] at h
        simp at h
      | cons next rest' =>
        rw [copyToLoop_flag] at h
        simp only [argPairs, if_true]
        unfold writeAll
        cases hset : Properties.Set ops out (keyValue next).1 (.scalar (keyValue next).2) with
        | mk s1 r =>
          rw [hset] at h
          cases r with
          | ok u => cases u; exact ih s1 out' h
          | err e => simp at h
          | panic => simp at h
          | timeout => simp at h
    · rw [copyToLoop_other ops option s rest out hs] at h
      simp only [argPairs, if_neg hs]
      exact ih out out' h

theorem copyKeys_writes {σ : Type} (ops : StoreOps σ) (c : σ) (keys : List Str) :
    ∀ out : σ, PropertySources.copyKeys ops c keys out =
      writeAll ops (keys.map (fun key => (key, Properties.Get ⟨ops.view c⟩ key))) out := by
  induction keys with
  | nil => intro out; rfl
  | cons key keys ih =>
    intro out
    simp only [List.map_cons]
    unfold PropertySources.copyKeys writeAll
    cases hset : Properties.Set ops out key (.scalar (Properties.Get ⟨ops.view c⟩ key)) with
    | mk s1 r =>
      cases r with
      | ok u => cases u; exact ih s1
      | err e => rfl
      | panic => rfl
      | timeout => rfl

theorem copyToInner_writes {σ : Type} (rt : Runtime) (ops : StoreOps σ) (host : Host)
    (fuel : Nat) (workDir : Str) (ss : List Str) :
    ∀ (out out' : σ), PropertySources.copyToInner rt ops host fuel workDir ss out = (out', .ok ()) →
      ∃ ws, writeAll ops ws out = (out', .ok ()) := by
  induction ss with
  | nil =>
    intro out out' h
    exact ⟨[], h⟩
  | cons s ss ih =>
    intro out out' h
    unfold PropertySources.copyToInner at h
    cases hr : Properties.Resolve rt ⟨ops.view out⟩ fuel s with
    | ok filename =>
      rw [hr] at h
      simp only [] at h
      cases hl : Load rt ops host
          (if host.IsAbs filename = true then filename else host.Join workDir filename) with
      | ok c =>
        rw [hl] at h
        simp only [] at h
        cases hk : PropertySources.copyKeys ops c (ops.Keys c) out with
        | mk o r =>
          rw [hk] at h
          cases r with
          | ok u =>
            cases u
            obtain ⟨ws, hws⟩ := ih o out' h
            rw [copyKeys_writes] at hk
            exact ⟨_ ++ ws, by rw [writeAll_append ops _ ws out o hk]; exact hws⟩
          | err e => simp at h
          | panic => simp at h
          | timeout => simp at h
      | err e =>
        rw [hl] at h
        simp only [] at h
        by_cases hn : host.IsNotExist e = true
        · rw [if_pos hn] at h; exact ih out out' h
        · rw [if_neg hn] at h; simp at h
      | panic => rw [hl] at h; simp at h
      | timeout => rw [hl] at h; simp at h
    | err e => rw [hr] at h; simp at h
    | panic => rw [hr] at h; simp at h
    | timeout => rw [hr] at h; simp at h

/-- A run of a file or dynamic layer that succeeds is the write of a list of
pairs, the keys of the files that were loaded with their values. -/
theorem sources_writes {σ : Type} (rt : Runtime) (ops : StoreOps σ) (host : Host)
    (fuel : Nat) (workDir : Str) (locations : List (List Str)) :
    ∀ (out out' : σ),
      PropertySources.copyToOuter rt ops host fuel workDir locations out = (out', .ok ()) →
      ∃ ws, writeAll ops ws out = (out', .ok ()) := by
  induction locations with
  | nil =>
    intro out out' h
    exact ⟨[], h⟩
  | cons ss rest ih =>
    intro out out' h
    unfold PropertySources.copyToOuter at h
    cases hk : PropertySources.copyToInner rt ops host fuel workDir ss out with
    | mk o r =>
      rw [hk] at h
      cases r with
      | ok u =>
        cases u
        obtain ⟨w1, hw1⟩ := copyToInner_writes rt ops host fuel workDir ss out o hk
        obtain ⟨w2, hw2⟩ := ih o out' h
        exact ⟨w1 ++ w2, by rw [writeAll_append ops w1 w2 out o hw1]; exact hw2⟩
      | err e => simp at h
      | panic => simp at h
      | timeout => simp at h

theorem merge_ok_cons {σ : Type} (p snap : σ) (s : σ → σ × Res Unit)
    (sources : List (σ → σ × Res Unit)) (h : merge p (s :: sources) = .ok snap) :
    ∃ p1, s p = (p1, .ok ()) ∧ merge p1 sources = .ok snap := by
  unfold merge at h
  cases hs : s p with
  | mk p1 r =>
    rw [hs] at h
    cases r with
    | ok u => cases u; exact ⟨p1, rfl, h⟩
    | err e => simp at h
    | panic => simp at h
    | timeout => simp at h

/-- The laws hold of the Store and the Flattener of the spec for a key that
parses, when no pair written holds the literal of an empty map or list and the
other keys written have other paths. -/
theorem specOps_leafLaws (range : List (Str × Str) → List (Str × Str))
    (hrange : ∀ x, range [x] = [x]) (k : Str) (p : List PathSeg) (hk : SplitPath k = some p)
    (ws : List (Str × Str))
    (hv : ∀ k' v', (k', v') ∈ ws → ¬ (v' = emptyMapLiteral ∨ v' = emptyListLiteral))
    (hother : ∀ k' v', (k', v') ∈ ws → k' ≠ k → SplitPath k' ≠ some p) :
    LeafLaws (specOps range) k ws :=
  ⟨fun _ _ _ => rfl, hrange,
    fun v hm s s' h => store_set_get s s' k v (hv k v hm) h,
    fun k' v' hm hne s s' h => store_set_frame s s' k' v' k p hk (hother k' v' hm hne) h⟩

/-- The outcome of `ParseTag` in terms of its three offsets: the error when the
last `>>` is at offset 0, when no closing brace lies after offset 0 or when
there is no opener; a panic when the last closing brace lies before the end of
the first opener, the slice `tag[k+2:j]` being out of range; a tag otherwise. -/
theorem parseTag_outcome (tag : Str) :
    (LastIndex tag sSplit = 0 ∨ LastIndex tag sClose ≤ 0 ∨ Index tag sOpen < 0 →
      ParseTag tag = .err (parseTagError tag)) ∧
    (LastIndex tag sSplit ≠ 0 → 0 < LastIndex tag sClose → 0 ≤ Index tag sOpen →
      LastIndex tag sClose < Index tag sOpen + 2 → ParseTag tag = .panic) ∧
    (LastIndex tag sSplit ≠ 0 → 0 < LastIndex tag sClose → 0 ≤ Index tag sOpen →
      Index tag sOpen + 2 ≤ LastIndex tag sClose → ∃ t, ParseTag tag = .ok t) := by
  have hj : LastIndex tag sClose = -1 ∨
      ((0 : Int) ≤ LastIndex tag sClose ∧ LastIndex tag sClose + 1 ≤ tag.length) := by
    have := lastIndexFrom_range sClose tag 0
    simpa [LastIndex, sClose] using this
  have hi : LastIndex tag sSplit = -1 ∨
      ((0 : Int) ≤ LastIndex tag sSplit ∧ LastIndex tag sSplit + 2 ≤ tag.length) := by
    have := lastIndexFrom_range sSplit tag 0
    simpa [LastIndex, sSplit] using this
  have hsp : LastIndex tag sSplit ≠ 0 → 0 < LastIndex tag sClose →
      ∃ splitter, (if LastIndex tag sSplit > LastIndex tag sClose then
        (slice tag (LastIndex tag sSplit + 2) tag.length).map TrimSpace else some []) =
          some splitter := by
    intro _ h0
    by_cases hgt : LastIndex tag sSplit > LastIndex tag sClose
    · rw [if_pos hgt]
      have hr : 0 ≤ LastIndex tag sSplit + 2 ∧ LastIndex tag sSplit + 2 ≤ tag.length ∧
          (tag.length : Int) ≤ tag.length := by
        rcases hi with h | h
        · omega
        · omega
      unfold slice
      rw [if_pos hr]
      exact ⟨_, rfl⟩
    · rw [if_neg hgt]
      exact ⟨_, rfl⟩
  refine ⟨?_, ?_, ?_⟩
  · intro h
    unfold ParseTag
    by_cases h1 : LastIndex tag sSplit = 0
    · simp only [h1, if_true]
    · by_cases h2 : LastIndex tag sClose ≤ 0
      · simp only [h1, h2, if_true, if_false]
      · have h3 : Index tag sOpen < 0 := by
          rcases h with h | h | h
          · exact absurd h h1
          · exact absurd h h2
          · exact h
        simp only [h1, h2, h3, if_true, if_false]
  · intro h1 h2 h3 h4
    obtain ⟨splitter, hs⟩ := hsp h1 h2
    have hb : slice tag (Index tag sOpen + 2) (LastIndex tag sClose) = none := by
      unfold slice
      rw [if_neg]
      omega
    unfold ParseTag
    simp only [h1, not_le.mpr h2, not_lt.mpr h3, if_false, hs, hb]
  · intro h1 h2 h3 h4
    obtain ⟨splitter, hs⟩ := hsp h1 h2
    have hb : ∃ body, slice tag (Index tag sOpen + 2) (LastIndex tag sClose) = some body := by
      unfold slice
      rw [if_pos]
      · exact ⟨_, rfl⟩
      · rcases hj with h | h
        · omega
        · omega
    obtain ⟨body, hb⟩ := hb
    unfold ParseTag
    simp only [h1, not_le.mpr h2, not_lt.mpr h3, if_false, hs, hb]
    rw [splitN_two]
    by_cases hm : Index body sAssign < 0
    · rw [if_pos hm]; exact ⟨_, rfl⟩
    · rw [if_neg hm]; exact ⟨_, rfl⟩

/-- When the bind of every element succeeds, the loop of `bindSlice` does not
return, however much fuel it gets. -/
theorem bindSliceLoop_endless (env : Env) (p : Properties) (filter : Option Filter)
    (et : GoType) (param : BindParam)
    (hel : ∀ i, ∃ f x, BindValue env p filter f (zeroValue et) et (elemParam param i) =
      (x, .ok ()))
    (F i : Nat) (acc : List Value) :
    (bindSliceLoop env p filter F et param i acc).2 = .timeout := by
  by_contra hne
  cases hloop : bindSliceLoop env p filter F et param i acc with
  | mk out r =>
    rw [hloop] at hne
    obtain ⟨es, _, _, f, w, r', hlast, hr', hexit⟩ :=
      bindSliceLoop_sound env p filter et param F i acc out r hloop hne
    obtain ⟨f', x, hok⟩ := hel (i + es.length)
    have hnt : r' ≠ .timeout := by
      intro e
      subst e
      exact hne hexit
    have h1 := bindValue_mono env p filter f (max f f') _ _ _ _ hlast hnt (le_max_left _ _)
    have h2 := bindValue_mono env p filter f' (max f f') _ _ _ _ hok (by simp)
      (le_max_right _ _)
    rw [h1] at h2
    simp only [Prod.mk.injEq] at h2
    exact hr' h2.2

/-- When `getSlice` gives properties on which the bind of every element
succeeds, `BindValue` on the slice does not return, however much fuel it gets. -/
theorem bindValue_endless (env : Env) (p q : Properties) (filter : Option Filter) (v : Value)
    (et : GoType) (param : BindParam) (hv : env.IsValueType (.slice et) = true)
    (hq : getSlice env p et param = .ok (some q))
    (hel : ∀ i, ∃ f x, BindValue env q filter f (zeroValue et) et (elemParam param i) =
      (x, .ok ()))
    (F : Nat) : (BindValue env p filter F v (.slice et) param).2 = .timeout := by
  have hbig : ∀ n, (BindValue env p filter (n + 2) v (.slice et) param).2 = .timeout := by
    intro n
    rw [bindValue_slice env p filter (n + 1) v et param hv,
      bindSlice_of_getSlice env p q filter n v et param hq]
    by_contra hne
    exact validate_timeout env param _ hne (bindSliceLoop_endless env q filter et param hel n 0 [])
  by_contra hne
  have := (binder_mono env filter F (F + 2) (by omega)).1 p v (.slice et) param hne
  rw [← this] at hne
  exact hne (hbig F)

theorem getLast_append_x (K : Str) : (K ++ ".x".toList).getLast? = some 'x' := by
  have : K ++ ".x".toList = (K ++ ['.']) ++ ['x'] := by simp
  rw [this, List.getLast?_append]
  rfl

/-- On the properties of the list of one item every element binds: the field `X`
gets the leaf `5` where the store has it and the default `1` elsewhere. -/
theorem item_binds (K P : Str) (hK : K ≠ []) :
    ∃ x, BindValue exampleEnv itemsProperties none 7 (zeroValue itemType) itemType
      { Key := K, Path := P } = (x, .ok ()) := by
  have hsub : BindParam.BindTag { Key := K, Path := P ++ ".".toList ++ "X".toList }
      "$\x7bx:=1\x7d".toList "value:\"$\x7bx:=1\x7d\"".toList =
      ({ Key := K ++ ".x".toList, Path := P ++ ".".toList ++ "X".toList
         Tag := { Key := "x".toList, HasDef := true, Def := "1".toList }
         Validate := "value:\"$\x7bx:=1\x7d\"".toList }, .ok ()) := by
    have ht : ParseTag "$\x7bx:=1\x7d".toList =
        .ok { Key := "x".toList, HasDef := true, Def := "1".toList } := by decide
    rw [bindTag_ok _ _ _ _ ht]
    have hn : normalKey "x".toList = "x".toList := by decide
    simp only [hn, joinKey, if_neg hK]
    have hx : ¬ ("x".toList = ([] : Str)) := by decide
    rw [if_neg hx]
    have ha : K ++ ".".toList ++ "x".toList = K ++ ".x".toList := by
      rw [List.append_assoc]; rfl
    rw [ha]
  have hint : ScalarTarget exampleEnv (.basic .Int []) := by
    refine ⟨rfl, ?_, ?_, ?_, ?_⟩ <;> decide
  have hres : ∃ val, (val = "5".toList ∨ val = "1".toList) ∧
      resolve exampleRuntime itemsProperties 2
        { Key := K ++ ".x".toList, Path := P ++ ".".toList ++ "X".toList
          Tag := { Key := "x".toList, HasDef := true, Def := "1".toList }
          Validate := "value:\"$\x7bx:=1\x7d\"".toList } = .ok val := by
    rw [resolve_succ]
    cases hg : itemsProperties.storage.Get (K ++ ".x".toList) with
    | some val =>
      have hm := exampleStorage_get _ _ _ _ hg
      simp only [List.mem_singleton, Prod.mk.injEq] at hm
      refine ⟨val, Or.inl hm.2, ?_⟩
      simp only []
      rw [hm.2]
      rfl
    | none =>
      have hh : itemsProperties.storage.Has (K ++ ".x".toList) = false := by
        have hl : List.lookup (K ++ ".x".toList) [("k[0].x".toList, "5".toList)] = none := hg
        have hlast := getLast_append_x K
        have h1 : K ++ ".x".toList ≠ "k".toList := by
          intro e; rw [e] at hlast; revert hlast; decide
        have h2 : K ++ ".x".toList ≠ "k[0]".toList := by
          intro e; rw [e] at hlast; revert hlast; decide
        show ((List.lookup (K ++ ".x".toList) [("k[0].x".toList, "5".toList)]).isSome ||
          ["k".toList, "k[0]".toList].contains (K ++ ".x".toList)) = false
        rw [hl]
        simp
        exact ⟨h1, h2⟩
      refine ⟨"1".toList, Or.inr rfl, ?_⟩
      simp only [hh]
      rfl
  obtain ⟨val, hval, hres⟩ := hres
  have hfield : ∃ y, BindValue exampleEnv itemsProperties none 3 (.int 0) (.basic .Int [])
      { Key := K ++ ".x".toList, Path := P ++ ".".toList ++ "X".toList
        Tag := { Key := "x".toList, HasDef := true, Def := "1".toList }
        Validate := "value:\"$\x7bx:=1\x7d\"".toList } = (y, .ok ()) := by
    rw [bindValue_scalar exampleEnv itemsProperties none 2 _ _ _ hint]
    have hr : resolve exampleEnv.rt itemsProperties 2
        { Key := K ++ ".x".toList, Path := P ++ ".".toList ++ "X".toList
          Tag := { Key := "x".toList, HasDef := true, Def := "1".toList }
          Validate := "value:\"$\x7bx:=1\x7d\"".toList } = .ok val := hres
    rw [hr]
    rcases hval with h | h
    · subst h; exact ⟨_, rfl⟩
    · subst h; exact ⟨_, rfl⟩
  obtain ⟨y, hy⟩ := hfield
  have hbf : bindField exampleEnv itemsProperties none 4
      (.mk "X".toList "value:\"$\x7bx:=1\x7d\"".toList false true (.basic .Int [])) (.int 0)
      { Key := K, Path := P } = (y, .ok ()) := by
    rw [bindField_tagged exampleEnv itemsProperties none 3
      (.mk "X".toList "value:\"$\x7bx:=1\x7d\"".toList false true (.basic .Int [])) (.int 0)
      (.int 0) { Key := K, Path := P } _ "$\x7bx:=1\x7d".toList rfl (by decide) hsub
      (Or.inl ⟨rfl, rfl⟩)]
    have : BindValue exampleEnv itemsProperties none 3 (.int 0)
        (StructField.Typ (.mk "X".toList "value:\"$\x7bx:=1\x7d\"".toList false true
          (.basic .Int [])))
        { Key := K ++ ".x".toList, Path := P ++ ".".toList ++ "X".toList
          Tag := { Key := "x".toList, HasDef := true, Def := "1".toList }
          Validate := "value:\"$\x7bx:=1\x7d\"".toList } = (y, .ok ()) := hy
    rw [this]
    rfl
  refine ⟨.struct [y], ?_⟩
  have hnd : NoDirective exampleEnv ({ Key := K, Path := P } : BindParam).Validate :=
    ⟨_, rfl, Or.inl rfl⟩
  rw [bindValue_struct exampleEnv itemsProperties none 6 _ itemType { Key := K, Path := P }
    rfl rfl rfl hnd]
  have hz : zeroValue itemType = .struct [.int 0] := rfl
  rw [hz]
  unfold itemType
  rw [bindStruct_fields exampleEnv itemsProperties none 5 _ _ _ { Key := K, Path := P }
    (by simp)]
  have hfs : bindFields exampleEnv itemsProperties none 5
      [.mk "X".toList "value:\"$\x7bx:=1\x7d\"".toList false true (.basic .Int [])] [.int 0]
      { Key := K, Path := P } = ([y], .ok ()) := by
    rw [bindFields]
    simp only [hbf]
    rfl
  rw [hfs]
  rfl

theorem indexed_ne_nil (s : Str) (i : Nat) : indexed s i ≠ [] := by
  unfold indexed
  simp

/-- The default of the parameter of a placeholder is a part of its body. -/
theorem regionParam_def_length (body : Str) :
    (regionParam body).Tag.Def.length ≤ body.length := by
  unfold regionParam bodyTag
  split
  · simp
  · simp only [List.length_drop]
    omega

/-- The outcome of `substitute` is a time-out only when one of the two outcomes
it is built from is. -/
theorem substitute_ne_timeout (rt : Runtime) (s pre : Str) (X Y : Res Str)
    (hX : X ≠ .timeout) (hY : Y ≠ .timeout) : substitute rt s pre X Y ≠ .timeout := by
  unfold substitute
  cases X with
  | timeout => exact absurd rfl hX
  | panic => simp
  | err e => simp
  | ok x =>
    cases Y with
    | timeout => exact absurd rfl hY
    | panic => simp
    | err e => simp
    | ok y => simp

/-- When no stored value contains an opener, `resolve` returns with fuel above
the length of the default by at least two. -/
theorem resolve_returns (rt : Runtime) (p : Properties)
    (hp : ∀ key val, p.storage.Get key = some val → ¬ sOpen <:+: val)
    (param : BindParam) (m : Nat)
    (ih : ∀ n, param.Tag.Def.length < n → resolveString rt p n param.Tag.Def ≠ .timeout)
    (hm : param.Tag.Def.length ≤ m) : resolve rt p (m + 2) param ≠ .timeout := by
  rw [resolve_succ]
  cases hg : p.storage.Get param.Key with
  | some val =>
    simp only []
    rw [resolveString_plain rt p val (hp _ _ hg) m]
    simp
  | none =>
    simp only []
    split
    · simp
    · split
      · exact ih (m + 1) (by omega)
      · simp

/-- When no stored value contains an opener, `resolveString` returns with fuel
above the length of the text. -/
theorem resolveString_returns (rt : Runtime) (p : Properties)
    (hp : ∀ key val, p.storage.Get key = some val → ¬ sOpen <:+: val) :
    ∀ (L : Nat) (s : Str), s.length ≤ L → ∀ n, s.length < n →
      resolveString rt p n s ≠ .timeout := by
  intro L
  induction L with
  | zero =>
    intro s hs n hn
    have hnil : s = [] := List.length_eq_zero.mp (by omega)
    obtain ⟨k, rfl⟩ : ∃ k, n = k + 1 := ⟨n - 1, by omega⟩
    rw [resolveString_plain rt p s (by subst hnil; decide) k]
    simp
  | succ L ih =>
    intro s hs n hn
    obtain ⟨k, rfl⟩ : ∃ k, n = k + 1 := ⟨n - 1, by omega⟩
    rcases resolveString_cases rt p s with ⟨_, h⟩ | h | ⟨pre, body, suf, hs', _, h⟩
    · rw [h k]; simp
    · rw [h k]; simp
    · rw [h k]
      have hlen : s.length = pre.length + (2 + body.length + 1) + suf.length := by
        rw [hs']
        simp [sOpen, sClose]
        omega
      have hd := regionParam_def_length body
      apply substitute_ne_timeout
      · obtain ⟨m, rfl⟩ : ∃ m, k = m + 2 := ⟨k - 2, by omega⟩
        exact resolve_returns rt p hp _ m
          (fun n hn => ih _ (by omega) n hn) (by omega)
      · exact ih suf (by omega) k (by omega)

/-- The function `resolve` on a key whose stored value has no opener returns
that value. -/
theorem resolve_stored (rt : Runtime) (p : Properties) (param : BindParam) (val : Str) (n : Nat)
    (hg : p.storage.Get param.Key = some val) (hv : ¬ sOpen <:+: val) :
    resolve rt p (n + 2) param = .ok val := by
  rw [resolve_succ]
  simp only [hg]
  exact resolveString_plain rt p val hv n

/-- The function `resolve` on an absent key with a default resolves the default. -/
theorem resolve_by_default (rt : Runtime) (p : Properties) (param : BindParam) (n : Nat)
    (hg : p.storage.Get param.Key = none) (hh : p.storage.Has param.Key = false)
    (hd : param.Tag.HasDef = true) :
    resolve rt p (n + 1) param = resolveString rt p n param.Tag.Def := by
  rw [resolve_succ]
  simp only [hg, hh, hd]
  rfl

/-- A text that neither begins nor ends with white space is left as it is by
`TrimSpace`. -/
theorem trimSpace_id (s : Str) (h1 : ∀ c, s.head? = some c → isSpace c = false)
    (h2 : ∀ c, s.getLast? = some c → isSpace c = false) : TrimSpace s = s := by
  have hdw : ∀ l : Str, (∀ c, l.head? = some c → isSpace c = false) →
      l.dropWhile isSpace = l := by
    intro l hl
    cases l with
    | nil => rfl
    | cons a as =>
      rw [List.dropWhile_cons, hl a rfl]
      simp
  unfold TrimSpace
  rw [hdw s h1, hdw s.reverse (by rw [List.head?_reverse]; exact h2), List.reverse_reverse]

/-- The text of a tag, by the default and the splitter it carries. -/
theorem string_tagText (t : ParsedTag) :
    t.String = sOpen ++ (t.Key ++ defaultPart (if t.HasDef then some t.Def else none)) ++ sClose ++
      (if t.Splitter ≠ [] then sSplit ++ t.Splitter else []) := by
  unfold ParsedTag.String
  cases t.HasDef <;> simp [defaultPart]

/-- Outside a placeholder the scanner passes over a text without `$`. -/
theorem scanLoop_literal : ∀ (s t : Str) (i : Nat) (st : Int), cDollar ∉ s →
    scanLoop (s ++ t) i 0 st = scanLoop t (i + s.length) 0 st := by
  intro s
  induction s with
  | nil => intro t i st _; rfl
  | cons c s ih =>
    intro t i st hs
    have hc : c ≠ cDollar := fun e => hs (by rw [e]; exact List.mem_cons_self _ _)
    have hs' : cDollar ∉ s := fun h => hs (List.mem_cons_of_mem _ h)
    rw [List.cons_append, scanLoop, if_neg hc]
    have hlen : i + (c :: s).length = i + 1 + s.length := by
      rw [List.length_cons]; omega
    rw [hlen]
    by_cases hcl : c = cClose
    · rw [if_pos hcl, if_neg (by omega)]
      exact ih t (i + 1) st hs'
    · rw [if_neg hcl]
      exact ih t (i + 1) st hs'

/-- Scanning from an offset `k` higher moves the offsets found by `k`. -/
theorem scanLoop_shift (k : Nat) : ∀ (l : Str) (i c : Nat) (st : Int),
    scanLoop l (i + k) c (if st < 0 then st else st + k) =
      Scan.shift k (scanLoop l i c st) := by
  intro l
  induction l with
  | nil =>
    intro i c st
    simp [scanLoop, Scan.shift]
  | cons a l ih =>
    intro i c st
    have hi : i + k + 1 = i + 1 + k := by omega
    rw [scanLoop, scanLoop]
    by_cases ha : a = cDollar
    · rw [if_pos ha, if_pos ha]
      by_cases hh : l.head? = some cOpen
      · rw [if_pos hh, if_pos hh, hi]
        by_cases hc : c = 0
        · rw [if_pos hc, if_pos hc]
          have := ih (i + 1) (c + 1) (i : Int)
          rw [if_neg (by omega)] at this
          rw [← this]
          congr 1
        · rw [if_neg hc, if_neg hc]
          exact ih (i + 1) (c + 1) st
      · rw [if_neg hh, if_neg hh, hi]
        exact ih (i + 1) c st
    · rw [if_neg ha, if_neg ha]
      by_cases hcl : a = cClose
      · rw [if_pos hcl, if_pos hcl]
        by_cases hc : c > 0
        · rw [if_pos hc, if_pos hc]
          by_cases h1 : c - 1 = 0
          · rw [if_pos h1, if_pos h1]
            simp only [Scan.shift]
            rw [if_neg (show ¬ ((i : Int) < 0) by omega)]
            push_cast
            rfl
          · rw [if_neg h1, if_neg h1, hi]
            exact ih (i + 1) (c - 1) st
        · rw [if_neg hc, if_neg hc, hi]
          exact ih (i + 1) c st
      · rw [if_neg hcl, if_neg hcl, hi]
        exact ih (i + 1) c st

/-- The scan of a text behind a literal without `$` is the scan of the text,
moved by the length of the literal. -/
theorem scan_literal (s t : Str) (hs : cDollar ∉ s) :
    scan (s ++ t) = Scan.shift s.length (scan t) := by
  unfold scan
  rw [scanLoop_literal s t 0 (-1) hs]
  have := scanLoop_shift s.length t 0 0 (-1)
  rw [if_pos (by decide)] at this
  exact this

/-- The sentinels an error of `resolveString` wraps do not depend on the text
its message quotes. -/
theorem resolveStringError_is (rt : Runtime) (line : Nat) (s t : Str) (inner target : Err) :
    (resolveStringError rt line s inner).Is target =
      (resolveStringError rt line t inner).Is target := by
  cases target <;> simp [resolveStringError, Err.Is, Err.same]

/-- The outcome of `resolveString` on a text behind a literal without `$`, by
the outcome on the text, with the same fuel. -/
theorem resolveString_literal (rt : Runtime) (p : Properties) (s t : Str) (hs : cDollar ∉ s)
    (n : Nat) :
    (∀ r, resolveString rt p n t = .ok r → resolveString rt p n (s ++ t) = .ok (s ++ r)) ∧
    (∀ e, resolveString rt p n t = .err e → ∃ line inner,
      e = resolveStringError rt line t inner ∧
      resolveString rt p n (s ++ t) = .err (resolveStringError rt line (s ++ t) inner)) ∧
    (resolveString rt p n t = .panic → resolveString rt p n (s ++ t) = .panic) ∧
    (resolveString rt p n t = .timeout → resolveString rt p n (s ++ t) = .timeout) := by
  cases n with
  | zero =>
    rw [resolveString_zero, resolveString_zero]
    simp
  | succ n =>
    have hsc := scan_literal s t hs
    rcases scan_cases t with ⟨_, h⟩ | ⟨pre, tail, _, _, h1, h2, h3⟩ | ⟨pre, body, suf, ht, _, h⟩
    · have e1 : resolveString rt p (n + 1) t = .ok t := by
        rw [resolveString_succ, if_pos (by rw [h]; decide)]
      have e2 : resolveString rt p (n + 1) (s ++ t) = .ok (s ++ t) := by
        rw [resolveString_succ, if_pos (by rw [hsc, h]; simp [Scan.shift])]
      rw [e1, e2]
      simp
    · have e1 : resolveString rt p (n + 1) t =
          .err (resolveStringError rt 462 t .ErrInvalidSyntax) := by
        rw [resolveString_succ, if_neg (by rw [h1]; omega),
          if_pos (Or.inl (by rw [h2]; decide))]
      have e2 : resolveString rt p (n + 1) (s ++ t) =
          .err (resolveStringError rt 462 (s ++ t) .ErrInvalidSyntax) := by
        have hst : (scan (s ++ t)).start = pre.length + s.length := by
          rw [hsc]
          simp only [Scan.shift]
          rw [h1, if_neg (by omega)]
        have hen : (scan (s ++ t)).end_ = -1 := by
          rw [hsc]
          simp only [Scan.shift]
          rw [h2, if_pos (by decide)]
        rw [resolveString_succ, if_neg (by rw [hst]; omega),
          if_pos (Or.inl (by rw [hen]; decide))]
      rw [e1, e2]
      refine ⟨by simp, ?_, by simp, by simp⟩
      intro e he
      cases he
      exact ⟨462, .ErrInvalidSyntax, rfl, rfl⟩
    · have hsc' : scan (s ++ pre ++ (sOpen ++ body ++ sClose) ++ suf) =
          ⟨0, (s ++ pre).length, ((s ++ pre).length : Int) + body.length + 2⟩ := by
        have : s ++ pre ++ (sOpen ++ body ++ sClose) ++ suf = s ++ t := by
          rw [ht]; simp
        rw [this, hsc, h]
        simp only [Scan.shift]
        rw [if_neg (by omega), if_neg (by omega)]
        congr 1
        · rw [List.length_append]; push_cast; ring
        · rw [List.length_append]; push_cast; ring
      have e1 : resolveString rt p (n + 1) t =
          substitute rt t pre (resolve rt p n (regionParam body)) (resolveString rt p n suf) := by
        have h' := h
        rw [ht] at h'
        have := resolveString_of_scan rt p pre body suf n h'
        rw [← ht] at this
        exact this
      have e2 : resolveString rt p (n + 1) (s ++ t) =
          substitute rt (s ++ t) (s ++ pre) (resolve rt p n (regionParam body))
            (resolveString rt p n suf) := by
        have := resolveString_of_scan rt p (s ++ pre) body suf n hsc'
        have e : s ++ pre ++ (sOpen ++ body ++ sClose) ++ suf = s ++ t := by
          rw [ht]; simp
        rw [e] at this
        exact this
      rw [e1, e2]
      unfold substitute
      cases resolve rt p n (regionParam body) with
      | panic => simp
      | timeout => simp
      | err e0 =>
        refine ⟨by simp, ?_, by simp, by simp⟩
        intro e he
        cases he
        exact ⟨470, e0, rfl, rfl⟩
      | ok x =>
        cases resolveString rt p n suf with
        | panic => simp
        | timeout => simp
        | err e0 =>
          refine ⟨by simp, ?_, by simp, by simp⟩
          intro e he
          cases he
          exact ⟨475, e0, rfl, rfl⟩
        | ok y => simp

/-- On the example properties the placeholder of the stored profile resolves to
its value. -/
theorem resolve_profile :
    exampleProperties.Resolve exampleRuntime 3 "$\x7bspring.active.profile\x7d".toList =
      .ok "online".toList := by
  have h := resolveString_region exampleRuntime exampleProperties []
    "spring.active.profile".toList [] 2 (by decide) (by decide)
  rw [resolve_stored exampleRuntime exampleProperties (regionParam "spring.active.profile".toList)
    "online".toList 0 (by decide) (by decide), resolveString_plain _ _ [] (by decide) 1] at h
  exact h

/-- The outcome of `BindValue` on a scalar target without converter and without
directive for the validator, once `resolve` returned a text. -/
theorem bindValue_parsed (env : Env) (p : Properties) (filter : Option Filter) (n : Nat)
    (v : Value) (t : GoType) (param : BindParam) (val : Str) (ht : ScalarTarget env t)
    (hc : env.converters t = none) (hv : NoDirective env param.Validate)
    (hres : resolve env.rt p n param = .ok val) :
    BindValue env p filter (n + 1) v t param = bindScalar env v t param val := by
  rw [bindValue_scalar env p filter n v t param ht, hres]
  simp only [bindResolved, convert, hc]
  exact validate_noDirective_id env param _ hv

/-- The number `SetInt` stores differs from the one it is given by a multiple of
two to the width, and lies in the range of the kind. -/
theorem wrapInt_spec (kind : Kind) (i : Int)
    (hk : kind = .Int8 ∨ kind = .Int16 ∨ kind = .Int32) :
    (2 : Int) ^ kind.bits ∣ wrapInt kind i - i ∧
      -(2 : Int) ^ (kind.bits - 1) ≤ wrapInt kind i ∧
      wrapInt kind i < (2 : Int) ^ (kind.bits - 1) := by
  rcases hk with hk | hk | hk <;> subst hk <;> simp only [wrapInt, Kind.bits] <;> norm_num <;>
    omega

/-- When the element loop of `bindSlice` fails at the index after the elements
`es` with an error that does not wrap `ErrNotExist`, `BindValue` returns that
error, wrapped on line 246, and the target holds `es`. -/
theorem bindValue_loop_failure (env : Env) (p q : Properties) (filter : Option Filter)
    (v : Value) (et : GoType) (param : BindParam) (hv : env.IsValueType (.slice et) = true)
    (hq : getSlice env p et param = .ok (some q)) (es : List Value) (w : Value) (e : Err)
    (hel : ∀ j x, es[j]? = some x → ∃ f,
      BindValue env q filter f (zeroValue et) et (elemParam param j) = (x, .ok ()))
    (hlast : ∃ f, BindValue env q filter f (zeroValue et) et (elemParam param es.length) =
      (w, .err e))
    (hne : e.Is .ErrNotExist = false) :
    ∃ F₀, ∀ F, F₀ ≤ F → BindValue env p filter F v (.slice et) param =
      (.slice (some es), .err (bindError env.rt 246 param.Path e)) := by
  obtain ⟨F₁, hF₁⟩ := bindSliceLoop_run env q filter et param w e es 0 []
    (by simpa using hel) (by simpa using hlast)
  refine ⟨F₁ + 2, fun F hF => ?_⟩
  obtain ⟨m, rfl⟩ : ∃ m, F = m + 2 := ⟨F - 2, by omega⟩
  rw [bindValue_slice env p filter (m + 1) v et param hv,
    bindSlice_of_getSlice env p q filter m v et param hq, hF₁ m (by omega)]
  simp only [List.nil_append, loopExit, hne]
  rfl

/-- A failure of `bindSlice` is a failure of `getSlice`, which leaves the target
as it was, or a failure of the element loop, which leaves in the target the
elements bound before. -/
theorem bindSlice_failure (env : Env) (p : Properties) (filter : Option Filter) (v : Value)
    (et : GoType) (param : BindParam) (F : Nat) (out : Value) (e' : Err)
    (h : bindSlice env p filter F v (.slice et) param = (out, .err e')) :
    (∃ e, getSlice env p et param = .err e ∧ out = v ∧
      e' = bindError env.rt 225 param.Path e) ∨
    (∃ q es w e, getSlice env p et param = .ok (some q) ∧
      (∀ j x, es[j]? = some x → ∃ f,
        BindValue env q filter f (zeroValue et) et (elemParam param j) = (x, .ok ())) ∧
      (∃ f, BindValue env q filter f (zeroValue et) et (elemParam param es.length) =
        (w, .err e)) ∧
      e.Is .ErrNotExist = false ∧ out = .slice (some es) ∧
      e' = bindError env.rt 246 param.Path e) := by
  cases F with
  | zero =>
    rw [bindSlice] at h
    cases h
  | succ n =>
    cases hg : getSlice env p et param with
    | err e =>
      rw [bindSlice_getSlice_err env p filter n v et param e hg] at h
      simp only [Prod.mk.injEq, Res.err.injEq] at h
      exact Or.inl ⟨e, rfl, h.1.symm, h.2.symm⟩
    | panic =>
      simp only [bindSlice, GoType.Elem, hg] at h
      cases h
    | timeout =>
      simp only [bindSlice, GoType.Elem, hg] at h
      cases h
    | ok oq =>
      cases oq with
      | none =>
        simp only [bindSlice, GoType.Elem, hg] at h
        cases h
      | some q =>
        rw [bindSlice_of_getSlice env p q filter n v et param hg] at h
        cases hl : bindSliceLoop env q filter n et param 0 [] with
        | mk elems r =>
          rw [hl] at h
          simp only [Prod.mk.injEq] at h
          obtain ⟨h1, h2⟩ := h
          subst h2
          obtain ⟨es, hes, hel, f, w, r', hlast, hr', hexit⟩ :=
            bindSliceLoop_sound env q filter et param n 0 [] elems _ hl (by simp)
          rw [List.nil_append] at hes
          rw [hes] at h1
          cases r' with
          | ok u => exact absurd rfl hr'
          | panic => simp [loopExit] at hexit
          | timeout => simp [loopExit] at hexit
          | err e =>
            simp only [loopExit] at hexit
            by_cases hne : e.Is .ErrNotExist = true
            · rw [if_pos hne] at hexit
              cases hexit
            · rw [if_neg hne] at hexit
              simp only [Res.err.injEq] at hexit
              refine Or.inr ⟨q, es, w, e, rfl, ?_, ⟨f, ?_⟩, ?_, h1.symm, hexit⟩
              · intro j x hj
                simpa using hel j x hj
              · simpa using hlast
              · simpa using hne

/-- On a key the store has, without element `[0]`, whose `Get` is the empty
text, `getSlice` returns the nil properties. -/
theorem getSlice_hollow (env : Env) (p : Properties) (et : GoType) (param : BindParam)
    (h0 : p.Has (param.Key ++ "[0]".toList) = false) (hh : p.Has param.Key = true)
    (hg : p.Get param.Key = []) : getSlice env p et param = .ok none := by
  unfold getSlice
  simp only [h0, hh, hg]
  simp

/-- The tag of a placeholder body names no splitter when none is given. -/
theorem bodyTag_splitter (body sp : Str) : (bodyTag body sp).Splitter = sp := by
  unfold bodyTag
  split <;> rfl

/-- When the scanner leaves `resolveString` with a placeholder isolated, the text
is a literal without opener, the placeholder and a rest, and the region it
cuts out is the placeholder. -/
theorem scan_isolated (s : Str) (h1 : ¬ (scan s).start < 0)
    (h2 : ¬ ((scan s).end_ < 0 ∨ (scan s).count > 0)) :
    ∃ pre body suf, s = pre ++ (sOpen ++ body ++ sClose) ++ suf ∧ ¬ sOpen <:+: pre ∧
      scan s = ⟨0, pre.length, (pre.length : Int) + body.length + 2⟩ ∧
      slice s (scan s).start ((scan s).end_ + 1) = some (sOpen ++ body ++ sClose) := by
  rcases scan_cases s with ⟨_, h⟩ | ⟨pre, tail, _, _, _, h, _⟩ | ⟨pre, body, suf, hs, hpre, hsc⟩
  · rw [h] at h1
    exact absurd (by decide) h1
  · exact absurd (Or.inl (by rw [h]; decide)) h2
  · refine ⟨pre, body, suf, hs, hpre, hsc, ?_⟩
    rw [hsc]
    subst hs
    exact slice_mid' pre (sOpen ++ body ++ sClose) suf _ _ rfl (by simp [sOpen, sClose]; omega)

/-- The pairs of a list of locations whose first location resolves to a file
that loads: the pairs of the file, then those of the other locations on the
properties with the pairs of the file written. -/
theorem pairsInner_loaded {σ : Type} (rt : Runtime) (ops : StoreOps σ) (host : Host)
    (fuel : Nat) (workDir s : Str) (ss : List Str) (out c0 : σ) (filename : Str)
    (hr : Properties.Resolve rt ⟨ops.view out⟩ fuel s = .ok filename)
    (hl : Load rt ops host (locationFile host workDir filename) = .ok c0) :
    PropertySources.pairsInner rt ops host fuel workDir (s :: ss) out =
      filePairs ops c0 ++
        PropertySources.pairsInner rt ops host fuel workDir ss
          (writeAll ops (filePairs ops c0) out).1 := by
  simp only [PropertySources.pairsInner, hr, hl]

/-- The pairs of a list of locations whose first location resolves to a file
that does not load: those of the other locations. -/
theorem pairsInner_skipped {σ : Type} (rt : Runtime) (ops : StoreOps σ) (host : Host)
    (fuel : Nat) (workDir s : Str) (ss : List Str) (out : σ) (filename : Str)
    (hr : Properties.Resolve rt ⟨ops.view out⟩ fuel s = .ok filename)
    (hl : ∀ c0, Load rt ops host (locationFile host workDir filename) ≠ .ok c0) :
    PropertySources.pairsInner rt ops host fuel workDir (s :: ss) out =
      PropertySources.pairsInner rt ops host fuel workDir ss out := by
  cases hc : Load rt ops host (locationFile host workDir filename) with
  | ok c0 => exact absurd hc (hl c0)
  | err e => simp only [PropertySources.pairsInner, hr, hc]
  | panic => simp only [PropertySources.pairsInner, hr, hc]
  | timeout => simp only [PropertySources.pairsInner, hr, hc]

/-- A run of the inner loop of a file or dynamic layer that succeeds is the
write of the pairs of its locations. -/
theorem copyToInner_pairs {σ : Type} (rt : Runtime) (ops : StoreOps σ) (host : Host)
    (fuel : Nat) (workDir : Str) (ss : List Str) :
    ∀ (out out' : σ), PropertySources.copyToInner rt ops host fuel workDir ss out = (out', .ok ()) →
      writeAll ops (PropertySources.pairsInner rt ops host fuel workDir ss out) out =
        (out', .ok ()) := by
  induction ss with
  | nil =>
    intro out out' h
    exact h
  | cons s ss ih =>
    intro out out' h
    unfold PropertySources.copyToInner at h
    cases hr : Properties.Resolve rt ⟨ops.view out⟩ fuel s with
    | ok filename =>
      rw [hr] at h
      simp only [] at h
      cases hl : Load rt ops host
          (if host.IsAbs filename = true then filename else host.Join workDir filename) with
      | ok c =>
        rw [hl] at h
        simp only [] at h
        cases hk : PropertySources.copyKeys ops c (ops.Keys c) out with
        | mk o r =>
          rw [hk] at h
          cases r with
          | ok u =>
            cases u
            rw [copyKeys_writes] at hk
            have hk' : writeAll ops (filePairs ops c) out = (o, .ok ()) := hk
            rw [pairsInner_loaded rt ops host fuel workDir s ss out c filename hr hl, hk',
              writeAll_append ops _ _ out o hk']
            exact ih o out' h
          | err e => simp at h
          | panic => simp at h
          | timeout => simp at h
      | err e =>
        rw [hl] at h
        simp only [] at h
        by_cases hn : host.IsNotExist e = true
        · rw [if_pos hn] at h
          rw [pairsInner_skipped rt ops host fuel workDir s ss out filename hr
            (fun c0 hc => by
              unfold locationFile at hc
              rw [hl] at hc
              cases hc)]
          exact ih out out' h
        · rw [if_neg hn] at h; simp at h
      | panic => rw [hl] at h; simp at h
      | timeout => rw [hl] at h; simp at h
    | err e => rw [hr] at h; simp at h
    | panic => rw [hr] at h; simp at h
    | timeout => rw [hr] at h; simp at h

/-- A run of a file or dynamic layer that succeeds is the write of the pairs of
the layer. -/
theorem sources_pairs {σ : Type} (rt : Runtime) (ops : StoreOps σ) (host : Host)
    (fuel : Nat) (workDir : Str) (locations : List (List Str)) :
    ∀ (out out' : σ),
      PropertySources.copyToOuter rt ops host fuel workDir locations out = (out', .ok ()) →
      writeAll ops (PropertySources.pairsOuter rt ops host fuel workDir locations out) out =
        (out', .ok ()) := by
  induction locations with
  | nil =>
    intro out out' h
    exact h
  | cons ss rest ih =>
    intro out out' h
    unfold PropertySources.copyToOuter at h
    cases hk : PropertySources.copyToInner rt ops host fuel workDir ss out with
    | mk o r =>
      rw [hk] at h
      cases r with
      | ok u =>
        cases u
        have hw1 := copyToInner_pairs rt ops host fuel workDir ss out o hk
        simp only [PropertySources.pairsOuter]
        rw [hw1, writeAll_append ops _ _ out o hw1]
        exact ih o out' h
      | err e => simp at h
      | panic => simp at h
      | timeout => simp at h

/-- A list without a pair of key `k` writes nothing at `k`. -/
theorem lastWrite_absent (ws : List (Str × Str)) (k : Str) (h : ∀ v, (k, v) ∉ ws) :
    ∀ base, lastWrite ws k base = base := by
  induction ws with
  | nil => intro base; rfl
  | cons x ws ih =>
    intro base
    obtain ⟨k', v⟩ := x
    simp only [lastWrite]
    have hk : k' ≠ k := by
      intro e
      subst e
      exact h v (List.mem_cons_self _ _)
    rw [if_neg hk]
    exact ih (fun v hv => h v (List.mem_cons_of_mem _ hv)) base

/-- The pairs of a layer without locations. -/
theorem pairs_no_locations {σ : Type} (rt : Runtime) (ops : StoreOps σ) (host : Host)
    (fuel : Nat) (p : PropertySources) (out : σ) (h : p.locations = []) :
    p.pairs rt ops host fuel out = [] := by
  unfold PropertySources.pairs
  rw [h]
  rfl

/-- The value `Get` finds in the snapshot of `Refresh` at a key where the store
obeys the laws of a leaf: the layers write their pairs in the order file,
environment, command line, dynamic. -/
theorem refresh_get {σ : Type} (rt : Runtime) (ops : StoreOps σ) (host : Host) (fuel : Nat)
    (c : Configuration σ) (k : Str) (snap : σ) (inc exc : List (Str → Bool))
    (href : c.Refresh rt ops host fuel = .ok snap)
    (hinc : Environment.toRex host c.env.includes = .ok inc)
    (hexc : Environment.toRex host c.env.excludes = .ok exc)
    (hlaws : LeafLaws ops k (c.fileWrites rt ops host fuel ++ c.envWrites host inc exc ++
      c.argWrites ++ c.dyncWrites rt ops host fuel)) :
    (ops.view snap).Get k =
      lastWrite (c.dyncWrites rt ops host fuel) k
        (lastWrite c.argWrites k
          (lastWrite (c.envWrites host inc exc) k
            (lastWrite (c.fileWrites rt ops host fuel) k
              ((ops.view (ops.Copy c.prop)).Get k)))) := by
  unfold Configuration.Refresh at href
  obtain ⟨s1, h1, href⟩ := merge_ok_cons _ snap _ _ href
  obtain ⟨s2, h2, href⟩ := merge_ok_cons _ snap _ _ href
  obtain ⟨s3, h3, href⟩ := merge_ok_cons _ snap _ _ href
  obtain ⟨s4, h4, href⟩ := merge_ok_cons _ snap _ _ href
  simp only [merge, Res.ok.injEq] at href
  subst href
  have hw1 : writeAll ops (c.fileWrites rt ops host fuel) (ops.Copy c.prop) = (s1, .ok ()) :=
    sources_pairs rt ops host fuel _ _ _ _ h1
  have hw2 : writeAll ops (c.envWrites host inc exc) s1 = (s2, .ok ()) := by
    have : Environment.copyTo ops host c.env s1 =
        writeAll ops (c.envWrites host inc exc) s1 := by
      unfold Environment.copyTo
      rw [hinc, hexc]
      exact envLoop_writeAll ops host c.env.pre inc exc c.env.environ s1
    rw [← this]
    exact h2
  have hw3 : writeAll ops c.argWrites s2 = (s3, .ok ()) := args_writes ops _ _ s2 s3 h3
  have hs3 : (c.args.copyTo ops
      (c.env.copyTo ops host (c.file.copyTo rt ops host fuel (ops.Copy c.prop)).1).1).1 = s3 := by
    rw [h1]
    simp only []
    rw [h2]
    simp only []
    rw [h3]
  have hw4 : writeAll ops (c.dyncWrites rt ops host fuel) s3 = (s4, .ok ()) := by
    unfold Configuration.dyncWrites
    rw [hs3]
    exact sources_pairs rt ops host fuel _ _ _ _ h4
  have h12 := writeAll_append ops _ (c.envWrites host inc exc) _ s1 hw1
  rw [hw2] at h12
  have h123 := writeAll_append ops _ c.argWrites _ s2 h12
  rw [hw3] at h123
  have h1234 := writeAll_append ops _ (c.dyncWrites rt ops host fuel) _ s3 h123
  rw [hw4] at h1234
  rw [writeAll_get ops k _ _ s4 hlaws h1234, lastWrite_append, lastWrite_append,
    lastWrite_append]

/-- An empty list has no pair of a given key. -/
theorem absent_of_empty (ws : List (Str × Str)) (k : Str) (h : ws = []) :
    ∀ w, (k, w) ∉ ws := by
  intro w hw
  rw [h] at hw
  cases hw

/-- On the Store of the spec the laws of a leaf hold at `k` for pairs of the
keys `k` and `f` whose values are not the literals of empty containers. -/
theorem leafLaws_example (ws : List (Str × Str))
    (h : ∀ x ∈ ws, (x.1 = "k".toList ∨ x.1 = "f".toList) ∧
      ¬ (x.2 = emptyMapLiteral ∨ x.2 = emptyListLiteral)) :
    LeafLaws (specOps id) "k".toList ws :=
  specOps_leafLaws id (fun _ => rfl) "k".toList [.key "k".toList] rfl ws
    (fun k' v' hm => (h (k', v') hm).2)
    (fun k' v' hm hne => by
      rcases (h (k', v') hm).1 with hk | hk
      · exact absurd hk hne
      · have hk' : k' = "f".toList := hk
        rw [hk']
        decide)

/-- Whether a node refuses a write depends on its shape only. -/
theorem refuses_of_word (n n' : Node) (hw : n'.word = n.word) (hf : n.fixed = true)
    (hf' : n'.fixed = true) (rest : List PathSeg) (val : Str) (h : n.refuses rest val) :
    n'.refuses rest val := by
  cases n with
  | empty l => cases hf
  | leaf v =>
    cases n' with
    | empty l => cases hf'
    | leaf v' => cases rest <;> exact h
    | branch a' cs' => cases a' <;> simp [Node.word, branchWord] at hw
  | branch a cs =>
    cases n' with
    | empty l => cases hf'
    | leaf v' => cases a <;> simp [Node.word, branchWord] at hw
    | branch a' cs' =>
      have ha : a' = a := by
        cases a <;> cases a' <;> first | rfl | simp [Node.word, branchWord] at hw
      subst ha
      cases rest <;> exact h

/-- A walk of `Set` that does not succeed was refused by a node on its path that
has a shape, with the shape error that names it. -/
theorem node_set_error (key val : Str) :
    ∀ (path here : List PathSeg) (cur : Option Node),
      (∀ root, Node.set key val here path cur ≠ .ok root) →
      ∃ pre rest n, path = pre ++ rest ∧ Node.get cur pre = some n ∧ n.fixed = true ∧
        n.refuses rest val ∧
        Node.set key val here path cur = .err (shapeError (JoinPath (here ++ pre)) n.word key) := by
  intro path
  induction path with
  | nil =>
    intro here cur hne
    cases cur with
    | none => exact absurd rfl (hne (newNode val))
    | some n =>
      cases n with
      | empty l => exact absurd rfl (hne (newNode val))
      | leaf v =>
        by_cases hv : val = emptyMapLiteral ∨ val = emptyListLiteral
        · refine ⟨[], [], .leaf v, rfl, rfl, rfl, hv, ?_⟩
          simp only [Node.set, Node.install, if_pos hv, List.append_nil, Node.word]
        · exact absurd (by simp only [Node.set, Node.install, if_neg hv]) (hne (.leaf val))
      | branch array children =>
        by_cases hv : val = (if array then emptyListLiteral else emptyMapLiteral)
        · exact absurd (by simp only [Node.set, Node.install, if_pos hv])
            (hne (.branch array children))
        · refine ⟨[], [], .branch array children, rfl, rfl, rfl, hv, ?_⟩
          simp only [Node.set, Node.install, if_neg hv, List.append_nil, Node.word]
  | cons seg more ih =>
    intro here cur hne
    have hnone : ∀ cur', (cur' = none ∨ ∃ l, cur' = some (.empty l)) →
        (∀ root, Node.set key val here (seg :: more) cur' ≠ .ok root) → False := by
      intro cur' h hne'
      cases hin : Node.set key val (here ++ [seg]) more none with
      | ok child =>
        have : Node.set key val here (seg :: more) cur' =
            .ok (.branch seg.isIndex [(seg, child)]) := by
          rcases h with h | ⟨l, h⟩ <;> subst h <;> simp only [Node.set, hin]
        exact hne' _ this
      | err e =>
        obtain ⟨pre, rest, n, _, hget, _⟩ := ih (here ++ [seg]) none (by rw [hin]; simp)
        exact node_get_none pre n hget
      | panic =>
        obtain ⟨pre, rest, n, _, hget, _⟩ := ih (here ++ [seg]) none (by rw [hin]; simp)
        exact node_get_none pre n hget
      | timeout =>
        obtain ⟨pre, rest, n, _, hget, _⟩ := ih (here ++ [seg]) none (by rw [hin]; simp)
        exact node_get_none pre n hget
    cases cur with
    | none => exact (hnone none (Or.inl rfl) hne).elim
    | some n =>
      cases n with
      | empty l => exact (hnone _ (Or.inr ⟨l, rfl⟩) hne).elim
      | leaf v =>
        refine ⟨[], seg :: more, .leaf v, rfl, rfl, rfl, trivial, ?_⟩
        simp only [Node.set, List.append_nil, Node.word]
      | branch array children =>
        by_cases ha : array = seg.isIndex
        · subst ha
          rw [node_set_branch] at hne
          have hin : ∀ child, Node.set key val (here ++ [seg]) more (children.lookup seg) ≠
              .ok child := by
            intro child hc
            rw [hc] at hne
            exact hne _ rfl
          obtain ⟨pre, rest, n, hp, hget, hfix, href, herr⟩ :=
            ih (here ++ [seg]) (children.lookup seg) hin
          refine ⟨seg :: pre, rest, n, by rw [hp]; rfl, ?_, hfix, href, ?_⟩
          · rw [node_get_branch, if_pos rfl]
            exact hget
          · rw [node_set_branch, herr]
            simp
        · refine ⟨[], seg :: more, .branch array children, rfl, rfl, rfl, ha, ?_⟩
          simp only [Node.set, if_neg ha, List.append_nil, Node.word]

/-- A write of the Store that does not succeed changes nothing and fails with
the error of a key outside the grammar or with the shape error of a node on
the path of the key that has a shape and refuses the write. -/
theorem store_set_error (s s' : Store) (Y v : Str) (r : Res Unit)
    (h : Store.Set s Y v = (s', r)) (hr : r ≠ .ok ()) :
    s' = s ∧
    ((SplitPath Y = none ∧ r = .err (.New ("invalid key '".toList ++ Y ++ "'".toList))) ∨
      ∃ pK rest n, SplitPath Y = some (pK ++ rest) ∧ Node.get s pK = some n ∧ n.fixed = true ∧
        n.refuses rest v ∧ r = .err (shapeError (JoinPath pK) n.word Y)) := by
  refine ⟨store_set_failed s s' Y v r h hr, ?_⟩
  unfold Store.Set at h
  cases hp : SplitPath Y with
  | none =>
    simp only [hp, Prod.mk.injEq] at h
    exact Or.inl ⟨rfl, h.2.symm⟩
  | some path =>
    right
    have hne : ∀ root, Node.set Y v [] path s ≠ .ok root := by
      intro root hroot
      simp only [hp, hroot, Prod.mk.injEq] at h
      exact hr h.2.symm
    obtain ⟨pre, rest, n, hpath, hget, hfix, href, herr⟩ := node_set_error Y v path [] s hne
    simp only [hp, herr, Prod.mk.injEq, List.nil_append] at h
    exact ⟨pre, rest, n, by rw [hpath], hget, hfix, href, h.2.symm⟩

/-- After pairs written without error, a pair that a node with a shape refused
before them is still refused, with the same error. -/
theorem mergeLoop_refused (range : List (Str × Str) → List (Str × Str)) (s s1 : Store)
    (pK rest : List PathSeg) (n : Node) (pre post : List (Str × Str)) (Y v : Str)
    (hK : Node.get s pK = some n) (hfix : n.fixed = true)
    (hpre : Properties.mergeLoop (specOps range) s pre = (s1, .ok ()))
    (hY : SplitPath Y = some (pK ++ rest)) (href : n.refuses rest v) :
    Properties.mergeLoop (specOps range) s (pre ++ (Y, v) :: post) =
      (s1, .err (shapeError (JoinPath pK) n.word Y)) := by
  obtain ⟨n', hget', hword, hfix'⟩ := mergeLoop_shape range pK pre s s1 _ n hpre hK hfix
  rw [mergeLoop_append (specOps range) pre _ s s1 hpre]
  have hset := store_set_refused s1 pK rest n' Y v hget' hY
    (refuses_of_word n n' hword hfix hfix' rest v href)
  rw [hword] at hset
  exact mergeLoop_cons_failed (specOps range) s1 s1 Y v post _ hset (by simp)

/-- A loop of `merge` over pairs of which one is refused by a node with a shape
fails: at the first pair whose write fails, with the error of that write. -/
theorem mergeLoop_member_refused (range : List (Str × Str) → List (Str × Str)) (s : Store)
    (pK rest : List PathSeg) (n : Node) (ws : List (Str × Str)) (Y v : Str)
    (hK : Node.get s pK = some n) (hfix : n.fixed = true) (hmem : (Y, v) ∈ ws)
    (hY : SplitPath Y = some (pK ++ rest)) (href : n.refuses rest v) :
    ∃ s' e pre Y1 v1 post, Properties.mergeLoop (specOps range) s ws = (s', .err e) ∧
      ws = pre ++ (Y1, v1) :: post ∧
      Properties.mergeLoop (specOps range) s pre = (s', .ok ()) ∧
      Store.Set s' Y1 v1 = (s', .err e) ∧
      ((SplitPath Y1 = none ∧ e = .New ("invalid key '".toList ++ Y1 ++ "'".toList)) ∨
        ∃ pK1 rest1 n1, SplitPath Y1 = some (pK1 ++ rest1) ∧ Node.get s' pK1 = some n1 ∧
          n1.fixed = true ∧ n1.refuses rest1 v1 ∧ e = shapeError (JoinPath pK1) n1.word Y1) := by
  obtain ⟨a, b, hab⟩ := List.append_of_mem hmem
  cases ha : Properties.mergeLoop (specOps range) s a with
  | mk s1 r =>
    by_cases hr : r = .ok ()
    · subst hr
      obtain ⟨n', hget', hword, hfix'⟩ := mergeLoop_shape range pK a s s1 _ n ha hK hfix
      have href' := refuses_of_word n n' hword hfix hfix' rest v href
      refine ⟨s1, shapeError (JoinPath pK) n.word Y, a, Y, v, b, ?_, hab, ha, ?_,
        Or.inr ⟨pK, rest, n', hY, hget', hfix', href', by rw [hword]⟩⟩
      · rw [hab]
        exact mergeLoop_refused range s s1 pK rest n a b Y v hK hfix ha hY href
      · have := store_set_refused s1 pK rest n' Y v hget' hY href'
        rw [hword] at this
        exact this
    · obtain ⟨pre, Y1, v1, post, s0, hws, hpre, hset⟩ :=
        mergeLoop_failed (specOps range) a s s1 r ha hr
      obtain ⟨hs, hform⟩ := store_set_error s0 s1 Y1 v1 r hset hr
      subst hs
      have hre : ∃ e, r = .err e := by
        rcases hform with ⟨_, h⟩ | ⟨_, _, _, _, _, _, _, h⟩ <;> exact ⟨_, h⟩
      obtain ⟨e, rfl⟩ := hre
      refine ⟨s1, e, pre, Y1, v1, post ++ (Y, v) :: b, ?_, ?_, hpre, hset, ?_⟩
      · rw [hab, hws, List.append_assoc, List.cons_append,
          mergeLoop_append (specOps range) pre _ s s1 hpre]
        exact mergeLoop_cons_failed (specOps range) s1 s1 Y1 v1 _ _ hset (by simp)
      · rw [hab, hws, List.append_assoc, List.cons_append]
      · rcases hform with ⟨h1, h2⟩ | ⟨pK1, rest1, n1, h1, h2, h3, h4, h5⟩
        · exact Or.inl ⟨h1, by simpa using h2⟩
        · exact Or.inr ⟨pK1, rest1, n1, h1, h2, h3, h4, by simpa using h5⟩

/-- After a loop of `merge` that succeeds, on a storage that obeys the laws of a
leaf at `k`, `Get` finds at `k` the value of the last pair written with key
`k`, or what it found before when there is none. -/
theorem mergeLoop_get {σ : Type} (ops : StoreOps σ) (k : Str) (ws : List (Str × Str)) :
    ∀ (s s' : σ), LeafLaws ops k ws → Properties.mergeLoop ops s ws = (s', .ok ()) →
      (ops.view s').Get k = lastWrite ws k ((ops.view s).Get k) := by
  induction ws with
  | nil =>
    intro s s' _ h
    simp only [Properties.mergeLoop, Prod.mk.injEq, and_true] at h
    subst h
    rfl
  | cons x ws ih =>
    intro s s' hlaws h
    obtain ⟨key, val⟩ := x
    cases hset : ops.Set s key val with
    | mk s1 r =>
      by_cases hr : r = .ok ()
      · subst hr
        rw [mergeLoop_cons_ok ops s s1 key val ws hset] at h
        have hlaws' : LeafLaws ops k ws :=
          leafLaws_mono ops k _ ws (fun x hx => List.mem_cons_of_mem _ hx) hlaws
        rw [ih s1 s' hlaws' h]
        simp only [lastWrite]
        by_cases hk : key = k
        · subst hk
          rw [if_pos rfl, hlaws.2.2.1 val (List.mem_cons_self _ _) s s1 hset]
        · rw [if_neg hk, hlaws.2.2.2 key val (List.mem_cons_self _ _) hk s s1 hset]
      · rw [mergeLoop_cons_failed ops s s1 key val ws r hset hr] at h
        simp only [Prod.mk.injEq] at h
        exact absurd h.2 hr

/-- The outcome of `Properties.Set` when the write of a flattened pair fails
after the pairs visited before it were written. -/
theorem set_fails_at {σ : Type} (ops : StoreOps σ) (s s1 s2 : σ) (key : Str) (val : Nested)
    (pre post : List (Str × Str)) (Y v : Str) (r : Res Unit) (hkey : key ≠ [])
    (hws : ops.range (ops.FlattenValue key val) = pre ++ (Y, v) :: post)
    (hpre : Properties.mergeLoop ops s pre = (s1, .ok ()))
    (hY : ops.Set s1 Y v = (s2, r)) (hr : r ≠ .ok ()) :
    Properties.Set ops s key val = (s2, r) := by
  unfold Properties.Set
  rw [if_neg hkey]
  unfold Properties.merge
  rw [hws, mergeLoop_append ops pre _ s s1 hpre]
  exact mergeLoop_cons_failed ops s1 s2 Y v post r hY hr

/-! ## The claims -/

/-- C1. For every tag of the form `$\x7bK\x7d`, `$\x7bK:=D\x7d`, `$\x7bK\x7d>>S` or
`$\x7bK:=D\x7d>>S` in which `K` contains no `:=` and `S` contains neither a closing
brace nor `>`, `ParseTag` succeeds with `Key = K`, `HasDef` true exactly when the
part `:=D` is present, `Def = D` (empty when absent, otherwise unrestricted) and
`Splitter` the white-space-trimmed `S` (empty when absent). -/
theorem ParseTag_wellformed (K : Str) (D S : Option Str)
    (hK : ¬ sAssign <:+: K) (hS : ∀ s ∈ S, cClose ∉ s ∧ '>' ∉ s) :
    ParseTag (tagText K D S) =
      .ok { Key := K, Def := D.getD [], HasDef := D.isSome, Splitter := TrimSpace (S.getD []) } := by
  have hb : ∀ sp, bodyTag (K ++ defaultPart D) sp =
      { Key := K, Def := D.getD [], HasDef := D.isSome, Splitter := sp } := by
    intro sp
    cases D with
    | none => simpa [defaultPart] using bodyTag_key_only K sp hK
    | some d => simpa [defaultPart] using bodyTag_key_def K d sp hK
  cases S with
  | none =>
    have := parseTag_region (K ++ defaultPart D)
    rw [hb] at this
    simpa [tagText, splitterPart, TrimSpace] using this
  | some s =>
    obtain ⟨h1, h2⟩ := hS s rfl
    have := parseTag_region_splitter (K ++ defaultPart D) s h1 h2
    rw [hb] at this
    simpa [tagText, splitterPart] using this

/-- Witness of C1 at scenario S3 of the specification. -/
theorem ParseTag_wellformed_witness :
    ¬ sAssign <:+: "points".toList ∧
    (∀ s ∈ some "point".toList, cClose ∉ s ∧ '>' ∉ s) ∧
    ParseTag (tagText "points".toList (some "(1,2)|(3,4)|(5,6)".toList) (some "point".toList)) =
      .ok { Key := "points".toList, Def := "(1,2)|(3,4)|(5,6)".toList, HasDef := true,
            Splitter := TrimSpace "point".toList } :=
  ⟨by decide, by intro s hs; cases hs; decide,
    ParseTag_wellformed "points".toList (some "(1,2)|(3,4)|(5,6)".toList) (some "point".toList)
      (by decide) (by intro s hs; cases hs; decide)⟩

/-- C2. For every tag that contains no opener `$\x7b`, or that contains no closing
brace, `ParseTag` fails with an error that wraps `ErrInvalidSyntax` and whose
message is exactly `parse tag '<tag>' error: invalid syntax`. -/
theorem ParseTag_missing_delimiter (tag : Str) (h : ¬ sOpen <:+: tag ∨ cClose ∉ tag) :
    ∃ e, ParseTag tag = .err e ∧ e.Is .ErrInvalidSyntax = true ∧
      e.Error = "parse tag '".toList ++ tag ++ "' error: invalid syntax".toList := by
  refine ⟨parseTagError tag, ?_, by simp [parseTagError, Err.Is, Err.same], by
    simp [parseTagError, Err.Error]⟩
  unfold ParseTag
  simp only []
  by_cases hi : LastIndex tag sSplit = 0
  · rw [if_pos hi]
  rw [if_neg hi]
  by_cases hj : LastIndex tag sClose ≤ 0
  · rw [if_pos hj]
  rw [if_neg hj]
  by_cases hk : Index tag sOpen < 0
  · rw [if_pos hk]
  exfalso
  rcases h with h | h
  · apply hk
    unfold Index
    rw [indexFrom_absent tag 0 h]
    decide
  · apply hj
    have := @lastIndexFrom_absent sClose tag 0 (not_infix_single_of_not_mem _ _ h)
    unfold LastIndex
    rw [this]
    decide

/-- Witness of C2 at the tags `\x7b\x7d` (no opener) and `$\x7ba` (no closing brace). -/
theorem ParseTag_missing_delimiter_witness :
    (∃ e, ParseTag "\x7b\x7d".toList = .err e ∧ e.Is .ErrInvalidSyntax = true ∧
      e.Error = "parse tag '".toList ++ "\x7b\x7d".toList ++ "' error: invalid syntax".toList) ∧
    (∃ e, ParseTag "$\x7ba".toList = .err e ∧ e.Is .ErrInvalidSyntax = true ∧
      e.Error = "parse tag '".toList ++ "$\x7ba".toList ++ "' error: invalid syntax".toList) :=
  ⟨ParseTag_missing_delimiter "\x7b\x7d".toList (Or.inl (by decide)),
    ParseTag_missing_delimiter "$\x7ba".toList (Or.inr (by decide))⟩

/-- C3, refuted as stated: in the tag `a>>$\x7bb\x7d` a `>>` stands before the first
opener, and `ParseTag` succeeds with key `b`. -/
theorem ParseTag_splitter_before_open_counterexample :
    sSplit <:+: "a>>".toList ∧ ¬ sOpen <:+: "a>>".toList ∧
    ParseTag ("a>>".toList ++ sOpen ++ "b\x7d".toList) = .ok { Key := "b".toList } := by
  decide

/-- C3, amended. `ParseTag` fails with an error wrapping `ErrInvalidSyntax` for
every tag that begins with `>>` and has no `>>` at a later offset, that is, whose
last `>>` is at offset 0. -/
theorem ParseTag_leading_splitter (rest : Str) (h : ¬ sSplit <:+: '>' :: rest) :
    ∃ e, ParseTag (sSplit ++ rest) = .err e ∧ e.Is .ErrInvalidSyntax = true := by
  refine ⟨parseTagError (sSplit ++ rest), ?_, by simp [parseTagError, Err.Is, Err.same]⟩
  have hi : LastIndex (sSplit ++ rest) sSplit = 0 := by
    have := lastIndexFrom_here sSplit '>' ('>' :: rest) 0 ⟨rest, rfl⟩ h
    simpa [LastIndex, sSplit] using this
  unfold ParseTag
  simp only [hi, if_true]

/-- Witness of the amended C3 at the tag `>>point` of the test suite. -/
theorem ParseTag_leading_splitter_witness :
    ¬ sSplit <:+: '>' :: "point".toList ∧
    ∃ e, ParseTag (sSplit ++ "point".toList) = .err e ∧ e.Is .ErrInvalidSyntax = true :=
  ⟨by decide, ParseTag_leading_splitter "point".toList (by decide)⟩

/-- C4. `BindTag` on a parameter with current key `P` and a tag that parses with
key `K` stores the tag with its key replaced by the empty key for `ROOT`, by
`ANONYMOUS` for the empty key and kept otherwise, sets the key of the parameter
to that tag key when `P` is empty, to `P` when the tag key is empty and to `P`,
a dot and the tag key otherwise, and returns nil; when the tag does not parse,
the error of `ParseTag` is returned and the parameter is unchanged. -/
theorem BindTag_spec (param : BindParam) (tag validate : Str) :
    (∀ t, ParseTag tag = .ok t →
      param.BindTag tag validate =
        ({ Key := joinKey param.Key (normalKey t.Key)
           Path := param.Path
           Tag := { t with Key := normalKey t.Key }
           Validate := validate }, .ok ())) ∧
    (∀ e, ParseTag tag = .err e → param.BindTag tag validate = (param, .err e)) := by
  constructor
  · intro t ht
    exact bindTag_ok param tag validate t ht
  · intro e he
    unfold BindParam.BindTag
    rw [he]

/-- Witness of C4: the tag `$\x7bb:=1\x7d` bound under the key `a`, and the
unparsable tag `b` leaving the parameter as it was. -/
theorem BindTag_spec_witness :
    (BindParam.BindTag { Key := "a".toList } "$\x7bb:=1\x7d".toList "v".toList =
      ({ Key := "a.b".toList
         Tag := { Key := "b".toList, Def := "1".toList, HasDef := true }
         Validate := "v".toList }, .ok ())) ∧
    (BindParam.BindTag { Key := "a".toList } "b".toList "v".toList =
      ({ Key := "a".toList }, .err (parseTagError "b".toList))) :=
  ⟨(BindTag_spec { Key := "a".toList } "$\x7bb:=1\x7d".toList "v".toList).1
      { Key := "b".toList, Def := "1".toList, HasDef := true } (by decide),
    (BindTag_spec { Key := "a".toList } "b".toList "v".toList).2 _ (by decide)⟩

/-- C5. Let `s = pre ++ P ++ suf` where `pre` contains no opener and `P`, the
placeholder `$\x7bK\x7d` or `$\x7bK:=D\x7d` with `K` not empty, not `ROOT` and
without `:=`, is the first top-level placeholder of `s`.  If the store holds
`K` as a leaf with value `v`, `Resolve(s)` is `pre ++ Resolve(v) ++ Resolve(suf)`
(the default is ignored); if `K` is absent and the default `D` is present, it is
`pre ++ Resolve(D) ++ Resolve(suf)`; if `K` is present but no leaf, `Resolve`
fails and the message ends in `property "K" isn't simple value`; if `K` is
absent and there is no default, it fails and the message ends in
`property "K" not exist`.  The outcomes of the two inner calls are combined by
`substitute`, the call on `s` having two units of fuel more than the call on
the value or default and one more than the call on `suf`; and whenever the two
inner calls return `x` and `y`, the call on `s` returns `pre ++ x ++ y` with
any large enough amount of fuel. -/
theorem Resolve_first_placeholder (rt : Runtime) (p : Properties) (pre K suf s : Str)
    (D : Option Str) (hs : s = pre ++ placeholder K D ++ suf)
    (hpre : ¬ sOpen <:+: pre) (hK0 : K ≠ []) (hKR : K ≠ "ROOT".toList)
    (hKa : ¬ sAssign <:+: K) (htop : TopLevel (placeholder K D)) :
    (∀ v, p.storage.Get K = some v → ∀ n,
      p.Resolve rt (n + 2) s = substitute rt s pre (p.Resolve rt n v) (p.Resolve rt (n + 1) suf)) ∧
    (∀ d, D = some d → p.storage.Get K = none → p.storage.Has K = false → ∀ n,
      p.Resolve rt (n + 2) s = substitute rt s pre (p.Resolve rt n d) (p.Resolve rt (n + 1) suf)) ∧
    (p.storage.Get K = none → p.storage.Has K = true →
      (∀ n, p.Resolve rt (n + 2) s =
        .err (resolveStringError rt 470 s
          (resolvePropertyError rt 418 K (notSimpleValueError rt K)))) ∧
      ∃ front, (resolveStringError rt 470 s
          (resolvePropertyError rt 418 K (notSimpleValueError rt K))).Error =
        front ++ ("property ".toList ++ rt.Quote K ++ " isn't simple value".toList)) ∧
    (D = none → p.storage.Get K = none → p.storage.Has K = false →
      (∀ n, p.Resolve rt (n + 2) s =
        .err (resolveStringError rt 470 s (resolvePropertyError rt 424 K (notExistError rt K)))) ∧
      ∃ front, (resolveStringError rt 470 s
          (resolvePropertyError rt 424 K (notExistError rt K))).Error =
        front ++ ("property ".toList ++ rt.Quote K ++ " not exist".toList)) ∧
    (∀ w x y, (p.storage.Get K = some w ∨
        (D = some w ∧ p.storage.Get K = none ∧ p.storage.Has K = false)) →
      (∃ n, p.Resolve rt n w = .ok x) → (∃ n, p.Resolve rt n suf = .ok y) →
      ∃ n₀, ∀ n, n₀ ≤ n → p.Resolve rt n s = .ok (pre ++ x ++ y)) := by
  have hstep : ∀ n, resolveString rt p (n + 2) s =
      substitute rt s pre
        (resolve rt p (n + 1) { Key := K, Tag := { Key := K, Def := D.getD [], HasDef := D.isSome } })
        (resolveString rt p (n + 1) suf) := by
    intro n
    rw [hs, ← regionParam_parts K D hK0 hKR hKa]
    exact resolveString_region rt p pre (K ++ defaultPart D) suf (n + 1) hpre htop
  have hleaf : ∀ v, p.storage.Get K = some v → ∀ n,
      p.Resolve rt (n + 2) s =
        substitute rt s pre (p.Resolve rt n v) (p.Resolve rt (n + 1) suf) := by
    intro v hv n
    show resolveString rt p (n + 2) s = _
    rw [hstep, resolve_succ]
    simp only [hv]
    rfl
  have hdef : ∀ d, D = some d → p.storage.Get K = none → p.storage.Has K = false → ∀ n,
      p.Resolve rt (n + 2) s =
        substitute rt s pre (p.Resolve rt n d) (p.Resolve rt (n + 1) suf) := by
    intro d hd hg hh n
    show resolveString rt p (n + 2) s = _
    rw [hstep, resolve_succ]
    simp only [hg, hh, hd]
    rfl
  refine ⟨hleaf, hdef, ?_, ?_, ?_⟩
  rotate_right
  · intro w x y hw hx hy
    obtain ⟨n1, h1⟩ := hx
    obtain ⟨n2, h2⟩ := hy
    refine ⟨max n1 n2 + 2, fun n hn => ?_⟩
    obtain ⟨m, rfl⟩ : ∃ m, n = m + 2 := ⟨n - 2, by omega⟩
    have hx : p.Resolve rt m w = .ok x :=
      resolveString_mono rt p w _ n1 m h1 (by simp) (by omega)
    have hy : p.Resolve rt (m + 1) suf = .ok y :=
      resolveString_mono rt p suf _ n2 (m + 1) h2 (by simp) (by omega)
    rcases hw with hw | ⟨hd, hg, hh⟩
    · rw [hleaf w hw m, hx, hy]
      rfl
    · rw [hdef w hd hg hh m, hx, hy]
      rfl
  · intro hg hh
    constructor
    · intro n
      show resolveString rt p (n + 2) s = _
      rw [hstep, resolve_succ]
      simp only [hg, hh]
      rfl
    · refine ⟨(rt.FileLine 470 ++ ": resolve string ".toList ++ rt.Quote s ++ " error, ".toList) ++
        (rt.FileLine 418 ++ ": resolve property ".toList ++ rt.Quote K ++ " error, ".toList), ?_⟩
      simp [resolveStringError, resolvePropertyError, notSimpleValueError, Err.Error]
  · intro hd hg hh
    constructor
    · intro n
      show resolveString rt p (n + 2) s = _
      rw [hstep, resolve_succ]
      simp only [hg, hh, hd]
      rfl
    · refine ⟨(rt.FileLine 470 ++ ": resolve string ".toList ++ rt.Quote s ++ " error, ".toList) ++
        (rt.FileLine 424 ++ ": resolve property ".toList ++ rt.Quote K ++ " error, ".toList), ?_⟩
      simp [resolveStringError, resolvePropertyError, notExistError, Err.Error]

/-- Witness of C5 on the store of the resolver tests: the text
`current profile is $\x7bspring.active.profile\x7d`, whose key is a leaf. -/
theorem Resolve_first_placeholder_witness :
    (¬ sOpen <:+: "current profile is ".toList ∧
      "spring.active.profile".toList ≠ [] ∧
      "spring.active.profile".toList ≠ "ROOT".toList ∧
      ¬ sAssign <:+: "spring.active.profile".toList ∧
      TopLevel (placeholder "spring.active.profile".toList none) ∧
      exampleProperties.storage.Get "spring.active.profile".toList = some "online".toList) ∧
    exampleProperties.Resolve exampleRuntime 3
        ("current profile is ".toList ++ placeholder "spring.active.profile".toList none ++ []) =
      substitute exampleRuntime
        ("current profile is ".toList ++ placeholder "spring.active.profile".toList none ++ [])
        "current profile is ".toList
        (exampleProperties.Resolve exampleRuntime 1 "online".toList)
        (exampleProperties.Resolve exampleRuntime 2 []) :=
  ⟨by decide,
    (Resolve_first_placeholder exampleRuntime exampleProperties "current profile is ".toList
      "spring.active.profile".toList [] _ none rfl (by decide) (by decide) (by decide) (by decide)
      (by decide)).1 "online".toList (by decide) 1⟩

/-- C6. `Resolve` counts brace nesting, so a default may itself be a placeholder:
for plain keys `a` and `b`, every store in which `a` is absent and `b` is a leaf
whose value `v` has no opener, and every `pre` without `$`,
`Resolve(pre ++ "$\x7ba:=$\x7bb\x7d\x7d")` returns `pre ++ v` (with five units of fuel
or more). -/
theorem Resolve_nested_default (rt : Runtime) (p : Properties) (pre a b v : Str)
    (ha : PlainKey a) (hb : PlainKey b) (hpre : cDollar ∉ pre)
    (hga : p.storage.Get a = none) (hha : p.storage.Has a = false)
    (hgb : p.storage.Get b = some v) (hv : ¬ sOpen <:+: v) (n : Nat) :
    p.Resolve rt (n + 5) (pre ++ placeholder a (some (placeholder b none))) = .ok (pre ++ v) := by
  obtain ⟨a0, aR, a1, a2, a3⟩ := ha
  obtain ⟨b0, bR, b1, b2, b3⟩ := hb
  have hnil : ∀ m, resolveString rt p (m + 1) [] = .ok [] := fun m =>
    resolveString_plain rt p [] (by simp [sOpen]) m
  -- the inner placeholder
  have hin : resolveString rt p (n + 3) (sOpen ++ b ++ sClose) = .ok v := by
    have h := resolveString_of_scan rt p [] b [] (n + 2)
      (by simpa using scan_plain_region [] b [] (by simp [sOpen]) b1 b2)
    simp only [List.nil_append, List.append_nil] at h
    rw [h, regionParam_key_only b b0 bR b3, resolve_succ]
    simp only [hgb]
    rw [resolveString_plain rt p v hv n, hnil (n + 1)]
    simp [substitute]
  -- the outer placeholder
  have hout := resolveString_of_scan rt p pre (a ++ (sAssign ++ (sOpen ++ b ++ sClose))) []
    (n + 4) (scan_nested_region pre a b [] (not_open_infix_of_no_dollar pre hpre) a1 a2 b1 b2)
  have hparam : regionParam (a ++ (sAssign ++ (sOpen ++ b ++ sClose))) =
      { Key := a, Tag := { Key := a, Def := sOpen ++ b ++ sClose, HasDef := true } } := by
    have := regionParam_parts a (some (sOpen ++ b ++ sClose)) a0 aR a3
    simpa [defaultPart] using this
  show resolveString rt p (n + 5) (pre ++ placeholder a (some (placeholder b none))) = _
  have es : pre ++ placeholder a (some (placeholder b none)) =
      pre ++ (sOpen ++ (a ++ (sAssign ++ (sOpen ++ b ++ sClose))) ++ sClose) ++ [] := by
    simp [placeholder, defaultPart]
  rw [es, hout, hparam, resolve_succ]
  simp only [hga, hha]
  rw [hnil (n + 3)]
  simp only [Bool.false_eq_true, if_false, if_true, hin, substitute, List.append_nil]

/-- Witness of C6 at scenario S5 of the specification. -/
theorem Resolve_nested_default_witness :
    (PlainKey "spring.profiles.active".toList ∧ PlainKey "spring.active.profile".toList ∧
      cDollar ∉ "current profile is ".toList ∧
      exampleProperties.storage.Get "spring.profiles.active".toList = none ∧
      exampleProperties.storage.Has "spring.profiles.active".toList = false ∧
      exampleProperties.storage.Get "spring.active.profile".toList = some "online".toList ∧
      ¬ sOpen <:+: "online".toList) ∧
    exampleProperties.Resolve exampleRuntime 5
        ("current profile is ".toList ++
          placeholder "spring.profiles.active".toList
            (some (placeholder "spring.active.profile".toList none))) =
      .ok ("current profile is ".toList ++ "online".toList) :=
  ⟨by decide,
    Resolve_nested_default exampleRuntime exampleProperties "current profile is ".toList
      "spring.profiles.active".toList "spring.active.profile".toList "online".toList
      (by decide) (by decide) (by decide) (by decide) (by decide) (by decide) (by decide) 0⟩

/-- C7, refuted as stated: on the empty store `Resolve` turns `$\x7ba:=$\x7d\x7bb\x7d`
into `$\x7bb\x7d` (the default `$` of the absent key `a`, then the literal rest),
and `Resolve` of that result fails because the key `b` does not exist. -/
theorem Resolve_fixed_point_counterexample :
    Properties.Resolve exampleRuntime ⟨exampleStorage [] []⟩ 3 "$\x7ba:=$\x7d\x7bb\x7d".toList =
      .ok "$\x7bb\x7d".toList ∧
    Properties.Resolve exampleRuntime ⟨exampleStorage [] []⟩ 3 "$\x7bb\x7d".toList =
      .err (resolveStringError exampleRuntime 470 "$\x7bb\x7d".toList
        (resolvePropertyError exampleRuntime 424 "b".toList
          (notExistError exampleRuntime "b".toList))) := by
  decide

/-- C7, amended. If `Resolve(s)` succeeds with a result `r` that contains no
opener `$\x7b`, then `Resolve(r)` succeeds and returns `r`; and the result has no
opener, indeed no `$` at all, whenever every `$` of `s` and of every leaf value
of the store is immediately followed by an opening brace. -/
theorem Resolve_fixed_point (rt : Runtime) (p : Properties) (s r : Str) (n : Nat)
    (h : p.Resolve rt n s = .ok r) :
    (¬ sOpen <:+: r → ∀ m, p.Resolve rt (m + 1) r = .ok r) ∧
    ((∀ k v, p.storage.Get k = some v → DollarsOpen v) → DollarsOpen s →
      cDollar ∉ r ∧ ∀ m, p.Resolve rt (m + 1) r = .ok r) := by
  constructor
  · intro hr m
    exact resolveString_plain rt p r hr m
  · intro hstore hs
    have hr : cDollar ∉ r := (resolve_no_dollar rt p hstore n).1 s r hs h
    exact ⟨hr, fun m => resolveString_plain rt p r (not_open_infix_of_no_dollar r hr) m⟩

/-- Witness of the amended C7 on the store of the resolver tests. -/
theorem Resolve_fixed_point_witness :
    (exampleProperties.Resolve exampleRuntime 3
        "current profile is $\x7bspring.active.profile\x7d".toList =
          .ok "current profile is online".toList ∧
      ¬ sOpen <:+: "current profile is online".toList ∧
      (∀ k v, exampleProperties.storage.Get k = some v → DollarsOpen v) ∧
      DollarsOpen "current profile is $\x7bspring.active.profile\x7d".toList) ∧
    (∀ m, exampleProperties.Resolve exampleRuntime (m + 1) "current profile is online".toList =
      .ok "current profile is online".toList) ∧
    cDollar ∉ "current profile is online".toList :=
  have hstore : ∀ k v, exampleProperties.storage.Get k = some v → DollarsOpen v := by
    intro k v h
    have hm := exampleStorage_get _ _ k v h
    have hall : ∀ x ∈ [("spring.active.profile".toList, "online".toList)],
        dollarsOpen x.2 = true := by
      decide
    exact (dollarsOpen_iff v).2 (hall _ hm)
  have hopen : DollarsOpen "current profile is $\x7bspring.active.profile\x7d".toList :=
    (dollarsOpen_iff _).2 (by decide)
  have hthm := Resolve_fixed_point exampleRuntime exampleProperties
    "current profile is $\x7bspring.active.profile\x7d".toList
    "current profile is online".toList 3 (by decide)
  ⟨⟨by decide, by decide, hstore, hopen⟩, hthm.1 (by decide), (hthm.2 hstore hopen).1⟩

/-- C8. For every store and every text without an opener `$\x7b`, `Resolve`
succeeds and returns the text unchanged (one unit of fuel is enough, more
changes nothing). -/
theorem Resolve_verbatim (rt : Runtime) (p : Properties) (s : Str) (h : ¬ sOpen <:+: s)
    (n : Nat) : p.Resolve rt (n + 1) s = .ok s := by
  show resolveString rt p (n + 1) s = .ok s
  rw [resolveString_succ, scan_no_open s h]
  simp

/-- Witness of C8 at the text `a $ b \x7b c \x7d`, which has the three characters but no opener. -/
theorem Resolve_verbatim_witness :
    ¬ sOpen <:+: "a $ b \x7b c \x7d".toList ∧
    exampleProperties.Resolve exampleRuntime 1 "a $ b \x7b c \x7d".toList =
      .ok "a $ b \x7b c \x7d".toList :=
  ⟨by decide, Resolve_verbatim exampleRuntime exampleProperties _ (by decide) 0⟩

/-- C9. If the first opener of `s` starts a placeholder that is never closed (the
nesting count of openers against closing braces, counted from that opener, is
positive after every further character), `Resolve(s)` fails with the error of
line 462, which wraps `ErrInvalidSyntax`; the error is the same for every store,
no key being looked up. -/
theorem Resolve_unclosed (rt : Runtime) (p : Properties) (pre tail : Str)
    (hpre : ¬ sOpen <:+: pre) (h : Unclosed (sOpen ++ tail)) (n : Nat) :
    p.Resolve rt (n + 1) (pre ++ (sOpen ++ tail)) =
      .err (resolveStringError rt 462 (pre ++ (sOpen ++ tail)) .ErrInvalidSyntax) ∧
    (resolveStringError rt 462 (pre ++ (sOpen ++ tail)) .ErrInvalidSyntax).Is .ErrInvalidSyntax =
      true := by
  obtain ⟨h1, h2, h3⟩ := scan_unclosed pre tail hpre h
  constructor
  · show resolveString rt p (n + 1) (pre ++ (sOpen ++ tail)) = _
    rw [resolveString_succ, if_neg (by rw [h1]; omega), if_pos (Or.inl (by rw [h2]; decide))]
  · simp [resolveStringError, Err.Is, Err.same]

/-- Witness of C9 at the two texts of the test suite, `x $\x7ba` and `x $\x7b$\x7ba\x7d`. -/
theorem Resolve_unclosed_witness :
    (¬ sOpen <:+: "x ".toList ∧ Unclosed (sOpen ++ "a".toList) ∧
      Unclosed (sOpen ++ "$\x7ba\x7d".toList)) ∧
    (exampleProperties.Resolve exampleRuntime 1 ("x ".toList ++ (sOpen ++ "a".toList)) =
        .err (resolveStringError exampleRuntime 462 ("x ".toList ++ (sOpen ++ "a".toList))
          .ErrInvalidSyntax) ∧
      (resolveStringError exampleRuntime 462 ("x ".toList ++ (sOpen ++ "a".toList))
        .ErrInvalidSyntax).Is .ErrInvalidSyntax = true) ∧
    (exampleProperties.Resolve exampleRuntime 1 ("x ".toList ++ (sOpen ++ "$\x7ba\x7d".toList)) =
        .err (resolveStringError exampleRuntime 462
          ("x ".toList ++ (sOpen ++ "$\x7ba\x7d".toList)) .ErrInvalidSyntax) ∧
      (resolveStringError exampleRuntime 462 ("x ".toList ++ (sOpen ++ "$\x7ba\x7d".toList))
        .ErrInvalidSyntax).Is .ErrInvalidSyntax = true) :=
  ⟨by decide,
    Resolve_unclosed exampleRuntime exampleProperties "x ".toList "a".toList (by decide)
      (by decide) 0,
    Resolve_unclosed exampleRuntime exampleProperties "x ".toList "$\x7ba\x7d".toList (by decide)
      (by decide) 0⟩

/-- C10. Whenever `Resolve` or the binding of a scalar fails because a key `K` is
absent from the store and has no default (the key stands in the text, in a
default, or in a stored value reached through placeholders, for `Resolve`; it
is the key of a scalar target or of a placeholder in its value or default, the
scalar being the target itself or a field, at any depth, of the struct that is
bound, for `BindValue` and `Bind`), the call returns, with any fuel from some
amount on, one error that wraps `ErrNotExist` and whose message contains
`property "K" not exist`. -/
theorem NotExist_wrapped (env : Env) (p : Properties) :
    (∀ s K, StringMissing env.rt p s K →
      ∃ n₀ e, WrapsNotExist env.rt K e ∧ ∀ n, n₀ ≤ n → p.Resolve env.rt n s = .err e) ∧
    (∀ filter v t param K, BindMissing env p filter (.bindValue v t param) K →
      ∃ n₀ e, WrapsNotExist env.rt K e ∧
        ∀ n, n₀ ≤ n → (BindValue env p filter n v t param).2 = .err e) ∧
    (∀ t v args param K,
      (args.headD (.tagArg (sOpen ++ "ROOT".toList ++ sClose))).getParam = .ok param →
      BindMissing env p none
        (.bindValue v t
          { param with
            Path := if env.TypeName t = [] then env.TypeString t else env.TypeName t }) K →
      ∃ n₀ e, WrapsNotExist env.rt K e ∧
        ∀ n, n₀ ≤ n → (p.Bind env n (.pointer t (some v)) args).2 = .err e ∧
          (p.Bind env n (.reflectValue t v) args).2 = .err e) := by
  refine ⟨?_, ?_, ?_⟩
  · intro s K h
    exact stringMissing_fails env.rt p s K h
  · intro filter v t param K h
    exact bindMissing_fails env p filter _ K h
  · intro t v args param K hp h
    obtain ⟨n₀, e, he, hn₀⟩ := bindMissing_fails env p none _ K h
    refine ⟨n₀, e, he, fun n hn => ?_⟩
    obtain ⟨h1, h2⟩ := bind_eq_bindValue env p n t v args param hp
    rw [h1, h2]
    exact ⟨hn₀ n hn, hn₀ n hn⟩

/-- Witness of C10 on the store of the resolver tests: the location
`testdata/conf-$\x7bdev\x7d.yaml` of the test suite, whose key `dev` is absent, and
the struct `Config`, whose field `Port` is tagged with the absent key `port`. -/
theorem NotExist_wrapped_witness :
    (StringMissing exampleEnv.rt exampleProperties
        ("testdata/conf-".toList ++ (sOpen ++ "dev".toList ++ sClose) ++ ".yaml".toList)
        "dev".toList ∧
      ∃ n₀ e, WrapsNotExist exampleEnv.rt "dev".toList e ∧
        ∀ n, n₀ ≤ n → exampleProperties.Resolve exampleEnv.rt n
          ("testdata/conf-".toList ++ (sOpen ++ "dev".toList ++ sClose) ++ ".yaml".toList) =
            .err e) ∧
    (BindMissing exampleEnv exampleProperties none
        (.bindValue (zeroValue exampleConfig) exampleConfig { Path := "Config".toList })
        "port".toList ∧
      ∃ n₀ e, WrapsNotExist exampleEnv.rt "port".toList e ∧
        ∀ n, n₀ ≤ n →
          (exampleProperties.Bind exampleEnv n
            (.pointer exampleConfig (some (zeroValue exampleConfig))) []).2 = .err e ∧
          (exampleProperties.Bind exampleEnv n
            (.reflectValue exampleConfig (zeroValue exampleConfig)) []).2 = .err e) :=
  have hs : StringMissing exampleEnv.rt exampleProperties
      ("testdata/conf-".toList ++ (sOpen ++ "dev".toList ++ sClose) ++ ".yaml".toList)
      "dev".toList :=
    StringMissing.absent "testdata/conf-".toList "dev".toList ".yaml".toList
      { Key := "dev".toList, Tag := { Key := "dev".toList } }
      (by decide) (by decide) (by decide) (by decide) (by decide) (by decide)
  have hb : BindMissing exampleEnv exampleProperties none
      (.bindValue (zeroValue exampleConfig) exampleConfig { Path := "Config".toList })
      "port".toList :=
    BindMissing.structValue _ _ _ _ rfl rfl rfl
      (BindMissing.struct "Config".toList
        [.mk "Port".toList "value:\"$\x7bport\x7d\"".toList false true (.basic .Int [])]
        [.int 0] { Path := "Config".toList } _ (by decide)
        (BindMissing.fieldsHere _ _ _ _ _ _
          (BindMissing.fieldTagged _ _ (.int 0) _
            { Key := "port".toList, Path := "Config.Port".toList
              Tag := { Key := "port".toList }
              Validate := "value:\"$\x7bport\x7d\"".toList }
            "$\x7bport\x7d".toList _ rfl (by decide) (by decide) (Or.inl ⟨rfl, rfl⟩)
            (BindMissing.scalar _ _ _ _ rfl (by decide) (by decide) (by decide) (by decide)
              (ResolveMissing.absent
                { Key := "port".toList, Path := "Config.Port".toList
                  Tag := { Key := "port".toList }
                  Validate := "value:\"$\x7bport\x7d\"".toList }
                (by decide) (by decide) (by decide))))))
  ⟨⟨hs, (NotExist_wrapped exampleEnv exampleProperties).1 _ _ hs⟩,
    ⟨hb, (NotExist_wrapped exampleEnv exampleProperties).2.2 exampleConfig
      (zeroValue exampleConfig) [] { } "port".toList (by decide) hb⟩⟩

/-- C11 as stated fails on a key that is present without being a leaf: the key
`maps` of the example store is a map node, the tag `$\x7bmaps:=1\x7d` has the
default `1`, which resolves to `1` and parses to the integer 1, yet binding an
`int` fails with `property "maps" isn't simple value`, an error that does not
wrap `ErrNotExist`. -/
theorem Bind_scalar_source_counterexample :
    (BindParam.BindTag {} "$\x7bmaps:=1\x7d".toList []).1 = mapsParam ∧
    exampleProperties.storage.Get mapsParam.Key = none ∧
    mapsParam.Tag.HasDef = true ∧
    validate exampleEnv mapsParam
        (bindResolved exampleEnv (.int 0) (.basic .Int []) mapsParam
          (exampleProperties.Resolve exampleRuntime 2 mapsParam.Tag.Def)) = (.int 1, .ok ()) ∧
    BindValue exampleEnv exampleProperties none 4 (.int 0) (.basic .Int []) mapsParam =
      (.int 0, .err (bindError exampleRuntime 166 []
        (resolvePropertyError exampleRuntime 418 "maps".toList
          (notSimpleValueError exampleRuntime "maps".toList)))) ∧
    (bindError exampleRuntime 166 []
        (resolvePropertyError exampleRuntime 418 "maps".toList
          (notSimpleValueError exampleRuntime "maps".toList))).Is .ErrNotExist = false :=
  ⟨by decide, by decide, rfl, rfl, rfl, rfl⟩

/-- C11, amended.  For a scalar target the text that is converted or parsed is:
the value of the leaf at `param.Key`, after reference expansion, when the store
has one; when the store has the key as a node that is no leaf, the bind fails
with `property "K" isn't simple value`, which does not wrap `ErrNotExist`, and a
default is not used; when the key is absent and the tag has a default, the
default after reference expansion; when the key is absent and there is no
default, the bind fails with an error wrapping `ErrNotExist`.  The call has two
units of fuel more than the expansion, and once the expansion returns a text
`x` the bind converts or parses `x` with any large enough fuel. -/
theorem Bind_scalar_source (env : Env) (p : Properties) (filter : Option Filter) (v : Value)
    (t : GoType) (param : BindParam) (h : ScalarTarget env t) :
    (∀ val, p.storage.Get param.Key = some val → ∀ n,
      BindValue env p filter (n + 2) v t param =
        validate env param (bindResolved env v t param (p.Resolve env.rt n val))) ∧
    (p.storage.Get param.Key = none → p.storage.Has param.Key = true →
      (∀ n, BindValue env p filter (n + 2) v t param =
        (v, .err (bindError env.rt 166 param.Path
          (resolvePropertyError env.rt 418 param.Key (notSimpleValueError env.rt param.Key))))) ∧
      (bindError env.rt 166 param.Path
          (resolvePropertyError env.rt 418 param.Key
            (notSimpleValueError env.rt param.Key))).Is .ErrNotExist = false) ∧
    (p.storage.Get param.Key = none → p.storage.Has param.Key = false →
      param.Tag.HasDef = true → ∀ n,
      BindValue env p filter (n + 2) v t param =
        validate env param (bindResolved env v t param (p.Resolve env.rt n param.Tag.Def))) ∧
    (p.storage.Get param.Key = none → p.storage.Has param.Key = false →
      param.Tag.HasDef = false →
      (∀ n, BindValue env p filter (n + 2) v t param =
        (v, .err (bindError env.rt 166 param.Path
          (resolvePropertyError env.rt 424 param.Key (notExistError env.rt param.Key))))) ∧
      (bindError env.rt 166 param.Path
          (resolvePropertyError env.rt 424 param.Key
            (notExistError env.rt param.Key))).Is .ErrNotExist = true) ∧
    (∀ w x, (p.storage.Get param.Key = some w ∨
        (p.storage.Get param.Key = none ∧ p.storage.Has param.Key = false ∧
          param.Tag.HasDef = true ∧ param.Tag.Def = w)) →
      (∃ n, p.Resolve env.rt n w = .ok x) →
      ∃ n₀, ∀ n, n₀ ≤ n →
        BindValue env p filter n v t param = validate env param (convert env v t param x)) := by
  have hleaf : ∀ val, p.storage.Get param.Key = some val → ∀ n,
      BindValue env p filter (n + 2) v t param =
        validate env param (bindResolved env v t param (p.Resolve env.rt n val)) := by
    intro val hg n
    rw [bindValue_scalar env p filter (n + 1) v t param h, resolve_succ]
    simp only [hg]
    rfl
  have hdef : p.storage.Get param.Key = none → p.storage.Has param.Key = false →
      param.Tag.HasDef = true → ∀ n,
      BindValue env p filter (n + 2) v t param =
        validate env param (bindResolved env v t param (p.Resolve env.rt n param.Tag.Def)) := by
    intro hg hh hd n
    rw [bindValue_scalar env p filter (n + 1) v t param h, resolve_succ]
    simp only [hg, hh, hd]
    rfl
  refine ⟨hleaf, ?_, hdef, ?_, ?_⟩
  · intro hg hh
    refine ⟨fun n => ?_, rfl⟩
    rw [bindValue_scalar env p filter (n + 1) v t param h, resolve_succ]
    simp only [hg, hh]
    rfl
  · intro hg hh hd
    refine ⟨fun n => ?_, rfl⟩
    rw [bindValue_scalar env p filter (n + 1) v t param h, resolve_succ]
    simp only [hg, hh, hd]
    rfl
  · intro w x hw hx
    obtain ⟨k, hk⟩ := hx
    refine ⟨k + 2, fun n hn => ?_⟩
    obtain ⟨m, rfl⟩ : ∃ m, n = m + 2 := ⟨n - 2, by omega⟩
    have hm : p.Resolve env.rt m w = .ok x :=
      resolveString_mono env.rt p w _ k m hk (by simp) (by omega)
    rcases hw with hg | ⟨hg, hh, hd, hw⟩
    · rw [hleaf w hg m, hm]
      rfl
    · subst hw
      rw [hdef hg hh hd m, hm]
      rfl

/-- Witness of C11: the string target at the leaf `spring.active.profile` of the
example store receives the value of the leaf. -/
theorem Bind_scalar_source_witness :
    ScalarTarget exampleEnv (.basic .String []) ∧
    ∃ n₀, ∀ n, n₀ ≤ n →
      BindValue exampleEnv exampleProperties none n (.string []) (.basic .String [])
          { Key := "spring.active.profile".toList } =
        (.string "online".toList, .ok ()) :=
  have h : ScalarTarget exampleEnv (.basic .String []) := by
    unfold ScalarTarget
    decide
  ⟨h, (Bind_scalar_source exampleEnv exampleProperties none (.string []) (.basic .String [])
    { Key := "spring.active.profile".toList } h).2.2.2.2 "online".toList "online".toList
      (Or.inl (by decide)) ⟨1, by decide⟩⟩

/-- C12 as stated fails on a slice type: with a converter registered for
`[]string`, which turns every text into the slice holding `converted`, and the
leaf `a` of value `x`, binding a `[]string` at `a` does not call the converter
on the resolved text `x` but descends into the slice and yields the slice
holding `x`. -/
theorem Bind_converter_counterexample :
    (converterEnv.converters (.slice (.basic .String []))).isSome = true ∧
    converterEnv.IsValueType (.slice (.basic .String [])) = true ∧
    resolve converterEnv.rt letterProperties 2 { Key := "a".toList } = .ok "x".toList ∧
    convert converterEnv (.slice none) (.slice (.basic .String [])) { Key := "a".toList }
        "x".toList = (.slice (some [.string "converted".toList]), .ok ()) ∧
    BindValue converterEnv letterProperties none 8 (.slice none) (.slice (.basic .String []))
        { Key := "a".toList } = (.slice (some [.string "x".toList]), .ok ()) :=
  ⟨rfl, rfl, rfl, rfl, rfl⟩

/-- C12, amended.  For a value type `t` whose kind is not map, slice or array and
for which a converter `fn` is registered, `BindValue` resolves the parameter and
calls `fn` on the resolved text: the result of `fn` becomes the target (the
deferred validation then runs), an error of `fn` comes back wrapped on line 174
with the target unchanged, and an error of `resolve` comes back wrapped on line
166 without `fn` being called.  A target of kind map or slice is bound by
`bindMap` or `bindSlice` and a target of kind array is refused, whatever the
table of converters holds. -/
theorem Bind_converter (env : Env) (p : Properties) (filter : Option Filter) (v : Value)
    (t : GoType) (param : BindParam) (hv : env.IsValueType t = true) :
    (∀ fn, env.converters t = some fn → t.Kind ≠ .Map → t.Kind ≠ .Slice → t.Kind ≠ .Array →
      (∀ n val out, resolve env.rt p n param = .ok val → fn val = .ok out →
        BindValue env p filter (n + 1) v t param = validate env param (out, .ok ())) ∧
      (∀ n val e, resolve env.rt p n param = .ok val → fn val = .err e →
        BindValue env p filter (n + 1) v t param =
          (v, .err (bindError env.rt 174 param.Path e))) ∧
      (∀ n e, resolve env.rt p n param = .err e →
        BindValue env p filter (n + 1) v t param =
          (v, .err (bindError env.rt 166 param.Path e)))) ∧
    (t.Kind = .Map → ∀ n, BindValue env p filter (n + 1) v t param =
      validate env param (bindMap env p filter n v t param)) ∧
    (t.Kind = .Slice → ∀ n, BindValue env p filter (n + 1) v t param =
      validate env param (bindSlice env p filter n v t param)) ∧
    (t.Kind = .Array → ∀ n, BindValue env p filter (n + 1) v t param =
      (v, .err (bindError env.rt 152 param.Path (.New "use slice instead of array".toList)))) := by
  refine ⟨?_, ?_, ?_, ?_⟩
  · intro fn hc h2 h3 h4
    have hs : ScalarTarget env t := ⟨hv, h2, h3, h4, by rw [hc]; simp⟩
    refine ⟨?_, ?_, ?_⟩
    · intro n val out hr hf
      rw [bindValue_scalar env p filter n v t param hs, hr]
      simp only [bindResolved, convert, hc, hf]
    · intro n val e hr hf
      rw [bindValue_scalar env p filter n v t param hs, hr]
      simp only [bindResolved, convert, hc, hf]
      rfl
    · intro n e hr
      rw [bindValue_scalar env p filter n v t param hs, hr]
      rfl
  · intro h n
    rw [bindValue_valueType env p filter n v t param hv, bindBody_map env p filter n v t param h]
  · intro h n
    rw [bindValue_valueType env p filter n v t param hv, bindBody_slice env p filter n v t param h]
  · intro h n
    rw [bindValue_valueType env p filter n v t param hv, bindBody_array env p filter n v t param h]
    rfl

/-- Witness of C12: with the converter of the struct type `Point`, binding a
`Point` at the leaf `a` of value `x` yields what the converter makes of `x`. -/
theorem Bind_converter_witness :
    converterEnv.IsValueType (.struct "Point".toList []) = true ∧
    resolve converterEnv.rt letterProperties 2 { Key := "a".toList } = .ok "x".toList ∧
    BindValue converterEnv letterProperties none 3 (.struct []) (.struct "Point".toList [])
      { Key := "a".toList } = (.struct [.string "x".toList], .ok ()) :=
  ⟨rfl, rfl,
    ((Bind_converter converterEnv letterProperties none (.struct []) (.struct "Point".toList [])
      { Key := "a".toList } rfl).1 _ rfl (by decide) (by decide) (by decide)).1 2 "x".toList
        (.struct [.string "x".toList]) rfl rfl⟩

/-- C13 as stated fails when the bind of a stored element reports `ErrNotExist`:
the store has `a[0]` and not `a[1]`, so the claim promises one element, but the
value of `a[0]` refers to the absent key `x`, the bind of `a[0]` fails with an
error wrapping `ErrNotExist`, the loop ends there, and binding a `[]string` at
`a` returns no error and the empty slice. -/
theorem Bind_slice_elements_counterexample :
    danglingProperties.Has "a[0]".toList = true ∧
    danglingProperties.Has "a[1]".toList = false ∧
    (∃ e, (BindValue exampleEnv danglingProperties none 6 (.string []) (.basic .String [])
        (elemParam { Key := "a".toList } 0)).2 = .err e ∧ e.Is .ErrNotExist = true) ∧
    BindValue exampleEnv danglingProperties none 8 (.slice none) (.slice (.basic .String []))
      { Key := "a".toList } = (.slice (some []), .ok ()) :=
  ⟨rfl, rfl, ⟨_, rfl, rfl⟩, rfl⟩

/-- C13, amended.  For a slice target at a key whose element `[0]` the store
has: a bind that returns no error yields the slice of the binds of the indices
`0, …, m-1`, where `m` is the first index whose bind fails, and it fails with an
error wrapping `ErrNotExist`; conversely, when the indices below `m` bind to
`es` and the bind of index `m` fails with `e`, the bind of the slice returns,
with enough fuel, without error when `e` wraps `ErrNotExist` and with `e`
wrapped on line 246 otherwise.  When the elements are scalars and the store
lacks the key of index `n`, the slice has at most `n` elements, and exactly `n`
when the binds of all the indices below `n` succeed. -/
theorem Bind_slice_elements (env : Env) (p : Properties) (filter : Option Filter) (v : Value)
    (et : GoType) (param : BindParam) (hv : env.IsValueType (.slice et) = true)
    (h0 : p.Has (param.Key ++ "[0]".toList) = true) :
    (∀ F out, BindValue env p filter F v (.slice et) param = (out, .ok ()) →
      ∃ es, out = .slice (some es) ∧
        (∀ j x, es[j]? = some x → ∃ f,
          BindValue env p filter f (zeroValue et) et (elemParam param j) = (x, .ok ())) ∧
        ∃ f w e, BindValue env p filter f (zeroValue et) et (elemParam param es.length) =
          (w, .err e) ∧ e.Is .ErrNotExist = true) ∧
    (∀ es w e,
      (∀ j x, es[j]? = some x → ∃ f,
        BindValue env p filter f (zeroValue et) et (elemParam param j) = (x, .ok ())) →
      (∃ f, BindValue env p filter f (zeroValue et) et (elemParam param es.length) =
        (w, .err e)) →
      (e.Is .ErrNotExist = true → ∃ F₀, ∀ F, F₀ ≤ F →
        BindValue env p filter F v (.slice et) param =
          validate env param (.slice (some es), .ok ())) ∧
      (e.Is .ErrNotExist = false → ∃ F₀, ∀ F, F₀ ≤ F →
        BindValue env p filter F v (.slice et) param =
          (.slice (some es), .err (bindError env.rt 246 param.Path e)))) ∧
    (ScalarTarget env et → ∀ n, p.storage.Get (indexed param.Key n) = none →
      p.storage.Has (indexed param.Key n) = false →
      (∀ F out, BindValue env p filter F v (.slice et) param = (out, .ok ()) →
        ∃ es, out = .slice (some es) ∧ es.length ≤ n) ∧
      (∀ es, es.length = n →
        (∀ j x, es[j]? = some x → ∃ f,
          BindValue env p filter f (zeroValue et) et (elemParam param j) = (x, .ok ())) →
        ∃ F₀, ∀ F, F₀ ≤ F → BindValue env p filter F v (.slice et) param =
          validate env param (.slice (some es), .ok ()))) := by
  refine ⟨fun F out hF => bindValue_listed_sound env p filter v et param hv h0 F out hF, ?_, ?_⟩
  · intro es w e hel hlast
    obtain ⟨F₀, hF₀⟩ := bindValue_listed_run env p filter v et param hv h0 es w e hel hlast
    constructor
    · intro he
      refine ⟨F₀, fun F hF => ?_⟩
      rw [hF₀ F hF]
      simp only [loopExit, he, if_true]
    · intro he
      refine ⟨F₀, fun F hF => ?_⟩
      rw [hF₀ F hF]
      simp only [loopExit, he, Bool.false_eq_true, if_false]
      rfl
  · intro hs n hg hh
    constructor
    · intro F out hF
      obtain ⟨es, hout, hel, _⟩ := bindValue_listed_sound env p filter v et param hv h0 F out hF
      refine ⟨es, hout, ?_⟩
      by_contra hlt
      have hn : n < es.length := by omega
      obtain ⟨f, hf⟩ := hel n (es.get ⟨n, hn⟩) (by simp [List.getElem?_eq_getElem hn])
      exact bindValue_absent_not_ok env p filter f _ _ et (elemParam param n) hs hg hh rfl hf
    · intro es hlen hel
      have hlast : BindValue env p filter 2 (zeroValue et) et (elemParam param es.length) =
          (zeroValue et, .err (bindError env.rt 166 (elemParam param es.length).Path
            (resolvePropertyError env.rt 424 (elemParam param es.length).Key
              (notExistError env.rt (elemParam param es.length).Key)))) := by
        rw [hlen]
        exact bindValue_absent env p filter 0 _ et (elemParam param n) hs hg hh rfl
      obtain ⟨F₀, hF₀⟩ := bindValue_listed_run env p filter v et param hv h0 es _ _ hel
        ⟨2, hlast⟩
      refine ⟨F₀, fun F hF => ?_⟩
      rw [hF₀ F hF]
      rfl

/-- Witness of C13: the store has `a[0] = x` and `a[1] = y` and lacks `a[2]`;
binding a `[]string` at `a` yields the two elements. -/
theorem Bind_slice_elements_witness :
    (exampleEnv.IsValueType (.slice (.basic .String [])) = true ∧
      listProperties.Has ("a".toList ++ "[0]".toList) = true ∧
      ScalarTarget exampleEnv (.basic .String []) ∧
      listProperties.storage.Get (indexed "a".toList 2) = none ∧
      listProperties.storage.Has (indexed "a".toList 2) = false) ∧
    ∃ F₀, ∀ F, F₀ ≤ F →
      BindValue exampleEnv listProperties none F (.slice none) (.slice (.basic .String []))
          { Key := "a".toList } =
        (.slice (some [.string "x".toList, .string "y".toList]), .ok ()) :=
  have hs : ScalarTarget exampleEnv (.basic .String []) := by
    unfold ScalarTarget
    decide
  ⟨⟨rfl, rfl, hs, rfl, rfl⟩,
    ((Bind_slice_elements exampleEnv listProperties none (.slice none) (.basic .String [])
      { Key := "a".toList } rfl rfl).2.2 hs 2 rfl rfl).2
        [.string "x".toList, .string "y".toList] rfl
        (fun j x hj =>
          match j, hj with
          | 0, hj => ⟨3, by simp at hj; subst hj; rfl⟩
          | 1, hj => ⟨3, by simp at hj; subst hj; rfl⟩
          | _ + 2, hj => by simp at hj)⟩

/-- C14 as stated fails when a piece holds a placeholder: the leaf `a` has the
value `$\x7bx\x7d,b`, whose pieces are `$\x7bx\x7d` and `b`; the pieces are
bound through new properties that hold nothing but them, the first piece
refers to `x`, which those properties lack, the bind of index 0 fails with
`ErrNotExist`, and binding a `[]string` at `a` returns no error and the empty
slice instead of the two pieces. -/
theorem Bind_slice_split_counterexample :
    referringProperties.storage.Get "a".toList = some "$\x7bx\x7d,b".toList ∧
    commaPieces "$\x7bx\x7d,b".toList = ["$\x7bx\x7d".toList, "b".toList] ∧
    BindValue exampleEnv referringProperties none 9 (.slice none) (.slice (.basic .String []))
      { Key := "a".toList } = (.slice (some []), .ok ()) :=
  ⟨rfl, by decide, rfl⟩

/-- C14, amended.  For a `[]string` target whose key holds a leaf with a
non-empty value `v` without `$\x7b`, under a tag without splitter, `BindValue`
succeeds with enough fuel and the target becomes the list of the pieces of `v`
between its commas, in order, each without its surrounding white space: the
pieces joined by commas are `v` and none of them holds a comma.  No converter
is registered for `string`, the tag of the field has no directive for the
validator, and the new properties `getSlice` makes hold the pieces under the
indexed keys and nothing under the next index. -/
theorem Bind_slice_split (env : Env) (p : Properties) (filter : Option Filter) (old : Value)
    (param : BindParam) (v : Str)
    (hv : env.IsValueType (.slice (.basic .String [])) = true)
    (hv' : env.IsValueType (.basic .String []) = true)
    (hc : env.converters (.basic .String []) = none)
    (hd : NoDirective env param.Validate) (hd' : NoDirective env [])
    (h0 : p.Has (param.Key ++ "[0]".toList) = false) (hh : p.Has param.Key = true)
    (hg : p.storage.Get param.Key = some v) (hne : v ≠ []) (hplain : ¬ sOpen <:+: v)
    (hsp : param.Tag.Splitter = [])
    (hnew : ∀ j x, (commaPieces v)[j]? = some x →
      (env.newProperties (indexedPairs param.Key (commaPieces v) 0)).storage.Get
        (indexed param.Key j) = some x)
    (hend : (env.newProperties (indexedPairs param.Key (commaPieces v) 0)).storage.Get
        (indexed param.Key (commaPieces v).length) = none ∧
      (env.newProperties (indexedPairs param.Key (commaPieces v) 0)).storage.Has
        (indexed param.Key (commaPieces v).length) = false) :
    (∃ F₀, ∀ F, F₀ ≤ F →
      BindValue env p filter F old (.slice (.basic .String [])) param =
        (.slice (some ((Split v ",".toList).map (fun x => .string (TrimSpace x)))), .ok ())) ∧
    Join (Split v ",".toList) ",".toList = v ∧ ∀ x ∈ Split v ",".toList, ',' ∉ x := by
  refine ⟨?_, split_comma v⟩
  have hs : ScalarTarget env (.basic .String []) :=
    ⟨hv', by decide, by decide, by decide, by simp [GoType.Kind]⟩
  have hget := getSlice_leaf env p (.basic .String []) param v h0 hh hg hne hsp
  obtain ⟨F₁, hF₁⟩ := bindSliceLoop_run env
    (env.newProperties (indexedPairs param.Key (commaPieces v) 0)) filter (.basic .String [])
    param _ _ ((commaPieces v).map Value.string) 0 []
    (fun j x hj => by
      rw [List.getElem?_map] at hj
      cases hpj : (commaPieces v)[j]? with
      | none => rw [hpj] at hj; simp at hj
      | some y =>
        rw [hpj] at hj
        simp only [Option.map_some', Option.some.injEq] at hj
        subst hj
        refine ⟨3, ?_⟩
        rw [Nat.zero_add]
        exact bindValue_string_leaf env _ filter 0 _ (elemParam param j) y hv' hc hd'
          (hnew j y hpj) (commaPieces_plain v y hplain (List.getElem?_mem hpj)))
    ⟨2, by
      rw [Nat.zero_add, List.length_map]
      exact bindValue_absent env _ filter 0 _ _ (elemParam param (commaPieces v).length) hs
        hend.1 hend.2 rfl⟩
  refine ⟨F₁ + 2, fun F hF => ?_⟩
  obtain ⟨m, rfl⟩ : ∃ m, F = m + 2 := ⟨F - 2, by omega⟩
  rw [bindValue_valueType env p filter (m + 1) old _ param hv,
    bindBody_slice env p filter (m + 1) old (.slice (.basic .String [])) param rfl,
    bindSlice_of_getSlice env p _ filter m old _ param hget, hF₁ m (by omega)]
  simp only [loopExit, List.nil_append]
  rw [if_pos (notExist_is env.rt _ _ _)]
  have e : (commaPieces v).map Value.string =
      (Split v ",".toList).map (fun x => .string (TrimSpace x)) := by
    simp [commaPieces]
  rw [e]
  exact validate_noDirective env param _ hd

/-- Witness of C14: the leaf `a` of value `x, y` binds to the two texts `x` and
`y`. -/
theorem Bind_slice_split_witness :
    (exampleEnv.IsValueType (.slice (.basic .String [])) = true ∧
      exampleEnv.IsValueType (.basic .String []) = true ∧
      exampleEnv.converters (.basic .String []) = none ∧
      NoDirective exampleEnv [] ∧
      commaProperties.Has ("a".toList ++ "[0]".toList) = false ∧
      commaProperties.Has "a".toList = true ∧
      commaProperties.storage.Get "a".toList = some "x, y".toList ∧
      ¬ sOpen <:+: "x, y".toList) ∧
    ∃ F₀, ∀ F, F₀ ≤ F →
      BindValue exampleEnv commaProperties none F (.slice none) (.slice (.basic .String []))
          { Key := "a".toList } =
        (.slice (some [.string "x".toList, .string "y".toList]), .ok ()) :=
  have hd : NoDirective exampleEnv [] := ⟨_, rfl, Or.inl rfl⟩
  ⟨⟨rfl, rfl, rfl, hd, rfl, rfl, rfl, by decide⟩,
    (Bind_slice_split exampleEnv commaProperties none (.slice none) { Key := "a".toList }
      "x, y".toList rfl rfl rfl hd hd rfl rfl rfl (by decide) (by decide) rfl
      (fun j x hj =>
        match j, hj with
        | 0, hj => by
          have : x = "x".toList := by
            have h2 : (commaPieces "x, y".toList)[0]? = some "x".toList := by decide
            rw [h2] at hj
            exact (Option.some.inj hj).symm
          subst this
          rfl
        | 1, hj => by
          have : x = "y".toList := by
            have h2 : (commaPieces "x, y".toList)[1]? = some "y".toList := by decide
            rw [h2] at hj
            exact (Option.some.inj hj).symm
          subst this
          rfl
        | j + 2, hj => by
          have h2 : (commaPieces "x, y".toList)[j + 2]? = none := by
            have h3 : commaPieces "x, y".toList = ["x".toList, "y".toList] := by decide
            rw [h3]
            rfl
          rw [h2] at hj
          exact absurd hj (by simp))
      ⟨rfl, rfl⟩).1⟩

/-- C15. For a slice target whose key is absent from the store, neither `Key`
nor `Key[0]` being there: without default `BindValue` fails, the target
unchanged, with an error that wraps `ErrNotExist` and whose message contains
`property "Key" not exist`; with the empty default the target becomes the empty
list that is not nil, and the bind succeeds when the tag of the field has no
directive for the validator. -/
theorem Bind_slice_absent (env : Env) (p : Properties) (filter : Option Filter) (v : Value)
    (et : GoType) (param : BindParam) (hv : env.IsValueType (.slice et) = true)
    (h0 : p.Has (param.Key ++ "[0]".toList) = false) (hh : p.Has param.Key = false) :
    (param.Tag.HasDef = false →
      (∀ n, BindValue env p filter (n + 2) v (.slice et) param =
        (v, .err (bindError env.rt 225 param.Path (sliceNotExistError env.rt param.Key)))) ∧
      WrapsNotExist env.rt param.Key
        (bindError env.rt 225 param.Path (sliceNotExistError env.rt param.Key))) ∧
    (param.Tag.HasDef = true → param.Tag.Def = [] →
      (∀ n, BindValue env p filter (n + 2) v (.slice et) param =
        validate env param (.slice (some []), .ok ())) ∧
      (NoDirective env param.Validate →
        ∀ n, BindValue env p filter (n + 2) v (.slice et) param = (.slice (some []), .ok ()))) := by
  constructor
  · intro hd
    refine ⟨fun n => ?_, wrapsNotExist_bind _ _ _ _ _ (wrapsNotExist_slice env.rt param.Key)⟩
    rw [bindValue_slice env p filter (n + 1) v et param hv,
      bindSlice_getSlice_err env p filter n v et param _ (getSlice_absent env p et param h0 hh hd)]
    rfl
  · intro hd he
    have h1 : ∀ n, BindValue env p filter (n + 2) v (.slice et) param =
        validate env param (.slice (some []), .ok ()) := by
      intro n
      rw [bindValue_slice env p filter (n + 1) v et param hv, bindSlice]
      simp only [GoType.Elem, getSlice_empty_default env p et param h0 hh hd he]
    refine ⟨h1, fun hn n => ?_⟩
    rw [h1 n]
    exact validate_noDirective env param _ hn

/-- Witness of C15 on the store of the resolver tests, which lacks the key `k`:
a `[]string` bound under the tag `$\x7bk:=\x7d` becomes the empty list. -/
theorem Bind_slice_absent_witness :
    (exampleEnv.IsValueType (.slice (.basic .String [])) = true ∧
      exampleProperties.Has (emptyDefaultParam.Key ++ "[0]".toList) = false ∧
      exampleProperties.Has emptyDefaultParam.Key = false ∧
      (BindParam.BindTag {} "$\x7bk:=\x7d".toList []).1 = emptyDefaultParam ∧
      NoDirective exampleEnv emptyDefaultParam.Validate) ∧
    ∀ n, BindValue exampleEnv exampleProperties none (n + 2) (.slice none)
      (.slice (.basic .String [])) emptyDefaultParam = (.slice (some []), .ok ()) :=
  have hd : NoDirective exampleEnv emptyDefaultParam.Validate := ⟨_, rfl, Or.inl rfl⟩
  ⟨⟨rfl, rfl, rfl, by decide, hd⟩,
    ((Bind_slice_absent exampleEnv exampleProperties none (.slice none) (.basic .String [])
      emptyDefaultParam rfl rfl rfl).2 rfl rfl).2 hd⟩

/-- C16 as stated fails for a default when the element type is not primitive
and has no converter: under the tag `$\x7bk:=a\x7d>>nosuch`, the key `k` absent and
no splitter registered, binding a slice of structs fails with
`can't find converter for Point`, a message without `unknown splitter`. -/
theorem Bind_slice_splitter_counterexample :
    (BindParam.BindTag {} "$\x7bk:=a\x7d>>nosuch".toList []).1 = splitterParam ∧
    exampleProperties.Has (splitterParam.Key ++ "[0]".toList) = false ∧
    exampleProperties.Has splitterParam.Key = false ∧
    exampleEnv.splitters splitterParam.Tag.Splitter = none ∧
    BindValue exampleEnv exampleProperties none 4 (.slice none)
        (.slice (.struct "Point".toList [])) splitterParam =
      (.slice none, .err (bindError exampleRuntime 225 []
        (.New "bind.go:273: can't find converter for Point".toList))) ∧
    ¬ "unknown splitter".toList <:+:
      (bindError exampleRuntime 225 []
        (.New "bind.go:273: can't find converter for Point".toList)).Error :=
  ⟨by decide, rfl, rfl, rfl, rfl, by decide⟩

/-- C16, amended.  When `getSlice` goes on to split a non-empty text `s`, the
value of the key or, the element type being primitive or having a converter,
the default, and the tag names a splitter: if no splitter, or a nil one, is
registered under the name, `BindValue` fails with a message containing
`unknown splitter "name"`; if the registered splitter returns the error `e`,
`BindValue` fails with a message containing `split error: <e>, value: "s"` and
the error wraps `e`; in both cases the target is unchanged. -/
theorem Bind_slice_splitter (env : Env) (p : Properties) (filter : Option Filter) (v : Value)
    (et : GoType) (param : BindParam) (s : Str) (hv : env.IsValueType (.slice et) = true)
    (hsrc : SplitSource env p et param s) (hne : s ≠ []) (hsp : param.Tag.Splitter ≠ []) :
    (env.splitters param.Tag.Splitter = none ∨ env.splitters param.Tag.Splitter = some none →
      (∀ n, BindValue env p filter (n + 2) v (.slice et) param =
        (v, .err (bindError env.rt 225 param.Path
          (unknownSplitterError env.rt param.Tag.Splitter)))) ∧
      ("unknown splitter ".toList ++ env.rt.Quote param.Tag.Splitter) <:+:
        (bindError env.rt 225 param.Path
          (unknownSplitterError env.rt param.Tag.Splitter)).Error) ∧
    (∀ fn e, env.splitters param.Tag.Splitter = some (some fn) → fn s = .err e →
      (∀ n, BindValue env p filter (n + 2) v (.slice et) param =
        (v, .err (bindError env.rt 225 param.Path (splitError env.rt e s)))) ∧
      ("split error: ".toList ++ e.Error ++ ", value: ".toList ++ env.rt.Quote s) <:+:
        (bindError env.rt 225 param.Path (splitError env.rt e s)).Error ∧
      (bindError env.rt 225 param.Path (splitError env.rt e s)).Wraps e) := by
  obtain ⟨g1, g2⟩ := getSlice_split env p et param s hsrc hne hsp
  constructor
  · intro hf
    refine ⟨fun n => ?_, ?_⟩
    · rw [bindValue_slice env p filter (n + 1) v et param hv,
        bindSlice_getSlice_err env p filter n v et param _ (g2 hf)]
      rfl
    · refine ⟨env.rt.FileLine 225 ++ ": bind ".toList ++ param.Path ++ " error, ".toList ++
        env.rt.FileLine 297 ++ ": ".toList, [], ?_⟩
      simp [bindError, unknownSplitterError, Err.Error]
  · intro fn e hf he
    refine ⟨fun n => ?_, ?_, ?_⟩
    · rw [bindValue_slice env p filter (n + 1) v et param hv,
        bindSlice_getSlice_err env p filter n v et param _ (g1 fn e hf he)]
      rfl
    · refine ⟨env.rt.FileLine 225 ++ ": bind ".toList ++ param.Path ++ " error, ".toList ++
        env.rt.FileLine 294 ++ ": ".toList, [], ?_⟩
      simp [bindError, splitError, Err.Error]
    · exact Err.Wraps.inner _ _ _ _ (Err.Wraps.inner _ _ _ _ (Err.Wraps.here e))

/-- Witness of C16: the leaf `a` of value `x` bound to a `[]string` under a tag
that names the failing splitter `fail`. -/
theorem Bind_slice_splitter_witness :
    (splitterEnv.IsValueType (.slice (.basic .String [])) = true ∧
      SplitSource splitterEnv letterProperties (.basic .String [])
        { Key := "a".toList, Tag := { Key := "a".toList, Splitter := "fail".toList } }
        "x".toList) ∧
    ∀ n, BindValue splitterEnv letterProperties none (n + 2) (.slice none)
        (.slice (.basic .String []))
        { Key := "a".toList, Tag := { Key := "a".toList, Splitter := "fail".toList } } =
      (.slice none, .err (bindError exampleRuntime 225 []
        (splitError exampleRuntime (.New "bad".toList) "x".toList))) :=
  have hs : SplitSource splitterEnv letterProperties (.basic .String [])
      { Key := "a".toList, Tag := { Key := "a".toList, Splitter := "fail".toList } }
      "x".toList := ⟨rfl, Or.inl ⟨rfl, rfl⟩⟩
  ⟨⟨rfl, hs⟩,
    ((Bind_slice_splitter splitterEnv letterProperties none (.slice none) (.basic .String [])
      { Key := "a".toList, Tag := { Key := "a".toList, Splitter := "fail".toList } }
      "x".toList rfl hs (by decide) (by decide)).2 _ (.New "bad".toList) rfl rfl).1⟩

/-- C17. A map target, and a struct target without converter, whose tag has a
non-empty default: `BindValue` fails, whatever the store holds, with a message
that ends in `map can't have a non-empty default value`, respectively
`struct can't have a non-empty default value`, and the target is unchanged.
Under the empty default both binds do exactly what they do without default. -/
theorem Bind_nonempty_default (env : Env) (p : Properties) (filter : Option Filter) (v : Value)
    (t : GoType) (param : BindParam) (hv : env.IsValueType t = true) :
    (t.Kind = .Map → param.Tag.HasDef = true → param.Tag.Def ≠ [] →
      (∀ n, BindValue env p filter (n + 2) v t param =
        (v, .err (bindError env.rt 313 param.Path mapDefaultError))) ∧
      ∃ front, (bindError env.rt 313 param.Path mapDefaultError).Error =
        front ++ "map can't have a non-empty default value".toList) ∧
    (t.Kind = .Struct → env.converters t = none → param.Tag.HasDef = true →
      param.Tag.Def ≠ [] →
      (∀ n, BindValue env p filter (n + 2) v t param =
        (v, .err (bindError env.rt 159 param.Path
          (bindError env.rt 349 param.Path structDefaultError)))) ∧
      ∃ front, (bindError env.rt 159 param.Path
          (bindError env.rt 349 param.Path structDefaultError)).Error =
        front ++ "struct can't have a non-empty default value".toList) ∧
    (param.Tag.Def = [] → t.Kind = .Map ∨ (t.Kind = .Struct ∧ env.converters t = none) →
      ∀ n, BindValue env p filter n v t param =
        BindValue env p filter n v t param.withoutDefault) := by
  refine ⟨?_, ?_, ?_⟩
  · intro hk hd hne
    refine ⟨fun n => ?_, ⟨_, error_suffix _ _⟩⟩
    rw [bindValue_valueType env p filter (n + 1) v t param hv,
      bindBody_map env p filter (n + 1) v t param hk,
      bindMap_default env p filter n v t param ⟨hd, hne⟩]
    rfl
  · intro hk hc hd hne
    refine ⟨fun n => ?_,
      ⟨(env.rt.FileLine 159 ++ ": bind ".toList ++ param.Path ++ " error, ".toList) ++
        (env.rt.FileLine 349 ++ ": bind ".toList ++ param.Path ++ " error, ".toList), ?_⟩⟩
    rotate_left
    · unfold bindError
      rw [error_suffix, error_suffix]
      simp only [List.append_assoc]
      rfl
    rw [bindValue_valueType env p filter (n + 1) v t param hv]
    unfold bindBody
    rw [if_neg (by rw [hk]; decide), if_neg (by rw [hk]; decide), if_neg (by rw [hk]; decide),
      if_pos ⟨by rw [hc]; rfl, hk⟩, bindStruct_default env p filter n v t param ⟨hd, hne⟩]
    rfl
  · intro he hk n
    cases n with
    | zero => rw [bindValue_zero, bindValue_zero]
    | succ n =>
      rw [bindValue_valueType env p filter n v t param hv,
        bindValue_valueType env p filter n v t param.withoutDefault hv,
        validate_param env param.withoutDefault param rfl]
      congr 1
      rcases hk with hk | ⟨hk, hc⟩
      · rw [bindBody_map env p filter n v t param hk,
          bindBody_map env p filter n v t param.withoutDefault hk,
          bindMap_empty_default env p filter n v t param he]
      · unfold bindBody
        rw [if_neg (by rw [hk]; decide), if_neg (by rw [hk]; decide),
          if_neg (by rw [hk]; decide), if_pos ⟨by rw [hc]; rfl, hk⟩,
          if_neg (by rw [hk]; decide), if_neg (by rw [hk]; decide),
          if_neg (by rw [hk]; decide), if_pos ⟨by rw [hc]; rfl, hk⟩,
          bindStruct_empty_default env p filter n v t param he]
        rfl

/-- Witness of C17 on the store of the resolver tests, where `maps` is a map
node: a map of strings bound under the tag `$\x7bmaps:=1\x7d` is refused. -/
theorem Bind_nonempty_default_witness :
    (exampleEnv.IsValueType (.map (.basic .String []) (.basic .String [])) = true ∧
      exampleProperties.Has mapsParam.Key = true ∧
      mapsParam.Tag.HasDef = true ∧ mapsParam.Tag.Def ≠ []) ∧
    ∀ n, BindValue exampleEnv exampleProperties none (n + 2) (.map none)
        (.map (.basic .String []) (.basic .String [])) mapsParam =
      (.map none, .err (bindError exampleRuntime 313 [] mapDefaultError)) :=
  ⟨⟨rfl, rfl, rfl, by decide⟩,
    ((Bind_nonempty_default exampleEnv exampleProperties none (.map none)
      (.map (.basic .String []) (.basic .String [])) mapsParam rfl).1 rfl rfl (by decide)).1⟩

/-- C18 as stated fails when the parent key has an upper-case letter: the field
`Host` under the parent key `DB` is bound at the key `db.host`, not at
`DB.host`; on a store whose only leaf is `DB.host` the bind of the field fails
with `ErrNotExist`, although a string bound at `DB.host` receives the value. -/
theorem Bind_field_key_counterexample :
    "DB".toList ++ ".".toList ++ underscoresToDots (exampleEnv.ToLower hostField.Name) =
      "DB.host".toList ∧
    fieldKey exampleEnv "DB".toList hostField.Name = "db.host".toList ∧
    BindValue exampleEnv upperProperties none 3 (.string []) (.basic .String [])
      { Key := "DB.host".toList, Path := "T.Host".toList } = (.string "x".toList, .ok ()) ∧
    bindField exampleEnv upperProperties none 4 hostField (.string [])
        { Key := "DB".toList, Path := "T".toList } =
      (.string [], .err (bindError exampleRuntime 404 "T".toList
        (bindError exampleRuntime 166 "T.Host".toList
          (resolvePropertyError exampleRuntime 424 "db.host".toList
            (notExistError exampleRuntime "db.host".toList))))) :=
  ⟨by decide, by decide, rfl, rfl⟩

/-- C18, amended.  For an exported field without `value` tag that is not
embedded and whose type is a value type, the field is bound by `BindValue` at
the key made of the parent key joined with a dot to the field name (the field
name alone when the parent key is empty), the whole of it then put in lower
case and its underscores turned into dots; an error comes back wrapped on line
404.  With an empty parent key the key is the transformed field name; with a
parent key that lower-casing leaves as it is and that has no underscore, the
key is the parent key joined with a dot to the transformed field name. -/
theorem Bind_field_key (env : Env) (p : Properties) (filter : Option Filter)
    (ft : StructField) (fv : Value) (param : BindParam)
    (h1 : ft.Exported = true) (h2 : env.Lookup ft.Tag "value".toList = none)
    (h3 : ft.Anonymous = false) (h4 : env.IsValueType ft.Typ = true) :
    (∀ n, bindField env p filter (n + 1) ft fv param =
      wrapErr env.rt 404 param.Path
        (BindValue env p filter n fv ft.Typ
          { Key := underscoresToDots (env.ToLower
              (if param.Key = [] then ft.Name else param.Key ++ ".".toList ++ ft.Name))
            Path := param.Path ++ ".".toList ++ ft.Name })) ∧
    (param.Key = [] →
      fieldKey env param.Key ft.Name = underscoresToDots (env.ToLower ft.Name)) ∧
    (param.Key ≠ [] → (∀ a b, env.ToLower (a ++ b) = env.ToLower a ++ env.ToLower b) →
      env.ToLower ".".toList = ".".toList → env.ToLower param.Key = param.Key →
      '_' ∉ param.Key →
      fieldKey env param.Key ft.Name =
        param.Key ++ ".".toList ++ underscoresToDots (env.ToLower ft.Name)) := by
  refine ⟨fun n => bindField_plain env p filter n ft fv param h1 h2 h3 h4, ?_, ?_⟩
  · intro hk
    unfold fieldKey
    rw [if_pos hk]
  · intro hk hmap hdot hlow hund
    unfold fieldKey
    rw [if_neg hk, hmap, hmap, hlow, hdot, underscoresToDots_append, underscoresToDots_append,
      underscoresToDots_id param.Key hund]
    rfl

/-- Witness of C18 on the store of the resolver tests: the field `Profile`
under the parent key `spring.active` is bound at `spring.active.profile`. -/
theorem Bind_field_key_witness :
    (profileField.Exported = true ∧
      exampleEnv.Lookup profileField.Tag "value".toList = none ∧
      profileField.Anonymous = false ∧ exampleEnv.IsValueType profileField.Typ = true) ∧
    bindField exampleEnv exampleProperties none 4 profileField (.string [])
        { Key := "spring.active".toList, Path := "T".toList } =
      (.string "online".toList, .ok ()) :=
  ⟨⟨rfl, rfl, rfl, rfl⟩,
    (Bind_field_key exampleEnv exampleProperties none profileField (.string [])
      { Key := "spring.active".toList, Path := "T".toList } rfl rfl rfl rfl).1 3⟩

/-- C19. In the loop of `bindStruct`, an exported embedded field without `value`
tag whose type is a struct is bound by `bindStruct` on that type at the key of
the enclosing struct, an error coming back wrapped on line 390: its fields are
bound by the field loop under that same key.  The field after the bind, and
whether the bind succeeded, are those of `BindValue` on the type of the field
at the key of the enclosing struct, when the type is a value type without
converter and the validator finds no directive in the empty tag.  An embedded
field of any other kind is skipped: it stays as it was and the loop goes on. -/
theorem Bind_embedded (env : Env) (p : Properties) (filter : Option Filter)
    (ft : StructField) (fv : Value) (param : BindParam)
    (h1 : ft.Exported = true) (h2 : env.Lookup ft.Tag "value".toList = none)
    (h3 : ft.Anonymous = true) :
    (ft.Typ.Kind = .Struct → ∀ n, bindField env p filter (n + 1) ft fv param =
      wrapErr env.rt 390 param.Path
        (bindStruct env p filter n fv ft.Typ
          { Key := param.Key, Path := param.Path ++ ".".toList ++ ft.Name })) ∧
    (∀ name fields values, ft.Typ = .struct name fields → fv = .struct values →
      ∀ n, bindField env p filter (n + 2) ft fv param =
        wrapErr env.rt 390 param.Path
          (.struct (bindFields env p filter n fields values
              { Key := param.Key, Path := param.Path ++ ".".toList ++ ft.Name }).1,
            (bindFields env p filter n fields values
              { Key := param.Key, Path := param.Path ++ ".".toList ++ ft.Name }).2)) ∧
    (ft.Typ.Kind = .Struct → env.IsValueType ft.Typ = true → env.converters ft.Typ = none →
      NoDirective env [] → ∀ n,
      (bindField env p filter (n + 1) ft fv param).1 =
        (BindValue env p filter (n + 1) fv ft.Typ
          { Key := param.Key, Path := param.Path ++ ".".toList ++ ft.Name }).1 ∧
      ((bindField env p filter (n + 1) ft fv param).2 = .ok () ↔
        (BindValue env p filter (n + 1) fv ft.Typ
          { Key := param.Key, Path := param.Path ++ ".".toList ++ ft.Name }).2 = .ok ())) ∧
    (ft.Typ.Kind ≠ .Struct → ∀ n, bindField env p filter (n + 1) ft fv param = (fv, .ok ())) := by
  refine ⟨fun hk n => bindField_embedded env p filter n ft fv param h1 h2 h3 hk, ?_, ?_,
    fun hk n => bindField_embedded_skip env p filter n ft fv param h1 h2 h3 hk⟩
  · intro name fields values ht hfv n
    have hk : ft.Typ.Kind = .Struct := by rw [ht]; rfl
    rw [bindField_embedded env p filter (n + 1) ft fv param h1 h2 h3 hk, ht, hfv,
      bindStruct_fields env p filter n name fields values _ (fun h => by simp at h)]
  · intro hk hv hc hd n
    rw [bindField_embedded env p filter n ft fv param h1 h2 h3 hk,
      bindValue_struct env p filter n fv ft.Typ _ hv hk hc hd]
    exact ⟨by rw [wrapErr_fst, wrapErr_fst], by rw [wrapErr_ok_iff, wrapErr_ok_iff]⟩

/-- Witness of C19: the struct `Config` embedded in a struct bound at the empty
key takes its field `Port` from the key `port`. -/
theorem Bind_embedded_witness :
    (embeddedField.Exported = true ∧
      exampleEnv.Lookup embeddedField.Tag "value".toList = none ∧
      embeddedField.Anonymous = true ∧ embeddedField.Typ.Kind = .Struct) ∧
    bindField exampleEnv portProperties none 7 embeddedField (zeroValue exampleConfig)
        { Path := "T".toList } = (.struct [.int 8080], .ok ()) :=
  ⟨⟨rfl, rfl, rfl, rfl⟩,
    (Bind_embedded exampleEnv portProperties none embeddedField (zeroValue exampleConfig)
      { Path := "T".toList } rfl rfl rfl).1 rfl 6⟩

/-- C20. For an exported field with a `value` tag that parses, which the filter
lets through, and with the validator set, the bind of the field is the bind of
the value followed by the deferred validation, an error coming back wrapped on
line 379.  When the field tag has a non-empty directive `d` under the name of
the validator, the bind of the field succeeds exactly when the body of
`BindValue` succeeds with some value and `Field(d, value)` returns no error.
After a body that did not succeed the outcome is that of the body, `Field` not
being called, and a type that is no value type is refused before the body; for
a field whose directive is absent or empty the outcome is that of the body. -/
theorem Bind_field_validated (env : Env) (p : Properties) (filter : Option Filter)
    (ft : StructField) (fv fv' : Value) (param sub : BindParam) (tag : Str)
    (vd : ValidatorInterface)
    (h1 : ft.Exported = true) (h2 : env.Lookup ft.Tag "value".toList = some tag)
    (h3 : BindParam.BindTag { Key := param.Key, Path := param.Path ++ ".".toList ++ ft.Name } tag
        ft.Tag = (sub, .ok ()))
    (h4 : (filter = none ∧ fv' = fv) ∨ ∃ f, filter = some f ∧ f fv sub = (fv', .ok false))
    (hvd : env.Validator = some vd) :
    (env.IsValueType ft.Typ = true → ∀ d, env.Lookup ft.Tag vd.Name = some d → d ≠ [] → ∀ n,
      ((bindField env p filter (n + 2) ft fv param).2 = .ok () ↔
        ∃ v', bindBody env p filter n fv' ft.Typ sub = (v', .ok ()) ∧ vd.Field d v' = .ok ()) ∧
      (∀ v', bindBody env p filter n fv' ft.Typ sub = (v', .ok ()) →
        bindField env p filter (n + 2) ft fv param =
          wrapErr env.rt 379 param.Path (v', vd.Field d v'))) ∧
    (env.IsValueType ft.Typ = true → ∀ n v' r,
      bindBody env p filter n fv' ft.Typ sub = (v', r) → r ≠ .ok () →
      bindField env p filter (n + 2) ft fv param = wrapErr env.rt 379 param.Path (v', r)) ∧
    (env.IsValueType ft.Typ = false → ∀ n,
      bindField env p filter (n + 2) ft fv param =
        (fv', .err (bindError env.rt 379 param.Path
          (bindError env.rt 130 sub.Path (.New "target should be value type".toList))))) ∧
    (env.IsValueType ft.Typ = true →
      env.Lookup ft.Tag vd.Name = none ∨ env.Lookup ft.Tag vd.Name = some [] → ∀ n,
      bindField env p filter (n + 2) ft fv param =
        wrapErr env.rt 379 param.Path (bindBody env p filter n fv' ft.Typ sub)) := by
  have hsub : sub.Validate = ft.Tag := bindTag_validate _ sub tag ft.Tag h3
  have hstep : env.IsValueType ft.Typ = true → ∀ n,
      bindField env p filter (n + 2) ft fv param =
        wrapErr env.rt 379 param.Path
          (validate env sub (bindBody env p filter n fv' ft.Typ sub)) := by
    intro hv n
    rw [bindField_tagged env p filter (n + 1) ft fv fv' param sub tag h1 h2 h3 h4,
      bindValue_valueType env p filter n fv' ft.Typ sub hv]
  have hok : ∀ d, env.Lookup ft.Tag vd.Name = some d → d ≠ [] → ∀ v',
      validate env sub (v', .ok ()) = (v', vd.Field d v') := by
    intro d hl hd v'
    exact validate_directive env sub v' vd d hvd (by rw [hsub]; exact hl) hd
  refine ⟨?_, ?_, ?_, ?_⟩
  · intro hv d hl hd n
    constructor
    · rw [hstep hv n, wrapErr_ok_iff]
      cases hb : bindBody env p filter n fv' ft.Typ sub with
      | mk v' r =>
        by_cases hr : r = .ok ()
        · subst hr
          rw [hok d hl hd v']
          constructor
          · intro h
            exact ⟨v', rfl, h⟩
          · rintro ⟨v'', h5, h6⟩
            simp only [Prod.mk.injEq, and_true] at h5
            rw [h5]
            exact h6
        · rw [validate_failed env sub v' r hr]
          constructor
          · intro h
            exact absurd h hr
          · rintro ⟨v'', h5, _⟩
            simp only [Prod.mk.injEq] at h5
            exact absurd h5.2 hr
    · intro v' hb
      rw [hstep hv n, hb, hok d hl hd v']
  · intro hv n v' r hb hr
    rw [hstep hv n, hb, validate_failed env sub v' r hr]
  · intro hv n
    rw [bindField_tagged env p filter (n + 1) ft fv fv' param sub tag h1 h2 h3 h4, bindValue_succ]
    simp only [hv, Bool.false_eq_true, not_false_eq_true, if_true]
    rfl
  · intro hv hl n
    rw [hstep hv n, validate_noDirective_id env sub _ ⟨vd, hvd, by rw [hsub]; exact hl⟩]

/-- Witness of C20: the field `Port int` tagged `value:"$\x7bport\x7d" expr:"$>0"`,
bound from `port = 8080` under a validator that refuses every value: the value
is bound, the validator is asked and its error is the error of the field. -/
theorem Bind_field_validated_witness :
    (validatedField.Exported = true ∧
      refusingEnv.Lookup validatedField.Tag "value".toList = some "$\x7bport\x7d".toList ∧
      BindParam.BindTag { Path := "T".toList ++ ".".toList ++ validatedField.Name }
        "$\x7bport\x7d".toList validatedField.Tag = (validatedParam, .ok ()) ∧
      refusingEnv.IsValueType validatedField.Typ = true ∧
      refusingEnv.Lookup validatedField.Tag "expr".toList = some "$>0".toList ∧
      bindBody refusingEnv portProperties none 3 (.int 0) validatedField.Typ validatedParam =
        (.int 8080, .ok ())) ∧
    bindField refusingEnv portProperties none 5 validatedField (.int 0) { Path := "T".toList } =
      (.int 8080, .err (bindError exampleRuntime 379 "T".toList (.New "refused".toList))) :=
  ⟨⟨rfl, by decide, by decide, rfl, by decide, rfl⟩,
    ((Bind_field_validated refusingEnv portProperties none validatedField (.int 0) (.int 0)
      { Path := "T".toList } validatedParam "$\x7bport\x7d".toList
      { Name := "expr".toList, Field := fun _ _ => .err (.New "refused".toList) }
      rfl (by decide) (by decide) (Or.inl ⟨rfl, rfl⟩) rfl).1 rfl "$>0".toList (by decide)
        (by decide) 3).2 (.int 8080) rfl⟩

/-- C21. The method `Validator.Field(tag, v)` returns nil exactly when `expr.Eval`
on `tag`, with `$` bound to `v`, returns the boolean `true`; it returns
`eval "tag" returns error, ` followed by the error of the evaluation, which it
wraps, when the evaluation fails, `eval "tag" doesn't return bool value` when
the result is no boolean, and `validate failed on "tag" for value v` when the
result is `false`. -/
theorem Validator_Field_spec (rt : Runtime) (lib : ExprLib) (tag : Str) (v : Value) :
    (Validator.Field rt lib tag v = .ok () ↔ lib.Eval tag v = .ok (.bool true)) ∧
    (∀ e, lib.Eval tag v = .err e →
      Validator.Field rt lib tag v =
        .err (.Wrap ("eval ".toList ++ rt.Quote tag ++ " returns error, ".toList) e []) ∧
      (Err.Wrap ("eval ".toList ++ rt.Quote tag ++ " returns error, ".toList) e []).Error =
        "eval ".toList ++ rt.Quote tag ++ " returns error, ".toList ++ e.Error) ∧
    (lib.Eval tag v = .ok .other →
      Validator.Field rt lib tag v =
        .err (.New ("eval ".toList ++ rt.Quote tag ++ " doesn't return bool value".toList))) ∧
    (lib.Eval tag v = .ok (.bool false) →
      Validator.Field rt lib tag v =
        .err (.New ("validate failed on ".toList ++ rt.Quote tag ++ " for value ".toList ++
          lib.FormatV v))) := by
  refine ⟨?_, ?_, ?_, ?_⟩
  · unfold Validator.Field
    cases h : lib.Eval tag v with
    | err e => simp
    | panic => simp
    | timeout => simp
    | ok r =>
      cases r with
      | other => simp
      | bool b => cases b <;> simp
  · intro e h
    refine ⟨?_, by simp [Err.Error]⟩
    unfold Validator.Field
    rw [h]
  · intro h
    unfold Validator.Field
    rw [h]
  · intro h
    unfold Validator.Field
    rw [h]
    simp

/-- C22. Binding a string target whose key is absent from the store under a tag
with the empty default succeeds with the empty string: for `BindValue` on any
such parameter, and for `Bind` with the tag `$\x7bK:=\x7d` of a key `K` that is not
empty, not `ROOT` and without `:=`.  No converter is registered for `string`
and the validator is set. -/
theorem Bind_empty_default_string (env : Env) (p : Properties) (v : Value)
    (hv : env.IsValueType (.basic .String []) = true)
    (hc : env.converters (.basic .String []) = none) :
    (∀ filter param, NoDirective env param.Validate → p.storage.Get param.Key = none →
      p.storage.Has param.Key = false → param.Tag.HasDef = true → param.Tag.Def = [] →
      ∀ n, BindValue env p filter (n + 3) v (.basic .String []) param = (.string [], .ok ())) ∧
    (∀ K, K ≠ [] → K ≠ "ROOT".toList → ¬ sAssign <:+: K → NoDirective env [] →
      p.storage.Get K = none → p.storage.Has K = false →
      ∀ n, p.Bind env (n + 3) (.pointer (.basic .String []) (some v))
          [Tag (placeholder K (some []))] = (some (.string []), .ok ())) := by
  have hs : ScalarTarget env (.basic .String []) :=
    ⟨hv, by decide, by decide, by decide, by simp [GoType.Kind]⟩
  have h1 : ∀ filter param, NoDirective env param.Validate → p.storage.Get param.Key = none →
      p.storage.Has param.Key = false → param.Tag.HasDef = true → param.Tag.Def = [] →
      ∀ n, BindValue env p filter (n + 3) v (.basic .String []) param = (.string [], .ok ()) := by
    intro filter param hn hg hh hd he n
    rw [bindValue_empty_default env p filter n v _ param hs hg hh hd he]
    simp only [convert, hc, bindScalar, GoType.Kind]
    exact validate_noDirective env param _ hn
  refine ⟨h1, ?_⟩
  intro K h0 hR hK hn hg hh n
  have hp : BindParam.BindTag {} (placeholder K (some [])) [] =
      ({ Key := K, Tag := { Key := K, Def := [], HasDef := true } }, .ok ()) := by
    have := bindTag_region (K ++ defaultPart (some []))
    rw [regionParam_parts K (some []) h0 hR hK] at this
    simpa [placeholder] using this
  unfold Properties.Bind
  simp only [List.headD_cons, Tag, BindArg.getParam, hp]
  rw [h1 none _ hn hg hh rfl rfl n]

/-- Witness of C22 on the store of the resolver tests, which lacks the key `k`. -/
theorem Bind_empty_default_string_witness :
    (exampleEnv.IsValueType (.basic .String []) = true ∧
      exampleEnv.converters (.basic .String []) = none ∧
      NoDirective exampleEnv [] ∧
      exampleProperties.storage.Get "k".toList = none ∧
      exampleProperties.storage.Has "k".toList = false) ∧
    ∀ n, exampleProperties.Bind exampleEnv (n + 3)
      (.pointer (.basic .String []) (some (.string "old".toList)))
      [Tag "$\x7bk:=\x7d".toList] = (some (.string []), .ok ()) :=
  have hn : NoDirective exampleEnv [] := ⟨_, rfl, Or.inl rfl⟩
  ⟨⟨rfl, rfl, hn, rfl, rfl⟩,
    (Bind_empty_default_string exampleEnv exampleProperties (.string "old".toList) rfl rfl).2
      "k".toList (by decide) (by decide) (by decide) hn rfl rfl⟩

/-- C23. The method `CommandArgs.copyTo` is the reference scan of the arguments,
left to right over their indices: at an index whose argument is the option
flag it fails with `cmd option -D needs arg` when the index is the last one,
and otherwise calls `Set(k, v)` for the pair of the next argument, `k` the text
before its first `=` and `v` the text after it, or the whole argument and
`true` when it has no `=`; any other argument writes nothing, and the first
step that does not succeed ends the scan with its outcome. -/
theorem CommandArgs_copyTo_reference {σ : Type} (ops : StoreOps σ) (c : CommandArgs) (out : σ) :
    CommandArgs.copyTo ops c out = referenceScan ops c.option c.cmdArgs out ∧
    (∀ arg, '=' ∉ arg → keyValue arg = (arg, "true".toList)) ∧
    (∀ k v, '=' ∉ k → keyValue (k ++ '=' :: v) = (k, v)) := by
  refine ⟨?_, ?_, ?_⟩
  · unfold CommandArgs.copyTo referenceScan
    rw [copyToLoop_scan ops c.option c.cmdArgs [] out, List.range_eq_range']
    rfl
  · intro arg h
    simp [keyValue, h]
  · intro k v h
    obtain ⟨t1, t2⟩ := takeWhile_ne_append '=' k v h
    simp only [keyValue, List.mem_append, List.mem_cons, true_or, or_true, if_true]
    rw [t1, t2]
    rfl

/-- Witness of C23: the arguments `-D a=1 x -D b` write `a = 1` and `b = true`,
and a flag in the last place fails. -/
theorem CommandArgs_copyTo_reference_witness :
    CommandArgs.copyTo recordOps
        { cmdArgs := ["-D".toList, "a=1".toList, "x".toList, "-D".toList, "b".toList] } [] =
      ([("a".toList, "1".toList), ("b".toList, "true".toList)], .ok ()) ∧
    referenceScan recordOps "-D".toList ["x".toList, "-D".toList] [] =
      ([], .err (.New "cmd option -D needs arg".toList)) ∧
    keyValue "a=1=2".toList = ("a".toList, "1=2".toList) :=
  ⟨by
      rw [(CommandArgs_copyTo_reference recordOps
        { cmdArgs := ["-D".toList, "a=1".toList, "x".toList, "-D".toList, "b".toList] } []).1]
      decide,
    by decide,
    (CommandArgs_copyTo_reference recordOps {} []).2.2 "a".toList "1=2".toList (by decide)⟩

/-- C24: when the include and the exclude patterns compile, `Environment.copyTo`
writes via `Set`, in the order of the environment list and up to the first write
that fails, exactly the entries `KEY=VAL` the rule selects, each under its key in
lower case with `_` replaced by `.`: an entry whose `KEY` starts with the prefix
is imported with the prefix stripped whatever the patterns say, any other entry
is imported if and only if `KEY` matches some include pattern and no exclude
pattern. -/
theorem Environment_copyTo_selection {σ : Type} (ops : StoreOps σ) (host : Host)
    (c : Environment) (p : σ) (inc exc : List (Str → Bool))
    (hinc : Environment.toRex host c.includes = .ok inc)
    (hexc : Environment.toRex host c.excludes = .ok exc) :
    Environment.copyTo ops host c p =
        writeAll ops (c.environ.filterMap (selectEntry host c.pre inc exc)) p ∧
      (∀ KEY, c.pre <+: KEY → importedAs c.pre inc exc KEY = some (KEY.drop c.pre.length)) ∧
      (∀ KEY, ¬ c.pre <+: KEY →
        (importedAs c.pre inc exc KEY = some KEY ↔
          (∃ r ∈ inc, r KEY = true) ∧ ¬ ∃ r ∈ exc, r KEY = true) ∧
        (importedAs c.pre inc exc KEY = none ↔
          ¬ ((∃ r ∈ inc, r KEY = true) ∧ ¬ ∃ r ∈ exc, r KEY = true))) := by
  refine ⟨?_, ?_, ?_⟩
  · unfold Environment.copyTo
    rw [hinc, hexc]
    exact envLoop_writeAll ops host c.pre inc exc c.environ p
  · intro KEY h
    have hp : c.pre.isPrefixOf KEY = true := by simpa using h
    simp [importedAs, hp]
  · intro KEY h
    have hp : ¬ c.pre.isPrefixOf KEY = true := by simpa using h
    unfold importedAs
    rw [if_neg hp]
    by_cases hm : (inc.any (fun r => r KEY) = true ∧ ¬ exc.any (fun r => r KEY) = true)
    · rw [if_pos hm]
      have hm2 : (∃ r ∈ inc, r KEY = true) ∧ ¬ ∃ r ∈ exc, r KEY = true := by simpa using hm
      simp only [true_iff, reduceCtorEq, false_iff, not_not]
      exact ⟨hm2, hm2⟩
    · rw [if_neg hm]
      have hm2 : ¬ ((∃ r ∈ inc, r KEY = true) ∧ ¬ ∃ r ∈ exc, r KEY = true) := by simpa using hm
      simp only [reduceCtorEq, false_iff, true_iff]
      exact ⟨hm2, hm2⟩

/-- C24, an instance: the environment of the configuration test, with prefix
`SK_`, yields `envs.int=1` and `envs.map.a=1`, and `ENVS_INT_SUB` is excluded. -/
theorem Environment_copyTo_selection_witness :
    Environment.copyTo recordOps exampleHost exampleEnvironment [] =
      ([("envs.int".toList, "1".toList), ("envs.map.a".toList, "1".toList)], .ok ()) :=
  ((Environment_copyTo_selection recordOps exampleHost exampleEnvironment []
    [fun s => HasPrefix s "ENVS_".toList] [fun s => HasPrefix s "ENVS_INT_SUB".toList]
    rfl rfl).1).trans (by decide)

/-- C25: `Refresh` runs, on a copy of the properties set by code, the file
layer, the environment layer, the command line layer and the dynamic layer in
that order.  The first layer that fails ends it with the error of that layer;
when all succeed the snapshot is the store the last one leaves, and `Refresh`
succeeds in no other way.  A run of a layer that succeeds is the write of the
pairs of the layer: for a file or dynamic layer the keys and values of the
files of its locations that load, location after location; for the
environment the entries selected; for the command line its pairs.  When the
store obeys the laws of a leaf at a key `k`, the snapshot holds at `k` the
value of the last pair with key `k` of the dynamic layer, else of the command
line, else of the environment, else of the file layer, else the value set by
code: a dynamic value overrides every other one, a pair `k=v1` of the command
line overrides any value of `k` set by code, by a file or by the environment,
an environment value overrides a file and the code, and a file the code. -/
theorem Refresh_order {σ : Type} (rt : Runtime) (ops : StoreOps σ) (host : Host) (fuel : Nat)
    (c : Configuration σ) :
    (∀ s e, c.file.copyTo rt ops host fuel (ops.Copy c.prop) = (s, .err e) →
      c.Refresh rt ops host fuel = .err e) ∧
    (∀ s1 s e, c.file.copyTo rt ops host fuel (ops.Copy c.prop) = (s1, .ok ()) →
      c.env.copyTo ops host s1 = (s, .err e) → c.Refresh rt ops host fuel = .err e) ∧
    (∀ s1 s2 s e, c.file.copyTo rt ops host fuel (ops.Copy c.prop) = (s1, .ok ()) →
      c.env.copyTo ops host s1 = (s2, .ok ()) → c.args.copyTo ops s2 = (s, .err e) →
      c.Refresh rt ops host fuel = .err e) ∧
    (∀ s1 s2 s3 s e, c.file.copyTo rt ops host fuel (ops.Copy c.prop) = (s1, .ok ()) →
      c.env.copyTo ops host s1 = (s2, .ok ()) → c.args.copyTo ops s2 = (s3, .ok ()) →
      c.dync.copyTo rt ops host fuel s3 = (s, .err e) → c.Refresh rt ops host fuel = .err e) ∧
    (∀ snap, c.Refresh rt ops host fuel = .ok snap ↔
      ∃ s1 s2 s3, c.file.copyTo rt ops host fuel (ops.Copy c.prop) = (s1, .ok ()) ∧
        c.env.copyTo ops host s1 = (s2, .ok ()) ∧ c.args.copyTo ops s2 = (s3, .ok ()) ∧
        c.dync.copyTo rt ops host fuel s3 = (snap, .ok ())) ∧
    (∀ s s',
      (c.file.copyTo rt ops host fuel s = (s', .ok ()) →
        writeAll ops (c.file.pairs rt ops host fuel s) s = (s', .ok ())) ∧
      (c.dync.copyTo rt ops host fuel s = (s', .ok ()) →
        writeAll ops (c.dync.pairs rt ops host fuel s) s = (s', .ok ())) ∧
      (c.args.copyTo ops s = (s', .ok ()) → writeAll ops c.argWrites s = (s', .ok ())) ∧
      (∀ inc exc, Environment.toRex host c.env.includes = .ok inc →
        Environment.toRex host c.env.excludes = .ok exc →
        c.env.copyTo ops host s = writeAll ops (c.envWrites host inc exc) s)) ∧
    ((∀ (p : PropertySources) out, p.locations = [] → p.pairs rt ops host fuel out = []) ∧
      ∀ workDir loc ss out filename,
        Properties.Resolve rt ⟨ops.view out⟩ fuel loc = .ok filename →
        (∀ c0, Load rt ops host (locationFile host workDir filename) = .ok c0 →
          PropertySources.pairsInner rt ops host fuel workDir (loc :: ss) out =
            filePairs ops c0 ++
              PropertySources.pairsInner rt ops host fuel workDir ss
                (writeAll ops (filePairs ops c0) out).1) ∧
        ((∀ c0, Load rt ops host (locationFile host workDir filename) ≠ .ok c0) →
          PropertySources.pairsInner rt ops host fuel workDir (loc :: ss) out =
            PropertySources.pairsInner rt ops host fuel workDir ss out)) ∧
    (∀ k snap inc exc, c.Refresh rt ops host fuel = .ok snap →
      Environment.toRex host c.env.includes = .ok inc →
      Environment.toRex host c.env.excludes = .ok exc →
      LeafLaws ops k (c.fileWrites rt ops host fuel ++ c.envWrites host inc exc ++
        c.argWrites ++ c.dyncWrites rt ops host fuel) →
      (ops.view snap).Get k =
        lastWrite (c.dyncWrites rt ops host fuel) k
          (lastWrite c.argWrites k
            (lastWrite (c.envWrites host inc exc) k
              (lastWrite (c.fileWrites rt ops host fuel) k
                ((ops.view (ops.Copy c.prop)).Get k)))) ∧
      (∀ v, lastWrite (c.dyncWrites rt ops host fuel) k none = some v →
        (ops.view snap).Get k = some v) ∧
      (∀ v, (∀ w, (k, w) ∉ c.dyncWrites rt ops host fuel) →
        lastWrite c.argWrites k none = some v → (ops.view snap).Get k = some v) ∧
      (∀ v, (∀ w, (k, w) ∉ c.dyncWrites rt ops host fuel) → (∀ w, (k, w) ∉ c.argWrites) →
        lastWrite (c.envWrites host inc exc) k none = some v →
        (ops.view snap).Get k = some v) ∧
      (∀ v, (∀ w, (k, w) ∉ c.dyncWrites rt ops host fuel) → (∀ w, (k, w) ∉ c.argWrites) →
        (∀ w, (k, w) ∉ c.envWrites host inc exc) →
        lastWrite (c.fileWrites rt ops host fuel) k none = some v →
        (ops.view snap).Get k = some v) ∧
      ((∀ w, (k, w) ∉ c.dyncWrites rt ops host fuel) → (∀ w, (k, w) ∉ c.argWrites) →
        (∀ w, (k, w) ∉ c.envWrites host inc exc) →
        (∀ w, (k, w) ∉ c.fileWrites rt ops host fuel) →
        (ops.view snap).Get k = (ops.view (ops.Copy c.prop)).Get k)) := by
  have hok : ∀ s1 s2 s3 snap, c.file.copyTo rt ops host fuel (ops.Copy c.prop) = (s1, .ok ()) →
      c.env.copyTo ops host s1 = (s2, .ok ()) → c.args.copyTo ops s2 = (s3, .ok ()) →
      c.dync.copyTo rt ops host fuel s3 = (snap, .ok ()) →
      c.Refresh rt ops host fuel = .ok snap := by
    intro s1 s2 s3 snap h1 h2 h3 h4
    unfold Configuration.Refresh
    rw [merge_cons_ok _ s1 _ _ h1, merge_cons_ok _ s2 _ _ h2, merge_cons_ok _ s3 _ _ h3,
      merge_cons_ok _ snap _ _ h4]
    rfl
  refine ⟨?_, ?_, ?_, ?_, ?_, ?_, ?_, ?_⟩
  · intro s e h1
    unfold Configuration.Refresh
    exact merge_cons_err _ s _ _ e h1
  · intro s1 s e h1 h2
    unfold Configuration.Refresh
    rw [merge_cons_ok _ s1 _ _ h1]
    exact merge_cons_err _ s _ _ e h2
  · intro s1 s2 s e h1 h2 h3
    unfold Configuration.Refresh
    rw [merge_cons_ok _ s1 _ _ h1, merge_cons_ok _ s2 _ _ h2]
    exact merge_cons_err _ s _ _ e h3
  · intro s1 s2 s3 s e h1 h2 h3 h4
    unfold Configuration.Refresh
    rw [merge_cons_ok _ s1 _ _ h1, merge_cons_ok _ s2 _ _ h2, merge_cons_ok _ s3 _ _ h3]
    exact merge_cons_err _ s _ _ e h4
  · intro snap
    constructor
    · intro h
      unfold Configuration.Refresh at h
      obtain ⟨s1, h1, h⟩ := merge_ok_cons _ snap _ _ h
      obtain ⟨s2, h2, h⟩ := merge_ok_cons _ snap _ _ h
      obtain ⟨s3, h3, h⟩ := merge_ok_cons _ snap _ _ h
      obtain ⟨s4, h4, h⟩ := merge_ok_cons _ snap _ _ h
      simp only [merge, Res.ok.injEq] at h
      subst h
      exact ⟨s1, s2, s3, h1, h2, h3, h4⟩
    · rintro ⟨s1, s2, s3, h1, h2, h3, h4⟩
      exact hok s1 s2 s3 snap h1 h2 h3 h4
  · intro s s'
    refine ⟨?_, ?_, ?_, ?_⟩
    · intro h
      exact sources_pairs rt ops host fuel _ _ s s' h
    · intro h
      exact sources_pairs rt ops host fuel _ _ s s' h
    · intro h
      exact args_writes ops _ _ s s' h
    · intro inc exc hinc hexc
      exact (show Environment.copyTo ops host c.env s = _ by
        unfold Environment.copyTo
        rw [hinc, hexc]
        exact envLoop_writeAll ops host c.env.pre inc exc c.env.environ s)
  · refine ⟨fun p out h => pairs_no_locations rt ops host fuel p out h, ?_⟩
    intro workDir loc ss out filename hr
    exact ⟨fun c0 hl => pairsInner_loaded rt ops host fuel workDir loc ss out c0 filename hr hl,
      fun hl => pairsInner_skipped rt ops host fuel workDir loc ss out filename hr hl⟩
  · intro k snap inc exc href hinc hexc hlaws
    have hget := refresh_get rt ops host fuel c k snap inc exc href hinc hexc hlaws
    refine ⟨hget, ?_, ?_, ?_, ?_, ?_⟩
    · intro v hv
      rw [hget]
      exact lastWrite_some _ k v _ hv
    · intro v hd hv
      rw [hget, lastWrite_absent _ k hd]
      exact lastWrite_some _ k v _ hv
    · intro v hd ha hv
      rw [hget, lastWrite_absent _ k hd, lastWrite_absent _ k ha]
      exact lastWrite_some _ k v _ hv
    · intro v hd ha he hv
      rw [hget, lastWrite_absent _ k hd, lastWrite_absent _ k ha, lastWrite_absent _ k he]
      exact lastWrite_some _ k v _ hv
    · intro hd ha he hf
      rw [hget, lastWrite_absent _ k hd, lastWrite_absent _ k ha, lastWrite_absent _ k he,
        lastWrite_absent _ k hf]

/-- C25, instances, on the Store of the spec and a host with the files
`app.properties`, holding `k=vf,f=1`, and `dyn.properties`, holding `k=v4`.
The code sets `k` to `v0`, the file layer has the location `app.properties`,
the environment holds `GS_K=v2`, the command line `-D k=v1` and the dynamic
layer has the location `dyn.properties`: the snapshot holds `v4` at `k`.
Without the dynamic location it holds `v1`, and with the file layer only `vf`. -/
theorem Refresh_order_witness :
    (layeredConfig.fileWrites exampleRuntime (specOps id) layeredHost 1 =
        [("f".toList, "1".toList), ("k".toList, "vf".toList)] ∧
      layeredConfig.dyncWrites exampleRuntime (specOps id) layeredHost 1 =
        [("k".toList, "v4".toList)]) ∧
    (∃ snap, layeredConfig.Refresh exampleRuntime (specOps id) layeredHost 1 = .ok snap ∧
      Store.Get snap "k".toList = some "v4".toList) ∧
    (∃ snap, staticConfig.Refresh exampleRuntime (specOps id) layeredHost 1 = .ok snap ∧
      Store.Get snap "k".toList = some "v1".toList) ∧
    (∃ snap, fileConfig.Refresh exampleRuntime (specOps id) layeredHost 1 = .ok snap ∧
      Store.Get snap "k".toList = some "vf".toList) :=
  ⟨⟨by decide, by decide⟩,
    ⟨_, rfl,
      ((Refresh_order exampleRuntime (specOps id) layeredHost 1 layeredConfig).2.2.2.2.2.2.2
        "k".toList _ [fun _ => true] [] rfl rfl rfl
        (leafLaws_example _ (by decide))).2.1 "v4".toList (by decide)⟩,
    ⟨_, rfl,
      ((Refresh_order exampleRuntime (specOps id) layeredHost 1 staticConfig).2.2.2.2.2.2.2
        "k".toList _ [fun _ => true] [] rfl rfl rfl
        (leafLaws_example _ (by decide))).2.2.1 "v1".toList
        (absent_of_empty _ _ (by decide)) (by decide)⟩,
    ⟨_, rfl,
      ((Refresh_order exampleRuntime (specOps id) layeredHost 1 fileConfig).2.2.2.2.2.2.2
        "k".toList _ [fun _ => true] [] rfl rfl rfl
        (leafLaws_example _ (by decide))).2.2.2.2.1 "vf".toList
        (absent_of_empty _ _ (by decide)) (absent_of_empty _ _ (by decide))
        (absent_of_empty _ _ (by decide)) (by decide)⟩⟩

/-- C26: a location of a file or dynamic source that references a property which
is undefined and has no default, in the properties accumulated when the
location is reached, makes the source fail, once the fuel suffices, with the
error of `Resolve`, which wraps `ErrNotExist`: whatever the host says of files
and of errors, the location is not skipped, and `Refresh` fails with that error,
be the source the file layer or, the layers before it having succeeded, the
dynamic layer. -/
theorem Location_unresolved {σ : Type} (rt : Runtime) (ops : StoreOps σ) (s K : Str) (out1 : σ)
    (hmiss : StringMissing rt ⟨ops.view out1⟩ s K) :
    ∃ n₀ e, WrapsNotExist rt K e ∧ ∀ fuel, n₀ ≤ fuel → ∀ host : Host,
      (∀ workDir post,
        PropertySources.copyToInner rt ops host fuel workDir (s :: post) out1 = (out1, .err e)) ∧
      (∀ (p : PropertySources) before after pre post out out0,
        p.locations = before ++ (pre ++ s :: post) :: after →
        PropertySources.copyToOuter rt ops host fuel
          (if p.workDir = [] then host.Getwd else p.workDir) before out = (out0, .ok ()) →
        PropertySources.copyToInner rt ops host fuel
          (if p.workDir = [] then host.Getwd else p.workDir) pre out0 = (out1, .ok ()) →
        p.copyTo rt ops host fuel out = (out1, .err e) ∧
        (∀ c : Configuration σ, c.file = p → ops.Copy c.prop = out →
          c.Refresh rt ops host fuel = .err e) ∧
        (∀ (c : Configuration σ) s1 s2, c.dync = p →
          c.file.copyTo rt ops host fuel (ops.Copy c.prop) = (s1, .ok ()) →
          c.env.copyTo ops host s1 = (s2, .ok ()) → c.args.copyTo ops s2 = (out, .ok ()) →
          c.Refresh rt ops host fuel = .err e)) := by
  obtain ⟨n₀, e, he, hn⟩ := stringMissing_fails rt ⟨ops.view out1⟩ s K hmiss
  refine ⟨n₀, e, he, fun fuel hfuel host => ?_⟩
  have hloop : ∀ workDir post,
      PropertySources.copyToInner rt ops host fuel workDir (s :: post) out1 = (out1, .err e) :=
    fun workDir post => copyToInner_cons_err rt ops host fuel workDir s post out1 e (hn fuel hfuel)
  refine ⟨hloop, ?_⟩
  intro p before after pre post out out0 hloc hbefore hpre
  have hcopy : p.copyTo rt ops host fuel out = (out1, .err e) :=
    copyTo_reach rt ops host fuel p before after pre post s out out0 out1 out1 (.err e) hloc
      hbefore hpre (hloop _ post) (by simp)
  refine ⟨hcopy, ?_, ?_⟩
  · intro c hc hout
    unfold Configuration.Refresh
    rw [hc, hout]
    exact merge_cons_err out out1 _ _ e hcopy
  · intro c s1 s2 hc h1 h2 h3
    unfold Configuration.Refresh
    rw [merge_cons_ok _ s1 _ _ h1, merge_cons_ok _ s2 _ _ h2, merge_cons_ok _ out _ _ h3, hc]
    exact merge_cons_err out out1 _ _ e hcopy

/-- C26, an instance: the location `testdata/conf-$\x7bdev\x7d.yaml` of the
configuration test on an empty store, on which the key `dev` is undefined. -/
theorem Location_unresolved_witness :
    StringMissing exampleRuntime ⟨recordOps.view []⟩ devLocation "dev".toList ∧
    ∃ n₀ e, WrapsNotExist exampleRuntime "dev".toList e ∧ ∀ fuel, n₀ ≤ fuel → ∀ host : Host,
      (∀ workDir post,
        PropertySources.copyToInner exampleRuntime recordOps host fuel workDir
          (devLocation :: post) [] = ([], .err e)) ∧
      (∀ (p : PropertySources) before after pre post out out0,
        p.locations = before ++ (pre ++ devLocation :: post) :: after →
        PropertySources.copyToOuter exampleRuntime recordOps host fuel
          (if p.workDir = [] then host.Getwd else p.workDir) before out = (out0, .ok ()) →
        PropertySources.copyToInner exampleRuntime recordOps host fuel
          (if p.workDir = [] then host.Getwd else p.workDir) pre out0 = ([], .ok ()) →
        p.copyTo exampleRuntime recordOps host fuel out = ([], .err e) ∧
        (∀ c : Configuration (List (Str × Str)), c.file = p → recordOps.Copy c.prop = out →
          c.Refresh exampleRuntime recordOps host fuel = .err e) ∧
        (∀ (c : Configuration (List (Str × Str))) s1 s2, c.dync = p →
          c.file.copyTo exampleRuntime recordOps host fuel (recordOps.Copy c.prop) =
            (s1, .ok ()) →
          c.env.copyTo recordOps host s1 = (s2, .ok ()) →
          c.args.copyTo recordOps s2 = (out, .ok ()) →
          c.Refresh exampleRuntime recordOps host fuel = .err e)) :=
  have hs : StringMissing exampleRuntime ⟨recordOps.view []⟩ devLocation "dev".toList :=
    StringMissing.absent "testdata/conf-".toList "dev".toList ".yaml".toList
      { Key := "dev".toList, Tag := { Key := "dev".toList } }
      (by decide) (by decide) (by decide) (by decide) (by decide) (by decide)
  ⟨hs, Location_unresolved exampleRuntime recordOps devLocation "dev".toList [] hs⟩

/-- C27, counterexample: on a host without files and without readers the source
with the single location `testdata/conf.unknown_ext`, whose extension
`.unknown_ext` has no reader, does not fail: the location is skipped. -/
theorem Unsupported_extension_counterexample :
    (exampleHost.readers (exampleHost.Ext
        (locationFile exampleHost exampleHost.Getwd unknownLocation))).isNone = true ∧
    exampleHost.Ext (locationFile exampleHost exampleHost.Getwd unknownLocation) =
      ".unknown_ext".toList ∧
    PropertySources.copyTo exampleRuntime recordOps exampleHost 1
      { locations := [[unknownLocation]] } [] = ([], .ok ()) := by
  refine ⟨rfl, by decide, by decide⟩

/-- C27, amended: a location that is reached and resolves to the name of a file
that can be read, and whose extension has no registered reader, makes the source
fail with `unsupported file type "<ext>"` (an error `os.IsNotExist` does not
accept); a location whose file `os.ReadFile` reports as not existing is skipped,
whatever its extension, and any other error of `os.ReadFile` makes the source
fail with that error. -/
theorem Unsupported_extension {σ : Type} (rt : Runtime) (ops : StoreOps σ) (host : Host)
    (fuel : Nat) (workDir s filename : Str) (out1 : σ)
    (hres : Properties.Resolve rt ⟨ops.view out1⟩ fuel s = .ok filename) :
    (∀ b, host.ReadFile (locationFile host workDir filename) = .ok b →
      host.readers (host.Ext (locationFile host workDir filename)) = none →
      host.IsNotExist
        (unsupportedError rt (host.Ext (locationFile host workDir filename))) = false →
      (unsupportedError rt (host.Ext (locationFile host workDir filename))).Error =
        "unsupported file type ".toList ++
          rt.Quote (host.Ext (locationFile host workDir filename)) ∧
      (∀ post, PropertySources.copyToInner rt ops host fuel workDir (s :: post) out1 =
        (out1, .err (unsupportedError rt (host.Ext (locationFile host workDir filename))))) ∧
      ∀ (p : PropertySources) before after pre post out out0,
        (if p.workDir = [] then host.Getwd else p.workDir) = workDir →
        p.locations = before ++ (pre ++ s :: post) :: after →
        PropertySources.copyToOuter rt ops host fuel workDir before out = (out0, .ok ()) →
        PropertySources.copyToInner rt ops host fuel workDir pre out0 = (out1, .ok ()) →
        p.copyTo rt ops host fuel out =
          (out1, .err (unsupportedError rt (host.Ext (locationFile host workDir filename))))) ∧
    (∀ e, host.ReadFile (locationFile host workDir filename) = .err e →
      host.IsNotExist e = true →
      ∀ post, PropertySources.copyToInner rt ops host fuel workDir (s :: post) out1 =
        PropertySources.copyToInner rt ops host fuel workDir post out1) ∧
    (∀ e, host.ReadFile (locationFile host workDir filename) = .err e →
      host.IsNotExist e = false →
      ∀ post, PropertySources.copyToInner rt ops host fuel workDir (s :: post) out1 =
        (out1, .err e)) := by
  refine ⟨?_, ?_, ?_⟩
  · intro b hb hr hn
    have hl : Load rt ops host (locationFile host workDir filename) =
        (.err (unsupportedError rt (host.Ext (locationFile host workDir filename))) : Res σ) :=
      load_unsupported rt ops host _ b hb hr
    have hloop : ∀ post, PropertySources.copyToInner rt ops host fuel workDir (s :: post) out1 =
        (out1, .err (unsupportedError rt (host.Ext (locationFile host workDir filename)))) := by
      intro post
      rw [copyToInner_load_err rt ops host fuel workDir s filename post out1 _ hres hl, hn]
      rfl
    refine ⟨rfl, hloop, ?_⟩
    intro p before after pre post out out0 hwd hloc hbefore hpre
    subst hwd
    exact copyTo_reach rt ops host fuel p before after pre post s out out0 out1 out1 _ hloc
      hbefore hpre (hloop post) (by simp)
  · intro e hb hn post
    rw [copyToInner_load_err rt ops host fuel workDir s filename post out1 e hres
      (load_readFile_err rt ops host _ e hb), if_pos hn]
  · intro e hb hn post
    rw [copyToInner_load_err rt ops host fuel workDir s filename post out1 e hres
      (load_readFile_err rt ops host _ e hb), hn]
    rfl

/-- C27, an instance of the amended statement: the location
`testdata/conf.unknown_ext` on a host where the file exists and no reader is
registered makes the source fail with `unsupported file type ".unknown_ext"`. -/
theorem Unsupported_extension_witness :
    Properties.Resolve exampleRuntime ⟨recordOps.view []⟩ 1 unknownLocation =
      .ok unknownLocation ∧
    PropertySources.copyTo exampleRuntime recordOps fileHost 1
      { locations := [[unknownLocation]] } [] =
        ([], .err (.New "unsupported file type \".unknown_ext\"".toList)) :=
  ⟨by decide,
    ((Unsupported_extension exampleRuntime recordOps fileHost 1 fileHost.Getwd unknownLocation
      unknownLocation [] (by decide)).1 [] rfl rfl (by decide)).2.2
      { locations := [[unknownLocation]] } [] [] [] [] [] [] rfl rfl rfl rfl⟩

/-- C28, counterexample: on the Store and the Flattener of the spec, in the store
where `k.a` and `k.b` hold leaves, `Set("k", v)` with `v` the map of `a` to the
list of `1` and of `b` to the list of `2` needs both `k.a` and `k.b` to be
lists.  Its flattened pairs being visited in the order `k.a[0]`, `k.b[0]`, it
fails with `property 'k.a' is a value but 'k.a[0]' wants other type`, which is
not the message `property 'k.b' is a value but 'k.b[0]' wants other type` of
the key `k.b`; visited in the other order it fails with the message of `k.b`,
which is not the one of `k.a`. -/
theorem Set_shape_stability_counterexample :
    (Node.get twoLeafStore [.key "k".toList, .key "a".toList] = some (.leaf "y".toList) ∧
      Node.get twoLeafStore [.key "k".toList, .key "b".toList] = some (.leaf "x".toList)) ∧
    (flattenValue twoListValue "k".toList [] =
        [("k.a[0]".toList, "1".toList), ("k.b[0]".toList, "2".toList)] ∧
      SplitPath "k.a[0]".toList = some ([.key "k".toList, .key "a".toList] ++ [.index 0]) ∧
      SplitPath "k.b[0]".toList = some ([.key "k".toList, .key "b".toList] ++ [.index 0]) ∧
      (Node.leaf "y".toList).refuses [.index 0] "1".toList ∧
      (Node.leaf "x".toList).refuses [.index 0] "2".toList) ∧
    ((Properties.Set (specOps id) twoLeafStore "k".toList twoListValue).2 =
        .err (.New "property 'k.a' is a value but 'k.a[0]' wants other type".toList) ∧
      (Properties.Set (specOps id) twoLeafStore "k".toList twoListValue).2 ≠
        .err (shapeError "k.b".toList "a value".toList "k.b[0]".toList)) ∧
    ((Properties.Set (specOps List.reverse) twoLeafStore "k".toList twoListValue).2 =
        .err (.New "property 'k.b' is a value but 'k.b[0]' wants other type".toList) ∧
      (Properties.Set (specOps List.reverse) twoLeafStore "k".toList twoListValue).2 ≠
        .err (shapeError "k.a".toList "a value".toList "k.a[0]".toList)) :=
  ⟨⟨rfl, rfl⟩, ⟨by decide, by decide, by decide, trivial, trivial⟩,
    ⟨by decide, by decide⟩, ⟨by decide, by decide⟩⟩

/-- C28, amended: on the Store and the Flattener of the spec, let the node at a
key `K` hold a Leaf, a List or a Map.  Its shape is named `a value`,
`an array` or `a map`.  Every write of the Store at a key `Y` at or below `K`
that needs the node to have another shape fails with
`property 'K' is <shape> but 'Y' wants other type` and changes nothing.  A
`Properties.Set` one of whose flattened pairs is such a write fails, wherever
the loop of `merge` visits that pair: it fails with that error, for `K` and
`Y`, when the pairs visited before were written without error, and in any
case at the first pair visited whose write fails, with the shape error that
names the node refusing that pair and the key of that pair (or with the error
of a key outside the grammar of keys).  Any `Properties.Set`, failed or not,
leaves the node with its shape.  A write of a leaf value at `K` when `K` holds
a Leaf succeeds and `Get` then finds the new value. -/
theorem Set_shape_stability (range : List (Str × Str) → List (Str × Str)) (s : Store)
    (pK : List PathSeg) (n : Node) (hK : Node.get s pK = some n) (hfix : n.fixed = true) :
    (n.word = "a value".toList ∨ n.word = "an array".toList ∨ n.word = "a map".toList) ∧
    (∀ Y rest val, SplitPath Y = some (pK ++ rest) → n.refuses rest val →
      Store.Set s Y val = (s, .err (shapeError (JoinPath pK) n.word Y)) ∧
      (shapeError (JoinPath pK) n.word Y).Error =
        "property '".toList ++ JoinPath pK ++ "' is ".toList ++ n.word ++ " but '".toList ++ Y ++
          "' wants other type".toList) ∧
    (∀ key val pre Y v post rest s1, key ≠ [] →
      range (flattenValue val key []) = pre ++ (Y, v) :: post →
      Properties.mergeLoop (specOps range) s pre = (s1, .ok ()) →
      SplitPath Y = some (pK ++ rest) → n.refuses rest v →
      Properties.Set (specOps range) s key val =
        (s1, .err (shapeError (JoinPath pK) n.word Y))) ∧
    (∀ key val Y v rest, key ≠ [] → (Y, v) ∈ range (flattenValue val key []) →
      SplitPath Y = some (pK ++ rest) → n.refuses rest v →
      ∃ s' e pre Y1 v1 post, Properties.Set (specOps range) s key val = (s', .err e) ∧
        range (flattenValue val key []) = pre ++ (Y1, v1) :: post ∧
        Properties.mergeLoop (specOps range) s pre = (s', .ok ()) ∧
        Store.Set s' Y1 v1 = (s', .err e) ∧
        ((SplitPath Y1 = none ∧ e = .New ("invalid key '".toList ++ Y1 ++ "'".toList)) ∨
          ∃ pK1 rest1 n1, SplitPath Y1 = some (pK1 ++ rest1) ∧ Node.get s' pK1 = some n1 ∧
            n1.fixed = true ∧ n1.refuses rest1 v1 ∧
            e = shapeError (JoinPath pK1) n1.word Y1 ∧
            e.Error = "property '".toList ++ JoinPath pK1 ++ "' is ".toList ++ n1.word ++
              " but '".toList ++ Y1 ++ "' wants other type".toList)) ∧
    (∀ key val s' r, Properties.Set (specOps range) s key val = (s', r) →
      ∃ n', Node.get s' pK = some n' ∧ n'.word = n.word ∧ n'.fixed = true) ∧
    (∀ K old val, SplitPath K = some pK → n = .leaf old →
      ¬ (val = emptyMapLiteral ∨ val = emptyListLiteral) →
      ∃ s', Store.Set s K val = (s', .ok ()) ∧ Store.Get s' K = some val ∧
        (range [(K, val)] = [(K, val)] →
          Properties.Set (specOps range) s K (.scalar val) = (s', .ok ()))) := by
  refine ⟨?_, ?_, ?_, ?_, ?_, ?_⟩
  · cases n with
    | leaf v => exact Or.inl rfl
    | branch array children =>
      cases array
      · exact Or.inr (Or.inr rfl)
      · exact Or.inr (Or.inl rfl)
    | empty l => cases hfix
  · intro Y rest val hY href
    exact ⟨store_set_refused s pK rest n Y val hK hY href, rfl⟩
  · intro key val pre Y v post rest s1 hkey hrange hpre hY href
    unfold Properties.Set
    rw [if_neg hkey]
    unfold Properties.merge
    have hr : (specOps range).range ((specOps range).FlattenValue key val) =
        pre ++ (Y, v) :: post := hrange
    rw [hr]
    exact mergeLoop_refused range s s1 pK rest n pre post Y v hK hfix hpre hY href
  · intro key val Y v rest hkey hmem hY href
    obtain ⟨s', e, pre, Y1, v1, post, hrun, hws, hpre, hset, hform⟩ :=
      mergeLoop_member_refused range s pK rest n _ Y v hK hfix hmem hY href
    refine ⟨s', e, pre, Y1, v1, post, ?_, hws, hpre, hset, ?_⟩
    · unfold Properties.Set
      rw [if_neg hkey]
      exact hrun
    · rcases hform with h | ⟨pK1, rest1, n1, h1, h2, h3, h4, h5⟩
      · exact Or.inl h
      · exact Or.inr ⟨pK1, rest1, n1, h1, h2, h3, h4, h5, by rw [h5]; rfl⟩
  · intro key val s' r h
    unfold Properties.Set at h
    by_cases hkey : key = []
    · rw [if_pos hkey] at h
      simp only [Prod.mk.injEq] at h
      rw [← h.1]
      exact ⟨n, hK, rfl, hfix⟩
    · rw [if_neg hkey] at h
      exact mergeLoop_shape range pK _ s s' r n h hK hfix
  · intro K old val hKp hn hv
    subst hn
    obtain ⟨root, hroot⟩ := node_set_over_leaf K val hv pK old [] s hK
    have hset : Store.Set s K val = (some root, .ok ()) := by
      unfold Store.Set
      simp only [hKp, hroot]
    refine ⟨some root, hset, store_set_get s (some root) K val hv hset, ?_⟩
    intro hrange
    have hkey : K ≠ [] := by
      intro e
      rw [e, splitPath_nil] at hKp
      cases hKp
    unfold Properties.Set
    rw [if_neg hkey]
    unfold Properties.merge
    have hr : (specOps range).range ((specOps range).FlattenValue K (.scalar val)) =
        [(K, val)] := hrange
    rw [hr, mergeLoop_cons_ok (specOps range) s (some root) K val [] hset]
    rfl

/-- C28, instances of the amended statement: scenario S2, on the store in which
`key` holds the leaf `abc` the call `Set("key", ["abc"])` fails with
`property 'key' is a value but 'key[0]' wants other type` and changes nothing;
and on the store in which `k.b` holds a leaf, `Set("k", v)` with `v` the map of
`a` to `1` and of `b` to the list of `2` fails with
`property 'k.b' is a value but 'k.b[0]' wants other type` although the refused
pair is the second one visited. -/
theorem Set_shape_stability_witness :
    Node.get leafStore [.key "key".toList] = some (.leaf "abc".toList) ∧
    Properties.Set (specOps id) leafStore "key".toList (.list [.scalar "abc".toList]) =
      (leafStore,
        .err (.New "property 'key' is a value but 'key[0]' wants other type".toList)) ∧
    Node.get conflictStore [.key "k".toList, .key "b".toList] = some (.leaf "x".toList) ∧
    (Properties.Set (specOps id) conflictStore "k".toList mixedValue).2 =
      .err (.New "property 'k.b' is a value but 'k.b[0]' wants other type".toList) :=
  ⟨rfl,
    (Set_shape_stability id leafStore [.key "key".toList] (.leaf "abc".toList) rfl rfl).2.2.1
      "key".toList (.list [.scalar "abc".toList]) [] "key[0]".toList "abc".toList [] [.index 0]
      leafStore (by decide) rfl rfl (by decide) trivial,
    rfl,
    congrArg Prod.snd
      ((Set_shape_stability id conflictStore [.key "k".toList, .key "b".toList]
        (.leaf "x".toList) rfl rfl).2.2.1
        "k".toList mixedValue [("k.a".toList, "1".toList)] "k.b[0]".toList "2".toList []
        [.index 0]
        (Properties.mergeLoop (specOps id) conflictStore [("k.a".toList, "1".toList)]).1
        (by decide) rfl rfl (by decide) trivial)⟩

/-- C29, counterexample: on the store in which `k.b` holds a leaf, `Set("k", v)`
with `v` the map of `a` to `1` and of `b` to the list of `2`, its pairs visited
in the order `k.a`, `k.b[0]`, fails with
`property 'k.b' is a value but 'k.b[0]' wants other type`, and the store is not
as it was before the call: it now holds the leaf `k.a`. -/
theorem Set_failure_state_counterexample :
    (specOps id).FlattenValue "k".toList mixedValue =
      [("k.a".toList, "1".toList), ("k.b[0]".toList, "2".toList)] ∧
    (Properties.Set (specOps id) conflictStore "k".toList mixedValue).2 =
      .err (.New "property 'k.b' is a value but 'k.b[0]' wants other type".toList) ∧
    Store.Get conflictStore "k.a".toList = none ∧
    Store.Get (Properties.Set (specOps id) conflictStore "k".toList mixedValue).1 "k.a".toList =
      some "1".toList ∧
    (Properties.Set (specOps id) conflictStore "k".toList mixedValue).1 ≠ conflictStore :=
  ⟨by decide, by decide, by decide, by decide, fun h => by
    have h2 : Store.Get (Properties.Set (specOps id) conflictStore "k".toList mixedValue).1
        "k.a".toList = some "1".toList := by decide
    rw [h] at h2
    exact absurd h2 (by decide)⟩

/-- C29, amended: there is no rollback.  When a write of the storage that fails
changes nothing, a `Properties.Set(k, v)` that fails with a non-empty key
leaves the store as the writes of the pairs left it that the loop of `merge`
visited before the pair whose write failed: on a storage that obeys the laws
of a leaf at a key, `Get` finds there the value of the last of these pairs
with that key, or what it found before the call.  So the store is the one
before the call when no pair was visited before the failing one, in
particular whenever `v` flattens into at most one pair, and when the key is
empty.  Conversely, when the pairs visited before a pair are written without
error and the write of that pair fails, `Properties.Set` fails with the error
of that write and returns the store these pairs left. -/
theorem Set_failure_state {σ : Type} (ops : StoreOps σ)
    (hset : ∀ s key val s' r, ops.Set s key val = (s', r) → r ≠ .ok () → s' = s)
    (s s' : σ) (key : Str) (val : Nested) (r : Res Unit)
    (h : Properties.Set ops s key val = (s', r)) (hr : r ≠ .ok ()) :
    ((key = [] ∧ s' = s) ∨
      ∃ pre Y v post, ops.range (ops.FlattenValue key val) = pre ++ (Y, v) :: post ∧
        Properties.mergeLoop ops s pre = (s', .ok ()) ∧ ops.Set s' Y v = (s', r) ∧
        (pre = [] → s' = s) ∧
        (∀ k, LeafLaws ops k pre →
          (ops.view s').Get k = lastWrite pre k ((ops.view s).Get k))) ∧
    ((ops.range (ops.FlattenValue key val)).length ≤ 1 → s' = s) ∧
    (∀ pre Y v post s1 s2 r1, key ≠ [] →
      ops.range (ops.FlattenValue key val) = pre ++ (Y, v) :: post →
      Properties.mergeLoop ops s pre = (s1, .ok ()) → ops.Set s1 Y v = (s2, r1) →
      r1 ≠ .ok () → s' = s1 ∧ r = r1) := by
  have main : (key = [] ∧ s' = s) ∨
      ∃ pre Y v post, ops.range (ops.FlattenValue key val) = pre ++ (Y, v) :: post ∧
        Properties.mergeLoop ops s pre = (s', .ok ()) ∧ ops.Set s' Y v = (s', r) ∧
        (pre = [] → s' = s) ∧
        (∀ k, LeafLaws ops k pre →
          (ops.view s').Get k = lastWrite pre k ((ops.view s).Get k)) := by
    by_cases hkey : key = []
    · unfold Properties.Set at h
      rw [if_pos hkey] at h
      simp only [Prod.mk.injEq] at h
      exact Or.inl ⟨hkey, h.1.symm⟩
    · have h' := h
      unfold Properties.Set at h'
      rw [if_neg hkey] at h'
      obtain ⟨pre, Y, v, post, s1, hws, hpre, hY⟩ := mergeLoop_failed ops _ s s' r h' hr
      have hs1 : s' = s1 := hset s1 Y v s' r hY hr
      subst hs1
      refine Or.inr ⟨pre, Y, v, post, hws, hpre, hY, ?_, ?_⟩
      · intro hnil
        subst hnil
        simp only [Properties.mergeLoop, Prod.mk.injEq, and_true] at hpre
        exact hpre.symm
      · intro k hlaws
        exact mergeLoop_get ops k pre s s' hlaws hpre
  refine ⟨main, ?_, ?_⟩
  · intro hlen
    rcases main with ⟨_, hs⟩ | ⟨pre, Y, v, post, hws, _, _, hnil, _⟩
    · exact hs
    · apply hnil
      rw [hws] at hlen
      cases pre with
      | nil => rfl
      | cons w pre => simp at hlen
  · intro pre Y v post s1 s2 r1 hkey hws hpre hY hr1
    have hs2 : s2 = s1 := hset s1 Y v s2 r1 hY hr1
    subst hs2
    have := set_fails_at ops s s2 s2 key val pre post Y v r1 hkey hws hpre hY hr1
    rw [h] at this
    simp only [Prod.mk.injEq] at this
    exact this

/-- C29, instances of the amended statement, on the Store of the spec.  In the
store in which `k.b` holds a leaf, `Set("k.b", ["2"])`, which flattens into the
single pair `k.b[0] = 2`, fails and leaves the store as it was before the
call.  In the same store `Set("k", v)` with `v` the map of `a` to `1` and of
`b` to the list of `2` fails at the second pair and returns the store in which
the first pair is written, where `Get` finds `1` at `k.a`.  In the store in
which `k.a` holds `1` already, the same call fails at the second pair and the
store is as before, the first pair having written what was there. -/
theorem Set_failure_state_witness :
    ((Properties.Set (specOps id) conflictStore "k.b".toList (.list [.scalar "2".toList])).2 =
        .err (.New "property 'k.b' is a value but 'k.b[0]' wants other type".toList) ∧
      (Properties.Set (specOps id) conflictStore "k.b".toList (.list [.scalar "2".toList])).1 =
        conflictStore) ∧
    ((Properties.Set (specOps id) conflictStore "k".toList mixedValue).1 =
        (Properties.mergeLoop (specOps id) conflictStore [("k.a".toList, "1".toList)]).1 ∧
      Store.Get (Properties.mergeLoop (specOps id) conflictStore
        [("k.a".toList, "1".toList)]).1 "k.a".toList = some "1".toList) ∧
    (Properties.mergeLoop (specOps id) heldStore [("k.a".toList, "1".toList)] =
        (heldStore, .ok ()) ∧
      (Properties.Set (specOps id) heldStore "k".toList mixedValue).1 = heldStore ∧
      (Properties.Set (specOps id) heldStore "k".toList mixedValue).2 =
        .err (.New "property 'k.b' is a value but 'k.b[0]' wants other type".toList)) :=
  ⟨⟨by decide,
    (Set_failure_state (specOps id)
      (fun s key val s' r h hr => store_set_failed s s' key val r h hr)
      conflictStore _ "k.b".toList (.list [.scalar "2".toList]) _ rfl (by decide)).2.1
      (by decide)⟩,
   ⟨((Set_failure_state (specOps id)
      (fun s key val s' r h hr => store_set_failed s s' key val r h hr)
      conflictStore _ "k".toList mixedValue _ rfl (by decide)).2.2
      [("k.a".toList, "1".toList)] "k.b[0]".toList "2".toList [] _ _ _ (by decide) rfl rfl rfl
      (by decide)).1, by decide⟩,
   ⟨rfl,
    ((Set_failure_state (specOps id)
      (fun s key val s' r h hr => store_set_failed s s' key val r h hr)
      heldStore _ "k".toList mixedValue _ rfl (by decide)).2.2
      [("k.a".toList, "1".toList)] "k.b[0]".toList "2".toList [] heldStore _ _ (by decide) rfl
      rfl rfl (by decide)).1, by decide⟩⟩

/-- C30, counterexample: on the Store of the spec, with the same store and the
same input, the message and the resulting store depend on the order in which
the two flattened pairs are visited.  In the store where `k.a` and `k.b` hold
leaves, `Set("k", v)` with `v` the map of `a` to the list of `1` and of `b` to
the list of `2` fails with a message about `k.a` in one order and about `k.b`
in the other; in the store where only `k.b` holds a leaf, `Set("k", v)` with
`v` the map of `a` to `1` and of `b` to the list of `2` leaves the leaf `k.a`
written in one order and nothing written in the other. -/
theorem Set_order_counterexample :
    (specOps id).FlattenValue "k".toList twoListValue =
      [("k.a[0]".toList, "1".toList), ("k.b[0]".toList, "2".toList)] ∧
    (Properties.Set (specOps id) twoLeafStore "k".toList twoListValue).2 =
      .err (.New "property 'k.a' is a value but 'k.a[0]' wants other type".toList) ∧
    (Properties.Set (specOps List.reverse) twoLeafStore "k".toList twoListValue).2 =
      .err (.New "property 'k.b' is a value but 'k.b[0]' wants other type".toList) ∧
    Store.Get (Properties.Set (specOps id) conflictStore "k".toList mixedValue).1 "k.a".toList =
      some "1".toList ∧
    Store.Get (Properties.Set (specOps List.reverse) conflictStore "k".toList mixedValue).1
      "k.a".toList = none :=
  ⟨by decide, by decide, by decide, by decide, by decide⟩

/-- C30, amended: the outcome of `Properties.Set` is that of the loop of `merge`
over the flattened pairs in the order in which the `range` loop visits them.
For two orders, each an arrangement of the pairs, the resulting store and the
error are the same when the value flattens into at most one pair; in any
order, a call that fails with a non-empty key returns the error of the first
pair visited whose write fails, the pairs visited before it being written. -/
theorem Set_order {σ : Type} (ops : StoreOps σ)
    (range₁ range₂ : List (Str × Str) → List (Str × Str))
    (h₁ : ∀ m, (range₁ m).Perm m) (h₂ : ∀ m, (range₂ m).Perm m)
    (s : σ) (key : Str) (val : Nested) :
    ((ops.FlattenValue key val).length ≤ 1 →
      Properties.Set (ops.withRange range₁) s key val =
        Properties.Set (ops.withRange range₂) s key val) ∧
    (∀ s' r, key ≠ [] → Properties.Set (ops.withRange range₁) s key val = (s', r) →
      r ≠ .ok () →
      ∃ pre Y v post s1, range₁ (ops.FlattenValue key val) = pre ++ (Y, v) :: post ∧
        Properties.mergeLoop ops s pre = (s1, .ok ()) ∧ ops.Set s1 Y v = (s', r)) := by
  refine ⟨?_, ?_⟩
  · intro hlen
    have hsame : ∀ m : List (Str × Str), m.length ≤ 1 → range₁ m = range₂ m := by
      intro m hm
      cases m with
      | nil => rw [List.perm_nil.mp (h₁ []), List.perm_nil.mp (h₂ [])]
      | cons x m =>
        cases m with
        | nil => rw [List.perm_singleton.mp (h₁ [x]), List.perm_singleton.mp (h₂ [x])]
        | cons y m => simp at hm
    unfold Properties.Set Properties.merge
    by_cases hkey : key = []
    · rw [if_pos hkey, if_pos hkey]
    · rw [if_neg hkey, if_neg hkey]
      have e : (ops.withRange range₁).range ((ops.withRange range₁).FlattenValue key val) =
          (ops.withRange range₂).range ((ops.withRange range₂).FlattenValue key val) :=
        hsame _ hlen
      rw [e, mergeLoop_withRange, mergeLoop_withRange]
  · intro s' r hkey h hr
    unfold Properties.Set Properties.merge at h
    rw [if_neg hkey, mergeLoop_withRange] at h
    exact mergeLoop_failed ops _ s s' r h hr

/-- C30, an instance of the amended statement: on the Store of the spec in
which `k.b` holds a leaf, `Set("k.b", ["2"])`, which flattens into one pair,
has the same outcome whether the `range` loop visits a map in the order of its
entries or in the reverse order. -/
theorem Set_order_witness :
    (∀ m : List (Str × Str), (id m).Perm m) ∧ (∀ m : List (Str × Str), m.reverse.Perm m) ∧
    Properties.Set (specOps id) conflictStore "k.b".toList (.list [.scalar "2".toList]) =
      Properties.Set (specOps List.reverse) conflictStore "k.b".toList
        (.list [.scalar "2".toList]) :=
  ⟨fun m => List.Perm.refl m, fun m => List.reverse_perm m,
    (Set_order (specOps id) id List.reverse (fun m => List.Perm.refl m)
      (fun m => List.reverse_perm m) conflictStore "k.b".toList
      (.list [.scalar "2".toList])).1 (by decide)⟩

/-- C31: `ParseTag` does slice out of range.  On the tag `x}$\x7b` the last closing
brace is at offset 1 and the first opener at offset 2, the slice `tag[4:1]` is
out of range and the call panics; in general `ParseTag` panics exactly when the
last `>>` is not at offset 0, the last closing brace lies after offset 0 and
before the end of the first opener, and in every other case it returns a tag
or the error that wraps `ErrInvalidSyntax`. -/
theorem ParseTag_slice_out_of_range :
    LastIndex "x\x7d$\x7b".toList sClose = 1 ∧ Index "x\x7d$\x7b".toList sOpen = 2 ∧
    slice "x\x7d$\x7b".toList 4 1 = none ∧
    ParseTag "x\x7d$\x7b".toList = .panic ∧
    ∀ tag,
      (ParseTag tag = .panic ↔
        LastIndex tag sSplit ≠ 0 ∧ 0 < LastIndex tag sClose ∧ 0 ≤ Index tag sOpen ∧
          LastIndex tag sClose < Index tag sOpen + 2) ∧
      (ParseTag tag ≠ .panic →
        (∃ t, ParseTag tag = .ok t) ∨
          (ParseTag tag = .err (parseTagError tag) ∧
            (parseTagError tag).Is .ErrInvalidSyntax = true)) := by
  refine ⟨by decide, by decide, by decide, by decide, fun tag => ?_⟩
  obtain ⟨herr, hpanic, hok⟩ := parseTag_outcome tag
  have hcases : (LastIndex tag sSplit = 0 ∨ LastIndex tag sClose ≤ 0 ∨ Index tag sOpen < 0) ∨
      (LastIndex tag sSplit ≠ 0 ∧ 0 < LastIndex tag sClose ∧ 0 ≤ Index tag sOpen ∧
        LastIndex tag sClose < Index tag sOpen + 2) ∨
      (LastIndex tag sSplit ≠ 0 ∧ 0 < LastIndex tag sClose ∧ 0 ≤ Index tag sOpen ∧
        Index tag sOpen + 2 ≤ LastIndex tag sClose) := by
    by_cases h1 : LastIndex tag sSplit = 0
    · exact Or.inl (Or.inl h1)
    · by_cases h2 : LastIndex tag sClose ≤ 0
      · exact Or.inl (Or.inr (Or.inl h2))
      · by_cases h3 : Index tag sOpen < 0
        · exact Or.inl (Or.inr (Or.inr h3))
        · by_cases h4 : LastIndex tag sClose < Index tag sOpen + 2
          · exact Or.inr (Or.inl ⟨h1, by omega, by omega, h4⟩)
          · exact Or.inr (Or.inr ⟨h1, by omega, by omega, by omega⟩)
  rcases hcases with h | ⟨h1, h2, h3, h4⟩ | ⟨h1, h2, h3, h4⟩
  · have he := herr h
    refine ⟨⟨fun hp => (by rw [he] at hp; cases hp), fun hc => ?_⟩, fun _ => Or.inr ⟨he, rfl⟩⟩
    rcases h with h | h | h
    · exact absurd h hc.1
    · omega
    · omega
  · have hp := hpanic h1 h2 h3 h4
    exact ⟨⟨fun _ => ⟨h1, h2, h3, h4⟩, fun _ => hp⟩, fun hn => absurd hp hn⟩
  · obtain ⟨t, ht⟩ := hok h1 h2 h3 h4
    refine ⟨⟨fun hp => (by rw [ht] at hp; cases hp), fun hc => ?_⟩, fun _ => Or.inl ⟨t, ht⟩⟩
    omega

/-- C32: binding a slice need not terminate.  When `getSlice` gives properties
on which the bind of the element at every index succeeds, none reporting
`ErrNotExist`, the loop of `bindSlice` never ends: with any amount of fuel
`BindValue` on the slice runs out of it. -/
theorem Bind_slice_endless (env : Env) (p q : Properties) (filter : Option Filter) (v : Value)
    (et : GoType) (param : BindParam) (hv : env.IsValueType (.slice et) = true)
    (hq : getSlice env p et param = .ok (some q))
    (hel : ∀ i, ∃ f x, BindValue env q filter f (zeroValue et) et (elemParam param i) =
      (x, .ok ())) :
    ∀ F, (BindValue env p filter F v (.slice et) param).2 = .timeout ∧
      (bindSlice env p filter F v (.slice et) param).2 = .timeout := by
  intro F
  refine ⟨bindValue_endless env p q filter v et param hv hq hel F, ?_⟩
  cases F with
  | zero => rw [bindSlice]
  | succ n =>
    rw [bindSlice_of_getSlice env p q filter n v et param hq]
    exact bindSliceLoop_endless env q filter et param hel n 0 []

/-- C32, an instance: on the store with the leaf `k[0].x = 5`, binding at `k` a
slice of the struct `Item`, whose only field has a default, never returns: at
every index the element binds, from the leaf or from the default. -/
theorem Bind_slice_endless_witness :
    itemsProperties.Has "k[0]".toList = true ∧
    ∀ F, (BindValue exampleEnv itemsProperties none F (.slice none) (.slice itemType)
        { Key := "k".toList }).2 = .timeout :=
  ⟨rfl, fun F =>
    (Bind_slice_endless exampleEnv itemsProperties itemsProperties none (.slice none) itemType
      { Key := "k".toList } rfl (getSlice_listed _ _ _ _ rfl)
      (fun i => ⟨7, item_binds _ _ (indexed_ne_nil _ i)⟩) F).1⟩

/-- C33: when no leaf value of the store contains the opener of a placeholder,
`Resolve` terminates on every string: with more fuel than the string has
characters it returns (a text, an error or a panic, never out of fuel), and so
does `resolve` on every parameter with at least two more units of fuel than
its default has characters.  Every recursive call is on a default or a suffix shorter by at
least three characters than the string resolved, or on a stored value, which
is returned as it is. -/
theorem Resolve_terminates (rt : Runtime) (p : Properties)
    (hp : ∀ key val, p.storage.Get key = some val → ¬ sOpen <:+: val) :
    (∀ s n, s.length < n → Properties.Resolve rt p n s ≠ .timeout) ∧
    (∀ param n, param.Tag.Def.length + 1 < n → resolve rt p n param ≠ .timeout) ∧
    (∀ key val n, p.storage.Get key = some val →
      Properties.Resolve rt p (n + 1) val = .ok val) ∧
    (∀ s, (¬ sOpen <:+: s ∧ ∀ n, Properties.Resolve rt p (n + 1) s = .ok s) ∨
      (∀ n, Properties.Resolve rt p (n + 1) s =
        .err (resolveStringError rt 462 s .ErrInvalidSyntax)) ∨
      ∃ pre body suf, s = pre ++ (sOpen ++ body ++ sClose) ++ suf ∧
        (regionParam body).Tag.Def.length + 3 ≤ s.length ∧ suf.length + 3 ≤ s.length ∧
        ∀ n, Properties.Resolve rt p (n + 1) s =
          substitute rt s pre (resolve rt p n (regionParam body))
            (Properties.Resolve rt p n suf)) := by
  refine ⟨fun s n hn => resolveString_returns rt p hp s.length s le_rfl n hn, ?_, ?_, ?_⟩
  · intro param n hn
    obtain ⟨m, rfl⟩ : ∃ m, n = m + 2 := ⟨n - 2, by omega⟩
    exact resolve_returns rt p hp param m
      (fun k hk => resolveString_returns rt p hp _ _ le_rfl k hk) (by omega)
  · intro key val n hg
    exact resolveString_plain rt p val (hp _ _ hg) n
  · intro s
    rcases resolveString_cases rt p s with h | h | ⟨pre, body, suf, hs, _, h⟩
    · exact Or.inl h
    · exact Or.inr (Or.inl h)
    · refine Or.inr (Or.inr ⟨pre, body, suf, hs, ?_, ?_, h⟩)
      · have hd := regionParam_def_length body
        rw [hs]
        simp [sOpen, sClose]
        omega
      · rw [hs]
        simp [sOpen, sClose]
        omega

/-- C33, an instance: on the store with the leaves `a = 1` and `b = x\x7d`
the text `<$\x7ba\x7d$\x7bc:=$\x7bb\x7d\x7d>` of 17 characters resolves with
18 units of fuel; six are enough and give `<1x\x7d>`. -/
theorem Resolve_terminates_witness :
    (∀ key val, plainProperties.storage.Get key = some val → ¬ sOpen <:+: val) ∧
    Properties.Resolve exampleRuntime plainProperties 18
      "<$\x7ba\x7d$\x7bc:=$\x7bb\x7d\x7d>".toList ≠ .timeout ∧
    Properties.Resolve exampleRuntime plainProperties 6
      "<$\x7ba\x7d$\x7bc:=$\x7bb\x7d\x7d>".toList = .ok "<1x\x7d>".toList :=
  have hp : ∀ key val, plainProperties.storage.Get key = some val → ¬ sOpen <:+: val := by
    intro key val hg
    have hm := exampleStorage_get _ _ _ _ hg
    simp only [List.mem_cons, Prod.mk.injEq, List.mem_singleton, List.not_mem_nil,
      or_false] at hm
    rcases hm with ⟨_, h⟩ | ⟨_, h⟩ <;> subst h <;> decide
  have hb : resolveString exampleRuntime plainProperties 3 "$\x7bb\x7d".toList =
      .ok "x\x7d".toList := by
    have h := resolveString_region exampleRuntime plainProperties [] "b".toList [] 2
      (by decide) (by decide)
    rw [resolve_stored exampleRuntime plainProperties (regionParam "b".toList) "x\x7d".toList 0
      (by decide) (by decide), resolveString_plain _ _ [] (by decide) 1] at h
    exact h
  have hc : resolveString exampleRuntime plainProperties 5 "$\x7bc:=$\x7bb\x7d\x7d>".toList =
      .ok "x\x7d>".toList := by
    have h := resolveString_region exampleRuntime plainProperties [] "c:=$\x7bb\x7d".toList
      ">".toList 4 (by decide) (by decide)
    rw [resolve_by_default exampleRuntime plainProperties (regionParam "c:=$\x7bb\x7d".toList) 3
      (by decide) (by decide) (by decide), resolveString_plain _ _ ">".toList (by decide) 3] at h
    have hd : (regionParam "c:=$\x7bb\x7d".toList).Tag.Def = "$\x7bb\x7d".toList := by decide
    rw [hd, hb] at h
    exact h
  have ha : resolveString exampleRuntime plainProperties 6
      "<$\x7ba\x7d$\x7bc:=$\x7bb\x7d\x7d>".toList = .ok "<1x\x7d>".toList := by
    have h := resolveString_region exampleRuntime plainProperties "<".toList "a".toList
      "$\x7bc:=$\x7bb\x7d\x7d>".toList 5 (by decide) (by decide)
    rw [resolve_stored exampleRuntime plainProperties (regionParam "a".toList) "1".toList 3
      (by decide) (by decide), hc] at h
    exact h
  ⟨hp, (Resolve_terminates exampleRuntime plainProperties hp).1 _ 18 (by decide), ha⟩

/-- C34: round trip.  For every `ParsedTag` `t` whose `Def` is empty when `HasDef`
is false, whose `Key` contains no `:=` and whose `Splitter` contains no closing
brace and no `>` and neither begins nor ends with white space,
`ParseTag(t.String())` succeeds and returns `t`. -/
theorem ParseTag_String_roundtrip (t : ParsedTag) (hD : t.HasDef = false → t.Def = [])
    (hK : ¬ sAssign <:+: t.Key) (hS1 : cClose ∉ t.Splitter) (hS2 : '>' ∉ t.Splitter)
    (hS3 : ∀ c, t.Splitter.head? = some c → isSpace c = false)
    (hS4 : ∀ c, t.Splitter.getLast? = some c → isSpace c = false) :
    ParseTag t.String = .ok t := by
  obtain ⟨K, D, H, S⟩ := t
  simp only at hD hK hS1 hS2 hS3 hS4
  rw [string_tagText]
  simp only
  have hb : ∀ sp, bodyTag (K ++ defaultPart (if H then some D else none)) sp =
      { Key := K, Def := D, HasDef := H, Splitter := sp } := by
    intro sp
    rw [bodyTag_parts K _ hK sp]
    cases H with
    | false => simp [hD rfl]
    | true => simp
  by_cases hS : S = []
  · subst hS
    rw [if_neg (show ¬ (([] : Str) ≠ []) by simp), List.append_nil, parseTag_region, hb]
  · rw [if_pos hS, parseTag_region_splitter _ S hS1 hS2, hb, trimSpace_id S hS3 hS4]

/-- C34, instances: the tags with key `points`, default `(1,2)|(3,4)` and
splitter `point`, and with key `a`, no default and no splitter, are read back
from their texts. -/
theorem ParseTag_String_roundtrip_witness :
    ParsedTag.String { Key := "points".toList, Def := "(1,2)|(3,4)".toList, HasDef := true,
                       Splitter := "point".toList } =
      "$\x7bpoints:=(1,2)|(3,4)\x7d>>point".toList ∧
    ParseTag "$\x7bpoints:=(1,2)|(3,4)\x7d>>point".toList =
      .ok { Key := "points".toList, Def := "(1,2)|(3,4)".toList, HasDef := true,
            Splitter := "point".toList } ∧
    ParseTag (ParsedTag.String { Key := "a".toList }) = .ok { Key := "a".toList } :=
  ⟨by decide,
    ParseTag_String_roundtrip { Key := "points".toList, Def := "(1,2)|(3,4)".toList,
                                HasDef := true, Splitter := "point".toList } (by decide) (by decide) (by decide) (by decide)
      (by decide) (by decide),
    ParseTag_String_roundtrip { Key := "a".toList } (by decide) (by decide) (by decide)
      (by decide) (by decide) (by decide)⟩

/-- C35: a literal in front passes through `Resolve` untouched.  For every store,
every text `s` without `$` and every text `t`, with the same fuel:
`Resolve(s ++ t)` fails exactly when `Resolve(t)` fails, with an error of the
same line that wraps the same inner error (only the text quoted in the message
differs), so both wrap the same sentinels; when `Resolve(t)` returns `r`,
`Resolve(s ++ t)` returns `s ++ r`; and one panics or runs out of fuel exactly
when the other does. -/
theorem Resolve_literal_front (rt : Runtime) (p : Properties) (s t : Str) (hs : cDollar ∉ s)
    (n : Nat) :
    (∀ r, p.Resolve rt n t = .ok r → p.Resolve rt n (s ++ t) = .ok (s ++ r)) ∧
    (∀ e, p.Resolve rt n t = .err e → ∃ line inner,
      e = resolveStringError rt line t inner ∧
      p.Resolve rt n (s ++ t) = .err (resolveStringError rt line (s ++ t) inner) ∧
      ∀ target, (resolveStringError rt line (s ++ t) inner).Is target = e.Is target) ∧
    ((∃ e, p.Resolve rt n (s ++ t) = .err e) ↔ ∃ e, p.Resolve rt n t = .err e) ∧
    (p.Resolve rt n (s ++ t) = .panic ↔ p.Resolve rt n t = .panic) ∧
    (p.Resolve rt n (s ++ t) = .timeout ↔ p.Resolve rt n t = .timeout) := by
  obtain ⟨h1, h2, h3, h4⟩ := resolveString_literal rt p s t hs n
  unfold Properties.Resolve
  refine ⟨h1, ?_, ?_, ?_, ?_⟩
  · intro e he
    obtain ⟨line, inner, e1, e2⟩ := h2 e he
    refine ⟨line, inner, e1, e2, fun target => ?_⟩
    rw [e1]
    exact resolveStringError_is rt line _ _ inner target
  all_goals
    cases ht : resolveString rt p n t with
    | ok r => simp [h1 r ht]
    | err e =>
      obtain ⟨line, inner, _, e2⟩ := h2 e ht
      simp [e2]
    | panic => simp [h3 ht]
    | timeout => simp [h4 ht]

/-- C35, an instance: on the example properties the literal `a \x7d b ` in front
of the placeholder of the stored profile gives `a \x7d b online`. -/
theorem Resolve_literal_front_witness :
    cDollar ∉ "a \x7d b ".toList ∧
    exampleProperties.Resolve exampleRuntime 3 "$\x7bspring.active.profile\x7d".toList =
      .ok "online".toList ∧
    exampleProperties.Resolve exampleRuntime 3
      ("a \x7d b ".toList ++ "$\x7bspring.active.profile\x7d".toList) =
      .ok ("a \x7d b ".toList ++ "online".toList) :=
  ⟨by decide, resolve_profile,
    (Resolve_literal_front exampleRuntime exampleProperties "a \x7d b ".toList
      "$\x7bspring.active.profile\x7d".toList (by decide) 3).1 _ resolve_profile⟩

/-- C36: a sized integer target wraps.  For a target of kind `int8`, `int16` or
`int32` (of kind `uint8`, `uint16` or `uint32`) without converter, when the
resolved text parses, at full width, as the integer `i` (the natural number
`u`), `BindValue` returns no error whatever the size of the number and stores
the number `SetInt` (`SetUint`) makes of it: the one in the range of the kind
that differs from `i` by a multiple of `2^w` (the remainder of `u` modulo
`2^w`), `w` the width of the kind; a number outside the range of the target is
thus stored as another number. -/
theorem Bind_sized_integer_wraps (env : Env) (p : Properties) (filter : Option Filter) (n : Nat)
    (v : Value) (t : GoType) (param : BindParam) (val : Str) (ht : ScalarTarget env t)
    (hc : env.converters t = none) (hv : NoDirective env param.Validate)
    (hres : resolve env.rt p n param = .ok val) :
    (t.Kind = .Int8 ∨ t.Kind = .Int16 ∨ t.Kind = .Int32 → ∀ i, env.ParseInt val = .ok i →
      BindValue env p filter (n + 1) v t param = (.int (wrapInt t.Kind i), .ok ()) ∧
      (2 : Int) ^ t.Kind.bits ∣ wrapInt t.Kind i - i ∧
      -(2 : Int) ^ (t.Kind.bits - 1) ≤ wrapInt t.Kind i ∧
      wrapInt t.Kind i < (2 : Int) ^ (t.Kind.bits - 1) ∧
      (¬ (-(2 : Int) ^ (t.Kind.bits - 1) ≤ i ∧ i < (2 : Int) ^ (t.Kind.bits - 1)) →
        wrapInt t.Kind i ≠ i)) ∧
    (t.Kind = .Uint8 ∨ t.Kind = .Uint16 ∨ t.Kind = .Uint32 → ∀ u, env.ParseUint val = .ok u →
      BindValue env p filter (n + 1) v t param = (.uint (wrapUint t.Kind u), .ok ()) ∧
      wrapUint t.Kind u = u % 2 ^ t.Kind.bits ∧ wrapUint t.Kind u < 2 ^ t.Kind.bits ∧
      (2 ^ t.Kind.bits ≤ u → wrapUint t.Kind u ≠ u)) := by
  have hb := bindValue_parsed env p filter n v t param val ht hc hv hres
  constructor
  · intro hk i hi
    obtain ⟨h1, h2, h3⟩ := wrapInt_spec t.Kind i hk
    refine ⟨?_, h1, h2, h3, ?_⟩
    · rw [hb]
      rcases hk with hk | hk | hk <;> simp only [bindScalar, hk, hi]
    · intro hout heq
      rw [heq] at h2 h3
      exact hout ⟨h2, h3⟩
  · intro hk u hu
    have hlt : wrapUint t.Kind u < 2 ^ t.Kind.bits := Nat.mod_lt _ (by positivity)
    refine ⟨?_, rfl, hlt, ?_⟩
    · rw [hb]
      rcases hk with hk | hk | hk <;> simp only [bindScalar, hk, hu]
    · intro hout heq
      rw [heq] at hlt
      omega

/-- C36, instances: on the store with the leaves `n = 300` and `m = -129`, an
`int8` bound at `n` receives `44` and at `m` receives `127`, a `uint8` bound at
`n` receives `44`, all without error. -/
theorem Bind_sized_integer_wraps_witness :
    BindValue exampleEnv sizedProperties none 3 (.int 0) (.basic .Int8 [])
      { Key := "n".toList } = (.int 44, .ok ()) ∧
    BindValue exampleEnv sizedProperties none 3 (.int 0) (.basic .Int8 [])
      { Key := "m".toList } = (.int 127, .ok ()) ∧
    BindValue exampleEnv sizedProperties none 3 (.uint 0) (.basic .Uint8 [])
      { Key := "n".toList } = (.uint 44, .ok ()) :=
  have hn : resolve exampleEnv.rt sizedProperties 2 { Key := "n".toList } = .ok "300".toList :=
    resolve_stored _ _ _ _ 0 (by decide) (by decide)
  have hm : resolve exampleEnv.rt sizedProperties 2 { Key := "m".toList } = .ok "-129".toList :=
    resolve_stored _ _ _ _ 0 (by decide) (by decide)
  have hv : NoDirective exampleEnv [] := ⟨_, rfl, Or.inl (by decide)⟩
  ⟨((Bind_sized_integer_wraps exampleEnv sizedProperties none 2 (.int 0) (.basic .Int8 [])
      { Key := "n".toList } "300".toList ⟨rfl, by decide, by decide, by decide, by decide⟩ rfl
      hv hn).1 (Or.inl rfl) 300 (by decide)).1,
    ((Bind_sized_integer_wraps exampleEnv sizedProperties none 2 (.int 0) (.basic .Int8 [])
      { Key := "m".toList } "-129".toList ⟨rfl, by decide, by decide, by decide, by decide⟩ rfl
      hv hm).1 (Or.inl rfl) (-129) (by decide)).1.trans
      (congrArg (fun x => (Value.int x, Res.ok ())) (show wrapInt .Int8 (-129) = 127 by decide)),
    ((Bind_sized_integer_wraps exampleEnv sizedProperties none 2 (.uint 0) (.basic .Uint8 [])
      { Key := "n".toList } "300".toList ⟨rfl, by decide, by decide, by decide, by decide⟩ rfl
      hv hn).2 (Or.inl rfl) 300 (by decide)).1⟩

/-- C37: a failed slice bind is not atomic.  When `getSlice` gave the properties
`q`, the elements `es` at the indices below `i = len(es)` were bound and the
bind of element `i` fails with an error `e` that does not wrap `ErrNotExist`,
`BindValue` returns `e` wrapped on line 246 and the target holds the `i`
elements `es`, whatever it held before.  When `getSlice` fails (missing key,
splitter errors, missing converter), `BindValue` returns its error wrapped on
line 225 and the target is unchanged.  Every failure of `bindSlice` is one of
the two. -/
theorem Bind_slice_not_atomic (env : Env) (p : Properties) (filter : Option Filter) (v : Value)
    (et : GoType) (param : BindParam) (hv : env.IsValueType (.slice et) = true) :
    (∀ q es w e, getSlice env p et param = .ok (some q) →
      (∀ j x, es[j]? = some x → ∃ f,
        BindValue env q filter f (zeroValue et) et (elemParam param j) = (x, .ok ())) →
      (∃ f, BindValue env q filter f (zeroValue et) et (elemParam param es.length) =
        (w, .err e)) →
      e.Is .ErrNotExist = false →
      ∃ F₀, ∀ F, F₀ ≤ F → BindValue env p filter F v (.slice et) param =
        (.slice (some es), .err (bindError env.rt 246 param.Path e))) ∧
    (∀ e, getSlice env p et param = .err e → ∀ F,
      BindValue env p filter (F + 2) v (.slice et) param =
        (v, .err (bindError env.rt 225 param.Path e))) ∧
    (∀ F out e', bindSlice env p filter F v (.slice et) param = (out, .err e') →
      (∃ e, getSlice env p et param = .err e ∧ out = v ∧
        e' = bindError env.rt 225 param.Path e) ∨
      (∃ q es w e, getSlice env p et param = .ok (some q) ∧
        (∀ j x, es[j]? = some x → ∃ f,
          BindValue env q filter f (zeroValue et) et (elemParam param j) = (x, .ok ())) ∧
        (∃ f, BindValue env q filter f (zeroValue et) et (elemParam param es.length) =
          (w, .err e)) ∧
        e.Is .ErrNotExist = false ∧ out = .slice (some es) ∧
        e' = bindError env.rt 246 param.Path e)) := by
  refine ⟨?_, ?_, ?_⟩
  · intro q es w e hq hel hlast hne
    exact bindValue_loop_failure env p q filter v et param hv hq es w e hel hlast hne
  · intro e hg F
    rw [bindValue_slice env p filter (F + 1) v et param hv,
      bindSlice_getSlice_err env p filter F v et param e hg]
    rfl
  · intro F out e' h
    exact bindSlice_failure env p filter v et param F out e' h

/-- C37, instances: on the store with the leaves `a[0] = 1` and `a[1] = x`, a
slice of `int` that held `7, 8, 9` and is bound at `a` holds `1` after the
failure at index 1; bound at the absent key `b` it still holds `7, 8, 9`. -/
theorem Bind_slice_not_atomic_witness :
    (∃ e, e.Is .ErrNotExist = false ∧ ∃ F₀, ∀ F, F₀ ≤ F →
      BindValue exampleEnv brokenListProperties none F (.slice (some [.int 7, .int 8, .int 9]))
          (.slice (.basic .Int [])) { Key := "a".toList } =
        (.slice (some [.int 1]), .err (bindError exampleRuntime 246 [] e))) ∧
    ∃ e, BindValue exampleEnv brokenListProperties none 2 (.slice (some [.int 7, .int 8, .int 9]))
        (.slice (.basic .Int [])) { Key := "b".toList } =
      (.slice (some [.int 7, .int 8, .int 9]), .err (bindError exampleRuntime 225 [] e)) :=
  ⟨⟨bindError exampleRuntime 194 (indexed [] 1)
      (syntaxError exampleRuntime "ParseInt".toList "x".toList), by decide,
    (Bind_slice_not_atomic exampleEnv brokenListProperties none
      (.slice (some [.int 7, .int 8, .int 9])) (.basic .Int []) { Key := "a".toList } rfl).1
      brokenListProperties [.int 1] (.int 0) _ (getSlice_listed _ _ _ _ rfl)
      (fun j x hj =>
        match j, hj with
        | 0, hj => ⟨3, by simp at hj; subst hj; rfl⟩
        | _ + 1, hj => by simp at hj)
      ⟨3, rfl⟩ (by decide)⟩,
   ⟨_, (Bind_slice_not_atomic exampleEnv brokenListProperties none
      (.slice (some [.int 7, .int 8, .int 9])) (.basic .Int []) { Key := "b".toList } rfl).2.1
      (sliceNotExistError exampleRuntime "b".toList) rfl 0⟩⟩

/-- C38: binding a slice at a key the store has, which has no element `[0]` and
no leaf value (a map node or an empty container) or holds the empty text,
gives the empty list without error, whatever default and splitter the tag
carries: `getSlice` returns the nil properties, `bindSlice` stores the empty
slice, and `BindValue` returns it, the validator being asked as after every
successful bind. -/
theorem Bind_slice_hollow_key (env : Env) (p : Properties) (filter : Option Filter) (v : Value)
    (et : GoType) (param : BindParam) (hv : env.IsValueType (.slice et) = true)
    (h0 : p.Has (param.Key ++ "[0]".toList) = false) (hh : p.Has param.Key = true)
    (hg : p.storage.Get param.Key = none ∨ p.storage.Get param.Key = some []) :
    getSlice env p et param = .ok none ∧
    ∀ F, bindSlice env p filter (F + 1) v (.slice et) param = (.slice (some []), .ok ()) ∧
      BindValue env p filter (F + 2) v (.slice et) param =
        validate env param (.slice (some []), .ok ()) ∧
      (NoDirective env param.Validate →
        BindValue env p filter (F + 2) v (.slice et) param = (.slice (some []), .ok ())) := by
  have hget : p.Get param.Key = [] := by
    unfold Properties.Get
    rcases hg with hg | hg <;> rw [hg] <;> rfl
  have hgs := getSlice_hollow env p et param h0 hh hget
  have hbs : ∀ F, bindSlice env p filter (F + 1) v (.slice et) param =
      (.slice (some []), .ok ()) := by
    intro F
    simp only [bindSlice, GoType.Elem, hgs]
  refine ⟨hgs, fun F => ⟨hbs F, ?_, ?_⟩⟩
  · rw [bindValue_slice env p filter (F + 1) v et param hv, hbs]
  · intro hnd
    rw [bindValue_slice env p filter (F + 1) v et param hv, hbs]
    exact validate_noDirective env param _ hnd

/-- C38, instances: on the store with the childless map node `m` and the leaf
`e` holding the empty text, a slice of strings that held `x` is bound to the
empty list at `m` and at `e`, under a tag with the default `a,b` and the
unregistered splitter `nosuch`. -/
theorem Bind_slice_hollow_key_witness :
    (hollowProperties.Has "m".toList = true ∧ hollowProperties.storage.Get "m".toList = none ∧
      hollowProperties.storage.Get "e".toList = some [] ∧
      exampleEnv.splitters "nosuch".toList = none) ∧
    BindValue exampleEnv hollowProperties none 2 (.slice (some [.string "x".toList]))
        (.slice (.basic .String []))
        { Key := "m".toList
          Tag := { Key := "m".toList, Def := "a,b".toList, HasDef := true,
                   Splitter := "nosuch".toList } } = (.slice (some []), .ok ()) ∧
    BindValue exampleEnv hollowProperties none 2 (.slice (some [.string "x".toList]))
        (.slice (.basic .String []))
        { Key := "e".toList
          Tag := { Key := "e".toList, Def := "a,b".toList, HasDef := true,
                   Splitter := "nosuch".toList } } = (.slice (some []), .ok ()) :=
  ⟨⟨rfl, rfl, rfl, rfl⟩,
    ((Bind_slice_hollow_key exampleEnv hollowProperties none (.slice (some [.string "x".toList]))
      (.basic .String [])
      { Key := "m".toList
        Tag := { Key := "m".toList, Def := "a,b".toList, HasDef := true,
                 Splitter := "nosuch".toList } } rfl rfl rfl (Or.inl rfl)).2 0).2.2
      ⟨_, rfl, Or.inl (by decide)⟩,
    ((Bind_slice_hollow_key exampleEnv hollowProperties none (.slice (some [.string "x".toList]))
      (.basic .String [])
      { Key := "e".toList
        Tag := { Key := "e".toList, Def := "a,b".toList, HasDef := true,
                 Splitter := "nosuch".toList } } rfl rfl rfl (Or.inr rfl)).2 0).2.2
      ⟨_, rfl, Or.inl (by decide)⟩⟩

/-- C39: the error `resolveString` discards from `BindTag` cannot occur.  On every
text that begins with the opener and ends with a closing brace `ParseTag`
succeeds, with no splitter, and `BindTag` on the empty parameter returns no
error.  Whenever the scanner of `resolveString` leaves its loop with a
placeholder isolated, the region `s[start:end+1]` is such a text, of length at
least 3, and `resolveString` goes on to resolve the parameter `BindTag` built,
with the key and the default of that tag. -/
theorem Resolve_region_parses (s : Str) (h1 : ¬ (scan s).start < 0)
    (h2 : ¬ ((scan s).end_ < 0 ∨ (scan s).count > 0)) :
    (∀ body, ParseTag (sOpen ++ body ++ sClose) = .ok (bodyTag body []) ∧
      (bodyTag body []).Splitter = [] ∧
      BindParam.BindTag {} (sOpen ++ body ++ sClose) [] = (regionParam body, .ok ())) ∧
    ∃ pre body suf, s = pre ++ (sOpen ++ body ++ sClose) ++ suf ∧
      slice s (scan s).start ((scan s).end_ + 1) = some (sOpen ++ body ++ sClose) ∧
      3 ≤ (sOpen ++ body ++ sClose).length ∧
      (∃ tag, ParseTag (sOpen ++ body ++ sClose) = .ok tag ∧ tag.Splitter = [] ∧
        (regionParam body).Tag.Def = tag.Def ∧ (regionParam body).Tag.HasDef = tag.HasDef ∧
        (regionParam body).Key = normalKey tag.Key) ∧
      (BindParam.BindTag {} (sOpen ++ body ++ sClose) []).2 = .ok () ∧
      ∀ rt p n, resolveString rt p (n + 1) s =
        substitute rt s pre (resolve rt p n (regionParam body)) (resolveString rt p n suf) := by
  have hall : ∀ body, ParseTag (sOpen ++ body ++ sClose) = .ok (bodyTag body []) ∧
      (bodyTag body []).Splitter = [] ∧
      BindParam.BindTag {} (sOpen ++ body ++ sClose) [] = (regionParam body, .ok ()) :=
    fun body => ⟨parseTag_region body, bodyTag_splitter body [], bindTag_region body⟩
  refine ⟨hall, ?_⟩
  obtain ⟨pre, body, suf, hs, _, hsc, hreg⟩ := scan_isolated s h1 h2
  refine ⟨pre, body, suf, hs, hreg, by simp [sOpen, sClose],
    ⟨bodyTag body [], (hall body).1, (hall body).2.1, rfl, rfl, rfl⟩, ?_, ?_⟩
  · rw [(hall body).2.2]
  · intro rt p n
    subst hs
    exact resolveString_of_scan rt p pre body suf n hsc

/-- C39, an instance: in the text `a$\x7bb:=c\x7dd` the scanner isolates the region
from offset 1 to offset 7, on which `ParseTag` gives the key `b` and the
default `c`. -/
theorem Resolve_region_parses_witness :
    scan "a$\x7bb:=c\x7dd".toList = ⟨0, 1, 7⟩ ∧
    slice "a$\x7bb:=c\x7dd".toList 1 8 = some "$\x7bb:=c\x7d".toList ∧
    ParseTag "$\x7bb:=c\x7d".toList =
      .ok { Key := "b".toList, Def := "c".toList, HasDef := true } ∧
    ∃ pre body suf, "a$\x7bb:=c\x7dd".toList = pre ++ (sOpen ++ body ++ sClose) ++ suf ∧
      (BindParam.BindTag {} (sOpen ++ body ++ sClose) []).2 = .ok () :=
  ⟨by decide, by decide, by decide,
    match (Resolve_region_parses "a$\x7bb:=c\x7dd".toList (by decide) (by decide)).2 with
    | ⟨pre, body, suf, hs, _, _, _, hb, _⟩ => ⟨pre, body, suf, hs, hb⟩⟩

end GoConf
